import Mathlib

/-!
# Chat transcript analytics: parser and aggregation engine

A shallow embedding of `src/utils/chatParser.js` (`parseChat`) and of
`src/hooks/useAdvancedStats.js` (`useAdvancedStats`), followed by theorems
about them.

Conventions of the embedding

* A JavaScript string is a list of code points (`Str`).  `String.length`
  counts UTF-16 code units, so it is `jsLength`, not `List.length`.
* A JavaScript number that may be `NaN` is an `Option Int` (`none` is `NaN`).
* What the host engine supplies and the repository does not define
  (`new Date(string)`, the clock, `toLowerCase`) is a field of `Host`; what
  date-fns computes in the local time zone is a field of `DateFns`.
* An object literal used as a map inherits from `Object.prototype`; the
  tables of `useAdvancedStats` are modelled with their own properties and
  with what a lookup or an assignment does on an inherited key.
* The module-level `EMOJI_REGEX` carries the flags `g` and `u`, so its
  `lastIndex` is state that survives from one `test` call to the next; the
  parser state threads it explicitly.
-/

namespace Chatalytics

/-! ## Strings -/

/-- JavaScript string, as a list of code points. -/
abbrev Str := List Char

/-- Number of UTF-16 code units of one code point. -/
def utf16Width (c : Char) : Nat := if c.toNat < 0x10000 then 1 else 2

/-- `s.length` of JavaScript: the number of UTF-16 code units. -/
def jsLength : Str → Nat
  | [] => 0
  | c :: cs => utf16Width c + jsLength cs

/-- The class `\s` of a JavaScript regular expression; `trim` strips the same set. -/
def isWhiteSpace (c : Char) : Bool :=
  let n := c.toNat
  n == 0x09 || n == 0x0A || n == 0x0B || n == 0x0C || n == 0x0D || n == 0x20 ||
  n == 0xA0 || n == 0x1680 || (0x2000 ≤ n && n ≤ 0x200A) || n == 0x2028 ||
  n == 0x2029 || n == 0x202F || n == 0x205F || n == 0x3000 || n == 0xFEFF

/-- Line terminators, which `.` does not match. -/
def isLineTerminator (c : Char) : Bool :=
  let n := c.toNat
  n == 0x0A || n == 0x0D || n == 0x2028 || n == 0x2029

/-- The class `\d`. -/
def isDigit (c : Char) : Bool := 48 ≤ c.toNat && c.toNat ≤ 57

/-- `s.trim()`. -/
def trim (s : Str) : Str :=
  ((s.dropWhile isWhiteSpace).reverse.dropWhile isWhiteSpace).reverse

/-- Worker of `splitLines`: `cur` is the current line, reversed. -/
def splitLinesAux (cur : Str) : Str → List Str
  | [] => [cur.reverse]
  | c :: cs => if c = '\n' then cur.reverse :: splitLinesAux [] cs else splitLinesAux (c :: cur) cs

/-- `s.split('\n')`. -/
def splitLines (s : Str) : List Str := splitLinesAux [] s

/-- The replacement of every U+200E and U+200F by the empty string: drop the directional marks. -/
def removeMarks (s : Str) : Str :=
  s.filter (fun c => !(c.toNat == 0x200E || c.toNat == 0x200F))

/-- `s.includes(sub)`. -/
def includes (s sub : Str) : Bool := s.tails.any (fun t => sub.isPrefixOf t)

/-! ## A backtracking matcher for the regular expressions of the parser

The constructors cover what the literals of `chatParser.js` use.  Matching is
the continuation-passing backtracking search of the ECMAScript semantics:
greedy alternatives first, the shorter ones on failure of the continuation. -/

/-- Regular-expression syntax. -/
inductive Re where
  | cls (p : Char → Bool)
  | seq (a b : Re)
  | opt (a : Re)
  | star (p : Char → Bool)
  | group (a : Re)
  | eoi

/-- Greedy `[p]*` followed by the continuation `k`. -/
def starRun {α : Type} (p : Char → Bool) : Str → (Str → Option α) → Option α
  | [], k => k []
  | c :: cs, k =>
    if p c then
      match starRun p cs k with
      | some r => some r
      | none => k (c :: cs)
    else k (c :: cs)

/-- Match `r` at the start of `s`; `caps` are the captures closed so far, in
the order of their groups; `k` is the rest of the pattern. -/
def Re.run {α : Type} : Re → Str → List Str → (Str → List Str → Option α) → Option α
  | .cls _, [], _, _ => none
  | .cls p, c :: cs, caps, k => if p c then k cs caps else none
  | .seq a b, s, caps, k => Re.run a s caps (fun s1 caps1 => Re.run b s1 caps1 k)
  | .opt a, s, caps, k =>
    match Re.run a s caps k with
    | some r => some r
    | none => k s caps
  | .star p, s, caps, k => starRun p s (fun s1 => k s1 caps)
  | .group a, s, caps, k =>
    Re.run a s caps (fun s1 caps1 => k s1 (caps1 ++ [s.take (s.length - s1.length)]))
  | .eoi, s, caps, k => if s.isEmpty then k s caps else none

/-- One given character. -/
def Re.chr (c : Char) : Re := .cls (fun x => x == c)

/-- Concatenation of a list of patterns; the empty list is the empty pattern. -/
def Re.cat : List Re → Re
  | [] => .star (fun _ => false)
  | [r] => r
  | r :: rs => .seq r (Re.cat rs)

/-- `\d`. -/
def Re.digit : Re := .cls isDigit

/-- `\d{1,2}`. -/
def Re.digits12 : Re := .seq Re.digit (.opt Re.digit)

/-- `\d{2,4}`. -/
def Re.digits24 : Re :=
  .seq Re.digit (.seq Re.digit (.opt (.seq Re.digit (.opt Re.digit))))

/-- `\s`. -/
def Re.space : Re := .cls isWhiteSpace

/-- Greedy `[p]+`. -/
def Re.plus (p : Char → Bool) : Re := .seq (.cls p) (.star p)

/-- The header pattern of `parseChat`, written here with `SEP` for the class
of the two date separators, slash and dash:
`^\[?(\d{1,2}SEP\d{1,2}SEP\d{2,4}),?\s(\d{1,2}:\d{2}(?::\d{2})?(?:\s?[AaPp][Mm])?)\]?\s-?\s?([^:]+):\s(.*)$` -/
def headerRegex : Re :=
  let dateSep : Re := .cls (fun c => c == '/' || c == '-')
  Re.cat [
    .opt (Re.chr '['),
    .group (Re.cat [Re.digits12, dateSep, Re.digits12, dateSep, Re.digits24]),
    .opt (Re.chr ','),
    Re.space,
    .group (Re.cat [Re.digits12, Re.chr ':', Re.digit, Re.digit,
      .opt (Re.cat [Re.chr ':', Re.digit, Re.digit]),
      .opt (Re.cat [.opt Re.space,
        .cls (fun c => c == 'A' || c == 'a' || c == 'P' || c == 'p'),
        .cls (fun c => c == 'M' || c == 'm')])]),
    .opt (Re.chr ']'),
    Re.space,
    .opt (Re.chr '-'),
    .opt Re.space,
    .group (Re.plus (fun c => !(c == ':'))),
    Re.chr ':',
    Re.space,
    .group (.star (fun c => !isLineTerminator c)),
    .eoi]

/-- The four captures of a header line. -/
structure HeaderMatch where
  dateStr : Str
  timeStr : Str
  senderRaw : Str
  contentRaw : Str
deriving DecidableEq, Repr

/-- `cleanLine.match(regex)`: the captures when the line is a header. -/
def matchHeader (cleanLine : Str) : Option HeaderMatch :=
  match Re.run headerRegex cleanLine [] (fun _ caps => some caps) with
  | some [d, t, s, c] => some ⟨d, t, s, c⟩
  | _ => none

/-! ## Content tagging -/

/-- The URL pattern `https?:\/\/[^\s]+`. -/
def urlRegex : Re :=
  Re.cat [Re.chr 'h', Re.chr 't', Re.chr 't', Re.chr 'p', .opt (Re.chr 's'),
    Re.chr ':', Re.chr '/', Re.chr '/', Re.plus (fun c => !isWhiteSpace c)]

/-- Length of the URL match that starts at the head of `s`, if there is one. -/
def urlMatchLen (s : Str) : Option Nat :=
  Re.run urlRegex s [] (fun rest _ => some (s.length - rest.length))

/-- One left-to-right scan for the global URL pattern: the number of matches
and the text with every match removed.  `skip` is the number of characters
still covered by the match found last. -/
def urlScan : Nat → Str → Nat × Str
  | _, [] => (0, [])
  | skip + 1, _ :: cs => urlScan skip cs
  | 0, c :: cs =>
    match urlMatchLen (c :: cs) with
    | some n => let r := urlScan (n - 1) cs; (r.1 + 1, r.2)
    | none => let r := urlScan 0 cs; (r.1, c :: r.2)

/-- The length of `s.match(URL) || []`, the URL pattern taken globally. -/
def countLinks (s : Str) : Nat := (urlScan 0 s).1

/-- The replacement of every URL match by the empty string. -/
def removeUrls (s : Str) : Str := (urlScan 0 s).2

/-- The punctuation class of the word cleaner: `. , ! ? ; :`, the double
quote, the round, square and curly brackets, `*`, `~` and `_`. -/
def isPunct (c : Char) : Bool :=
  let n := c.toNat
  n == 46 || n == 44 || n == 33 || n == 63 || n == 59 || n == 58 || n == 34 ||
  n == 40 || n == 41 || n == 91 || n == 93 || n == 123 || n == 125 ||
  n == 42 || n == 126 || n == 95

/-- The replacement of every punctuation character by the empty string. -/
def removePunct (s : Str) : Str := s.filter (fun c => !isPunct c)

/-- Worker of `splitWs`: `cur` is the current token, reversed; `inWs` tells
that the character before was white space. -/
def splitWsAux (cur : Str) (inWs : Bool) : Str → List Str
  | [] => [cur.reverse]
  | c :: cs =>
    if isWhiteSpace c then
      if inWs then splitWsAux [] true cs else cur.reverse :: splitWsAux [] true cs
    else splitWsAux (c :: cur) false cs

/-- `s.split(/\s+/)`: leading or trailing white space yields an empty token. -/
def splitWs (s : Str) : List Str := splitWsAux [] false s

/-- The character class of `EMOJI_REGEX` (each alternative is one code point). -/
def isEmoji (c : Char) : Bool :=
  let n := c.toNat
  (0x1F300 ≤ n && n ≤ 0x1F9FF) || (0x1F600 ≤ n && n ≤ 0x1F64F) ||
  (0x1F680 ≤ n && n ≤ 0x1F6FF) || (0x2600 ≤ n && n ≤ 0x26FF) ||
  (0x2700 ≤ n && n ≤ 0x27BF) || (0x1F900 ≤ n && n ≤ 0x1F9FF) ||
  (0x1F1E0 ≤ n && n ≤ 0x1F1FF) || n == 0x1F004 || n == 0x1F0CF ||
  (0x1F170 ≤ n && n ≤ 0x1F251)

/-- Search of `EMOJI_REGEX.exec` from `lastIndex`: `off` is the UTF-16 offset
of the head of the list.  A code point is tried when it ends after
`lastIndex`, that is when it starts at or after `lastIndex` or contains it.
The result is the offset just after the first match. -/
def emojiSearch (lastIndex : Nat) : Nat → Str → Option Nat
  | _, [] => none
  | off, c :: cs =>
    if lastIndex < off + utf16Width c && isEmoji c then some (off + utf16Width c)
    else emojiSearch lastIndex (off + utf16Width c) cs

/-- `EMOJI_REGEX.test(w)` with the flags `g` and `u`: the search starts at
`lastIndex`; a match leaves `lastIndex` just after it, a failure resets it
to 0.  The result is the answer and the new `lastIndex`. -/
def emojiTest (lastIndex : Nat) (w : Str) : Bool × Nat :=
  match emojiSearch lastIndex 0 w with
  | some e => (true, e)
  | none => (false, 0)

/-- `s.match(EMOJI_REGEX) || []`: every emoji code point of `s`, in order.
The call starts from `lastIndex = 0` and leaves `lastIndex = 0`. -/
def matchEmojis (s : Str) : List Str := (s.filter isEmoji).map (fun c => [c])

/-- The callback `w => w.length > 0 && !EMOJI_REGEX.test(w)` folded over the
tokens: `test` is not called on an empty token; `lastIndex` is threaded
through the calls.  The result is the tokens kept and the final `lastIndex`. -/
def filterWords : Nat → List Str → List Str × Nat
  | li, [] => ([], li)
  | li, w :: ws =>
    if jsLength w > 0 then
      let t := emojiTest li w
      let r := filterWords t.2 ws
      if t.1 then r else (w :: r.1, r.2)
    else filterWords li ws

/-- The system-event phrases of `parseChat`. -/
def systemKeywords : List Str :=
  ["Messages and calls are end-to-end encrypted".toList,
   "created group".toList,
   "added you".toList,
   "left".toList,
   "changed the subject".toList,
   "security code changed".toList,
   "disappearing messages".toList,
   "changed the group description".toList,
   "changed this group's icon".toList]

/-- `systemKeywords.some(keyword => sender.includes(keyword))`. -/
def isSystemSender (sender : Str) : Bool :=
  systemKeywords.any (fun keyword => includes sender keyword)

/-! ## The host -/

/-- What the JavaScript engine supplies to `parseChat`.

* `dateParse s` is `new Date(s).getTime()`: the time value in milliseconds,
  `none` for `NaN` (an Invalid Date).  For the strings the parser builds
  (`M/D/Y H:MM`, not ISO) the result is left to the engine by ECMAScript.
* `now` is the time value of `new Date()`.
* `toLowerCase` is `String.prototype.toLowerCase`. -/
structure Host where
  dateParse : Str → Option Int
  now : Int
  toLowerCase : Str → Str

/-! ## Messages -/

/-- Message record built by `parseChat`.  `timestamp` stands for both `date`
(a Date object) and `timestamp` (its `getTime()`); `none` is an Invalid Date,
whose time value is `NaN`.  The random `id` is left out. -/
structure Msg where
  timestamp : Option Int
  sender : Str
  content : Str
  isMedia : Bool
  isDeleted : Bool
  isEdited : Bool
  linkCount : Nat
  emojis : List Str
  charCount : Nat
  wordCount : Nat
  words : List Str
deriving DecidableEq, Repr

/-! ## Date parsing -/

/-- The pattern `^(\d{1,2})\/(\d{1,2})\/(\d{2,4})`. -/
def datePartsRegex : Re :=
  Re.cat [.group Re.digits12, Re.chr '/', .group Re.digits12, Re.chr '/', .group Re.digits24]

/-- `normDate.match(datePartsRegex)`: the three groups and the text after the match. -/
def matchDateParts (normDate : Str) : Option (Str × Str × Str × Str) :=
  Re.run datePartsRegex normDate []
    (fun rest caps =>
      match caps with
      | [g1, g2, g3] => some (g1, g2, g3, rest)
      | _ => none)

/-- `parseInt` on a string of decimal digits. -/
def parseInt (s : Str) : Nat := s.foldl (fun n c => 10 * n + (c.toNat - 48)) 0

/-- The date and the time joined by a blank, every dash replaced by a slash. -/
def normDate (dateStr timeStr : Str) : Str :=
  (dateStr ++ ' ' :: timeStr).map (fun c => if c = '-' then '/' else c)

/-- `normDate.replace(datePartsRegex, '$2/$1/$3')`: the first two groups swapped. -/
def swapDayMonth (nd : Str) : Str :=
  match matchDateParts nd with
  | some (g1, g2, g3, rest) => g2 ++ '/' :: g1 ++ '/' :: g3 ++ rest
  | none => nd

/-- The date block of `parseChat` (section 4).  `dateObj` starts as
`new Date()`, the time `host.now`; no statement of the `try` block throws
(`new Date(string)` yields an Invalid Date instead), so the `catch` is never
entered and every path below replaces that initial value. -/
def parseDate (host : Host) (dateStr timeStr : Str) : Option Int :=
  let nd := normDate dateStr timeStr
  match matchDateParts nd with
  | some (g1, _, _, _) =>
    if parseInt g1 > 12 then host.dateParse (swapDayMonth nd)
    else
      match host.dateParse nd with
      | some t => some t
      | none => host.dateParse (swapDayMonth nd)
  | none => host.dateParse nd

/-! ## The parser -/

/-- The word extraction of one line: lower-case, remove URLs, remove
punctuation, split on white space, drop empty tokens and tokens on which
`EMOJI_REGEX.test` answers true.  Returns the words and the new `lastIndex`. -/
def extractWords (host : Host) (lastIndex : Nat) (line : Str) : List Str × Nat :=
  filterWords lastIndex (splitWs (removePunct (removeUrls (host.toLowerCase line))))

/-- The object assigned to `currentMsg` for a header line (sections 4 to 6). -/
def newMessage (host : Host) (lastIndex : Nat) (dateStr timeStr sender content : Str) : Msg :=
  let cleanWords := (extractWords host lastIndex content).1
  { timestamp := parseDate host dateStr timeStr
    sender := sender
    content := content
    isMedia := includes content "<Media omitted>".toList || includes content "image omitted".toList ||
      includes content "video omitted".toList || includes content "sticker omitted".toList ||
      includes content "GIF omitted".toList
    isDeleted := includes content "You deleted this message".toList ||
      includes content "This message was deleted".toList
    isEdited := includes content "<This message was edited>".toList
    linkCount := countLinks content
    emojis := matchEmojis content
    charCount := jsLength content
    wordCount := cleanWords.length
    words := cleanWords }

/-- The `else if (currentMsg)` branch: a continuation line appended to the
message under construction.  `newWords` is the word extraction of the line. -/
def appendLine (m : Msg) (cleanLine : Str) (newWords : List Str) : Msg :=
  { m with
    content := m.content ++ '\n' :: cleanLine
    emojis := m.emojis ++ matchEmojis cleanLine
    words := m.words ++ newWords
    charCount := m.charCount + jsLength cleanLine
    wordCount := m.wordCount + newWords.length
    linkCount := m.linkCount + countLinks cleanLine }

/-- `participants.add(sender)` on a Set kept in insertion order. -/
def setAdd (participants : List Str) (sender : Str) : List Str :=
  if sender ∈ participants then participants else participants ++ [sender]

/-- State of the `forEach` loop of `parseChat`.

The array `messages` holds references.  A system header pushes the object
`currentMsg` refers to and returns without clearing `currentMsg`, so the same
object can sit in several slots and still be extended by later continuation
lines.  `messages` keeps the slots whose object is complete; `pushed` counts
the slots at the end of the array that hold the object `currentMsg` still
refers to.  Those slots are written out with the final value of the object,
when `currentMsg` is reassigned or the input ends. -/
structure ParserState where
  messages : List Msg
  currentMsg : Option Msg
  pushed : Nat
  participants : List Str
  lastIndex : Nat
deriving DecidableEq, Repr

/-- The state before the first line. -/
def ParserState.init (lastIndex : Nat) : ParserState :=
  { messages := [], currentMsg := none, pushed := 0, participants := [], lastIndex := lastIndex }

/-- The slots of the array that hold the object `currentMsg` refers to. -/
def ParserState.aliases (st : ParserState) : List Msg :=
  match st.currentMsg with
  | some m => List.replicate st.pushed m
  | none => []

/-- The body of `lines.forEach`, one line. -/
def parseLine (host : Host) (st : ParserState) (line : Str) : ParserState :=
  let cleanLine := trim (removeMarks line)
  if cleanLine.isEmpty then st
  else
    match matchHeader cleanLine with
    | some h =>
      -- `if (currentMsg) messages.push(currentMsg)`
      let st1 : ParserState :=
        match st.currentMsg with
        | some _ => { st with pushed := st.pushed + 1 }
        | none => st
      let sender := trim h.senderRaw
      let content := trim h.contentRaw
      if isSystemSender sender then st1
      else
        { messages := st1.messages ++ st1.aliases
          currentMsg := some (newMessage host st.lastIndex h.dateStr h.timeStr sender content)
          pushed := 0
          participants := setAdd st.participants sender
          lastIndex := 0 }
    | none =>
      match st.currentMsg with
      | some m =>
        let w := extractWords host 0 cleanLine
        { st with currentMsg := some (appendLine m cleanLine w.1), lastIndex := w.2 }
      | none => st

/-- The array `messages` after the final `if (currentMsg) messages.push(currentMsg)`. -/
def ParserState.flush (st : ParserState) : List Msg :=
  match st.currentMsg with
  | some m => st.messages ++ List.replicate (st.pushed + 1) m
  | none => st.messages

/-- The comparator `(a, b) => a.timestamp - b.timestamp` does not ask for a
swap: its result is negative, zero or `NaN`. -/
def tsLE (a b : Msg) : Prop :=
  match a.timestamp, b.timestamp with
  | some x, some y => x ≤ y
  | _, _ => True

instance : DecidableRel tsLE := fun a b => by
  unfold tsLE
  cases a.timestamp <;> cases b.timestamp <;> infer_instance

/-- `messages.sort((a, b) => a.timestamp - b.timestamp)`, as a stable
insertion sort.  With a `NaN` timestamp the comparator is inconsistent and
ECMAScript leaves the order to the engine (with a `NaN` among messages that
are out of order, the order V8 gives can differ from the one of the insertion
sort); the result is a permutation of the input in every case, and the sorted
sequence whenever all timestamps are valid. -/
def sortByTimestamp (messages : List Msg) : List Msg := messages.insertionSort tsLE

/-- Result of `parseChat`, with the `lastIndex` it leaves in `EMOJI_REGEX`. -/
structure ParseResult where
  messages : List Msg
  participants : List Str
  lastIndex : Nat
deriving DecidableEq, Repr

/-- The loop of `parseChat` over the lines of the text. -/
def parseLines (host : Host) (lastIndex : Nat) (fileContent : Str) : ParserState :=
  (splitLines fileContent).foldl (parseLine host) (ParserState.init lastIndex)

/-- `parseChat(fileContent)`, run when `EMOJI_REGEX.lastIndex` is `lastIndex`
(0 when the module has just been loaded). -/
def parseChat (host : Host) (lastIndex : Nat) (fileContent : Str) : ParseResult :=
  let st := parseLines host lastIndex fileContent
  { messages := sortByTimestamp st.flush
    participants := st.participants
    lastIndex := st.lastIndex }

/-! ## A reference host

An engine to evaluate the parser on concrete texts: month-first dates read
as UTC, ASCII lower-casing.  The theorems below that hold for every engine
quantify over `Host` and do not use it.  It is a reference, not a copy of one
engine: unlike V8 it rejects the hour 24, accepts a meridiem written right
after the minutes (`9:05pm`), and lower-cases the letters A to Z only; the
texts evaluated with it have no such hour, meridiem or capital. -/

/-- Days from 1970-01-01 to the civil date `y-m-d` (proleptic Gregorian). -/
def daysFromCivil (y m d : Int) : Int :=
  let y1 := if m ≤ 2 then y - 1 else y
  let era := y1 / 400
  let yoe := y1 - era * 400
  let doy := (153 * (if m > 2 then m - 3 else m + 9) + 2) / 5 + d - 1
  let doe := yoe * 365 + yoe / 4 - yoe / 100 + doy
  era * 146097 + doe - 719468

/-- The pattern `^(\d{1,2})\/(\d{1,2})\/(\d{2,4}) (\d{1,2}):(\d{2})(?::(\d{2}))?(?:\s?([AaPp])[Mm])?$`. -/
def refDateRegex : Re :=
  Re.cat [.group Re.digits12, Re.chr '/', .group Re.digits12, Re.chr '/', .group Re.digits24,
    Re.chr ' ', .group Re.digits12, Re.chr ':', .group (.seq Re.digit Re.digit),
    .opt (Re.cat [Re.chr ':', .group (.seq Re.digit Re.digit)]),
    .opt (Re.cat [.opt Re.space,
      .group (.cls (fun c => c == 'A' || c == 'a' || c == 'P' || c == 'p')),
      .cls (fun c => c == 'M' || c == 'm')]),
    .eoi]

/-- Time value of the fields of a month-first date, `none` when a field is out of range. -/
def refTimeValue (mo d y h mi sec : Nat) (meridiem : Option Bool) : Option Int :=
  let year : Nat := if y < 50 then 2000 + y else if y < 100 then 1900 + y else y
  let hour : Option Nat :=
    match meridiem with
    | none => if h ≤ 23 then some h else none
    | some pm => if 1 ≤ h ∧ h ≤ 12 then some (h % 12 + (if pm then 12 else 0)) else none
  match hour with
  | some hh =>
    if 1 ≤ mo ∧ mo ≤ 12 ∧ 1 ≤ d ∧ d ≤ 31 ∧ mi ≤ 59 ∧ sec ≤ 59 then
      some ((((daysFromCivil year mo d * 24 + hh) * 60 + mi) * 60 + sec) * 1000)
    else none
  | none => none

/-- The reference `new Date(s).getTime()`. -/
def refDateParse (s : Str) : Option Int :=
  let isPm (x : Str) : Bool := x == ['P'] || x == ['p']
  match Re.run refDateRegex s [] (fun _ caps => some caps) with
  | some [mo, d, y, h, mi] =>
    refTimeValue (parseInt mo) (parseInt d) (parseInt y) (parseInt h) (parseInt mi) 0 none
  | some [mo, d, y, h, mi, x] =>
    if x.all isDigit then
      refTimeValue (parseInt mo) (parseInt d) (parseInt y) (parseInt h) (parseInt mi) (parseInt x) none
    else
      refTimeValue (parseInt mo) (parseInt d) (parseInt y) (parseInt h) (parseInt mi) 0 (some (isPm x))
  | some [mo, d, y, h, mi, sec, x] =>
    refTimeValue (parseInt mo) (parseInt d) (parseInt y) (parseInt h) (parseInt mi) (parseInt sec)
      (some (isPm x))
  | _ => none

/-- The reference host; its clock stands at 2025-01-01T00:00:00Z. -/
def refHost : Host :=
  { dateParse := refDateParse
    now := 1735689600000
    toLowerCase := fun s => s.map Char.toLower }

/-! ## Notions of the specification about the parser -/

/-- The lines of the text that are header lines whose sender holds no
system-event phrase. -/
def nonSystemHeaderLines (fileContent : Str) : List Str :=
  (splitLines fileContent).filter (fun line =>
    match matchHeader (trim (removeMarks line)) with
    | some h => !isSystemSender (trim h.senderRaw)
    | none => false)

/-- The kind of a line: `some false` for a header line whose sender holds no
system-event phrase, `some true` for a system header line, `none` for a line
that is no header. -/
def headerKind (line : Str) : Option Bool :=
  (matchHeader (trim (removeMarks line))).map (fun h => isSystemSender (trim h.senderRaw))

/-- The number of system header lines met while a message is in progress;
`inProgress` tells whether one is in progress before the first line. -/
def systemHeadersInProgress : Bool → List Str → Nat
  | _, [] => 0
  | inProgress, line :: rest =>
    match headerKind line with
    | some true => (if inProgress then 1 else 0) + systemHeadersInProgress inProgress rest
    | some false => systemHeadersInProgress true rest
    | none => systemHeadersInProgress inProgress rest

/-! ## Plain objects used as maps

`useAdvancedStats` keeps its tables in object literals and indexes them with
sender names, words and emoji.  An object literal inherits from
`Object.prototype`, so a lookup `o[k]` finds an own property, or else an
inherited one when `k` is one of `objectPrototypeKeys`; and an assignment to
the key `__proto__` runs the inherited setter: it replaces the prototype when
the value is an object and does nothing when the value is a primitive. -/

/-- The property names of `Object.prototype`; the value of each is truthy
(a function, or the prototype object itself for `__proto__`). -/
def objectPrototypeKeys : List Str :=
  ["constructor".toList, "__defineGetter__".toList, "__defineSetter__".toList,
   "hasOwnProperty".toList, "__lookupGetter__".toList, "__lookupSetter__".toList,
   "isPrototypeOf".toList, "propertyIsEnumerable".toList, "toString".toList,
   "valueOf".toList, "__proto__".toList, "toLocaleString".toList]

/-- The key `__proto__`. -/
def protoKey : Str := "__proto__".toList

/-- Own properties in creation order. -/
abbrev Props (α : Type) := List (Str × α)

/-- The own property `k`, if there is one. -/
def Props.get {α : Type} : Props α → Str → Option α
  | [], _ => none
  | (k1, v) :: rest, k => if k1 = k then some v else Props.get rest k

/-- Write the own property `k`: an existing property keeps its place, a new
one goes last. -/
def Props.set {α : Type} : Props α → Str → α → Props α
  | [], k, v => [(k, v)]
  | (k1, v1) :: rest, k, v =>
    if k1 = k then (k1, v) :: rest else (k1, v1) :: Props.set rest k v

/-- The number a key stands for when it is an array index: a canonical
decimal numeral below `2 ^ 32 - 1`. -/
def arrayIndex (k : Str) : Option Nat :=
  if k.isEmpty then none
  else if !k.all isDigit then none
  else if k.head? == some '0' && k.length > 1 then none
  else if parseInt k < 4294967295 then some (parseInt k) else none

/-- `Object.entries(o)`: the array-index keys in ascending numeric order, then
the other keys in creation order. -/
def Props.entries {α : Type} (o : Props α) : List (Str × α) :=
  ((o.filterMap (fun kv => (arrayIndex kv.1).map (fun n => (n, kv)))).insertionSort
      (fun a b => a.1 ≤ b.1)).map (fun x => x.2)
    ++ o.filter (fun kv => (arrayIndex kv.1).isNone)

/-- An object whose values are objects: its own properties and, once an object
was assigned to `__proto__`, that object. -/
structure JSObj (α : Type) where
  props : Props α
  proto : Option α
deriving DecidableEq, Repr

/-- `o[k] = v` for an object `v`. -/
def JSObj.set {α : Type} (o : JSObj α) (k : Str) (v : α) : JSObj α :=
  if k = protoKey then { o with proto := some v } else { o with props := o.props.set k v }

/-- `o[k]` when it is an own property or the object assigned to `__proto__`;
`none` when the lookup yields no value of the table (`undefined`, or a
property inherited from `Object.prototype`). -/
def JSObj.get {α : Type} (o : JSObj α) (k : Str) : Option α :=
  if k = protoKey then o.proto else o.props.get k

/-- `o[k] = n` for a number `n`. -/
def Props.setNum (o : Props Nat) (k : Str) (n : Nat) : Props Nat :=
  if k = protoKey then o else o.set k n

/-- `o[k]++` on a table of counters that has an own property for every key it
is used with, `__proto__` apart: there the inherited getter yields an object,
the sum is `NaN` and the inherited setter ignores it. -/
def Props.incr (o : Props Nat) (k : Str) : Props Nat :=
  if k = protoKey then o
  else
    match o.get k with
    | some n => o.set k (n + 1)
    | none => o

/-! ## The aggregation pass of `useAdvancedStats` -/

/-- What date-fns computes in the local time zone.

* `startOfWeekNow`, `startOfMonthNow`, `startOfYearNow` are the time values of
  `startOfWeek(now)`, `startOfMonth(now)`, `startOfYear(now)`.
* `getHours t` is `getHours` of the date with time value `t`. -/
structure DateFns where
  startOfWeekNow : Int
  startOfMonthNow : Int
  startOfYearNow : Int
  getHours : Int → Nat

/-- The record `participantStats[p]`; `pos`, `neg`, `neutral` are the fields
of `sentiment`. -/
structure ParticipantStat where
  name : Str
  messages : Nat
  words : Nat
  media : Nat
  emojis : Nat
  links : Nat
  deleted : Nat
  edited : Nat
  pos : Nat
  neg : Nat
  neutral : Nat
  nightOwlScore : Nat
  earlyBirdScore : Nat
  doubleTexts : Nat
  sorryCount : Nat
  laughCount : Nat
  longestMsg : Nat
deriving DecidableEq, Repr

/-- The record a participant starts with. -/
def ParticipantStat.init (p : Str) : ParticipantStat :=
  { name := p, messages := 0, words := 0, media := 0, emojis := 0, links := 0, deleted := 0,
    edited := 0, pos := 0, neg := 0, neutral := 0, nightOwlScore := 0, earlyBirdScore := 0,
    doubleTexts := 0, sorryCount := 0, laughCount := 0, longestMsg := 0 }

/-- A value of a per-sender breakdown: a count, or the text that
`(breakdown[sender] || 0) + 1` yields when `breakdown[sender]` is an inherited
function (the sum is then a string concatenation). -/
inductive Tally where
  | count (n : Nat)
  | text
deriving DecidableEq, Repr

/-- An entry of `wordMap` or `emojiMap`. -/
structure FreqEntry where
  total : Nat
  breakdown : Props Tally
deriving DecidableEq, Repr

/-- `breakdown[sender] = (breakdown[sender] || 0) + 1`. -/
def bumpTally (breakdown : Props Tally) (sender : Str) : Props Tally :=
  match breakdown.get sender with
  | some (.count n) => breakdown.set sender (.count (n + 1))
  | some .text => breakdown.set sender .text
  | none =>
    if sender = protoKey then breakdown
    else if sender ∈ objectPrototypeKeys then breakdown.set sender .text
    else breakdown.set sender (.count 1)

/-- The three statements on `wordMap[w]` (and on `emojiMap[e]`):
`if (!map[key]) map[key] = { total: 0, breakdown: {} }`, `map[key].total++`,
`map[key].breakdown[sender] = (map[key].breakdown[sender] || 0) + 1`.
When `key` is an inherited property name, `map[key]` is truthy, no entry is
made, and `map[key].breakdown` is `undefined`: the third statement throws a
TypeError, which is the result `none`. -/
def bumpEntry (map : Props FreqEntry) (key sender : Str) : Option (Props FreqEntry) :=
  match map.get key with
  | some e => some (map.set key { total := e.total + 1, breakdown := bumpTally e.breakdown sender })
  | none =>
    if key ∈ objectPrototypeKeys then none
    else some (map.set key { total := 1, breakdown := bumpTally [] sender })

/-- The positive keywords. -/
def posWords : List Str :=
  ["good".toList, "love".toList, "happy".toList, "great".toList, "haha".toList, "lol".toList,
   "thanks".toList, "best".toList, "awesome".toList, "nice".toList]

/-- The negative keywords. -/
def negWords : List Str :=
  ["bad".toList, "sad".toList, "hate".toList, "angry".toList, "no".toList, "sorry".toList,
   "stupid".toList, "worst".toList, "miss".toList, "boring".toList]

/-- The apology keywords. -/
def sorryWords : List Str := ["sorry".toList, "maaf".toList, "galti".toList, "apology".toList]

/-- The laugh keywords. -/
def laughWords : List Str :=
  ["haha".toList, "lol".toList, "lmao".toList, "rofl".toList, "hehe".toList, "xd".toList]

/-- `targetWordLength > 0 ? w.length === targetWordLength : w.length >= 3`. -/
def isValidLen (targetWordLength : Nat) (w : Str) : Bool :=
  if targetWordLength > 0 then jsLength w == targetWordLength else jsLength w ≥ 3

/-- The callback of `msg.words.forEach` (section D) on the record `p` of the
sender and on `wordMap`; `none` is a TypeError. -/
def countWord (targetWordLength : Nat) (msg : Msg) (st : ParticipantStat × Props FreqEntry)
    (w : Str) : Option (ParticipantStat × Props FreqEntry) :=
  if isValidLen targetWordLength w && !msg.isMedia then
    match bumpEntry st.2 w msg.sender with
    | none => none
    | some wordMap =>
      let p := st.1
      some ({ p with
          words := p.words + 1
          pos := p.pos + (if w ∈ posWords then 1 else 0)
          neg := p.neg + (if w ∈ negWords then 1 else 0)
          sorryCount := p.sorryCount + (if w ∈ sorryWords then 1 else 0)
          laughCount := p.laughCount + (if w ∈ laughWords then 1 else 0) }, wordMap)
  else some st

/-- `msg.words.forEach(...)`. -/
def countWords (targetWordLength : Nat) (msg : Msg) :
    ParticipantStat × Props FreqEntry → List Str → Option (ParticipantStat × Props FreqEntry)
  | st, [] => some st
  | st, w :: ws =>
    match countWord targetWordLength msg st w with
    | none => none
    | some st1 => countWords targetWordLength msg st1 ws

/-- `msg.emojis.forEach(...)` (section E); `none` is a TypeError. -/
def countEmojis (sender : Str) : Props FreqEntry → List Str → Option (Props FreqEntry)
  | emojiMap, [] => some emojiMap
  | emojiMap, e :: es =>
    match bumpEntry emojiMap e sender with
    | none => none
    | some emojiMap1 => countEmojis sender emojiMap1 es

/-- `differenceInMinutes(a, b)` of date-fns: the difference of the time values
in minutes, truncated toward zero; `NaN` when a date is invalid. -/
def differenceInMinutes (a b : Option Int) : Option Int :=
  match a, b with
  | some x, some y => some (Int.tdiv (x - y) 60000)
  | _, _ => none

/-- The state of the main loop: the tables of the claims settled here.  The
histograms, the timeline and the heat map of sections B and C are separate
tables; they take no part in the statements below and do not throw on a valid
date. -/
structure Acc where
  participantStats : JSObj ParticipantStat
  wordMap : Props FreqEntry
  emojiMap : Props FreqEntry
  lastMsg : Option Msg
  starters : Props Nat
  replyTimes : JSObj (List (Option Int))
deriving DecidableEq, Repr

/-- The containers before the main loop: the two `selectedParticipants.forEach`. -/
def Acc.init (selectedParticipants : List Str) : Acc :=
  { participantStats :=
      selectedParticipants.foldl (fun o p => o.set p (ParticipantStat.init p)) ⟨[], none⟩
    wordMap := []
    emojiMap := []
    lastMsg := none
    starters := selectedParticipants.foldl (fun o p => o.setNum p 0) []
    replyTimes := selectedParticipants.foldl (fun o p => o.set p []) ⟨[], none⟩ }

/-- `x > n` on numbers; false when `x` is `NaN`. -/
def jsGT (x : Option Int) (n : Int) : Bool :=
  match x with
  | some d => decide (d > n)
  | none => false

/-- `x < n` on numbers; false when `x` is `NaN`. -/
def jsLT (x : Option Int) (n : Int) : Bool :=
  match x with
  | some d => decide (d < n)
  | none => false

/-- Section F on the tables `starters`, `replyTimes` and the record `p`, for a
message with a predecessor `lastMsg`; `none` is a TypeError
(`replyTimes[msg.sender]` is not an array). -/
def flowStep (starters : Props Nat) (replyTimes : JSObj (List (Option Int)))
    (p : ParticipantStat) (lastMsg msg : Msg) :
    Option (Props Nat × JSObj (List (Option Int)) × ParticipantStat) :=
  let diffMins := differenceInMinutes msg.timestamp lastMsg.timestamp
  if jsGT diffMins 240 then
    some (starters.incr msg.sender, replyTimes, p)
  else if msg.sender ≠ lastMsg.sender then
    match replyTimes.get msg.sender with
    | some times => some (starters, replyTimes.set msg.sender (times ++ [diffMins]), p)
    | none => none
  else if jsLT diffMins 5 then
    some (starters, replyTimes, { p with doubleTexts := p.doubleTexts + 1 })
  else some (starters, replyTimes, p)

/-- Section A of the loop body: the basic counts on the record `p` of the sender. -/
def basicCounts (p : ParticipantStat) (msg : Msg) : ParticipantStat :=
  { p with
    messages := p.messages + 1
    media := p.media + (if msg.isMedia then 1 else 0)
    links := p.links + msg.linkCount
    deleted := p.deleted + (if msg.isDeleted then 1 else 0)
    edited := p.edited + (if msg.isEdited then 1 else 0)
    emojis := p.emojis + msg.emojis.length
    longestMsg := if msg.charCount > p.longestMsg then msg.charCount else p.longestMsg }

/-- Section B of the loop body on the record `p`: the sleep schedule counters
for the hour of the message. -/
def sleepCounts (p : ParticipantStat) (hour : Nat) : ParticipantStat :=
  { p with
    nightOwlScore := p.nightOwlScore + (if hour < 5 then 1 else 0)
    earlyBirdScore := p.earlyBirdScore + (if 5 ≤ hour ∧ hour < 9 then 1 else 0) }

/-- The callback of `filteredMessages.forEach`, one message; `none` is a
TypeError.  A message whose sender has no record is skipped (`if (!p) return`);
the filter lets through selected senders only, and each of them has a record.
`hourlyData[hour]` is `undefined` for an invalid date, whose hour is `NaN`, so
the statement `hourlyData[hour].count++` throws. -/
def processMessage (fns : DateFns) (targetWordLength : Nat) (acc : Acc) (msg : Msg) : Option Acc :=
  match acc.participantStats.get msg.sender with
  | none => some acc
  | some p0 =>
    match msg.timestamp with
    | none => none
    | some t =>
      -- A, B, then D: vocabulary and sentiment
      match countWords targetWordLength msg
          (sleepCounts (basicCounts p0 msg) (fns.getHours t), acc.wordMap) msg.words with
      | none => none
      | some (p3, wordMap) =>
        -- E. emoji analysis
        match countEmojis msg.sender acc.emojiMap msg.emojis with
        | none => none
        | some emojiMap =>
          -- F. flow analysis
          match acc.lastMsg with
          | none =>
            some { participantStats := acc.participantStats.set msg.sender p3
                   wordMap := wordMap
                   emojiMap := emojiMap
                   lastMsg := some msg
                   starters := acc.starters
                   replyTimes := acc.replyTimes }
          | some lastMsg =>
            match flowStep acc.starters acc.replyTimes p3 lastMsg msg with
            | none => none
            | some (starters, replyTimes, p4) =>
              some { participantStats := acc.participantStats.set msg.sender p4
                     wordMap := wordMap
                     emojiMap := emojiMap
                     lastMsg := some msg
                     starters := starters
                     replyTimes := replyTimes }

/-- The main loop; `none` is a TypeError. -/
def mainLoop (fns : DateFns) (targetWordLength : Nat) : Acc → List Msg → Option Acc
  | acc, [] => some acc
  | acc, msg :: rest =>
    match processMessage fns targetWordLength acc msg with
    | none => none
    | some acc1 => mainLoop fns targetWordLength acc1 rest

/-! ## Filter stage and post-processing of `useAdvancedStats` -/

/-- The start boundary of the time window: `new Date(0)`, replaced for the
selectors `week`, `month` and `year`. -/
def startDate (fns : DateFns) (timeFilter : Str) : Int :=
  let s0 : Int := 0
  let s1 := if timeFilter = "week".toList then fns.startOfWeekNow else s0
  let s2 := if timeFilter = "month".toList then fns.startOfMonthNow else s1
  if timeFilter = "year".toList then fns.startOfYearNow else s2

/-- `msg.date >= startDate`; false for an Invalid Date. -/
def dateGE (timestamp : Option Int) (start : Int) : Bool :=
  match timestamp with
  | some t => decide (start ≤ t)
  | none => false

/-- The first `useMemo`: `rawMessages` is `none` when it is `undefined`. -/
def filteredMessages (fns : DateFns) (rawMessages : Option (List Msg)) (timeFilter : Str)
    (selectedParticipants : List Str) : List Msg :=
  match rawMessages with
  | none => []
  | some messages =>
    sortByTimestamp (messages.filter (fun msg =>
      dateGE msg.timestamp (startDate fns timeFilter) && selectedParticipants.contains msg.sender))

/-- A comparator `(a, b) => key(b) - key(a)` does not ask for a swap: its
result is negative, zero or `NaN`. -/
def descLE {α : Type} (key : α → Option Int) (a b : α) : Prop :=
  match key a, key b with
  | some x, some y => y ≤ x
  | _, _ => True

instance {α : Type} (key : α → Option Int) : DecidableRel (descLE key) := fun a b => by
  unfold descLE
  cases key a <;> cases key b <;> infer_instance

/-- `l.sort((a, b) => key(b) - key(a))`, as a stable insertion sort. -/
def sortDesc {α : Type} (key : α → Option Int) (l : List α) : List α :=
  l.insertionSort (descLE key)

/-- An item of `replyStats`. -/
structure GhostStat where
  name : Str
  avgMinutes : Option Int
deriving DecidableEq, Repr

/-- `times.reduce((a, b) => a + b, 0)`. -/
def sumTimes (times : List (Option Int)) : Option Int :=
  times.foldl (fun a b =>
    match a, b with
    | some x, some y => some (x + y)
    | _, _ => none) (some 0)

/-- `Math.round(times.length ? sum / times.length : 0)`, in exact arithmetic:
`Math.round` is the floor of its argument plus one half. -/
def avgMinutes (times : List (Option Int)) : Option Int :=
  if times.isEmpty then some 0
  else
    match sumTimes times with
    | some s => some ((2 * s + times.length) / (2 * times.length))
    | none => none

/-- `ghostStats`: one item per own key of `replyTimes`, by decreasing `avgMinutes`. -/
def ghostStats (replyTimes : JSObj (List (Option Int))) : List GhostStat :=
  sortDesc (fun g => g.avgMinutes)
    (replyTimes.props.entries.map (fun kv => { name := kv.1, avgMinutes := avgMinutes kv.2 }))

/-- An item of `topWords` (key `text`) or of `topEmojis` (key `char`). -/
structure TopItem where
  key : Str
  total : Nat
  breakdown : Props Tally
deriving DecidableEq, Repr

/-- `Object.entries(map).sort(([,a], [,b]) => b.total - a.total).slice(0, 12)`,
each entry spread into an item. -/
def topList (map : Props FreqEntry) : List TopItem :=
  ((sortDesc (fun kv => some (kv.2.total : Int)) map.entries).take 12).map
    (fun kv => { key := kv.1, total := kv.2.total, breakdown := kv.2.breakdown })

/-- `name || "N/A"` for the first element of a sorted list, if there is one. -/
def orNA (name : Option Str) : Str :=
  match name with
  | some n => if n.isEmpty then "N/A".toList else n
  | none => "N/A".toList

/-- An award: its title and its winner (the description and the colour are
presentation). -/
structure Award where
  title : Str
  winner : Str
deriving DecidableEq, Repr

/-- The winner `Object.values(participantStats).sort((a, b) => b.f - a.f)[0]?.name || "N/A"`. -/
def maxWinner (stats : List ParticipantStat) (f : ParticipantStat → Nat) : Str :=
  orNA ((sortDesc (fun p => some (f p : Int)) stats).head?.map (fun p => p.name))

/-- The ten awards. -/
def awards (ghost : List GhostStat) (stats : List ParticipantStat) (starters : Props Nat) :
    List Award :=
  [ { title := "👻 The Ghost".toList, winner := orNA (ghost.head?.map (fun g => g.name)) },
    { title := "📢 The Yapper".toList, winner := maxWinner stats (fun p => p.words) },
    { title := "🦉 Night Owl".toList, winner := maxWinner stats (fun p => p.nightOwlScore) },
    { title := "🧨 Instigator".toList,
      winner := orNA ((sortDesc (fun kv => some (kv.2 : Int)) starters.entries).head?.map
        (fun kv => kv.1)) },
    { title := "📸 Media Mogul".toList, winner := maxWinner stats (fun p => p.media) },
    { title := "📱 Double Texter".toList, winner := maxWinner stats (fun p => p.doubleTexts) },
    { title := "📜 Novelist".toList, winner := maxWinner stats (fun p => p.longestMsg) },
    { title := "😂 Laughing Stock".toList, winner := maxWinner stats (fun p => p.laughCount) },
    { title := "🥺 The Apologist".toList, winner := maxWinner stats (fun p => p.sorryCount) },
    { title := "🔗 Link Lord".toList, winner := maxWinner stats (fun p => p.links) } ]

/-- The fields of the result object that come from the tables of `Acc`. -/
structure StatsResult where
  totalMessages : Nat
  participantStats : List ParticipantStat
  replyStats : List GhostStat
  starters : Props Nat
  topEmojis : List TopItem
  topWords : List TopItem
  awards : List Award
deriving DecidableEq, Repr

/-- What evaluating the second `useMemo` gives: a TypeError thrown by the main
loop, the marker `null` for an empty filtered sequence, or the result object. -/
inductive Stats where
  | typeError
  | null
  | result (r : StatsResult)
deriving DecidableEq, Repr

/-- The second `useMemo` on the filtered sequence. -/
def computeStats (fns : DateFns) (filtered : List Msg) (selectedParticipants : List Str)
    (targetWordLength : Nat) : Stats :=
  if filtered.isEmpty then .null
  else
    match mainLoop fns targetWordLength (Acc.init selectedParticipants) filtered with
    | none => .typeError
    | some acc =>
      let stats := acc.participantStats.props.entries.map (fun kv => kv.2)
      let ghost := ghostStats acc.replyTimes
      .result
        { totalMessages := filtered.length
          participantStats := stats
          replyStats := ghost
          starters := acc.starters
          topEmojis := topList acc.emojiMap
          topWords := topList acc.wordMap
          awards := awards ghost stats acc.starters }

/-- `useAdvancedStats(rawMessages, timeFilter, selectedParticipants, targetWordLength)`. -/
def useAdvancedStats (fns : DateFns) (rawMessages : Option (List Msg)) (timeFilter : Str)
    (selectedParticipants : List Str) (targetWordLength : Nat) : Stats :=
  computeStats fns (filteredMessages fns rawMessages timeFilter selectedParticipants)
    selectedParticipants targetWordLength

/-! ## Reference values for the aggregation pass -/

/-- UTC calendar functions for a clock that stands at 2025-01-01T00:00:00Z, a
Wednesday: the week began on Sunday 2024-12-29. -/
def refDateFns : DateFns :=
  { startOfWeekNow := 1735430400000
    startOfMonthNow := 1735689600000
    startOfYearNow := 1735689600000
    getHours := fun t => ((t / 3600000) % 24).toNat }

/-- A message with the given sender, time in minutes after 2024-01-01T12:00:00Z,
words and emoji; the other fields as `parseChat` makes them for such a body. -/
def mkMsg (sender : Str) (minutes : Int) (words emojis : List Str) : Msg :=
  { timestamp := some (1704110400000 + minutes * 60000)
    sender := sender
    content := []
    isMedia := false
    isDeleted := false
    isEdited := false
    linkCount := 0
    emojis := emojis
    charCount := 0
    wordCount := words.length
    words := words }

/-- The result object, if there is one. -/
def Stats.toOption : Stats → Option StatsResult
  | .result r => some r
  | _ => none

/-! ## Notions of the specification about the aggregation -/

/-- The sum of the values of a per-sender breakdown; `none` when a value is
not a number. -/
def breakdownSum : Props Tally → Option Nat
  | [] => some 0
  | (_, .count n) :: rest => (breakdownSum rest).map (fun s => s + n)
  | (_, .text) :: _ => none

/-! ## Notions of the specification, continued -/

/-- The text made of the lines `pre`, each followed by a line break, and then
the text `rest`. -/
def prependLines (pre : List Str) (rest : Str) : Str :=
  pre.foldr (fun l acc => l ++ '\n' :: acc) rest

/-- The tables keep their keys through the pass, and each record of
`participantStats` keeps the name of its key. -/
def KeysInv (acc0 acc : Acc) : Prop :=
  acc.participantStats.props.map Prod.fst = acc0.participantStats.props.map Prod.fst ∧
  acc.replyTimes.props.map Prod.fst = acc0.replyTimes.props.map Prod.fst ∧
  acc.starters.map Prod.fst = acc0.starters.map Prod.fst ∧
  (∀ kv ∈ acc.participantStats.props, kv.2.name = kv.1)

/-- Four messages, X and Y in turn at minutes 0, 1, 2 and 4: the reply
samples are 1 for X and 1, 2 for Y. -/
def replyExample : List Msg :=
  [mkMsg "X".toList 0 [] [], mkMsg "Y".toList 1 [] [], mkMsg "X".toList 2 [] [],
   mkMsg "Y".toList 4 [] []]

/-- The result object for `replyExample` with X and Y selected. -/
def replyExampleResult : StatsResult :=
  { totalMessages := 4
    participantStats :=
      [{ ParticipantStat.init "X".toList with messages := 2 },
       { ParticipantStat.init "Y".toList with messages := 2 }]
    replyStats :=
      [{ name := "Y".toList, avgMinutes := some 2 }, { name := "X".toList, avgMinutes := some 1 }]
    starters := [("X".toList, 0), ("Y".toList, 0)]
    topEmojis := []
    topWords := []
    awards :=
      awards
        [{ name := "Y".toList, avgMinutes := some 2 }, { name := "X".toList, avgMinutes := some 1 }]
        [{ ParticipantStat.init "X".toList with messages := 2 },
         { ParticipantStat.init "Y".toList with messages := 2 }]
        [("X".toList, 0), ("Y".toList, 0)] }

/-- The order in which `Object.keys`, `Object.values` and `Object.entries`
list own keys created in the order `keys`: the array-index keys in ascending
numeric order, then the other keys in creation order. -/
def objectKeyOrder (keys : List Str) : List Str :=
  ((keys.filterMap (fun k => (arrayIndex k).map (fun n => (n, k)))).insertionSort
      (fun a b => a.1 ≤ b.1)).map (fun x => x.2)
    ++ keys.filter (fun k => (arrayIndex k).isNone)

/-- The element `w` is the first greatest element of `l` for `key`: the
elements before it have a smaller key and the elements after it have no
greater one. -/
def IsFirstMax {α : Type} (key : α → Nat) (l : List α) (w : α) : Prop :=
  ∃ l1 l2, l = l1 ++ w :: l2 ∧ (∀ p ∈ l1, key p < key w) ∧ (∀ p ∈ l2, key p ≤ key w)

/-- The awards that take the record with the greatest value of one counter
among `Object.values(participantStats)`: the title and the counter. -/
def awardCounters : List (Str × (ParticipantStat → Nat)) :=
  [("📢 The Yapper".toList, fun p => p.words),
   ("🦉 Night Owl".toList, fun p => p.nightOwlScore),
   ("📸 Media Mogul".toList, fun p => p.media),
   ("📱 Double Texter".toList, fun p => p.doubleTexts),
   ("📜 Novelist".toList, fun p => p.longestMsg),
   ("😂 Laughing Stock".toList, fun p => p.laughCount),
   ("🥺 The Apologist".toList, fun p => p.sorryCount),
   ("🔗 Link Lord".toList, fun p => p.links)]

/-- The item of `topWords` or `topEmojis` made from an entry of the table. -/
def TopItem.ofEntry (kv : Str × FreqEntry) : TopItem :=
  { key := kv.1, total := kv.2.total, breakdown := kv.2.breakdown }

/-- What makes `top` the top list of the table `map`, whose entries
`Object.entries` lists as `map.entries`: it has twelve items, or as many as the
table when that is less; its totals do not increase; the entries left out have
no greater total than any item kept; and the items of every one total are the
first entries of that total, in the order of the listing. -/
def IsTopList (map : Props FreqEntry) (top : List TopItem) : Prop :=
  top.length = min 12 map.length ∧
  top.Pairwise (fun a b => b.total ≤ a.total) ∧
  (∃ rest : List TopItem, (top ++ rest).Perm (map.entries.map TopItem.ofEntry) ∧
    ∀ i ∈ top, ∀ j ∈ rest, j.total ≤ i.total) ∧
  (∀ t : Nat, top.filter (fun i => i.total == t) <+:
    (map.entries.map TopItem.ofEntry).filter (fun i => i.total == t))

/-- One message of A with the words `hello`, `2024`, `hello` and one emoji. -/
def wordsExample : List Msg :=
  [mkMsg "A".toList 0 ["hello".toList, "2024".toList, "hello".toList] ["😀".toList]]

/-- The result object for `wordsExample` with A selected. -/
def wordsExampleResult : StatsResult :=
  { totalMessages := 1
    participantStats := [{ ParticipantStat.init "A".toList with messages := 1, words := 3, emojis := 1 }]
    replyStats := [{ name := "A".toList, avgMinutes := some 0 }]
    starters := [("A".toList, 0)]
    topEmojis := [{ key := "😀".toList, total := 1, breakdown := [("A".toList, .count 1)] }]
    topWords :=
      [{ key := "hello".toList, total := 2, breakdown := [("A".toList, .count 2)] },
       { key := "2024".toList, total := 1, breakdown := [("A".toList, .count 1)] }]
    awards :=
      awards [{ name := "A".toList, avgMinutes := some 0 }]
        [{ ParticipantStat.init "A".toList with messages := 1, words := 3, emojis := 1 }]
        [("A".toList, 0)] }

/-! ## Calendar days

Section C of the loop body and the post-processing steps 1 and 4 work on
calendar days.  `format(date, 'yyyy-MM-dd')`, `eachDayOfInterval` and
`differenceInDays` of date-fns read a date in the time zone of the machine,
while `new Date('yyyy-MM-dd')` reads a date-only text as midnight UTC (the
date-time string format of ECMAScript).  The zone is a parameter. -/

/-- Milliseconds in 24 hours. -/
def msPerDay : Int := 86400000

/-- The civil date (year, month, day) of the day number `days` counted from
1970-01-01 (proleptic Gregorian), the inverse of `daysFromCivil`. -/
def civilFromDays (days : Int) : Int × Int × Int :=
  let z := days + 719468
  let era := z / 146097
  let doe := z - era * 146097
  let yoe := (doe - doe / 1460 + doe / 36524 - doe / 146096) / 365
  let doy := doe - (365 * yoe + yoe / 4 - yoe / 100)
  let mp := (5 * doy + 2) / 153
  let d := doy - (153 * mp + 2) / 5 + 1
  let m := if mp < 10 then mp + 3 else mp - 9
  let y := yoe + era * 400
  (if m ≤ 2 then y + 1 else y, m, d)

/-- The time zone of the machine: `offset t` is what is added to the time
value `t` to get the local wall clock, in milliseconds, and `toUTC w` is the
time value the engine gives to the wall clock `w`. -/
structure Zone where
  offset : Int → Int
  toUTC : Int → Int

/-- A zone without daylight saving, `off` milliseconds east of Greenwich. -/
def Zone.fixed (off : Int) : Zone :=
  { offset := fun _ => off
    toUTC := fun w => w - off }

/-- UTC. -/
def Zone.utc : Zone := Zone.fixed 0

/-- America/New_York in 2024: four hours west from 2024-03-10T07:00Z to
2024-11-03T06:00Z, five hours west otherwise.  A wall clock that occurs twice
gets the earlier time value, one that is skipped is read with the offset
before the change. -/
def Zone.newYork2024 : Zone :=
  { offset := fun t => if 1710054000000 ≤ t ∧ t < 1730613600000 then -14400000 else -18000000
    toUTC := fun w =>
      if 1710054000000 ≤ w + 14400000 ∧ w + 14400000 < 1730613600000 then w + 14400000
      else w + 18000000 }

/-- The local wall clock of the time value `t`. -/
def Zone.wall (z : Zone) (t : Int) : Int := t + z.offset t

/-- The decimal digit `n % 10` as a character. -/
def digitChar (n : Nat) : Char := Char.ofNat (48 + n % 10)

/-- A number below 100 in two digits. -/
def twoDigits (n : Nat) : Str := [digitChar (n / 10), digitChar n]

/-- The token `yyyy`: at least four digits. -/
def yearDigits (n : Nat) : Str :=
  if n < 10000 then [digitChar (n / 1000), digitChar (n / 100), digitChar (n / 10), digitChar n]
  else (Nat.repr n).toList

/-- `format(date, 'yyyy-MM-dd')` for the valid date of time value `t`: the
local calendar day.  The token `yyyy` prints the year of the era, 1 for the
year 0. -/
def formatDate (z : Zone) (t : Int) : Str :=
  let ymd := civilFromDays (z.wall t / msPerDay)
  let eraYear := if ymd.1 > 0 then ymd.1 else 1 - ymd.1
  yearDigits eraYear.toNat ++ '-' :: twoDigits ymd.2.1.toNat ++ '-' :: twoDigits ymd.2.2.toNat

/-- `new Date(s).getTime()` for a date-only text `YYYY-MM-DD`: midnight UTC of
that day.  A text of another shape, or one that names no day of the calendar,
is not produced by `format` for the years 1 to 9999; the value for it is
`none`, an Invalid Date. -/
def newDate (s : Str) : Option Int :=
  match s with
  | [y1, y2, y3, y4, '-', m1, m2, '-', d1, d2] =>
    if [y1, y2, y3, y4, m1, m2, d1, d2].all isDigit then
      let y : Int := parseInt [y1, y2, y3, y4]
      let m : Int := parseInt [m1, m2]
      let d : Int := parseInt [d1, d2]
      if 1 ≤ m ∧ m ≤ 12 ∧ 1 ≤ d ∧ civilFromDays (daysFromCivil y m d) = (y, m, d) then
        some (daysFromCivil y m d * msPerDay)
      else none
    else none
  | _ => none

/-- The sign of `a - b`. -/
def compareInt (a b : Int) : Int :=
  if a < b then -1 else if a > b then 1 else 0

/-- `differenceInDays(left, right)` of date-fns: the number of full days
between the two dates on the local wall clock; `NaN` when a date is invalid.
The calendar-day difference is lowered by one when the last day is not
full. -/
def differenceInDays (z : Zone) (left right : Option Int) : Option Int :=
  match left, right with
  | some l, some r =>
    let wl := z.wall l
    let wr := z.wall r
    let sign := compareInt wl wr
    let difference := (wl / msPerDay - wr / msPerDay).natAbs
    let moved := z.wall (z.toUTC (wl - sign * difference * msPerDay))
    let isLastDayNotFull : Int := if compareInt moved wr = -sign then 1 else 0
    some (sign * (difference - isLastDayNotFull))
  | _, _ => none

/-- `startOfDay(t)`: the time value of the local midnight before `t`. -/
def startOfDay (z : Zone) (t : Int) : Int :=
  z.toUTC (z.wall t / msPerDay * msPerDay)

/-- The loop of `eachDayOfInterval`: from the local midnight `current`, one
day at a time (`setDate(getDate() + 1)`, `setHours(0, 0, 0, 0)`) while the
date is not after `endTime`. -/
def eachDayLoop (z : Zone) (endTime : Int) : Nat → Int → List Int
  | 0, _ => []
  | fuel + 1, current =>
    if current ≤ endTime then
      current :: eachDayLoop z endTime fuel (startOfDay z (z.toUTC (z.wall current + msPerDay)))
    else []

/-- `eachDayOfInterval` for the interval from `start` to `end`: the local midnights of the days from
the day of `start` to the day of `end`; `none` is the RangeError for an
interval that does not have a valid start at or before a valid end.  The fuel
covers every day of the interval in a zone whose days last 23 hours or more. -/
def eachDayOfInterval (z : Zone) (start finish : Option Int) : Option (List Int) :=
  match start, finish with
  | some s, some e =>
    if s ≤ e then some (eachDayLoop z e (((e - s) / 82800000).toNat + 2) (startOfDay z s))
    else none
  | _, _ => none

/-- The UTF-16 code units of a text. -/
def codeUnits : Str → List Nat
  | [] => []
  | c :: cs =>
    if c.toNat < 65536 then c.toNat :: codeUnits cs
    else (55296 + (c.toNat - 65536) / 1024) :: (56320 + (c.toNat - 65536) % 1024) :: codeUnits cs

/-- Lexicographic order of code-unit sequences. -/
def unitsLE : List Nat → List Nat → Bool
  | [], _ => true
  | _ :: _, [] => false
  | a :: as, b :: bs => if a < b then true else if b < a then false else unitsLE as bs

/-- `keys.sort()`: the default order of `Array.prototype.sort`, by code units. -/
def sortKeys (keys : List Str) : List Str :=
  keys.insertionSort (fun a b => unitsLE (codeUnits a) (codeUnits b) = true)

/-! ## The timeline, the heat map and the streaks -/

/-- A value of a property of a timeline entry: a count, `NaN`, or the text of
the property `date`. -/
inductive Cell where
  | num (n : Nat)
  | nan
  | text (s : Str)
deriving DecidableEq, Repr

/-- A timeline entry: its own properties in creation order, `date` first. -/
abbrev DataPoint := Props Cell

/-- The values that are falsy. -/
def Cell.falsy : Cell → Bool
  | .num n => n == 0
  | .nan => true
  | .text s => s.isEmpty

/-- The test `!dataPoint[k]`: an own property decides by its value, a property
inherited from `Object.prototype` is truthy, a key that is not found is
`undefined`. -/
def DataPoint.missing (dp : DataPoint) (k : Str) : Bool :=
  match dp.get k with
  | some c => c.falsy
  | none => !(objectPrototypeKeys.contains k)

/-- The assignment `dataPoint[k] = 0`; the inherited setter of `__proto__`
ignores a number. -/
def DataPoint.setZero (dp : DataPoint) (k : Str) : DataPoint :=
  if k = protoKey then dp else dp.set k (.num 0)

/-- The statement `dataPoint[k]++`.  A count goes up by one.  A text becomes
`NaN` (the texts here are date keys, which are no numerals; the empty text
counts as 0), and so does an inherited function, which leaves an own property
`NaN` behind, except for `__proto__`, whose setter ignores it. -/
def DataPoint.incr (dp : DataPoint) (k : Str) : DataPoint :=
  match dp.get k with
  | some (.num n) => dp.set k (.num (n + 1))
  | some .nan => dp.set k .nan
  | some (.text s) => if s.isEmpty then dp.set k (.num 1) else dp.set k .nan
  | none => if k = protoKey then dp else dp.set k .nan

/-- The two statements on a timeline entry for a message of `sender`:
`if (!entry[sender]) entry[sender] = 0; entry[sender]++`. -/
def DataPoint.bump (dp : DataPoint) (sender : Str) : DataPoint :=
  (if dp.missing sender then dp.setZero sender else dp).incr sender

/-- The entry whose only property is `date`, with the value `key`. -/
def DataPoint.new (key : Str) : DataPoint := [("date".toList, .text key)]

/-- Section C of the loop body for one message, on `timelineMap` and
`heatmapData`; `none` is the RangeError of `format` for an invalid date.  The
keys of both tables are results of `format`: they begin with a digit, so none
is a property name of `Object.prototype`, and they hold the character `-`, so
none is an array index. -/
def timelineStep (z : Zone) (tables : Props DataPoint × Props Nat) (msg : Msg) :
    Option (Props DataPoint × Props Nat) :=
  match msg.timestamp with
  | none => none
  | some t =>
    let dateKey := formatDate z t
    let entry := (tables.1.get dateKey).getD (DataPoint.new dateKey)
    some (tables.1.set dateKey (entry.bump msg.sender),
      tables.2.set dateKey ((tables.2.get dateKey).getD 0 + 1))

/-- Section C over the filtered sequence. -/
def timelineTables (z : Zone) : Props DataPoint × Props Nat → List Msg →
    Option (Props DataPoint × Props Nat)
  | tables, [] => some tables
  | tables, msg :: rest =>
    match timelineStep z tables msg with
    | none => none
    | some tables1 => timelineTables z tables1 rest

/-- The statement `selectedParticipants.forEach(p => ...)` of step 1 on one entry:
`if (!dataPoint[p]) dataPoint[p] = 0`. -/
def fillZeros (selectedParticipants : List Str) (dp : DataPoint) : DataPoint :=
  selectedParticipants.foldl (fun dp p => if dp.missing p then dp.setZero p else dp) dp

/-- Step 1 of the post-processing, `finalTimeline`; `none` is the RangeError
of `eachDayOfInterval`. -/
def finalTimeline (z : Zone) (selectedParticipants : List Str) (timelineMap : Props DataPoint) :
    Option (List DataPoint) :=
  let sortedDates := sortKeys (timelineMap.entries.map Prod.fst)
  match sortedDates.head?, sortedDates.getLast? with
  | some first, some last =>
    match eachDayOfInterval z (newDate first) (newDate last) with
    | none => none
    | some allDays =>
      some (allDays.map (fun day =>
        fillZeros selectedParticipants
          ((timelineMap.get (formatDate z day)).getD (DataPoint.new (formatDate z day)))))
  | _, _ => some []

/-- The variables of step 4; `lastDate` is `none` for `null`, and a date may
be invalid. -/
structure StreakState where
  longestStreak : Nat
  currentStreak : Nat
  tempStreak : Nat
  lastDate : Option (Option Int)
deriving DecidableEq, Repr

/-- The callback of `activeDates.forEach` for the key `dateStr`; `isLast`
tells whether it is the last key. -/
def streakStep (z : Zone) (now : Int) (st : StreakState) (dateStr : Str) (isLast : Bool) :
    StreakState :=
  let currentDate := newDate dateStr
  let continues : Bool :=
    match st.lastDate with
    | some lastDate => differenceInDays z currentDate lastDate == some 1
    | none => false
  let st1 : StreakState :=
    if continues then { st with tempStreak := st.tempStreak + 1, lastDate := some currentDate }
    else
      { st with
        longestStreak := max st.longestStreak st.tempStreak
        tempStreak := 1
        lastDate := some currentDate }
  if isLast then
    match differenceInDays z (some now) currentDate with
    | some diffToNow => if diffToNow ≤ 1 then { st1 with currentStreak := st1.tempStreak } else st1
    | none => st1
  else st1

/-- The loop `activeDates.forEach`. -/
def streakLoop (z : Zone) (now : Int) : StreakState → List Str → StreakState
  | st, [] => st
  | st, dateStr :: rest => streakLoop z now (streakStep z now st dateStr rest.isEmpty) rest

/-- Step 4 of the post-processing: the pair of `longestStreak` and
`currentStreak` for the heat map table. -/
def streaks (z : Zone) (now : Int) (heatmapData : Props Nat) : Nat × Nat :=
  let st := streakLoop z now
    { longestStreak := 0, currentStreak := 0, tempStreak := 0, lastDate := none }
    (sortKeys (heatmapData.entries.map Prod.fst))
  (max st.longestStreak st.tempStreak, st.currentStreak)

/-- The field `timeline` of the result for a filtered sequence; `none` is a
RangeError. -/
def timelineOf (z : Zone) (selectedParticipants : List Str) (filtered : List Msg) :
    Option (List DataPoint) :=
  match timelineTables z ([], []) filtered with
  | none => none
  | some tables => finalTimeline z selectedParticipants tables.1

/-- The field `streaks` of the result for a filtered sequence, as the pair of
`longest` and `current`; `none` is a RangeError. -/
def streaksOf (z : Zone) (now : Int) (filtered : List Msg) : Option (Nat × Nat) :=
  match timelineTables z ([], []) filtered with
  | none => none
  | some tables => some (streaks z now tables.2)

/-- A message of `sender` at `hour` o'clock UTC of the day `y-m-d`. -/
def msgAt (sender : Str) (y m d hour : Int) : Msg :=
  { timestamp := some (daysFromCivil y m d * msPerDay + hour * 3600000)
    sender := sender
    content := []
    isMedia := false
    isDeleted := false
    isEdited := false
    linkCount := 0
    emojis := []
    charCount := 0
    wordCount := 0
    words := [] }

/-! ## The milestone and the heat map array -/

/-- `Math.ceil(n / 5000) * 5000` for an array length `n`; the quotient of two
such integers is computed exactly enough for `Math.ceil` to give the ceiling
of the true quotient. -/
def nextMilestone (n : Nat) : Nat := (n + 4999) / 5000 * 5000

/-- The field `milestone` of the result. -/
structure Milestone where
  next : Nat
  current : Nat
deriving DecidableEq, Repr

/-- The field `milestone` for the filtered sequence:
`next: nextMilestone, current: filteredMessages.length`. -/
def milestone (filtered : List Msg) : Milestone :=
  { next := nextMilestone filtered.length, current := filtered.length }

/-- `count > 100 ? 4 : count > 50 ? 3 : count > 20 ? 2 : count > 0 ? 1 : 0`. -/
def heatLevel (count : Nat) : Nat :=
  if count > 100 then 4 else if count > 50 then 3 else if count > 20 then 2
  else if count > 0 then 1 else 0

/-- A cell of the heat map array. -/
structure HeatCell where
  date : Str
  count : Nat
  level : Nat
deriving DecidableEq, Repr

/-- `subDays(t, n)` of date-fns: `setDate(getDate() - n)`, the same wall clock
`n` days earlier. -/
def subDays (z : Zone) (t : Int) (n : Int) : Int :=
  z.toUTC (z.wall t - n * msPerDay)

/-- The callback of `heatmapRange.forEach` for the day `date`: the key is the
local date, the count is `heatmapData[k] || 0`. -/
def heatCell (z : Zone) (heatmapData : Props Nat) (date : Int) : HeatCell :=
  { date := formatDate z date
    count := (heatmapData.get (formatDate z date)).getD 0
    level := heatLevel ((heatmapData.get (formatDate z date)).getD 0) }

/-- Step 7 of the post-processing, `heatmapArray`: one cell for each day that
`eachDayOfInterval` lists from `subDays(now, 365)` to `now`; `none` is a
RangeError. -/
def heatmapArray (z : Zone) (now : Int) (heatmapData : Props Nat) : Option (List HeatCell) :=
  (eachDayOfInterval z (some (subDays z now 365)) (some now)).map
    (fun range => range.map (heatCell z heatmapData))

/-- The field `heatmapData` of the result for a filtered sequence; `none` is a
RangeError. -/
def heatmapOf (z : Zone) (now : Int) (filtered : List Msg) : Option (List HeatCell) :=
  match timelineTables z ([], []) filtered with
  | none => none
  | some tables => heatmapArray z now tables.2

/-- The local day number of the time value `t`: whole days of the wall clock
since 1970-01-01. -/
def dayNumber (z : Zone) (t : Int) : Int := z.wall t / msPerDay

/-- The text `yyyy-MM-dd` of the day number `d`. -/
def dateOfDay (d : Int) : Str := formatDate Zone.utc (d * msPerDay)

/-- The key of a message in the timeline and heat map tables. -/
def dateKeyOf (z : Zone) (msg : Msg) : Option Str := msg.timestamp.map (formatDate z)

/-- The local midnights of the `n` days from the day number `d` on, in a zone
`off` milliseconds east of Greenwich. -/
def localMidnights (off d : Int) (n : Nat) : List Int :=
  (List.range n).map (fun (i : Nat) => (d + (i : Int)) * msPerDay - off)

/-- A message of `sender` sent `ms` milliseconds after 2024-01-01T12:00:00Z,
without words or emoji. -/
def msgAfter (sender : Str) (ms : Int) : Msg :=
  { mkMsg sender 0 [] [] with timestamp := some (1704110400000 + ms) }

/-! ## Gaps between consecutive messages -/

/-- The whole minutes, as `differenceInMinutes` gives them, between each
message of the list and the one before it, the first one following `prev`. -/
def gapsAfter (prev : Msg) : List Msg → List (Option Int)
  | [] => []
  | m :: rest => differenceInMinutes m.timestamp prev.timestamp :: gapsAfter m rest

/-- The gaps of a sequence: one for each message other than the first. -/
def gapMinutes : List Msg → List (Option Int)
  | [] => []
  | m :: rest => gapsAfter m rest

/-- The gaps of the messages that follow `last`, when there is one. -/
def gapsFrom (last : Option Msg) (msgs : List Msg) : List (Option Int) :=
  match last with
  | some l => gapsAfter l msgs
  | none => gapMinutes msgs

/-- The number of gaps above 240 minutes. -/
def longGaps (gaps : List (Option Int)) : Nat :=
  (gaps.filter (fun g => jsGT g 240)).length

/-- The number of gaps below 5 minutes. -/
def shortGaps (gaps : List (Option Int)) : Nat :=
  (gaps.filter (fun g => !jsGT g 240 && jsLT g 5)).length

/-- The number of gaps from 5 to 240 minutes. -/
def middleGaps (gaps : List (Option Int)) : Nat :=
  (gaps.filter (fun g => !jsGT g 240 && !jsLT g 5)).length

/-- Three messages of A, at minutes 0, 2 and 300. -/
def soloExample : List Msg :=
  [mkMsg "A".toList 0 [] [], mkMsg "A".toList 2 [] [], mkMsg "A".toList 300 [] []]

/-- The result object for `soloExample` with A selected. -/
def soloExampleResult : StatsResult :=
  { totalMessages := 3
    participantStats := [{ ParticipantStat.init "A".toList with messages := 3, doubleTexts := 1 }]
    replyStats := [{ name := "A".toList, avgMinutes := some 0 }]
    starters := [("A".toList, 1)]
    topEmojis := []
    topWords := []
    awards :=
      awards [{ name := "A".toList, avgMinutes := some 0 }]
        [{ ParticipantStat.init "A".toList with messages := 3, doubleTexts := 1 }]
        [("A".toList, 1)] }

/-! ## Notions of the specification about participants and blocks of lines -/

/-- The sender of a header line whose sender holds no system-event phrase;
`none` for a system header line and for a line that is no header. -/
def headerSender (line : Str) : Option Str :=
  match matchHeader (trim (removeMarks line)) with
  | some h => if isSystemSender (trim h.senderRaw) then none else some (trim h.senderRaw)
  | none => none

/-- The senders of the non-system header lines of the text, in order, with
repetitions. -/
def headerSenders (fileContent : Str) : List Str :=
  (splitLines fileContent).filterMap headerSender

/-- The names of a list in order of first appearance, each once. -/
def firstSeen : List Str → List Str
  | [] => []
  | x :: xs => x :: (firstSeen xs).filter (fun y => decide (y ≠ x))

/-- The text `b` and the lines `ls`, joined by line breaks. -/
def joinLines (b : Str) (ls : List Str) : Str :=
  ls.foldl (fun acc l => acc ++ '\n' :: l) b

/-- A line after the cleaning of `parseChat`: marks removed, trimmed. -/
def cleanLine (line : Str) : Str := trim (removeMarks line)

/-- The message that a header match `h` and the cleaned continuation lines
`cls` build when the header line is read with `EMOJI_REGEX.lastIndex` at
`lastIndex`: the object of the header line, extended by each line in turn. -/
def blockMessage (host : Host) (lastIndex : Nat) (h : HeaderMatch) (cls : List Str) : Msg :=
  cls.foldl (fun m cl => appendLine m cl (extractWords host 0 cl).1)
    (newMessage host lastIndex h.dateStr h.timeStr (trim h.senderRaw) (trim h.contentRaw))

/-! ## Notions of the specification about the emoji table -/

/-- The number of occurrences of the glyph `e` in the emoji sequences of the
messages. -/
def emojiOccurrences (e : Str) (msgs : List Msg) : Nat :=
  (msgs.map (fun m => m.emojis.count e)).sum

/-- The total of the key `e` in a frequency table, 0 when the table has no
such entry. -/
def totalOf (map : Props FreqEntry) (e : Str) : Nat :=
  ((map.get e).map (fun x => x.total)).getD 0

/-- The sum of the totals of a frequency table. -/
def totalSum (map : Props FreqEntry) : Nat :=
  (map.map (fun kv => kv.2.total)).sum

/-! ## Notions of the specification about the word filter -/

/-- The tokens of a line before the filter: lower-case, URLs and punctuation
removed, split on white space. -/
def lineTokens (host : Host) (line : Str) : List Str :=
  splitWs (removePunct (removeUrls (host.toLowerCase line)))

/-- The token holds a code point of the emoji pattern. -/
def hasEmoji (w : Str) : Bool := w.any isEmoji

/-! ## The histograms of `useAdvancedStats`

`hourlyData`, `weekdayData` and `peakActivityMatrix` are arrays made before
the loop; section B of the loop body bumps one cell of each for every message
that has a record.  The hour comes from `getHours` and the day of the week
from `getDay` of date-fns, which give 0 to 23 and 0 to 6 for a valid date.
An array of counter objects is kept as the list of its counts. -/

/-- `table[i].count++`, or `row[i]++` on a row of the matrix; `none` is the
TypeError for an index outside the array. -/
def bumpAt (table : List Nat) (i : Nat) : Option (List Nat) :=
  if i < table.length then some (table.set i (table.getD i 0 + 1)) else none

/-- The three arrays. -/
structure Histograms where
  hourlyData : List Nat
  weekdayData : List Nat
  peakActivityMatrix : List (List Nat)
deriving DecidableEq, Repr

/-- The arrays before the loop: 24 hours, 7 days, 7 rows of 24 cells. -/
def Histograms.init : Histograms :=
  { hourlyData := List.replicate 24 0
    weekdayData := List.replicate 7 0
    peakActivityMatrix := List.replicate 7 (List.replicate 24 0) }

/-- `peakActivityMatrix[day][hour]++`; the statement is reached with an hour
and a day for which the two statements before it did not throw. -/
def bumpCell (matrix : List (List Nat)) (day hour : Nat) : Option (List (List Nat)) :=
  if day < matrix.length then
    match bumpAt (matrix.getD day []) hour with
    | some row => some (matrix.set day row)
    | none => none
  else none

/-- Section B of the loop body for one message: `hourlyData[hour].count++`,
`weekdayData[day].count++`, `peakActivityMatrix[day][hour]++`, not reached for
a message without a record (`if (!p) return`); `none` is a TypeError, thrown
for an invalid date. -/
def histStep (getHours getDay : Int → Nat) (hasRecord : Str → Bool) (h : Histograms)
    (msg : Msg) : Option Histograms :=
  if hasRecord msg.sender then
    match msg.timestamp with
    | none => none
    | some t =>
      match bumpAt h.hourlyData (getHours t) with
      | none => none
      | some hourly =>
        match bumpAt h.weekdayData (getDay t) with
        | none => none
        | some weekday =>
          match bumpCell h.peakActivityMatrix (getDay t) (getHours t) with
          | none => none
          | some matrix =>
            some { hourlyData := hourly, weekdayData := weekday, peakActivityMatrix := matrix }
  else some h

/-- Section B over a sequence of messages. -/
def histLoop (getHours getDay : Int → Nat) (hasRecord : Str → Bool) :
    Histograms → List Msg → Option Histograms
  | h, [] => some h
  | h, msg :: rest =>
    match histStep getHours getDay hasRecord h msg with
    | none => none
    | some h1 => histLoop getHours getDay hasRecord h1 rest

/-- The histograms after the loop over the filtered sequence.  The senders
that have a record are those of the table made before the loop: the loop adds
no key to `participantStats` and removes none. -/
def histograms (fns : DateFns) (getDay : Int → Nat) (selectedParticipants : List Str)
    (filtered : List Msg) : Option Histograms :=
  histLoop fns.getHours getDay
    (fun sender => ((Acc.init selectedParticipants).participantStats.get sender).isSome)
    Histograms.init filtered

/-! ## The hook `useChatAnalytics` -/

/-- A record of `participantStats` in `useChatAnalytics`. -/
structure BasicStat where
  name : Str
  messages : Nat
  words : Nat
  media : Nat
deriving DecidableEq, Repr

/-- The filter stage of `useChatAnalytics`: as in `useAdvancedStats`, without
the sort. -/
def basicFiltered (fns : DateFns) (rawMessages : Option (List Msg)) (timeFilter : Str)
    (selectedParticipants : List Str) : List Msg :=
  match rawMessages with
  | none => []
  | some messages =>
    messages.filter (fun msg =>
      dateGE msg.timestamp (startDate fns timeFilter) && selectedParticipants.contains msg.sender)

/-- The participant statements of the loop body: the record is made when
`participantStats[msg.sender]` is falsy, then `messages++`,
`words += msg.wordCount` and `media++` for a media message.  For a sender
that is a property name of `Object.prototype` the lookup finds the inherited
value, no record is made, and the three statements write on that value: the
table does not change. -/
def basicBump (table : Props BasicStat) (msg : Msg) : Props BasicStat :=
  match table.get msg.sender with
  | some p =>
    table.set msg.sender
      { p with
        messages := p.messages + 1
        words := p.words + msg.wordCount
        media := p.media + (if msg.isMedia then 1 else 0) }
  | none =>
    if msg.sender ∈ objectPrototypeKeys then table
    else
      table.set msg.sender
        { name := msg.sender
          messages := 1
          words := msg.wordCount
          media := if msg.isMedia then 1 else 0 }

/-- The state of the loop of `useChatAnalytics`; the timeline table takes no
part in the statements below and does not throw on a valid date. -/
structure BasicAcc where
  participantStats : Props BasicStat
  hourlyData : List Nat
  weekdayData : List Nat
  totalWords : Nat
  totalMedia : Nat
deriving DecidableEq, Repr

/-- The loop body of `useChatAnalytics` for one message; `none` is a
TypeError, thrown for an invalid date. -/
def basicStep (getHours getDay : Int → Nat) (acc : BasicAcc) (msg : Msg) : Option BasicAcc :=
  match msg.timestamp with
  | none => none
  | some t =>
    match bumpAt acc.hourlyData (getHours t) with
    | none => none
    | some hourly =>
      match bumpAt acc.weekdayData (getDay t) with
      | none => none
      | some weekday =>
        some { participantStats := basicBump acc.participantStats msg
               hourlyData := hourly
               weekdayData := weekday
               totalWords := acc.totalWords + msg.wordCount
               totalMedia := acc.totalMedia + (if msg.isMedia then 1 else 0) }

/-- The loop of `useChatAnalytics`. -/
def basicLoop (getHours getDay : Int → Nat) : BasicAcc → List Msg → Option BasicAcc
  | acc, [] => some acc
  | acc, msg :: rest =>
    match basicStep getHours getDay acc msg with
    | none => none
    | some acc1 => basicLoop getHours getDay acc1 rest

/-- The result object of `useChatAnalytics`, without `timelineArray`. -/
structure BasicResult where
  totalMessages : Nat
  totalWords : Nat
  totalMedia : Nat
  participantStats : List BasicStat
  hourlyData : List Nat
  weekdayData : List Nat
deriving DecidableEq, Repr

/-- What `useChatAnalytics` gives: a TypeError, `null`, or the result object. -/
inductive BasicStats where
  | typeError
  | null
  | result (r : BasicResult)
deriving DecidableEq, Repr

/-- `useChatAnalytics(rawMessages, timeFilter, selectedParticipants)`. -/
def useChatAnalytics (fns : DateFns) (getDay : Int → Nat) (rawMessages : Option (List Msg))
    (timeFilter : Str) (selectedParticipants : List Str) : BasicStats :=
  let filtered := basicFiltered fns rawMessages timeFilter selectedParticipants
  if filtered.isEmpty then .null
  else
    match basicLoop fns.getHours getDay
        { participantStats := [], hourlyData := List.replicate 24 0,
          weekdayData := List.replicate 7 0, totalWords := 0, totalMedia := 0 } filtered with
    | none => .typeError
    | some acc =>
      .result
        { totalMessages := filtered.length
          totalWords := acc.totalWords
          totalMedia := acc.totalMedia
          participantStats :=
            sortDesc (fun p => some (p.messages : Int))
              (acc.participantStats.entries.map (fun kv => kv.2))
          hourlyData := acc.hourlyData
          weekdayData := acc.weekdayData }

/-- The day of the week in UTC, 0 for Sunday: 1970-01-01 was a Thursday. -/
def refGetDay (t : Int) : Nat := ((t / 86400000 + 4) % 7).toNat

/-- The result object of the basic hook, if there is one. -/
def BasicStats.toOption : BasicStats → Option BasicResult
  | .result r => some r
  | _ => none

/-! ## Keyword counting -/

/-- The number of tokens from `keywords` that pass the length test `valid`, in
the non-media messages of `sender`. -/
def keywordHits (valid : Str → Bool) (keywords : List Str) (sender : Str) (msgs : List Msg) : Nat :=
  (msgs.map (fun m =>
    if m.sender = sender ∧ m.isMedia = false then
      (m.words.filter (fun w => valid w && decide (w ∈ keywords))).length
    else 0)).sum

/-- The number of tokens of length `n` from `keywords` in the non-media
messages of `sender`. -/
def exactHits (n : Nat) (keywords : List Str) (sender : Str) (msgs : List Msg) : Nat :=
  keywordHits (fun w => jsLength w == n) keywords sender msgs

/-- A laughing message of A and an apology of B. -/
def laughExample : List Msg :=
  [mkMsg "A".toList 0 ["haha".toList, "lol".toList, "hehe".toList] [],
   mkMsg "B".toList 1 ["sorry".toList, "lmao".toList] []]

/-- The records of A and B after the pass over `laughExample` with
`targetWordLength` 5. -/
def laughExampleRecords : List ParticipantStat :=
  [{ ParticipantStat.init "A".toList with messages := 1 },
   { ParticipantStat.init "B".toList with messages := 1, words := 1, neg := 1, sorryCount := 1 }]

/-- The result object for `laughExample` with A and B selected and
`targetWordLength` 5. -/
def laughExampleResult : StatsResult :=
  { totalMessages := 2
    participantStats := laughExampleRecords
    replyStats :=
      [{ name := "B".toList, avgMinutes := some 1 }, { name := "A".toList, avgMinutes := some 0 }]
    starters := [("A".toList, 0), ("B".toList, 0)]
    topEmojis := []
    topWords :=
      [{ key := "sorry".toList, total := 1, breakdown := [("B".toList, Tally.count 1)] }]
    awards :=
      awards
        [{ name := "B".toList, avgMinutes := some 1 }, { name := "A".toList, avgMinutes := some 0 }]
        laughExampleRecords [("A".toList, 0), ("B".toList, 0)] }

/-- The counts of the three histograms add up to `n` messages: the arrays have
24, 7 and 7 times 24 cells; each of them sums to `n`; row `d` of the matrix
sums to the count of weekday `d` and column `hr` to the count of hour `hr`. -/
def Histograms.Conserved (h : Histograms) (n : Nat) : Prop :=
  h.hourlyData.length = 24 ∧ h.weekdayData.length = 7 ∧ h.peakActivityMatrix.length = 7 ∧
  (∀ d < 7, (h.peakActivityMatrix.getD d []).length = 24) ∧
  h.hourlyData.sum = n ∧ h.weekdayData.sum = n ∧
  (h.peakActivityMatrix.map List.sum).sum = n ∧
  (∀ d < 7, (h.peakActivityMatrix.getD d []).sum = h.weekdayData.getD d 0) ∧
  (∀ hr < 24,
    (h.peakActivityMatrix.map (fun row => row.getD hr 0)).sum = h.hourlyData.getD hr 0)

/-- The message without its word list: every field but `words` and `wordCount`. -/
def Msg.withoutWords (m : Msg) : Msg := { m with words := [], wordCount := 0 }

/-! ## The filter stage in the words of the specification -/

/-- The start boundary of a window selector: the start of the current week,
month or year for `week`, `month` and `year`, the epoch for `all` and for any
other text. -/
def windowStart (fns : DateFns) (selector : Str) : Int :=
  if selector = "week".toList then fns.startOfWeekNow
  else if selector = "month".toList then fns.startOfMonthNow
  else if selector = "year".toList then fns.startOfYearNow
  else 0

/-- A message qualifies when its date is valid, its timestamp is at or after
the boundary and its sender is in the allow-list. -/
def qualifies (boundary : Int) (allowedSenders : List Str) (m : Msg) : Bool :=
  match m.timestamp with
  | some t => decide (t ≥ boundary) && decide (m.sender ∈ allowedSenders)
  | none => false

/-- Messages of X one millisecond before the start of the week of
`refDateFns` and at that start, of Z one millisecond after it, of Y at the
start of the month and year, and of X one millisecond before that. -/
def windowExample : List Msg :=
  [msgAfter "X".toList 31319999999, msgAfter "X".toList 31320000000,
   msgAfter "Z".toList 31320000001, msgAfter "X".toList 31579199999,
   msgAfter "Y".toList 31579200000]

/-! ## The texts a pattern matches -/

/-- `Re.Derives r s caps`: the pattern `r` matches the whole text `s`, and
`caps` are the texts captured by its groups, in order. -/
inductive Re.Derives : Re → Str → List Str → Prop
  | cls (p : Char → Bool) (c : Char) : p c = true → Re.Derives (.cls p) [c] []
  | seq (a b : Re) (s1 s2 : Str) (n1 n2 : List Str) :
      Re.Derives a s1 n1 → Re.Derives b s2 n2 → Re.Derives (.seq a b) (s1 ++ s2) (n1 ++ n2)
  | optSome (a : Re) (s : Str) (n : List Str) : Re.Derives a s n → Re.Derives (.opt a) s n
  | optNone (a : Re) : Re.Derives (.opt a) [] []
  | star (p : Char → Bool) (s : Str) : (∀ c ∈ s, p c = true) → Re.Derives (.star p) s []
  | group (a : Re) (s : Str) (n : List Str) :
      Re.Derives a s n → Re.Derives (.group a) s (n ++ [s])
  | eoi : Re.Derives .eoi [] []

/-- The pattern has no capture group. -/
def Re.groupless : Re → Bool
  | .cls _ => true
  | .seq a b => a.groupless && b.groupless
  | .opt a => a.groupless
  | .star _ => true
  | .group _ => false
  | .eoi => true

/-- No class of the pattern holds the character `x`. -/
def Re.excludes (x : Char) : Re → Bool
  | .cls p => !p x
  | .seq a b => a.excludes x && b.excludes x
  | .opt a => a.excludes x
  | .star p => !p x
  | .group a => a.excludes x
  | .eoi => true

/-! # Theorems -/

/-! ## The matcher only hands on pieces of its input -/

section Matcher

variable {α : Type} (q : Char → Prop)

theorem starRun_inv (p : Char → Bool) (s : Str) (k : Str → Option α) (r : α)
    (hs : ∀ c ∈ s, q c) (h : starRun p s k = some r) :
    ∃ s1, (∀ c ∈ s1, q c) ∧ k s1 = some r := by
  induction s with
  | nil => exact ⟨[], hs, h⟩
  | cons c cs ih =>
    unfold starRun at h
    split at h
    · split at h
      · next r1 h1 =>
        cases h
        exact ih (fun x hx => hs x (List.mem_cons_of_mem _ hx)) h1
      · exact ⟨c :: cs, hs, h⟩
    · exact ⟨c :: cs, hs, h⟩

theorem Re.run_inv (re : Re) : ∀ (s : Str) (caps : List Str) (k : Str → List Str → Option α) (r : α),
    (∀ c ∈ s, q c) → (∀ x ∈ caps, ∀ c ∈ x, q c) → Re.run re s caps k = some r →
    ∃ s1 caps1, (∀ c ∈ s1, q c) ∧ (∀ x ∈ caps1, ∀ c ∈ x, q c) ∧ k s1 caps1 = some r := by
  induction re with
  | cls p =>
    intro s caps k r hs hc h
    cases s with
    | nil => simp [Re.run] at h
    | cons c cs =>
      simp only [Re.run] at h
      split at h
      · exact ⟨cs, caps, fun x hx => hs x (List.mem_cons_of_mem _ hx), hc, h⟩
      · cases h
  | seq a b iha ihb =>
    intro s caps k r hs hc h
    simp only [Re.run] at h
    obtain ⟨s1, caps1, hs1, hc1, h1⟩ := iha s caps _ r hs hc h
    exact ihb s1 caps1 k r hs1 hc1 h1
  | opt a iha =>
    intro s caps k r hs hc h
    simp only [Re.run] at h
    split at h
    · next r1 h1 =>
      cases h
      exact iha s caps k _ hs hc h1
    · exact ⟨s, caps, hs, hc, h⟩
  | star p =>
    intro s caps k r hs hc h
    simp only [Re.run] at h
    obtain ⟨s1, hs1, h1⟩ := starRun_inv q p s _ r hs h
    exact ⟨s1, caps, hs1, hc, h1⟩
  | group a iha =>
    intro s caps k r hs hc h
    simp only [Re.run] at h
    obtain ⟨s1, caps1, hs1, hc1, h1⟩ := iha s caps _ r hs hc h
    refine ⟨s1, _, hs1, ?_, h1⟩
    intro x hx c hcx
    rcases List.mem_append.mp hx with hx | hx
    · exact hc1 x hx c hcx
    · simp only [List.mem_singleton] at hx
      subst hx
      exact hs c (List.mem_of_mem_take hcx)
  | eoi =>
    intro s caps k r hs hc h
    simp only [Re.run] at h
    split at h
    · exact ⟨s, caps, hs, hc, h⟩
    · cases h

theorem matchHeader_inv (cl : Str) (h : HeaderMatch) (hcl : ∀ c ∈ cl, q c)
    (hm : matchHeader cl = some h) :
    (∀ c ∈ h.dateStr, q c) ∧ (∀ c ∈ h.timeStr, q c) ∧ (∀ c ∈ h.senderRaw, q c) ∧
      (∀ c ∈ h.contentRaw, q c) := by
  unfold matchHeader at hm
  split at hm
  · next d t s c hrun =>
    cases hm
    obtain ⟨s1, caps1, -, hc1, h1⟩ :=
      Re.run_inv q headerRegex cl [] _ _ hcl (by simp) hrun
    cases h1
    exact ⟨hc1 _ (by simp), hc1 _ (by simp), hc1 _ (by simp), hc1 _ (by simp)⟩
  · cases hm

theorem trim_inv (s : Str) (hs : ∀ c ∈ s, q c) : ∀ c ∈ trim s, q c := by
  intro c hc
  unfold trim at hc
  rw [List.mem_reverse] at hc
  have h1 := (List.dropWhile_sublist _).mem hc
  rw [List.mem_reverse] at h1
  exact hs c ((List.dropWhile_sublist _).mem h1)

theorem removeMarks_inv (s : Str) (hs : ∀ c ∈ s, q c) : ∀ c ∈ removeMarks s, q c := by
  intro c hc
  exact hs c (List.mem_of_mem_filter hc)

end Matcher

theorem splitLinesAux_noNL (s : Str) : ∀ (cur : Str), (∀ c ∈ cur, c ≠ '\n') →
    ∀ l ∈ splitLinesAux cur s, ∀ c ∈ l, c ≠ '\n' := by
  induction s with
  | nil =>
    intro cur hcur l hl c hc
    simp only [splitLinesAux, List.mem_singleton] at hl
    subst hl
    exact hcur c (List.mem_reverse.mp hc)
  | cons a as ih =>
    intro cur hcur l hl c hc
    unfold splitLinesAux at hl
    split at hl
    · rcases List.mem_cons.mp hl with hl | hl
      · subst hl
        exact hcur c (List.mem_reverse.mp hc)
      · exact ih [] (by simp) l hl c hc
    · next hne =>
      refine ih (a :: cur) ?_ l hl c hc
      intro x hx
      rcases List.mem_cons.mp hx with hx | hx
      · subst hx; exact hne
      · exact hcur x hx

theorem splitLines_noNL (s : Str) : ∀ l ∈ splitLines s, ∀ c ∈ l, c ≠ '\n' :=
  splitLinesAux_noNL s [] (by simp)

/-! ## A property of every message built by the parser -/

theorem parseLine_all (P : Msg → Prop) (host : Host)
    (hnew : ∀ (li : Nat) (cl : Str) (h : HeaderMatch), (∀ c ∈ cl, c ≠ '\n') →
      matchHeader cl = some h →
      P (newMessage host li h.dateStr h.timeStr (trim h.senderRaw) (trim h.contentRaw)))
    (happ : ∀ (m : Msg) (cl : Str) (w : List Str), (∀ c ∈ cl, c ≠ '\n') → P m →
      P (appendLine m cl w))
    (st : ParserState) (line : Str) (hline : ∀ c ∈ line, c ≠ '\n')
    (h1 : ∀ m ∈ st.messages, P m) (h2 : ∀ m, st.currentMsg = some m → P m) :
    (∀ m ∈ (parseLine host st line).messages, P m) ∧
      (∀ m, (parseLine host st line).currentMsg = some m → P m) := by
  have hcl : ∀ c ∈ trim (removeMarks line), c ≠ '\n' :=
    trim_inv _ _ (removeMarks_inv _ _ hline)
  unfold parseLine
  simp only
  split
  · exact ⟨h1, h2⟩
  · split
    · next h hm =>
      split
      · -- system header: the state keeps its messages and its current message
        cases hcur : st.currentMsg with
        | none =>
          refine ⟨h1, ?_⟩
          intro m hm1
          exact h2 m (hcur ▸ hm1)
        | some m0 =>
          refine ⟨h1, ?_⟩
          intro m hm1
          simp only [Option.some.injEq] at hm1
          exact h2 m (by rw [hcur, hm1])
      · refine ⟨?_, ?_⟩
        · intro m hm1
          simp only [List.mem_append] at hm1
          rcases hm1 with hm1 | hm1
          · cases hcur : st.currentMsg with
            | none => rw [hcur] at hm1; exact h1 m hm1
            | some m0 => rw [hcur] at hm1; exact h1 m hm1
          · cases hcur : st.currentMsg with
            | none => simp [ParserState.aliases, hcur] at hm1
            | some m0 =>
              simp only [ParserState.aliases, hcur] at hm1
              rw [List.eq_of_mem_replicate hm1]
              exact h2 m0 hcur
        · intro m hm1
          simp only [Option.some.injEq] at hm1
          subst hm1
          exact hnew _ _ h hcl hm
    · split
      · next m0 hcur =>
        refine ⟨h1, ?_⟩
        intro m hm1
        simp only [Option.some.injEq] at hm1
        subst hm1
        exact happ m0 _ _ hcl (h2 m0 hcur)
      · exact ⟨h1, h2⟩

theorem foldl_parseLine_all (P : Msg → Prop) (host : Host)
    (hnew : ∀ (li : Nat) (cl : Str) (h : HeaderMatch), (∀ c ∈ cl, c ≠ '\n') →
      matchHeader cl = some h →
      P (newMessage host li h.dateStr h.timeStr (trim h.senderRaw) (trim h.contentRaw)))
    (happ : ∀ (m : Msg) (cl : Str) (w : List Str), (∀ c ∈ cl, c ≠ '\n') → P m →
      P (appendLine m cl w))
    (lines : List Str) : ∀ (st : ParserState), (∀ l ∈ lines, ∀ c ∈ l, c ≠ '\n') →
    (∀ m ∈ st.messages, P m) → (∀ m, st.currentMsg = some m → P m) →
    (∀ m ∈ (lines.foldl (parseLine host) st).messages, P m) ∧
      (∀ m, (lines.foldl (parseLine host) st).currentMsg = some m → P m) := by
  induction lines with
  | nil => intro st _ h1 h2; exact ⟨h1, h2⟩
  | cons l ls ih =>
    intro st hl h1 h2
    have hstep := parseLine_all P host hnew happ st l (hl l (List.mem_cons_self _ _)) h1 h2
    exact ih _ (fun x hx => hl x (List.mem_cons_of_mem _ hx)) hstep.1 hstep.2

theorem flush_all (P : Msg → Prop) (st : ParserState)
    (h1 : ∀ m ∈ st.messages, P m) (h2 : ∀ m, st.currentMsg = some m → P m) :
    ∀ m ∈ st.flush, P m := by
  intro m hm
  unfold ParserState.flush at hm
  split at hm
  · next m0 hcur =>
    rcases List.mem_append.mp hm with hm | hm
    · exact h1 m hm
    · rw [List.eq_of_mem_replicate hm]; exact h2 m0 hcur
  · exact h1 m hm

theorem mem_sortByTimestamp (l : List Msg) (m : Msg) : m ∈ sortByTimestamp l ↔ m ∈ l :=
  (List.perm_insertionSort tsLE l).mem_iff

theorem parseChat_all (P : Msg → Prop) (host : Host)
    (hnew : ∀ (li : Nat) (cl : Str) (h : HeaderMatch), (∀ c ∈ cl, c ≠ '\n') →
      matchHeader cl = some h →
      P (newMessage host li h.dateStr h.timeStr (trim h.senderRaw) (trim h.contentRaw)))
    (happ : ∀ (m : Msg) (cl : Str) (w : List Str), (∀ c ∈ cl, c ≠ '\n') → P m →
      P (appendLine m cl w))
    (lastIndex : Nat) (fileContent : Str) :
    ∀ m ∈ (parseChat host lastIndex fileContent).messages, P m := by
  intro m hm
  simp only [parseChat, mem_sortByTimestamp] at hm
  have h := foldl_parseLine_all P host hnew happ (splitLines fileContent)
    (ParserState.init lastIndex) (splitLines_noNL fileContent)
    (by simp [ParserState.init]) (by simp [ParserState.init])
  exact flush_all P _ h.1 h.2 m hm

theorem jsLength_append (a b : Str) : jsLength (a ++ b) = jsLength a + jsLength b := by
  induction a with
  | nil => simp [jsLength]
  | cons c cs ih => simp [jsLength, ih, Nat.add_assoc]

/-- C4. For every host, every `lastIndex` and every input text, each message
returned by `parseChat` has `wordCount` equal to the number of elements of
`words`, whatever number of continuation lines was appended. -/
theorem parseChat_wordCount_eq_length (host : Host) (lastIndex : Nat) (fileContent : Str) :
    ∀ m ∈ (parseChat host lastIndex fileContent).messages, m.wordCount = m.words.length := by
  apply parseChat_all (fun m => m.wordCount = m.words.length) host
  · intro li cl h _ _
    rfl
  · intro m cl w _ hm
    simp [appendLine, hm]

theorem parseChat_wordCount_eq_length_witness :
    ({ timestamp := some 1704103200000, sender := "A".toList, content := "hi\nthere".toList,
       isMedia := false, isDeleted := false, isEdited := false, linkCount := 0, emojis := [],
       charCount := 7, wordCount := 2, words := ["hi".toList, "there".toList] } : Msg) ∈
      (parseChat refHost 0 "1/1/24, 10:00 - A: hi\nthere".toList).messages ∧
    (2 : Nat) = ["hi".toList, "there".toList].length :=
  ⟨by decide,
   parseChat_wordCount_eq_length refHost 0 "1/1/24, 10:00 - A: hi\nthere".toList
     { timestamp := some 1704103200000, sender := "A".toList, content := "hi\nthere".toList,
       isMedia := false, isDeleted := false, isEdited := false, linkCount := 0, emojis := [],
       charCount := 7, wordCount := 2, words := ["hi".toList, "there".toList] }
     (by decide)⟩

/-- C3, as amended. For every host, every `lastIndex` and every input text,
each message returned by `parseChat` has `charCount` equal to the length of
`content` minus the number of line breaks in `content`: the line break that
joins a continuation line is not counted. -/
theorem parseChat_charCount (host : Host) (lastIndex : Nat) (fileContent : Str) :
    ∀ m ∈ (parseChat host lastIndex fileContent).messages,
      m.charCount + m.content.count '\n' = jsLength m.content := by
  apply parseChat_all (fun m => m.charCount + m.content.count '\n' = jsLength m.content) host
  · intro li cl h hcl hm
    have hc : ∀ c ∈ trim h.contentRaw, c ≠ '\n' :=
      trim_inv _ _ (matchHeader_inv _ cl h hcl hm).2.2.2
    have h0 : (trim h.contentRaw).count '\n' = 0 :=
      List.count_eq_zero.mpr (fun hmem => hc _ hmem rfl)
    simp [newMessage, h0]
  · intro m cl w hcl hm
    have h0 : cl.count '\n' = 0 := List.count_eq_zero.mpr (fun hmem => hcl _ hmem rfl)
    have hw : utf16Width '\n' = 1 := by decide
    simp only [appendLine, List.count_append, List.count_cons_self, h0, jsLength_append,
      jsLength, hw]
    omega

theorem parseChat_charCount_witness :
    ({ timestamp := some 1704103200000, sender := "A".toList, content := "hi\nthere".toList,
       isMedia := false, isDeleted := false, isEdited := false, linkCount := 0, emojis := [],
       charCount := 7, wordCount := 2, words := ["hi".toList, "there".toList] } : Msg) ∈
      (parseChat refHost 0 "1/1/24, 10:00 - A: hi\nthere".toList).messages ∧
    7 + "hi\nthere".toList.count '\n' = jsLength "hi\nthere".toList :=
  ⟨by decide,
   parseChat_charCount refHost 0 "1/1/24, 10:00 - A: hi\nthere".toList
     { timestamp := some 1704103200000, sender := "A".toList, content := "hi\nthere".toList,
       isMedia := false, isDeleted := false, isEdited := false, linkCount := 0, emojis := [],
       charCount := 7, wordCount := 2, words := ["hi".toList, "there".toList] }
     (by decide)⟩

/-! ## The parser at concrete texts -/

/-- C1 (the code at the failing input). The text has one non-system header
line (Alice) followed by one system header line (sender
`Alice created group "Trip"`).  The system header pushes the message in
progress and returns without clearing it, and the end of the input pushes it
again: `parseChat` returns Alice's message twice, two messages for one
non-system header line. -/
theorem parseChat_system_header_repeats_message :
    (parseChat refHost 0
        "1/1/24, 10:00 - Alice: hi\n1/1/24, 10:05 - Alice created group \"Trip\": x".toList).messages.map
        (fun m => (m.sender, m.content)) =
      [("Alice".toList, "hi".toList), ("Alice".toList, "hi".toList)] ∧
    (nonSystemHeaderLines
        "1/1/24, 10:00 - Alice: hi\n1/1/24, 10:05 - Alice created group \"Trip\": x".toList).length = 1 ∧
    (parseChat refHost 0
        "1/1/24, 10:00 - Alice: hi\n1/1/24, 10:05 - Alice created group \"Trip\": x".toList).participants =
      ["Alice".toList] := by
  decide

/-- C2 (the code at the failing input). A non-header line that follows a
system header is not dropped: it is appended to the message that was in
progress before the system header.  With the line `see you` after the system
header, Alice's message has content `hi`, line break, `see you`, 9
characters counted and 3 words; without that line it has content `hi`, 2
characters and 1 word. -/
theorem parseChat_line_after_system_header_appended :
    (parseChat refHost 0
        "1/1/24, 10:00 - Alice: hi\n1/1/24, 10:05 - Alice created group \"Trip\": x\nsee you".toList).messages.map
        (fun m => (m.content, m.charCount, m.wordCount, m.words)) =
      [("hi\nsee you".toList, 9, 3, ["hi".toList, "see".toList, "you".toList]),
       ("hi\nsee you".toList, 9, 3, ["hi".toList, "see".toList, "you".toList])] ∧
    (parseChat refHost 0
        "1/1/24, 10:00 - Alice: hi\n1/1/24, 10:05 - Alice created group \"Trip\": x".toList).messages.map
        (fun m => (m.content, m.charCount, m.wordCount, m.words)) =
      [("hi".toList, 2, 1, ["hi".toList]), ("hi".toList, 2, 1, ["hi".toList])] := by
  decide

/-- C3 (counterexample). For the header line `1/1/24, 10:00 - A: hi` followed
by the continuation line `there`, the message has content `hi`, line break,
`there` (8 characters) and `charCount` 7: it is not true that every returned
message has `charCount` equal to the length of `content`. -/
theorem parseChat_charCount_ne_length_with_continuation :
    ¬ (∀ m ∈ (parseChat refHost 0 "1/1/24, 10:00 - A: hi\nthere".toList).messages,
        m.charCount = jsLength m.content) := by
  decide

/-- C5 (the code at the failing input). For the body of two emoji tokens
separated by a blank, the first `EMOJI_REGEX.test` leaves `lastIndex = 2`, so
the second call starts past the end of its token, answers false and the token
is kept: `words` holds one emoji token and `wordCount` is 1, not 0. -/
theorem parseChat_second_emoji_token_kept :
    (parseChat refHost 0 "1/1/24, 10:00 - A: 😀 😀".toList).messages.map
        (fun m => (m.words, m.wordCount)) = [(["😀".toList], 1)] := by
  decide

/-- C6 (the code at the failing input). For every engine that reports the
date text `99/99/2024 10:00` as unparsable, the message of the header line
`99/99/2024, 10:00 - Alice: hi` is kept with an Invalid Date, its timestamp
is `NaN`: the value `new Date()` assigned first is overwritten, it is not the
time of the parse. -/
theorem parseChat_unparsable_date_keeps_NaN (host : Host) (lastIndex : Nat)
    (h : host.dateParse "99/99/2024 10:00".toList = none) :
    (parseChat host lastIndex "99/99/2024, 10:00 - Alice: hi".toList).messages.map
        (fun m => (m.sender, m.timestamp)) = [("Alice".toList, none)] ∧
    (parseChat host lastIndex "99/99/2024, 10:00 - Alice: hi".toList).messages.map
        (fun m => m.timestamp) ≠ [some host.now] := by
  have h1 : (parseChat host lastIndex "99/99/2024, 10:00 - Alice: hi".toList).messages.map
      (fun m => (m.sender, m.timestamp)) =
      [("Alice".toList, host.dateParse "99/99/2024 10:00".toList)] := by
    rfl
  have h2 : (parseChat host lastIndex "99/99/2024, 10:00 - Alice: hi".toList).messages.map
      (fun m => m.timestamp) = [host.dateParse "99/99/2024 10:00".toList] := by
    rfl
  rw [h1, h2, h]
  exact ⟨rfl, by simp⟩

theorem parseChat_unparsable_date_keeps_NaN_witness :
    refHost.dateParse "99/99/2024 10:00".toList = none ∧
    ((parseChat refHost 0 "99/99/2024, 10:00 - Alice: hi".toList).messages.map
        (fun m => (m.sender, m.timestamp)) = [("Alice".toList, none)] ∧
     (parseChat refHost 0 "99/99/2024, 10:00 - Alice: hi".toList).messages.map
        (fun m => m.timestamp) ≠ [some refHost.now]) :=
  ⟨by decide, parseChat_unparsable_date_keeps_NaN refHost 0 (by decide)⟩

/-! ## Sorting by a decreasing key -/

theorem orderedInsert_congr {α : Type} (r r' : α → α → Prop) [DecidableRel r] [DecidableRel r']
    (a : α) : ∀ l : List α, (∀ b ∈ l, r a b ↔ r' a b) →
    l.orderedInsert r a = l.orderedInsert r' a := by
  intro l
  induction l with
  | nil => intro _; rfl
  | cons b l ih =>
    intro h
    have hb := h b (List.mem_cons_self _ _)
    have hl := ih (fun x hx => h x (List.mem_cons_of_mem _ hx))
    by_cases hr : r a b
    · simp [List.orderedInsert, hr, hb.mp hr]
    · have hr' : ¬ r' a b := fun h' => hr (hb.mpr h')
      simp [List.orderedInsert, hr, hr', hl]

theorem insertionSort_congr {α : Type} (r r' : α → α → Prop) [DecidableRel r] [DecidableRel r'] :
    ∀ l : List α, (∀ a ∈ l, ∀ b ∈ l, r a b ↔ r' a b) →
    l.insertionSort r = l.insertionSort r' := by
  intro l
  induction l with
  | nil => intro _; rfl
  | cons a l ih =>
    intro h
    have hl := ih (fun x hx y hy => h x (List.mem_cons_of_mem _ hx) y (List.mem_cons_of_mem _ hy))
    simp only [List.insertionSort]
    rw [hl]
    apply orderedInsert_congr
    intro b hb
    exact h a (List.mem_cons_self _ _) b
      (List.mem_cons_of_mem _ ((List.mem_insertionSort r').mp hb))

theorem mem_sortDesc {α : Type} (key : α → Option Int) (l : List α) (x : α) :
    x ∈ sortDesc key l ↔ x ∈ l :=
  List.mem_insertionSort _

/-- The first element of a list sorted by `sortDesc` carries the greatest key,
when no key is `NaN`. -/
theorem sortDesc_head_max {α : Type} (key : α → Option Int) (l : List α)
    (hall : ∀ x ∈ l, ∃ v, key x = some v) (top : α)
    (htop : (sortDesc key l).head? = some top) :
    ∀ x ∈ sortDesc key l, ∃ a b, key x = some a ∧ key top = some b ∧ a ≤ b := by
  let r' : α → α → Prop := fun a b => (key b).getD 0 ≤ (key a).getD 0
  haveI : DecidableRel r' := fun a b => inferInstanceAs (Decidable ((key b).getD 0 ≤ (key a).getD 0))
  haveI : IsTotal α r' := ⟨fun a b => le_total _ _⟩
  haveI : IsTrans α r' := ⟨fun a b c hab hbc => le_trans hbc hab⟩
  have hcongr : sortDesc key l = l.insertionSort r' := by
    apply insertionSort_congr
    intro a ha b hb
    obtain ⟨va, hva⟩ := hall a ha
    obtain ⟨vb, hvb⟩ := hall b hb
    simp [descLE, r', hva, hvb]
  have hsorted : List.Sorted r' (sortDesc key l) := by
    rw [hcongr]; exact List.sorted_insertionSort r' l
  intro x hx
  obtain ⟨vx, hvx⟩ := hall x ((mem_sortDesc key l x).mp hx)
  cases hs : sortDesc key l with
  | nil => rw [hs] at hx; cases hx
  | cons t tl =>
    rw [hs] at htop hx hsorted
    simp only [List.head?_cons, Option.some.injEq] at htop
    subst htop
    obtain ⟨vt, hvt⟩ := hall t ((mem_sortDesc key l t).mp (by rw [hs]; exact List.mem_cons_self _ _))
    refine ⟨vx, vt, hvx, hvt, ?_⟩
    rcases List.mem_cons.mp hx with hx | hx
    · subst hx
      rw [hvx] at hvt
      cases hvt
      exact le_refl _
    · have := List.rel_of_sorted_cons hsorted x hx
      simpa [r', hvx, hvt] using this

/-! ## Own properties -/

theorem Props.mem_of_get {α : Type} (o : Props α) (k : Str) (v : α) (h : o.get k = some v) :
    (k, v) ∈ o := by
  induction o with
  | nil => simp [Props.get] at h
  | cons kv rest ih =>
    obtain ⟨k1, v1⟩ := kv
    simp only [Props.get] at h
    split at h
    · next hk =>
      cases h
      subst hk
      exact List.mem_cons_self _ _
    · exact List.mem_cons_of_mem _ (ih h)

theorem Props.mem_set {α : Type} (o : Props α) (k : Str) (v : α) (x : Str × α)
    (h : x ∈ o.set k v) : x ∈ o ∨ x = (k, v) := by
  induction o with
  | nil =>
    simp only [Props.set, List.mem_singleton] at h
    exact Or.inr h
  | cons kv rest ih =>
    obtain ⟨k1, v1⟩ := kv
    simp only [Props.set] at h
    split at h
    · next hk =>
      rcases List.mem_cons.mp h with h | h
      · exact Or.inr (by rw [h, hk])
      · exact Or.inl (List.mem_cons_of_mem _ h)
    · rcases List.mem_cons.mp h with h | h
      · exact Or.inl (by rw [h]; exact List.mem_cons_self _ _)
      · rcases ih h with h | h
        · exact Or.inl (List.mem_cons_of_mem _ h)
        · exact Or.inr h

theorem Props.mem_entries {α : Type} (o : Props α) (x : Str × α) (h : x ∈ o.entries) : x ∈ o := by
  unfold Props.entries at h
  rcases List.mem_append.mp h with h | h
  · obtain ⟨y, hy, rfl⟩ := List.mem_map.mp h
    have hy1 := (List.mem_insertionSort _).mp hy
    obtain ⟨kv, hkv, hkv2⟩ := List.mem_filterMap.mp hy1
    cases hidx : arrayIndex kv.1 with
    | none => simp [hidx] at hkv2
    | some n =>
      simp only [hidx, Option.map_some', Option.some.injEq] at hkv2
      subst hkv2
      exact hkv
  · exact List.mem_of_mem_filter h

/-! ## Reply samples are numbers -/

theorem sumTimes_some (times : List (Option Int)) (h : ∀ x ∈ times, ∃ v, x = some v) :
    ∃ s, sumTimes times = some s := by
  unfold sumTimes
  suffices hgen : ∀ (l : List (Option Int)) (a : Int), (∀ x ∈ l, ∃ v, x = some v) →
      ∃ s, l.foldl (fun a b =>
        match a, b with
        | some x, some y => some (x + y)
        | _, _ => none) (some a) = some s from hgen times 0 h
  intro l
  induction l with
  | nil => intro a _; exact ⟨a, rfl⟩
  | cons x xs ih =>
    intro a hx
    obtain ⟨v, hv⟩ := hx x (List.mem_cons_self _ _)
    subst hv
    simp only [List.foldl_cons]
    exact ih (a + v) (fun y hy => hx y (List.mem_cons_of_mem _ hy))

theorem avgMinutes_some (times : List (Option Int)) (h : ∀ x ∈ times, ∃ v, x = some v) :
    ∃ a, avgMinutes times = some a := by
  unfold avgMinutes
  split
  · exact ⟨0, rfl⟩
  · obtain ⟨s, hs⟩ := sumTimes_some times h
    rw [hs]
    exact ⟨_, rfl⟩

theorem init_replyTimes (selectedParticipants : List Str) :
    ∀ kv ∈ (Acc.init selectedParticipants).replyTimes.props,
      kv.1 ∈ selectedParticipants ∧ ∀ x ∈ kv.2, ∃ v, x = some v := by
  simp only [Acc.init]
  suffices hgen : ∀ (ps : List Str) (o : JSObj (List (Option Int))),
      (∀ kv ∈ o.props, kv.1 ∈ selectedParticipants ∧ ∀ x ∈ kv.2, ∃ v, x = some v) →
      (∀ p ∈ ps, p ∈ selectedParticipants) →
      ∀ kv ∈ (ps.foldl (fun o p => o.set p []) o).props,
        kv.1 ∈ selectedParticipants ∧ ∀ x ∈ kv.2, ∃ v, x = some v from
    hgen selectedParticipants ⟨[], none⟩ (by simp) (fun p hp => hp)
  intro ps
  induction ps with
  | nil => intro o ho _; exact ho
  | cons p ps ih =>
    intro o ho hps
    simp only [List.foldl_cons]
    apply ih
    · intro kv hkv
      unfold JSObj.set at hkv
      split at hkv
      · exact ho kv hkv
      · rcases Props.mem_set _ _ _ _ hkv with h | h
        · exact ho kv h
        · subst h
          exact ⟨hps p (List.mem_cons_self _ _), by simp⟩
    · intro q hq
      exact hps q (List.mem_cons_of_mem _ hq)

/-- What a step of the main loop that does not throw has done. -/
theorem processMessage_some (fns : DateFns) (targetWordLength : Nat) (acc acc1 : Acc) (msg : Msg)
    (h : processMessage fns targetWordLength acc msg = some acc1) :
    (acc.participantStats.get msg.sender = none ∧ acc1 = acc) ∨
    ∃ p0 t p3 wordMap emojiMap,
      acc.participantStats.get msg.sender = some p0 ∧ msg.timestamp = some t ∧
      countWords targetWordLength msg
        (sleepCounts (basicCounts p0 msg) (fns.getHours t), acc.wordMap) msg.words =
          some (p3, wordMap) ∧
      countEmojis msg.sender acc.emojiMap msg.emojis = some emojiMap ∧
      ((acc.lastMsg = none ∧
          acc1 = { participantStats := acc.participantStats.set msg.sender p3
                   wordMap := wordMap
                   emojiMap := emojiMap
                   lastMsg := some msg
                   starters := acc.starters
                   replyTimes := acc.replyTimes }) ∨
       ∃ lastMsg starters replyTimes p4,
          acc.lastMsg = some lastMsg ∧
          flowStep acc.starters acc.replyTimes p3 lastMsg msg = some (starters, replyTimes, p4) ∧
          acc1 = { participantStats := acc.participantStats.set msg.sender p4
                   wordMap := wordMap
                   emojiMap := emojiMap
                   lastMsg := some msg
                   starters := starters
                   replyTimes := replyTimes }) := by
  unfold processMessage at h
  cases hget : acc.participantStats.get msg.sender with
  | none =>
    rw [hget] at h
    simp only [Option.some.injEq] at h
    exact Or.inl ⟨rfl, h.symm⟩
  | some p0 =>
    rw [hget] at h
    simp only at h
    cases hts : msg.timestamp with
    | none => rw [hts] at h; cases h
    | some t =>
      rw [hts] at h
      simp only at h
      cases hw : countWords targetWordLength msg
          (sleepCounts (basicCounts p0 msg) (fns.getHours t), acc.wordMap) msg.words with
      | none => rw [hw] at h; cases h
      | some pw =>
        obtain ⟨p3, wordMap⟩ := pw
        rw [hw] at h
        simp only at h
        cases he : countEmojis msg.sender acc.emojiMap msg.emojis with
        | none => rw [he] at h; cases h
        | some emojiMap =>
          rw [he] at h
          simp only at h
          refine Or.inr ⟨p0, t, p3, wordMap, emojiMap, rfl, rfl, hw, rfl, ?_⟩
          cases hl : acc.lastMsg with
          | none =>
            rw [hl] at h
            simp only [Option.some.injEq] at h
            exact Or.inl ⟨rfl, h.symm⟩
          | some lastMsg =>
            rw [hl] at h
            simp only at h
            cases hf : flowStep acc.starters acc.replyTimes p3 lastMsg msg with
            | none => rw [hf] at h; cases h
            | some res =>
              obtain ⟨starters, replyTimes, p4⟩ := res
              rw [hf] at h
              simp only [Option.some.injEq] at h
              exact Or.inr ⟨lastMsg, starters, replyTimes, p4, rfl, hf, h.symm⟩

/-- What `flowStep` does when both dates are valid. -/
theorem flowStep_valid (starters : Props Nat) (replyTimes : JSObj (List (Option Int)))
    (p : ParticipantStat) (lastMsg msg : Msg) (t t0 : Int)
    (ht : msg.timestamp = some t) (ht0 : lastMsg.timestamp = some t0) :
    flowStep starters replyTimes p lastMsg msg =
      if Int.tdiv (t - t0) 60000 > 240 then some (starters.incr msg.sender, replyTimes, p)
      else if msg.sender ≠ lastMsg.sender then
        match replyTimes.get msg.sender with
        | some times =>
          some (starters, replyTimes.set msg.sender (times ++ [some (Int.tdiv (t - t0) 60000)]), p)
        | none => none
      else if Int.tdiv (t - t0) 60000 < 5 then
        some (starters, replyTimes, { p with doubleTexts := p.doubleTexts + 1 })
      else some (starters, replyTimes, p) := by
  unfold flowStep
  simp only [ht, ht0, differenceInMinutes, jsGT, jsLT, decide_eq_true_eq]

theorem processMessage_replyTimes (fns : DateFns) (targetWordLength : Nat)
    (selectedParticipants : List Str) (acc acc1 : Acc) (msg : Msg)
    (h : processMessage fns targetWordLength acc msg = some acc1)
    (hrt : ∀ kv ∈ acc.replyTimes.props,
      kv.1 ∈ selectedParticipants ∧ ∀ x ∈ kv.2, ∃ v, x = some v)
    (hlast : ∀ m, acc.lastMsg = some m → ∃ t, m.timestamp = some t) :
    (∀ kv ∈ acc1.replyTimes.props,
      kv.1 ∈ selectedParticipants ∧ ∀ x ∈ kv.2, ∃ v, x = some v) ∧
    (∀ m, acc1.lastMsg = some m → ∃ t, m.timestamp = some t) := by
  rcases processMessage_some fns targetWordLength acc acc1 msg h with
    ⟨-, rfl⟩ | ⟨p0, t, p3, wordMap, emojiMap, -, ht, -, -, hrest⟩
  · exact ⟨hrt, hlast⟩
  · have hlast1 : ∀ m, some msg = some m → ∃ t, m.timestamp = some t := by
      intro m hm
      simp only [Option.some.injEq] at hm
      subst hm
      exact ⟨t, ht⟩
    rcases hrest with ⟨-, rfl⟩ | ⟨lastMsg, starters, replyTimes, p4, hl, hflow, rfl⟩
    · exact ⟨hrt, hlast1⟩
    · refine ⟨?_, hlast1⟩
      obtain ⟨t0, ht0⟩ := hlast lastMsg hl
      rw [flowStep_valid _ _ _ _ _ t t0 ht ht0] at hflow
      split at hflow
      · cases hflow; exact hrt
      · split at hflow
        · split at hflow
          · next times hget =>
            cases hflow
            intro kv hkv
            unfold JSObj.set at hkv
            unfold JSObj.get at hget
            split at hkv
            · exact hrt kv hkv
            · next hne =>
              rw [if_neg hne] at hget
              have hmem := Props.mem_of_get _ _ _ hget
              rcases Props.mem_set _ _ _ _ hkv with h1 | h1
              · exact hrt kv h1
              · subst h1
                refine ⟨(hrt _ hmem).1, ?_⟩
                intro x hx
                rcases List.mem_append.mp hx with hx | hx
                · exact (hrt _ hmem).2 x hx
                · simp only [List.mem_singleton] at hx
                  exact ⟨_, hx⟩
          · cases hflow
        · split at hflow
          · cases hflow; exact hrt
          · cases hflow; exact hrt

theorem mainLoop_replyTimes (fns : DateFns) (targetWordLength : Nat)
    (selectedParticipants : List Str) (msgs : List Msg) : ∀ (acc acc1 : Acc),
    mainLoop fns targetWordLength acc msgs = some acc1 →
    (∀ kv ∈ acc.replyTimes.props,
      kv.1 ∈ selectedParticipants ∧ ∀ x ∈ kv.2, ∃ v, x = some v) →
    (∀ m, acc.lastMsg = some m → ∃ t, m.timestamp = some t) →
    ∀ kv ∈ acc1.replyTimes.props,
      kv.1 ∈ selectedParticipants ∧ ∀ x ∈ kv.2, ∃ v, x = some v := by
  induction msgs with
  | nil =>
    intro acc acc1 h hrt _
    simp only [mainLoop, Option.some.injEq] at h
    subst h
    exact hrt
  | cons msg rest ih =>
    intro acc acc1 h hrt hlast
    simp only [mainLoop] at h
    split at h
    · cases h
    · next acc2 hstep =>
      have hinv := processMessage_replyTimes fns targetWordLength selectedParticipants
        acc acc2 msg hstep hrt hlast
      exact ih acc2 acc1 h hinv.1 hinv.2

/-! ## The Ghost award -/

/-- C10 (counterexample). For the filtered sequence X at minute 0, Y at
minute 10, X at minute 40, with X and Y selected, the reply samples are 10 for
Y and 30 for X; the Ghost award goes to X, although the selected sender Y has
the smaller average reply time. -/
theorem ghost_award_not_min :
    (useAdvancedStats refDateFns
        (some [mkMsg "X".toList 0 [] [], mkMsg "Y".toList 10 [] [], mkMsg "X".toList 40 [] []])
        "all".toList ["X".toList, "Y".toList] 0).toOption.map
      (fun r => (r.awards.head?.map (fun a => a.winner), r.replyStats)) =
      some (some "X".toList,
        [{ name := "X".toList, avgMinutes := some 30 }, { name := "Y".toList, avgMinutes := some 10 }]) ∧
    (10 : Int) < 30 := by
  decide

/-- C10, as amended. Whenever `useAdvancedStats` yields a result object, the
winner of the Ghost award is the name of the first item of `replyStats`
(`N/A` when there is no item or that name is empty), every item of
`replyStats` is a selected sender, and no item has a greater average reply
time than the first one: the award goes to the maximum, not the minimum. -/
theorem ghost_award_is_max (fns : DateFns) (rawMessages : Option (List Msg)) (timeFilter : Str)
    (selectedParticipants : List Str) (targetWordLength : Nat) (r : StatsResult)
    (h : useAdvancedStats fns rawMessages timeFilter selectedParticipants targetWordLength =
      .result r) :
    r.awards.head?.map (fun a => a.winner) = some (orNA (r.replyStats.head?.map (fun g => g.name))) ∧
    (∀ g ∈ r.replyStats, g.name ∈ selectedParticipants) ∧
    (∀ top, r.replyStats.head? = some top →
      ∀ g ∈ r.replyStats, ∃ a b, g.avgMinutes = some a ∧ top.avgMinutes = some b ∧ a ≤ b) := by
  unfold useAdvancedStats computeStats at h
  split at h
  · cases h
  · split at h
    · cases h
    · next acc hloop =>
      simp only [Stats.result.injEq] at h
      subst h
      have hinv := mainLoop_replyTimes fns targetWordLength selectedParticipants _ _ _ hloop
        (init_replyTimes selectedParticipants) (by simp [Acc.init])
      have hall : ∀ x ∈ acc.replyTimes.props.entries.map
          (fun kv => ({ name := kv.1, avgMinutes := avgMinutes kv.2 } : GhostStat)),
          x.name ∈ selectedParticipants ∧ ∃ v, x.avgMinutes = some v := by
        intro x hx
        obtain ⟨kv, hkv, rfl⟩ := List.mem_map.mp hx
        have hkv1 := hinv kv (Props.mem_entries _ _ hkv)
        exact ⟨hkv1.1, avgMinutes_some _ hkv1.2⟩
      refine ⟨rfl, ?_, ?_⟩
      · intro g hg
        exact (hall g ((mem_sortDesc _ _ _).mp hg)).1
      · intro top htop g hg
        have htop1 : (ghostStats acc.replyTimes).head? = some top := htop
        have hg1 : g ∈ ghostStats acc.replyTimes := hg
        unfold ghostStats at htop1 hg1
        exact sortDesc_head_max (fun g => g.avgMinutes) _ (fun x hx => (hall x hx).2) top htop1 g hg1

theorem ghost_award_is_max_witness :
    useAdvancedStats refDateFns
        (some [mkMsg "X".toList 0 [] [], mkMsg "Y".toList 10 [] [], mkMsg "X".toList 40 [] []])
        "all".toList ["X".toList, "Y".toList] 0 =
      .result
        { totalMessages := 3
          participantStats :=
            [{ ParticipantStat.init "X".toList with messages := 2 },
             { ParticipantStat.init "Y".toList with messages := 1 }]
          replyStats :=
            [{ name := "X".toList, avgMinutes := some 30 }, { name := "Y".toList, avgMinutes := some 10 }]
          starters := [("X".toList, 0), ("Y".toList, 0)]
          topEmojis := []
          topWords := []
          awards :=
            awards
              [{ name := "X".toList, avgMinutes := some 30 }, { name := "Y".toList, avgMinutes := some 10 }]
              [{ ParticipantStat.init "X".toList with messages := 2 },
               { ParticipantStat.init "Y".toList with messages := 1 }]
              [("X".toList, 0), ("Y".toList, 0)] } ∧
    (awards
        [{ name := "X".toList, avgMinutes := some 30 }, { name := "Y".toList, avgMinutes := some 10 }]
        [{ ParticipantStat.init "X".toList with messages := 2 },
         { ParticipantStat.init "Y".toList with messages := 1 }]
        [("X".toList, 0), ("Y".toList, 0)]).head?.map (fun a => a.winner) =
      some (orNA (some "X".toList)) :=
  ⟨by decide,
   (ghost_award_is_max refDateFns
      (some [mkMsg "X".toList 0 [] [], mkMsg "Y".toList 10 [] [], mkMsg "X".toList 40 [] []])
      "all".toList ["X".toList, "Y".toList] 0
      { totalMessages := 3
        participantStats :=
          [{ ParticipantStat.init "X".toList with messages := 2 },
           { ParticipantStat.init "Y".toList with messages := 1 }]
        replyStats :=
          [{ name := "X".toList, avgMinutes := some 30 }, { name := "Y".toList, avgMinutes := some 10 }]
        starters := [("X".toList, 0), ("Y".toList, 0)]
        topEmojis := []
        topWords := []
        awards :=
          awards
            [{ name := "X".toList, avgMinutes := some 30 }, { name := "Y".toList, avgMinutes := some 10 }]
            [{ ParticipantStat.init "X".toList with messages := 2 },
             { ParticipantStat.init "Y".toList with messages := 1 }]
            [("X".toList, 0), ("Y".toList, 0)] }
      (by decide)).1⟩

/-! ## The tables at concrete sequences -/

/-- C8 (the code at the failing input). The selected senders are `__proto__`
and `B`; B writes at minute 0 and `__proto__` at minute 300, a gap above 240.
The statements `starters[p] = 0` and `starters[msg.sender]++` with the key
`__proto__` run the inherited setter with a number, which does nothing: the
table of starters has the single entry B with count 0, no reply sample is
recorded either, the conversation starter is counted for no sender and the
Instigator award goes to B.  With the sender named `A` instead, the same
sequence counts one conversation starter for A. -/
theorem starter_of_proto_sender_lost :
    (useAdvancedStats refDateFns
        (some [mkMsg "B".toList 0 [] [], mkMsg "__proto__".toList 300 [] []])
        "all".toList ["__proto__".toList, "B".toList] 0).toOption.map
      (fun r => (r.totalMessages, r.starters, (r.awards.drop 3).head?)) =
      some (2, [("B".toList, 0)],
        some { title := "🧨 Instigator".toList, winner := "B".toList }) ∧
    (useAdvancedStats refDateFns
        (some [mkMsg "B".toList 0 [] [], mkMsg "__proto__".toList 300 [] []])
        "all".toList ["__proto__".toList, "B".toList] 0).toOption.map
      (fun r => r.replyStats) = some [{ name := "B".toList, avgMinutes := some 0 }] ∧
    (useAdvancedStats refDateFns
        (some [mkMsg "B".toList 0 [] [], mkMsg "A".toList 300 [] []])
        "all".toList ["A".toList, "B".toList] 0).toOption.map
      (fun r => (r.totalMessages, r.starters, (r.awards.drop 3).head?)) =
      some (2, [("A".toList, 1), ("B".toList, 0)],
        some { title := "🧨 Instigator".toList, winner := "A".toList }) := by
  refine ⟨?_, ?_, ?_⟩ <;> decide

/-- C9 (the code at the failing input). With the single selected sender
`constructor` and one message of that sender holding the word `hello` and one
emoji, `breakdown[msg.sender]` is the inherited function, adding 1 to it makes
a text, and the entry of each table has total 1 and a breakdown whose only
value is not a number.  With the sender `__proto__` the assignment to the
breakdown does nothing: total 1 and an empty breakdown, whose sum is 0. -/
theorem breakdown_of_inherited_sender_not_a_sum :
    (useAdvancedStats refDateFns
        (some [mkMsg "constructor".toList 0 ["hello".toList] ["😀".toList]])
        "all".toList ["constructor".toList] 0).toOption.map (fun r => (r.topEmojis, r.topWords)) =
      some ([{ key := "😀".toList, total := 1, breakdown := [("constructor".toList, Tally.text)] }],
        [{ key := "hello".toList, total := 1, breakdown := [("constructor".toList, Tally.text)] }]) ∧
    breakdownSum [("constructor".toList, Tally.text)] = none ∧
    (useAdvancedStats refDateFns
        (some [mkMsg "__proto__".toList 0 ["hello".toList] ["😀".toList]])
        "all".toList ["__proto__".toList] 0).toOption.map (fun r => (r.topEmojis, r.topWords)) =
      some ([{ key := "😀".toList, total := 1, breakdown := [] }],
        [{ key := "hello".toList, total := 1, breakdown := [] }]) ∧
    breakdownSum [] = some 0 := by
  decide

/-! ## Reading and writing own properties -/

theorem Props.get_set_eq {α : Type} (o : Props α) (k : Str) (v : α) :
    (o.set k v).get k = some v := by
  induction o with
  | nil => simp [Props.set, Props.get]
  | cons kv rest ih =>
    obtain ⟨k1, v1⟩ := kv
    by_cases hk : k1 = k
    · simp [Props.set, Props.get, hk]
    · simp [Props.set, Props.get, hk, ih]

theorem Props.get_set_ne {α : Type} (o : Props α) (k k' : Str) (v : α) (h : k' ≠ k) :
    (o.set k v).get k' = o.get k' := by
  induction o with
  | nil =>
    have h1 : ¬ k = k' := fun e => h e.symm
    simp [Props.set, Props.get, h1]
  | cons kv rest ih =>
    obtain ⟨k1, v1⟩ := kv
    by_cases hk : k1 = k
    · subst hk
      have h1 : ¬ k1 = k' := fun e => h e.symm
      simp [Props.set, Props.get, h1]
    · by_cases hk' : k1 = k'
      · subst hk'
        simp [Props.set, Props.get, hk]
      · simp [Props.set, Props.get, hk, hk', ih]

theorem JSObj.get_after_set_eq {α : Type} (o : JSObj α) (k : Str) (v : α) :
    (o.set k v).get k = some v := by
  unfold JSObj.set JSObj.get
  by_cases hk : k = protoKey
  · simp [hk]
  · simp [hk, Props.get_set_eq]

theorem JSObj.get_after_set_ne {α : Type} (o : JSObj α) (k k' : Str) (v : α) (h : k' ≠ k) :
    (o.set k v).get k' = o.get k' := by
  unfold JSObj.set JSObj.get
  by_cases hk : k = protoKey
  · have hk' : ¬ k' = protoKey := fun e => h (e.trans hk.symm)
    simp [hk, hk']
  · by_cases hk' : k' = protoKey
    · simp [hk, hk']
    · simp [hk, hk', Props.get_set_ne _ _ _ _ h]

theorem Props.get_incr_eq (o : Props Nat) (k : Str) (n : Nat) (hk : k ≠ protoKey)
    (h : o.get k = some n) : (o.incr k).get k = some (n + 1) := by
  unfold Props.incr
  simp [hk, h, Props.get_set_eq]

theorem Props.get_incr_ne (o : Props Nat) (k k' : Str) (h : k' ≠ k) :
    (o.incr k).get k' = o.get k' := by
  unfold Props.incr
  split
  · rfl
  · split
    · exact Props.get_set_ne _ _ _ _ h
    · rfl

theorem Props.get_setNum_eq (o : Props Nat) (k : Str) (n : Nat) (hk : k ≠ protoKey) :
    (o.setNum k n).get k = some n := by
  unfold Props.setNum
  simp [hk, Props.get_set_eq]

theorem Props.get_setNum_isSome (o : Props Nat) (k k' : Str) (n : Nat)
    (h : (o.get k').isSome) : ((o.setNum k n).get k').isSome := by
  unfold Props.setNum
  split
  · exact h
  · by_cases hk : k' = k
    · subst hk; simp [Props.get_set_eq]
    · rw [Props.get_set_ne _ _ _ _ hk]; exact h

theorem JSObj.get_set_isSome {α : Type} (o : JSObj α) (k k' : Str) (v : α)
    (h : (o.get k').isSome) : ((o.set k v).get k').isSome := by
  by_cases hk : k' = k
  · subst hk; simp [JSObj.get_after_set_eq]
  · rw [JSObj.get_after_set_ne _ _ _ _ hk]; exact h

/-! ## The flow counters along the main loop -/

theorem countWords_doubleTexts (targetWordLength : Nat) (msg : Msg) (ws : List Str) :
    ∀ (st st1 : ParticipantStat × Props FreqEntry),
      countWords targetWordLength msg st ws = some st1 → st1.1.doubleTexts = st.1.doubleTexts := by
  induction ws with
  | nil =>
    intro st st1 h
    simp only [countWords, Option.some.injEq] at h
    rw [h]
  | cons w ws ih =>
    intro st st1 h
    simp only [countWords] at h
    cases hw : countWord targetWordLength msg st w with
    | none => rw [hw] at h; cases h
    | some st2 =>
      rw [hw] at h
      have h2 := ih st2 st1 h
      rw [h2]
      unfold countWord at hw
      split at hw
      · cases hb : bumpEntry st.2 w msg.sender with
        | none => rw [hb] at hw; cases hw
        | some wm =>
          rw [hb] at hw
          simp only [Option.some.injEq] at hw
          rw [← hw]
      · simp only [Option.some.injEq] at hw
        rw [hw]

theorem mem_filteredMessages (fns : DateFns) (rawMessages : Option (List Msg)) (timeFilter : Str)
    (selectedParticipants : List Str) (m : Msg)
    (h : m ∈ filteredMessages fns rawMessages timeFilter selectedParticipants) :
    m.sender ∈ selectedParticipants ∧ ∃ t, m.timestamp = some t := by
  unfold filteredMessages at h
  cases rawMessages with
  | none => cases h
  | some messages =>
    simp only [mem_sortByTimestamp, List.mem_filter, Bool.and_eq_true] at h
    refine ⟨by simpa using h.2.2, ?_⟩
    cases ht : m.timestamp with
    | none => simp [dateGE, ht] at h
    | some t => exact ⟨t, rfl⟩

theorem init_tables (selectedParticipants : List Str) :
    ∀ s ∈ selectedParticipants,
      ((Acc.init selectedParticipants).participantStats.get s).isSome ∧
      ((Acc.init selectedParticipants).replyTimes.get s).isSome ∧
      (s ≠ protoKey → ((Acc.init selectedParticipants).starters.get s).isSome) := by
  intro s hs
  simp only [Acc.init]
  refine ⟨?_, ?_, ?_⟩
  · suffices hgen : ∀ (ps : List Str) (o : JSObj ParticipantStat), (s ∈ ps ∨ (o.get s).isSome) →
        ((ps.foldl (fun o p => o.set p (ParticipantStat.init p)) o).get s).isSome from
      hgen selectedParticipants _ (Or.inl hs)
    intro ps
    induction ps with
    | nil => intro o h; rcases h with h | h; cases h; exact h
    | cons p ps ih =>
      intro o h
      simp only [List.foldl_cons]
      apply ih
      rcases h with h | h
      · rcases List.mem_cons.mp h with h | h
        · subst h; exact Or.inr (by simp [JSObj.get_after_set_eq])
        · exact Or.inl h
      · exact Or.inr (JSObj.get_set_isSome _ _ _ _ h)
  · suffices hgen : ∀ (ps : List Str) (o : JSObj (List (Option Int))), (s ∈ ps ∨ (o.get s).isSome) →
        ((ps.foldl (fun o p => o.set p []) o).get s).isSome from
      hgen selectedParticipants _ (Or.inl hs)
    intro ps
    induction ps with
    | nil => intro o h; rcases h with h | h; cases h; exact h
    | cons p ps ih =>
      intro o h
      simp only [List.foldl_cons]
      apply ih
      rcases h with h | h
      · rcases List.mem_cons.mp h with h | h
        · subst h; exact Or.inr (by simp [JSObj.get_after_set_eq])
        · exact Or.inl h
      · exact Or.inr (JSObj.get_set_isSome _ _ _ _ h)
  · intro hne
    suffices hgen : ∀ (ps : List Str) (o : Props Nat), (s ∈ ps ∨ (o.get s).isSome) →
        ((ps.foldl (fun o p => o.setNum p 0) o).get s).isSome from
      hgen selectedParticipants _ (Or.inl hs)
    intro ps
    induction ps with
    | nil => intro o h; rcases h with h | h; cases h; exact h
    | cons p ps ih =>
      intro o h
      simp only [List.foldl_cons]
      apply ih
      rcases h with h | h
      · rcases List.mem_cons.mp h with h | h
        · subst h; exact Or.inr (by simp [Props.get_setNum_eq _ _ _ hne])
        · exact Or.inl h
      · exact Or.inr (Props.get_setNum_isSome _ _ _ _ h)

/-- The four outcomes of `flowStep`. -/
theorem flowStep_some (starters starters1 : Props Nat)
    (replyTimes replyTimes1 : JSObj (List (Option Int))) (p p1 : ParticipantStat)
    (lastMsg msg : Msg)
    (h : flowStep starters replyTimes p lastMsg msg = some (starters1, replyTimes1, p1)) :
    (jsGT (differenceInMinutes msg.timestamp lastMsg.timestamp) 240 = true ∧
      starters1 = starters.incr msg.sender ∧ replyTimes1 = replyTimes ∧ p1 = p) ∨
    (jsGT (differenceInMinutes msg.timestamp lastMsg.timestamp) 240 = false ∧
      msg.sender ≠ lastMsg.sender ∧ starters1 = starters ∧ p1 = p ∧
      ∃ times, replyTimes.get msg.sender = some times ∧
        replyTimes1 = replyTimes.set msg.sender
          (times ++ [differenceInMinutes msg.timestamp lastMsg.timestamp])) ∨
    (jsGT (differenceInMinutes msg.timestamp lastMsg.timestamp) 240 = false ∧
      msg.sender = lastMsg.sender ∧
      jsLT (differenceInMinutes msg.timestamp lastMsg.timestamp) 5 = true ∧
      starters1 = starters ∧ replyTimes1 = replyTimes ∧
      p1 = { p with doubleTexts := p.doubleTexts + 1 }) ∨
    (jsGT (differenceInMinutes msg.timestamp lastMsg.timestamp) 240 = false ∧
      msg.sender = lastMsg.sender ∧
      jsLT (differenceInMinutes msg.timestamp lastMsg.timestamp) 5 = false ∧
      starters1 = starters ∧ replyTimes1 = replyTimes ∧ p1 = p) := by
  unfold flowStep at h
  simp only at h
  by_cases h1 : jsGT (differenceInMinutes msg.timestamp lastMsg.timestamp) 240 = true
  · rw [if_pos h1] at h
    simp only [Option.some.injEq, Prod.mk.injEq] at h
    exact Or.inl ⟨h1, h.1.symm, h.2.1.symm, h.2.2.symm⟩
  · rw [if_neg h1] at h
    have h1' : jsGT (differenceInMinutes msg.timestamp lastMsg.timestamp) 240 = false := by
      simpa using h1
    by_cases h2 : msg.sender ≠ lastMsg.sender
    · rw [if_pos h2] at h
      cases hget : replyTimes.get msg.sender with
      | none => rw [hget] at h; cases h
      | some times =>
        rw [hget] at h
        simp only [Option.some.injEq, Prod.mk.injEq] at h
        exact Or.inr (Or.inl ⟨h1', h2, h.1.symm, h.2.2.symm, times, rfl, h.2.1.symm⟩)
    · rw [if_neg h2] at h
      have h2' : msg.sender = lastMsg.sender := by
        by_contra hc; exact h2 hc
      by_cases h3 : jsLT (differenceInMinutes msg.timestamp lastMsg.timestamp) 5 = true
      · rw [if_pos h3] at h
        simp only [Option.some.injEq, Prod.mk.injEq] at h
        exact Or.inr (Or.inr (Or.inl ⟨h1', h2', h3, h.1.symm, h.2.1.symm, h.2.2.symm⟩))
      · rw [if_neg h3] at h
        have h3' : jsLT (differenceInMinutes msg.timestamp lastMsg.timestamp) 5 = false := by
          simpa using h3
        simp only [Option.some.injEq, Prod.mk.injEq] at h
        exact Or.inr (Or.inr (Or.inr ⟨h1', h2', h3', h.1.symm, h.2.1.symm, h.2.2.symm⟩))

theorem flowStep_tables (starters starters1 : Props Nat)
    (replyTimes replyTimes1 : JSObj (List (Option Int))) (p p1 : ParticipantStat)
    (lastMsg msg : Msg)
    (h : flowStep starters replyTimes p lastMsg msg = some (starters1, replyTimes1, p1)) (s : Str) :
    ((replyTimes.get s).isSome → (replyTimes1.get s).isSome) ∧
    ((starters.get s).isSome → (starters1.get s).isSome) := by
  rcases flowStep_some _ _ _ _ _ _ _ _ h with
    ⟨-, rfl, rfl, -⟩ | ⟨-, -, rfl, -, times, -, rfl⟩ | ⟨-, -, -, rfl, rfl, -⟩ | ⟨-, -, -, rfl, rfl, -⟩
  · refine ⟨fun hs => hs, fun hs => ?_⟩
    by_cases hk : s = msg.sender
    · unfold Props.incr
      split
      · exact hs
      · split
        · rw [hk]; simp [Props.get_set_eq]
        · exact hs
    · rw [Props.get_incr_ne _ _ _ hk]; exact hs
  · exact ⟨fun hs => JSObj.get_set_isSome _ _ _ _ hs, fun hs => hs⟩
  · exact ⟨fun hs => hs, fun hs => hs⟩
  · exact ⟨fun hs => hs, fun hs => hs⟩

theorem processMessage_tables (fns : DateFns) (targetWordLength : Nat) (acc acc1 : Acc) (msg : Msg)
    (h : processMessage fns targetWordLength acc msg = some acc1) (s : Str) :
    ((acc.participantStats.get s).isSome → (acc1.participantStats.get s).isSome) ∧
    ((acc.replyTimes.get s).isSome → (acc1.replyTimes.get s).isSome) ∧
    ((acc.starters.get s).isSome → (acc1.starters.get s).isSome) := by
  rcases processMessage_some fns targetWordLength acc acc1 msg h with
    ⟨-, rfl⟩ | ⟨p0, t, p3, wordMap, emojiMap, -, -, -, -, hrest⟩
  · exact ⟨fun hs => hs, fun hs => hs, fun hs => hs⟩
  · rcases hrest with ⟨-, rfl⟩ | ⟨lastMsg, starters, replyTimes, p4, -, hflow, rfl⟩
    · exact ⟨fun hs => JSObj.get_set_isSome _ _ _ _ hs, fun hs => hs, fun hs => hs⟩
    · have hf := flowStep_tables _ _ _ _ _ _ _ _ hflow s
      exact ⟨fun hs => JSObj.get_set_isSome _ _ _ _ hs, hf.1, hf.2⟩

theorem mainLoop_tables (fns : DateFns) (targetWordLength : Nat) (msgs : List Msg) :
    ∀ (acc acc1 : Acc), mainLoop fns targetWordLength acc msgs = some acc1 → ∀ s : Str,
    ((acc.participantStats.get s).isSome → (acc1.participantStats.get s).isSome) ∧
    ((acc.replyTimes.get s).isSome → (acc1.replyTimes.get s).isSome) ∧
    ((acc.starters.get s).isSome → (acc1.starters.get s).isSome) := by
  induction msgs with
  | nil =>
    intro acc acc1 h s
    simp only [mainLoop, Option.some.injEq] at h
    subst h
    exact ⟨fun hs => hs, fun hs => hs, fun hs => hs⟩
  | cons msg rest ih =>
    intro acc acc1 h s
    simp only [mainLoop] at h
    cases hstep : processMessage fns targetWordLength acc msg with
    | none => rw [hstep] at h; cases h
    | some acc2 =>
      rw [hstep] at h
      have h1 := processMessage_tables fns targetWordLength acc acc2 msg hstep s
      have h2 := ih acc2 acc1 h s
      exact ⟨fun hs => h2.1 (h1.1 hs), fun hs => h2.2.1 (h1.2.1 hs), fun hs => h2.2.2 (h1.2.2 hs)⟩

theorem mainLoop_snoc (fns : DateFns) (targetWordLength : Nat) (msgs : List Msg) (x : Msg) :
    ∀ (acc acc1 : Acc), mainLoop fns targetWordLength acc (msgs ++ [x]) = some acc1 →
    ∃ acc2, mainLoop fns targetWordLength acc msgs = some acc2 ∧
      processMessage fns targetWordLength acc2 x = some acc1 := by
  induction msgs with
  | nil =>
    intro acc acc1 h
    simp only [List.nil_append, mainLoop] at h
    cases hstep : processMessage fns targetWordLength acc x with
    | none => rw [hstep] at h; cases h
    | some acc2 =>
      rw [hstep] at h
      simp only [Option.some.injEq] at h
      subst h
      exact ⟨acc, rfl, hstep⟩
  | cons msg rest ih =>
    intro acc acc1 h
    simp only [List.cons_append, mainLoop] at h
    cases hstep : processMessage fns targetWordLength acc msg with
    | none => rw [hstep] at h; cases h
    | some acc2 =>
      rw [hstep] at h
      obtain ⟨acc3, h3, h4⟩ := ih acc2 acc1 h
      refine ⟨acc3, ?_, h4⟩
      simp only [mainLoop, hstep]
      exact h3

theorem processMessage_first (fns : DateFns) (targetWordLength : Nat) (acc acc1 : Acc) (msg : Msg)
    (hlast : acc.lastMsg = none)
    (hstep : processMessage fns targetWordLength acc msg = some acc1) :
    acc1.starters = acc.starters ∧ acc1.replyTimes = acc.replyTimes ∧
    ∀ k, (acc1.participantStats.get k).map (fun p => p.doubleTexts) =
      (acc.participantStats.get k).map (fun p => p.doubleTexts) := by
  rcases processMessage_some fns targetWordLength acc acc1 msg hstep with
    ⟨-, rfl⟩ | ⟨p0, t, p3, wordMap, emojiMap, hget, -, hw, -, hrest⟩
  · exact ⟨rfl, rfl, fun _ => rfl⟩
  · rcases hrest with ⟨-, rfl⟩ | ⟨lastMsg, starters, replyTimes, p4, hl, -, -⟩
    · refine ⟨rfl, rfl, ?_⟩
      intro k
      by_cases hk : k = msg.sender
      · subst hk
        have hd := countWords_doubleTexts _ _ _ _ _ hw
        simp only [JSObj.get_after_set_eq, hget, Option.map_some', Option.some.injEq]
        exact hd
      · simp only [JSObj.get_after_set_ne _ _ _ _ hk]
    · rw [hlast] at hl; cases hl

/-- Flow classification for a sender other than `__proto__`.  Let `msg` follow
`prev` in the filtered sequence, `acc` be the tables when the loop reaches
`msg` and `acc1` the tables after it.  With `gap` the minutes since `prev`,
truncated: `gap > 240` adds 1 to `starters[sender]` only; otherwise a
different sender appends `gap` to `replyTimes[sender]` only; otherwise
`gap < 5` adds 1 to the `doubleTexts` of the sender only; otherwise none of
the three changes.  The entries of every other key are left as they were. -/
theorem flow_classification (fns : DateFns) (rawMessages : Option (List Msg)) (timeFilter : Str)
    (selectedParticipants : List Str) (targetWordLength : Nat) (pre post : List Msg)
    (prev msg : Msg) (acc acc1 : Acc)
    (hsplit : filteredMessages fns rawMessages timeFilter selectedParticipants =
      pre ++ prev :: msg :: post)
    (hacc : mainLoop fns targetWordLength (Acc.init selectedParticipants) (pre ++ [prev]) = some acc)
    (hstep : processMessage fns targetWordLength acc msg = some acc1)
    (hne : msg.sender ≠ protoKey) :
    ∃ (t t0 : Int) (n : Nat) (times : List (Option Int)) (p : ParticipantStat),
      msg.timestamp = some t ∧ prev.timestamp = some t0 ∧ acc.lastMsg = some prev ∧
      acc.starters.get msg.sender = some n ∧ acc.replyTimes.get msg.sender = some times ∧
      acc.participantStats.get msg.sender = some p ∧
      (240 < Int.tdiv (t - t0) 60000 →
        acc1.starters.get msg.sender = some (n + 1) ∧
        acc1.replyTimes.get msg.sender = some times ∧
        (acc1.participantStats.get msg.sender).map (fun q => q.doubleTexts) = some p.doubleTexts) ∧
      (Int.tdiv (t - t0) 60000 ≤ 240 → msg.sender ≠ prev.sender →
        acc1.starters.get msg.sender = some n ∧
        acc1.replyTimes.get msg.sender = some (times ++ [some (Int.tdiv (t - t0) 60000)]) ∧
        (acc1.participantStats.get msg.sender).map (fun q => q.doubleTexts) = some p.doubleTexts) ∧
      (Int.tdiv (t - t0) 60000 ≤ 240 → msg.sender = prev.sender → Int.tdiv (t - t0) 60000 < 5 →
        acc1.starters.get msg.sender = some n ∧
        acc1.replyTimes.get msg.sender = some times ∧
        (acc1.participantStats.get msg.sender).map (fun q => q.doubleTexts) =
          some (p.doubleTexts + 1)) ∧
      (Int.tdiv (t - t0) 60000 ≤ 240 → msg.sender = prev.sender → 5 ≤ Int.tdiv (t - t0) 60000 →
        acc1.starters.get msg.sender = some n ∧
        acc1.replyTimes.get msg.sender = some times ∧
        (acc1.participantStats.get msg.sender).map (fun q => q.doubleTexts) = some p.doubleTexts) ∧
      (∀ k, k ≠ msg.sender →
        acc1.starters.get k = acc.starters.get k ∧
        acc1.replyTimes.get k = acc.replyTimes.get k ∧
        (acc1.participantStats.get k).map (fun q => q.doubleTexts) =
          (acc.participantStats.get k).map (fun q => q.doubleTexts)) := by
  -- both messages passed the filter
  have hprevmem : prev ∈ filteredMessages fns rawMessages timeFilter selectedParticipants := by
    rw [hsplit]; simp
  have hmsgmem : msg ∈ filteredMessages fns rawMessages timeFilter selectedParticipants := by
    rw [hsplit]; simp
  obtain ⟨hprevsel, t0, ht0⟩ := mem_filteredMessages _ _ _ _ _ hprevmem
  obtain ⟨hmsgsel, t, ht⟩ := mem_filteredMessages _ _ _ _ _ hmsgmem
  -- the tables when the loop reaches `prev`, and after it
  obtain ⟨acc0, hacc0, hprevstep⟩ := mainLoop_snoc _ _ _ _ _ _ hacc
  have hinit_prev := init_tables selectedParticipants prev.sender hprevsel
  have hinit_msg := init_tables selectedParticipants msg.sender hmsgsel
  have h0_prev := mainLoop_tables _ _ _ _ _ hacc0 prev.sender
  have hacc_msg := mainLoop_tables _ _ _ _ _ hacc msg.sender
  have hlast : acc.lastMsg = some prev := by
    rcases processMessage_some _ _ _ _ _ hprevstep with
      ⟨hnone, -⟩ | ⟨p0, t', p3, wordMap, emojiMap, -, -, -, -, hrest⟩
    · have := h0_prev.1 hinit_prev.1
      rw [hnone] at this
      cases this
    · rcases hrest with ⟨-, rfl⟩ | ⟨lastMsg, starters, replyTimes, p4, -, -, rfl⟩ <;> rfl
  -- the entries of the sender of `msg`
  obtain ⟨p, hp⟩ := Option.isSome_iff_exists.mp (hacc_msg.1 hinit_msg.1)
  obtain ⟨times, htimes⟩ := Option.isSome_iff_exists.mp (hacc_msg.2.1 hinit_msg.2.1)
  obtain ⟨n, hn⟩ := Option.isSome_iff_exists.mp (hacc_msg.2.2 (hinit_msg.2.2 hne))
  refine ⟨t, t0, n, times, p, ht, ht0, hlast, hn, htimes, hp, ?_⟩
  -- the step on `msg`
  rcases processMessage_some _ _ _ _ _ hstep with
    ⟨hnone, -⟩ | ⟨p0, t', p3, wordMap, emojiMap, hget, -, hw, -, hrest⟩
  · rw [hnone] at hp; cases hp
  · rw [hp] at hget
    simp only [Option.some.injEq] at hget
    subst hget
    have hd : p3.doubleTexts = p.doubleTexts := countWords_doubleTexts _ _ _ _ _ hw
    rcases hrest with ⟨hl, -⟩ | ⟨lastMsg, starters, replyTimes, p4, hl, hflow, rfl⟩
    · rw [hlast] at hl; cases hl
    · rw [hlast] at hl
      simp only [Option.some.injEq] at hl
      subst hl
      have hgt : jsGT (differenceInMinutes msg.timestamp prev.timestamp) 240 =
          decide (Int.tdiv (t - t0) 60000 > 240) := by
        simp [ht, ht0, differenceInMinutes, jsGT]
      have hlt : jsLT (differenceInMinutes msg.timestamp prev.timestamp) 5 =
          decide (Int.tdiv (t - t0) 60000 < 5) := by
        simp [ht, ht0, differenceInMinutes, jsLT]
      have hdiff : differenceInMinutes msg.timestamp prev.timestamp =
          some (Int.tdiv (t - t0) 60000) := by
        simp [ht, ht0, differenceInMinutes]
      rcases flowStep_some _ _ _ _ _ _ _ _ hflow with
        ⟨c1, rfl, rfl, rfl⟩ | ⟨c1, c2, rfl, rfl, times', hget', rfl⟩ |
        ⟨c1, c2, c3, rfl, rfl, rfl⟩ | ⟨c1, c2, c3, rfl, rfl, rfl⟩
      · -- conversation starter
        rw [hgt] at c1
        have c1' : Int.tdiv (t - t0) 60000 > 240 := by simpa using c1
        refine ⟨?_, ?_, ?_, ?_, ?_⟩
        · intro _
          exact ⟨Props.get_incr_eq _ _ _ hne hn, htimes, by simp [JSObj.get_after_set_eq, hd]⟩
        · intro hle; omega
        · intro hle; omega
        · intro hle; omega
        · intro k hk
          exact ⟨Props.get_incr_ne _ _ _ hk, rfl, by simp only [JSObj.get_after_set_ne _ _ _ _ hk]⟩
      · -- reply sample
        rw [hgt] at c1
        have c1' : ¬ Int.tdiv (t - t0) 60000 > 240 := by simpa using c1
        rw [htimes] at hget'
        simp only [Option.some.injEq] at hget'
        subst hget'
        refine ⟨?_, ?_, ?_, ?_, ?_⟩
        · intro hgt'; exact absurd hgt' c1'
        · intro _ _
          exact ⟨hn, by rw [JSObj.get_after_set_eq, hdiff], by simp [JSObj.get_after_set_eq, hd]⟩
        · intro _ heq; exact absurd heq c2
        · intro _ heq; exact absurd heq c2
        · intro k hk
          exact ⟨rfl, JSObj.get_after_set_ne _ _ _ _ hk, by simp only [JSObj.get_after_set_ne _ _ _ _ hk]⟩
      · -- double text
        rw [hgt] at c1
        rw [hlt] at c3
        have c1' : ¬ Int.tdiv (t - t0) 60000 > 240 := by simpa using c1
        have c3' : Int.tdiv (t - t0) 60000 < 5 := by simpa using c3
        refine ⟨?_, ?_, ?_, ?_, ?_⟩
        · intro hgt'; exact absurd hgt' c1'
        · intro _ hne'; exact absurd c2 hne'
        · intro _ _ _
          exact ⟨hn, htimes, by simp [JSObj.get_after_set_eq, hd]⟩
        · intro _ _ hge; omega
        · intro k hk
          exact ⟨rfl, rfl, by simp only [JSObj.get_after_set_ne _ _ _ _ hk]⟩
      · -- same sender, five minutes or more: no classification
        rw [hgt] at c1
        rw [hlt] at c3
        have c1' : ¬ Int.tdiv (t - t0) 60000 > 240 := by simpa using c1
        have c3' : ¬ Int.tdiv (t - t0) 60000 < 5 := by simpa using c3
        refine ⟨?_, ?_, ?_, ?_, ?_⟩
        · intro hgt'; exact absurd hgt' c1'
        · intro _ hne'; exact absurd c2 hne'
        · intro _ _ hlt'; exact absurd hlt' c3'
        · intro _ _ _
          exact ⟨hn, htimes, by simp [JSObj.get_after_set_eq, hd]⟩
        · intro k hk
          exact ⟨rfl, rfl, by simp only [JSObj.get_after_set_ne _ _ _ _ hk]⟩

/-- The sequence of the specification: X at minute 0, Y at minute 10, Y at
minute 12.  The pass leaves one reply sample, 10, for Y, none for X, one
double text for Y and no conversation starter. -/
theorem flow_example :
    (mainLoop refDateFns 0 (Acc.init ["X".toList, "Y".toList])
        (filteredMessages refDateFns
          (some [mkMsg "X".toList 0 [] [], mkMsg "Y".toList 10 [] [], mkMsg "Y".toList 12 [] []])
          "all".toList ["X".toList, "Y".toList])).map (fun acc => acc.starters) =
      some [("X".toList, 0), ("Y".toList, 0)] ∧
    (mainLoop refDateFns 0 (Acc.init ["X".toList, "Y".toList])
        (filteredMessages refDateFns
          (some [mkMsg "X".toList 0 [] [], mkMsg "Y".toList 10 [] [], mkMsg "Y".toList 12 [] []])
          "all".toList ["X".toList, "Y".toList])).map (fun acc => acc.replyTimes.props) =
      some [("X".toList, []), ("Y".toList, [some 10])] ∧
    (mainLoop refDateFns 0 (Acc.init ["X".toList, "Y".toList])
        (filteredMessages refDateFns
          (some [mkMsg "X".toList 0 [] [], mkMsg "Y".toList 10 [] [], mkMsg "Y".toList 12 [] []])
          "all".toList ["X".toList, "Y".toList])).map
      (fun acc => acc.participantStats.props.map (fun kv => (kv.1, kv.2.doubleTexts))) =
      some [("X".toList, 0), ("Y".toList, 1)] := by
  decide

/-! ## The frequency tables for senders that are ordinary keys -/

theorem breakdownSum_set_of_get (b : Props Tally) (k : Str) :
    ∀ (s : Nat), breakdownSum b = some s →
      (∀ n, b.get k = some (.count n) → breakdownSum (b.set k (.count (n + 1))) = some (s + 1)) ∧
      (b.get k ≠ some .text) ∧
      (b.get k = none → breakdownSum (b.set k (.count 1)) = some (s + 1)) := by
  induction b with
  | nil =>
    intro s hs
    simp only [breakdownSum, Option.some.injEq] at hs
    subst hs
    refine ⟨?_, ?_, ?_⟩
    · intro n hn; simp [Props.get] at hn
    · simp [Props.get]
    · intro _; simp [Props.set, breakdownSum]
  | cons kv rest ih =>
    obtain ⟨k1, v1⟩ := kv
    intro s hs
    cases v1 with
    | text => simp [breakdownSum] at hs
    | count m =>
      simp only [breakdownSum, Option.map_eq_some'] at hs
      obtain ⟨s1, hs1, rfl⟩ := hs
      obtain ⟨ih1, ih2, ih3⟩ := ih s1 hs1
      by_cases hk : k1 = k
      · subst hk
        refine ⟨?_, ?_, ?_⟩
        · intro n hn
          simp only [Props.get, if_true, Option.some.injEq, Tally.count.injEq] at hn
          subst hn
          simp only [Props.set, if_true, breakdownSum, hs1, Option.map_some', Option.some.injEq]
          omega
        · simp [Props.get]
        · intro hnone; simp [Props.get] at hnone
      · refine ⟨?_, ?_, ?_⟩
        · intro n hn
          simp only [Props.get, if_neg hk] at hn
          simp only [Props.set, if_neg hk, breakdownSum, ih1 n hn, Option.map_some',
            Option.some.injEq]
          omega
        · simp only [Props.get, if_neg hk]; exact ih2
        · intro hnone
          simp only [Props.get, if_neg hk] at hnone
          simp only [Props.set, if_neg hk, breakdownSum, ih3 hnone, Option.map_some',
            Option.some.injEq]
          omega

theorem bumpTally_sum (b : Props Tally) (sender : Str) (s : Nat)
    (hsender : sender ∉ objectPrototypeKeys) (hs : breakdownSum b = some s) :
    breakdownSum (bumpTally b sender) = some (s + 1) := by
  obtain ⟨h1, h2, h3⟩ := breakdownSum_set_of_get b sender s hs
  have hproto : sender ≠ protoKey := by
    intro e
    apply hsender
    rw [e]
    decide
  unfold bumpTally
  cases hg : b.get sender with
  | none => simp only [if_neg hproto, if_neg hsender]; exact h3 hg
  | some v =>
    cases v with
    | count n => exact h1 n hg
    | text => exact absurd hg h2

theorem bumpEntry_sum (map map1 : Props FreqEntry) (key sender : Str)
    (hsender : sender ∉ objectPrototypeKeys)
    (hmap : ∀ kv ∈ map, breakdownSum kv.2.breakdown = some kv.2.total)
    (h : bumpEntry map key sender = some map1) :
    ∀ kv ∈ map1, breakdownSum kv.2.breakdown = some kv.2.total := by
  unfold bumpEntry at h
  cases hg : map.get key with
  | none =>
    rw [hg] at h
    simp only at h
    split at h
    · cases h
    · simp only [Option.some.injEq] at h
      subst h
      intro kv hkv
      rcases Props.mem_set _ _ _ _ hkv with hkv | hkv
      · exact hmap kv hkv
      · subst hkv
        exact bumpTally_sum [] sender 0 hsender rfl
  | some e =>
    rw [hg] at h
    simp only [Option.some.injEq] at h
    subst h
    intro kv hkv
    rcases Props.mem_set _ _ _ _ hkv with hkv | hkv
    · exact hmap kv hkv
    · subst hkv
      exact bumpTally_sum _ sender _ hsender (hmap _ (Props.mem_of_get _ _ _ hg))

theorem countWords_sum (targetWordLength : Nat) (msg : Msg)
    (hsender : msg.sender ∉ objectPrototypeKeys) (ws : List Str) :
    ∀ (st st1 : ParticipantStat × Props FreqEntry),
      (∀ kv ∈ st.2, breakdownSum kv.2.breakdown = some kv.2.total) →
      countWords targetWordLength msg st ws = some st1 →
      ∀ kv ∈ st1.2, breakdownSum kv.2.breakdown = some kv.2.total := by
  induction ws with
  | nil =>
    intro st st1 hst h
    simp only [countWords, Option.some.injEq] at h
    subst h
    exact hst
  | cons w ws ih =>
    intro st st1 hst h
    simp only [countWords] at h
    cases hw : countWord targetWordLength msg st w with
    | none => rw [hw] at h; cases h
    | some st2 =>
      rw [hw] at h
      refine ih st2 st1 ?_ h
      unfold countWord at hw
      split at hw
      · cases hb : bumpEntry st.2 w msg.sender with
        | none => rw [hb] at hw; cases hw
        | some wm =>
          rw [hb] at hw
          simp only [Option.some.injEq] at hw
          subst hw
          exact bumpEntry_sum _ _ _ _ hsender hst hb
      · simp only [Option.some.injEq] at hw
        subst hw
        exact hst

theorem countEmojis_sum (sender : Str) (hsender : sender ∉ objectPrototypeKeys) (es : List Str) :
    ∀ (map map1 : Props FreqEntry),
      (∀ kv ∈ map, breakdownSum kv.2.breakdown = some kv.2.total) →
      countEmojis sender map es = some map1 →
      ∀ kv ∈ map1, breakdownSum kv.2.breakdown = some kv.2.total := by
  induction es with
  | nil =>
    intro map map1 hmap h
    simp only [countEmojis, Option.some.injEq] at h
    subst h
    exact hmap
  | cons e es ih =>
    intro map map1 hmap h
    simp only [countEmojis] at h
    cases hb : bumpEntry map e sender with
    | none => rw [hb] at h; cases h
    | some map2 =>
      rw [hb] at h
      exact ih map2 map1 (bumpEntry_sum _ _ _ _ hsender hmap hb) h

theorem processMessage_sum (fns : DateFns) (targetWordLength : Nat) (acc acc1 : Acc) (msg : Msg)
    (hsender : msg.sender ∉ objectPrototypeKeys)
    (hw : ∀ kv ∈ acc.wordMap, breakdownSum kv.2.breakdown = some kv.2.total)
    (he : ∀ kv ∈ acc.emojiMap, breakdownSum kv.2.breakdown = some kv.2.total)
    (h : processMessage fns targetWordLength acc msg = some acc1) :
    (∀ kv ∈ acc1.wordMap, breakdownSum kv.2.breakdown = some kv.2.total) ∧
    (∀ kv ∈ acc1.emojiMap, breakdownSum kv.2.breakdown = some kv.2.total) := by
  rcases processMessage_some fns targetWordLength acc acc1 msg h with
    ⟨-, rfl⟩ | ⟨p0, t, p3, wordMap, emojiMap, -, -, hcw, hce, hrest⟩
  · exact ⟨hw, he⟩
  · have hw1 := countWords_sum targetWordLength msg hsender _ _ _ hw hcw
    have he1 := countEmojis_sum msg.sender hsender _ _ _ he hce
    rcases hrest with ⟨-, rfl⟩ | ⟨lastMsg, starters, replyTimes, p4, -, -, rfl⟩
    · exact ⟨hw1, he1⟩
    · exact ⟨hw1, he1⟩

theorem mainLoop_sum (fns : DateFns) (targetWordLength : Nat) (msgs : List Msg)
    (hsender : ∀ m ∈ msgs, m.sender ∉ objectPrototypeKeys) :
    ∀ (acc acc1 : Acc),
      (∀ kv ∈ acc.wordMap, breakdownSum kv.2.breakdown = some kv.2.total) →
      (∀ kv ∈ acc.emojiMap, breakdownSum kv.2.breakdown = some kv.2.total) →
      mainLoop fns targetWordLength acc msgs = some acc1 →
      (∀ kv ∈ acc1.wordMap, breakdownSum kv.2.breakdown = some kv.2.total) ∧
      (∀ kv ∈ acc1.emojiMap, breakdownSum kv.2.breakdown = some kv.2.total) := by
  induction msgs with
  | nil =>
    intro acc acc1 hw he h
    simp only [mainLoop, Option.some.injEq] at h
    subst h
    exact ⟨hw, he⟩
  | cons msg rest ih =>
    intro acc acc1 hw he h
    simp only [mainLoop] at h
    cases hstep : processMessage fns targetWordLength acc msg with
    | none => rw [hstep] at h; cases h
    | some acc2 =>
      rw [hstep] at h
      have h1 := processMessage_sum fns targetWordLength acc acc2 msg
        (hsender msg (List.mem_cons_self _ _)) hw he hstep
      exact ih (fun m hm => hsender m (List.mem_cons_of_mem _ hm)) acc2 acc1 h1.1 h1.2 h

theorem mem_topList (map : Props FreqEntry) (i : TopItem) (h : i ∈ topList map) :
    ∃ kv ∈ map, i = { key := kv.1, total := kv.2.total, breakdown := kv.2.breakdown } := by
  unfold topList at h
  obtain ⟨kv, hkv, rfl⟩ := List.mem_map.mp h
  have h1 := List.mem_of_mem_take hkv
  have h2 := (mem_sortDesc _ _ _).mp h1
  exact ⟨kv, Props.mem_entries _ _ h2, rfl⟩

/-- Frequency invariant when no selected sender is a property name of
`Object.prototype`: whenever `useAdvancedStats` yields a result, every item of
`topWords` and of `topEmojis` has `total` equal to the sum of the values of its
per-sender breakdown. -/
theorem frequency_invariant (fns : DateFns) (rawMessages : Option (List Msg)) (timeFilter : Str)
    (selectedParticipants : List Str) (targetWordLength : Nat) (r : StatsResult)
    (hsel : ∀ s ∈ selectedParticipants, s ∉ objectPrototypeKeys)
    (h : useAdvancedStats fns rawMessages timeFilter selectedParticipants targetWordLength =
      .result r) :
    (∀ i ∈ r.topWords, breakdownSum i.breakdown = some i.total) ∧
    (∀ i ∈ r.topEmojis, breakdownSum i.breakdown = some i.total) := by
  unfold useAdvancedStats computeStats at h
  split at h
  · cases h
  · split at h
    · cases h
    · next acc hloop =>
      simp only [Stats.result.injEq] at h
      subst h
      have hinv := mainLoop_sum fns targetWordLength _
        (fun m hm => hsel _ (mem_filteredMessages _ _ _ _ m hm).1) _ _
        (by simp [Acc.init]) (by simp [Acc.init]) hloop
      refine ⟨?_, ?_⟩
      · intro i hi
        obtain ⟨kv, hkv, rfl⟩ := mem_topList _ _ hi
        exact hinv.1 kv hkv
      · intro i hi
        obtain ⟨kv, hkv, rfl⟩ := mem_topList _ _ hi
        exact hinv.2 kv hkv

/-! ## The number of messages returned by the parser -/

theorem flush_length (st : ParserState) :
    st.flush.length = st.messages.length + (if st.currentMsg.isSome then st.pushed + 1 else 0) := by
  unfold ParserState.flush
  cases st.currentMsg with
  | none => simp
  | some m => simp

theorem parseLine_count (host : Host) (st : ParserState) (line : Str) :
    (parseLine host st line).flush.length =
      st.flush.length +
        (match headerKind line with
          | some false => 1
          | some true => if st.currentMsg.isSome then 1 else 0
          | none => 0) ∧
    (parseLine host st line).currentMsg.isSome =
      (st.currentMsg.isSome || headerKind line == some false) := by
  unfold parseLine headerKind
  simp only
  by_cases hempty : (trim (removeMarks line)).isEmpty = true
  · have hnil : trim (removeMarks line) = [] := List.isEmpty_iff.mp hempty
    have hm : matchHeader [] = none := by decide
    rw [if_pos hempty, hnil, hm]
    simp
  · rw [if_neg hempty]
    cases hm : matchHeader (trim (removeMarks line)) with
    | none =>
      simp only [Option.map_none']
      cases hcur : st.currentMsg with
      | none => simp [hcur]
      | some m => simp [flush_length, hcur]
    | some h =>
      simp only [Option.map_some']
      by_cases hsys : isSystemSender (trim h.senderRaw) = true
      · rw [if_pos hsys, hsys]
        cases hcur : st.currentMsg with
        | none => simp [hcur]
        | some m => simp [flush_length, hcur]; omega
      · rw [if_neg hsys]
        have hsys' : isSystemSender (trim h.senderRaw) = false := by simpa using hsys
        rw [hsys']
        cases hcur : st.currentMsg with
        | none => simp [flush_length, hcur, ParserState.aliases]
        | some m =>
          simp [flush_length, hcur, ParserState.aliases]

theorem foldl_parseLine_count (host : Host) (lines : List Str) : ∀ (st : ParserState),
    (lines.foldl (parseLine host) st).flush.length =
      st.flush.length + (lines.filter (fun line => headerKind line == some false)).length +
        systemHeadersInProgress st.currentMsg.isSome lines := by
  induction lines with
  | nil => intro st; simp [systemHeadersInProgress]
  | cons line rest ih =>
    intro st
    obtain ⟨h1, h2⟩ := parseLine_count host st line
    simp only [List.foldl_cons]
    rw [ih, h1, h2]
    cases hk : headerKind line with
    | none => simp [systemHeadersInProgress, hk, List.filter_cons]
    | some b =>
      cases b with
      | true => simp [systemHeadersInProgress, hk, List.filter_cons]; omega
      | false => simp [systemHeadersInProgress, hk, List.filter_cons]; omega

theorem nonSystemHeaderLines_eq (fileContent : Str) :
    nonSystemHeaderLines fileContent =
      (splitLines fileContent).filter (fun line => headerKind line == some false) := by
  unfold nonSystemHeaderLines headerKind
  congr 1
  funext line
  cases matchHeader (trim (removeMarks line)) with
  | none => simp
  | some h => cases hs : isSystemSender (trim h.senderRaw) <;> simp [hs]

/-- The number of messages `parseChat` returns: one for each non-system header
line, and one more for each system header line met while a message is in
progress (the message in progress is pushed once more). -/
theorem parseChat_messages_length (host : Host) (lastIndex : Nat) (fileContent : Str) :
    (parseChat host lastIndex fileContent).messages.length =
      (nonSystemHeaderLines fileContent).length +
        systemHeadersInProgress false (splitLines fileContent) := by
  simp only [parseChat, sortByTimestamp, List.length_insertionSort, parseLines]
  rw [foldl_parseLine_count, nonSystemHeaderLines_eq]
  simp [ParserState.init, ParserState.flush]

/-! ## Lines before the first header line -/

theorem splitLinesAux_line (l rest : Str) (hl : ∀ c ∈ l, c ≠ '\n') : ∀ cur : Str,
    splitLinesAux cur (l ++ '\n' :: rest) = (cur.reverse ++ l) :: splitLinesAux [] rest := by
  induction l with
  | nil => intro cur; simp [splitLinesAux]
  | cons c cs ih =>
    intro cur
    have hc : c ≠ '\n' := hl c (List.mem_cons_self _ _)
    simp only [List.cons_append, splitLinesAux, if_neg hc]
    exact (ih (fun x hx => hl x (List.mem_cons_of_mem _ hx)) (c :: cur)).trans (by simp)

theorem splitLines_prependLines (pre : List Str) (rest : Str)
    (hpre : ∀ l ∈ pre, ∀ c ∈ l, c ≠ '\n') :
    splitLines (prependLines pre rest) = pre ++ splitLines rest := by
  induction pre with
  | nil => rfl
  | cons l ls ih =>
    have h1 := splitLinesAux_line l (prependLines ls rest) (hpre l (List.mem_cons_self _ _)) []
    simp only [List.reverse_nil, List.nil_append] at h1
    show splitLinesAux [] (l ++ '\n' :: prependLines ls rest) = _
    rw [h1]
    show l :: splitLines (prependLines ls rest) = _
    rw [ih (fun x hx => hpre x (List.mem_cons_of_mem _ hx))]
    rfl

theorem parseLine_unattributable (host : Host) (st : ParserState) (line : Str)
    (hcur : st.currentMsg = none) (hline : headerKind line = none) :
    parseLine host st line = st := by
  unfold headerKind at hline
  have hm : matchHeader (trim (removeMarks line)) = none := by
    cases h : matchHeader (trim (removeMarks line)) with
    | none => rfl
    | some x => rw [h] at hline; cases hline
  unfold parseLine
  simp only [hm, hcur]
  split <;> rfl

theorem foldl_parseLine_unattributable (host : Host) (lines : List Str) (st : ParserState)
    (hcur : st.currentMsg = none) (hlines : ∀ l ∈ lines, headerKind l = none) :
    lines.foldl (parseLine host) st = st := by
  induction lines with
  | nil => rfl
  | cons l ls ih =>
    simp only [List.foldl_cons]
    rw [parseLine_unattributable host st l hcur (hlines l (List.mem_cons_self _ _))]
    exact ih (fun x hx => hlines x (List.mem_cons_of_mem _ hx))

/-- C20. Lines that are no header lines and precede the rest of the text are
dropped: for every host, every `lastIndex`, every list `pre` of such lines
and every text `rest`, `parseChat` gives the same result (messages,
participants and `lastIndex`) on `pre` followed by `rest` as on `rest`
alone.  A text none of whose lines is a header line yields no message and no
participant, and so does the empty text. -/
theorem parseChat_leading_lines_dropped (host : Host) (lastIndex : Nat) (pre : List Str)
    (rest : Str) (hpre : ∀ l ∈ pre, headerKind l = none ∧ ∀ c ∈ l, c ≠ '\n') :
    parseChat host lastIndex (prependLines pre rest) = parseChat host lastIndex rest ∧
    (∀ text : Str, (∀ l ∈ splitLines text, headerKind l = none) →
      (parseChat host lastIndex text).messages = [] ∧
      (parseChat host lastIndex text).participants = []) ∧
    (parseChat host lastIndex []).messages = [] ∧
    (parseChat host lastIndex []).participants = [] := by
  refine ⟨?_, ?_, rfl, rfl⟩
  · have hsplit := splitLines_prependLines pre rest (fun l hl => (hpre l hl).2)
    have hfold : parseLines host lastIndex (prependLines pre rest) =
        parseLines host lastIndex rest := by
      unfold parseLines
      rw [hsplit, List.foldl_append,
        foldl_parseLine_unattributable host pre _ rfl (fun l hl => (hpre l hl).1)]
    unfold parseChat
    rw [hfold]
  · intro text htext
    have hfold : parseLines host lastIndex text = ParserState.init lastIndex := by
      unfold parseLines
      exact foldl_parseLine_unattributable host _ _ rfl htext
    unfold parseChat
    rw [hfold]
    exact ⟨rfl, rfl⟩

theorem parseChat_leading_lines_dropped_witness :
    (∀ l ∈ ["hello".toList, "".toList, "no header: here".toList],
      headerKind l = none ∧ ∀ c ∈ l, c ≠ '\n') ∧
    parseChat refHost 0
        (prependLines ["hello".toList, "".toList, "no header: here".toList]
          "1/1/24, 10:00 - A: hi\nthere".toList) =
      parseChat refHost 0 "1/1/24, 10:00 - A: hi\nthere".toList ∧
    (∀ l ∈ splitLines "hello\n\nno header: here".toList, headerKind l = none) ∧
    (parseChat refHost 0 "hello\n\nno header: here".toList).messages = [] :=
  ⟨by decide,
   (parseChat_leading_lines_dropped refHost 0
      ["hello".toList, "".toList, "no header: here".toList]
      "1/1/24, 10:00 - A: hi\nthere".toList (by decide)).1,
   by decide,
   ((parseChat_leading_lines_dropped refHost 0 [] [] (by decide)).2.1
      "hello\n\nno header: here".toList (by decide)).1⟩

/-! ## The filter stage -/

theorem startDate_eq_windowStart (fns : DateFns) (timeFilter : Str) :
    startDate fns timeFilter = windowStart fns timeFilter := by
  unfold startDate windowStart
  by_cases h1 : timeFilter = "week".toList
  · subst h1
    rw [if_neg (by decide), if_neg (by decide), if_pos rfl, if_pos rfl]
  · by_cases h2 : timeFilter = "month".toList
    · subst h2
      rw [if_neg (by decide), if_pos rfl, if_neg h1, if_pos rfl]
    · by_cases h3 : timeFilter = "year".toList
      · subst h3
        rw [if_pos rfl, if_neg h1, if_neg h2, if_pos rfl]
      · simp only [if_neg h1, if_neg h2, if_neg h3]

theorem filter_eq_qualifies (fns : DateFns) (timeFilter : Str) (selectedParticipants : List Str)
    (msg : Msg) :
    (dateGE msg.timestamp (startDate fns timeFilter) && selectedParticipants.contains msg.sender) =
      qualifies (windowStart fns timeFilter) selectedParticipants msg := by
  rw [startDate_eq_windowStart]
  unfold dateGE qualifies
  cases msg.timestamp with
  | none => rfl
  | some t =>
    simp only [ge_iff_le]
    congr 1
    by_cases hm : msg.sender ∈ selectedParticipants <;> simp [hm]

theorem qualifies_iff (boundary : Int) (allowedSenders : List Str) (m : Msg) :
    qualifies boundary allowedSenders m = true ↔
      (∃ t, m.timestamp = some t ∧ boundary ≤ t) ∧ m.sender ∈ allowedSenders := by
  unfold qualifies
  cases m.timestamp with
  | none => simp
  | some t => simp

/-- C18. For every message sequence in ascending timestamp order, every
window selector and every allow-list, `filteredMessages` is the subsequence
of the messages that qualify, in the original order: a message is in it
exactly when it is in the input, its date is valid with a timestamp at or
after the start boundary, and its sender is in the allow-list.  The boundary
is the epoch for `all` (and for any other text), and the start of the current
week, month or year for `week`, `month` and `year`.  The `filter` call makes
a new array and the sort acts on that array, so the embedding has the input
as a value that no operation changes. -/
theorem filteredMessages_is_subsequence (fns : DateFns) (messages : List Msg) (timeFilter : Str)
    (selectedParticipants : List Str) (hsorted : messages.Pairwise tsLE) :
    filteredMessages fns (some messages) timeFilter selectedParticipants =
      messages.filter (qualifies (windowStart fns timeFilter) selectedParticipants) ∧
    (filteredMessages fns (some messages) timeFilter selectedParticipants).Sublist messages ∧
    (∀ m, m ∈ filteredMessages fns (some messages) timeFilter selectedParticipants ↔
      m ∈ messages ∧ (∃ t, m.timestamp = some t ∧ windowStart fns timeFilter ≤ t) ∧
        m.sender ∈ selectedParticipants) ∧
    startDate fns timeFilter = windowStart fns timeFilter ∧
    startDate fns "all".toList = 0 ∧
    startDate fns "week".toList = fns.startOfWeekNow ∧
    startDate fns "month".toList = fns.startOfMonthNow ∧
    startDate fns "year".toList = fns.startOfYearNow ∧
    (timeFilter ≠ "week".toList → timeFilter ≠ "month".toList → timeFilter ≠ "year".toList →
      startDate fns timeFilter = 0) := by
  have heq : filteredMessages fns (some messages) timeFilter selectedParticipants =
      messages.filter (qualifies (windowStart fns timeFilter) selectedParticipants) := by
    have hfun : (fun msg : Msg => dateGE msg.timestamp (startDate fns timeFilter) &&
        selectedParticipants.contains msg.sender) =
        qualifies (windowStart fns timeFilter) selectedParticipants := by
      funext msg
      exact filter_eq_qualifies fns timeFilter selectedParticipants msg
    unfold filteredMessages sortByTimestamp
    simp only [hfun]
    exact List.Sorted.insertionSort_eq (List.Pairwise.sublist (List.filter_sublist _) hsorted)
  refine ⟨heq, ?_, ?_, startDate_eq_windowStart fns timeFilter, ?_, ?_, ?_, ?_, ?_⟩
  · rw [heq]
    exact List.filter_sublist _
  · intro m
    rw [heq, List.mem_filter, qualifies_iff]
  · simp [startDate]
  · simp [startDate]
  · simp [startDate]
  · simp [startDate]
  · intro h1 h2 h3
    simp at h1 h2 h3
    simp [startDate, h1, h2, h3]

theorem filteredMessages_is_subsequence_witness :
    windowExample.Pairwise tsLE ∧
    windowStart refDateFns "week".toList = 1735430400000 ∧
    windowExample.map (fun m => (m.sender, m.timestamp)) =
      [("X".toList, some 1735430399999), ("X".toList, some 1735430400000),
       ("Z".toList, some 1735430400001), ("X".toList, some 1735689599999),
       ("Y".toList, some 1735689600000)] ∧
    filteredMessages refDateFns (some windowExample) "week".toList ["X".toList, "Y".toList] =
      [msgAfter "X".toList 31320000000, msgAfter "X".toList 31579199999,
       msgAfter "Y".toList 31579200000] ∧
    filteredMessages refDateFns (some windowExample) "month".toList ["X".toList, "Y".toList] =
      [msgAfter "Y".toList 31579200000] ∧
    filteredMessages refDateFns (some windowExample) "year".toList ["X".toList, "Y".toList] =
      [msgAfter "Y".toList 31579200000] ∧
    filteredMessages refDateFns (some windowExample) "all".toList ["X".toList, "Y".toList] =
      [msgAfter "X".toList 31319999999, msgAfter "X".toList 31320000000,
       msgAfter "X".toList 31579199999, msgAfter "Y".toList 31579200000] :=
  ⟨by decide, by decide, by decide,
   ((filteredMessages_is_subsequence refDateFns windowExample "week".toList
      ["X".toList, "Y".toList] (by decide)).1).trans (by decide),
   ((filteredMessages_is_subsequence refDateFns windowExample "month".toList
      ["X".toList, "Y".toList] (by decide)).1).trans (by decide),
   ((filteredMessages_is_subsequence refDateFns windowExample "year".toList
      ["X".toList, "Y".toList] (by decide)).1).trans (by decide),
   ((filteredMessages_is_subsequence refDateFns windowExample "all".toList
      ["X".toList, "Y".toList] (by decide)).1).trans (by decide)⟩

/-! ## The no-data marker and the vocabulary mode -/

theorem useAdvancedStats_null_iff (fns : DateFns) (rawMessages : Option (List Msg))
    (timeFilter : Str) (selectedParticipants : List Str) (targetWordLength : Nat) :
    useAdvancedStats fns rawMessages timeFilter selectedParticipants targetWordLength = .null ↔
      filteredMessages fns rawMessages timeFilter selectedParticipants = [] := by
  unfold useAdvancedStats computeStats
  cases hf : filteredMessages fns rawMessages timeFilter selectedParticipants with
  | nil => simp
  | cons m ms =>
    simp only [List.isEmpty_cons, Bool.false_eq_true, if_false]
    cases mainLoop fns targetWordLength (Acc.init selectedParticipants) (m :: ms) <;> simp

theorem useAdvancedStats_totalMessages (fns : DateFns) (rawMessages : Option (List Msg))
    (timeFilter : Str) (selectedParticipants : List Str) (targetWordLength : Nat)
    (r : StatsResult)
    (h : useAdvancedStats fns rawMessages timeFilter selectedParticipants targetWordLength =
      .result r) :
    r.totalMessages = (filteredMessages fns rawMessages timeFilter selectedParticipants).length := by
  unfold useAdvancedStats computeStats at h
  split at h
  · cases h
  · split at h
    · cases h
    · cases h
      rfl

theorem filteredMessages_nil_cases (fns : DateFns) (timeFilter : Str)
    (selectedParticipants : List Str) (messages : List Msg) :
    filteredMessages fns none timeFilter selectedParticipants = [] ∧
    filteredMessages fns (some messages) timeFilter [] = [] := by
  refine ⟨rfl, ?_⟩
  simp [filteredMessages, sortByTimestamp]

/-- C19 (the code at the failing input). The one-line chat
`1/1/2024, 10:00 - A: the constructor ran` parses to one message of sender A
with the words `the`, `constructor`, `ran`.  With the selector `all`, the
allow-list [A] and the default vocabulary mode 0 the filtered sequence is that
one message, not empty, and `useAdvancedStats` returns neither `null` nor a
result object: the word `constructor` makes `wordMap[w].breakdown` undefined
and the pass throws a TypeError.  With exact length 5 the same chat gives a
result with `totalMessages` 1. -/
theorem useAdvancedStats_throws_on_inherited_word :
    (parseChat refHost 0 "1/1/2024, 10:00 - A: the constructor ran".toList).messages.map
        (fun m => (m.sender, m.words, m.isMedia)) =
      [("A".toList, ["the".toList, "constructor".toList, "ran".toList], false)] ∧
    (filteredMessages refDateFns
        (some (parseChat refHost 0 "1/1/2024, 10:00 - A: the constructor ran".toList).messages)
        "all".toList ["A".toList]).length = 1 ∧
    useAdvancedStats refDateFns
        (some (parseChat refHost 0 "1/1/2024, 10:00 - A: the constructor ran".toList).messages)
        "all".toList ["A".toList] 0 = .typeError ∧
    (useAdvancedStats refDateFns
        (some (parseChat refHost 0 "1/1/2024, 10:00 - A: the constructor ran".toList).messages)
        "all".toList ["A".toList] 5).toOption.map (fun r => r.totalMessages) = some 1 := by
  refine ⟨?_, ?_, ?_, ?_⟩ <;> decide

theorem countWord_own (targetWordLength : Nat) (msg : Msg)
    (st : ParticipantStat × Props FreqEntry) (w : Str)
    (hw : w ∉ objectPrototypeKeys ∨ (st.2.get w).isSome) :
    ∃ st1, countWord targetWordLength msg st w = some st1 ∧
      (isValidLen targetWordLength w = true ∧ msg.isMedia = false →
        st1.1.words = st.1.words + 1 ∧
        (st1.2.get w).map (fun e => e.total) =
          some (((st.2.get w).map (fun e => e.total)).getD 0 + 1)) ∧
      (¬ (isValidLen targetWordLength w = true ∧ msg.isMedia = false) → st1 = st) := by
  unfold countWord
  by_cases hc : isValidLen targetWordLength w = true ∧ msg.isMedia = false
  · have hc1 : (isValidLen targetWordLength w && !msg.isMedia) = true := by simp [hc.1, hc.2]
    rw [if_pos hc1]
    unfold bumpEntry
    cases hg : st.2.get w with
    | some e =>
      refine ⟨_, rfl, fun _ => ⟨rfl, ?_⟩, fun hn => absurd hc hn⟩
      simp [Props.get_set_eq]
    | none =>
      have hw1 : w ∉ objectPrototypeKeys := by
        rcases hw with hw | hw
        · exact hw
        · rw [hg] at hw; cases hw
      simp only [if_neg hw1]
      refine ⟨_, rfl, fun _ => ⟨rfl, ?_⟩, fun hn => absurd hc hn⟩
      simp [Props.get_set_eq]
  · have hc1 : ¬ (isValidLen targetWordLength w && !msg.isMedia) = true := by
      intro h
      simp only [Bool.and_eq_true, Bool.not_eq_true'] at h
      exact hc h
    rw [if_neg hc1]
    exact ⟨st, rfl, fun h => absurd h hc, fun _ => rfl⟩

/-- C17 (the code at the failing input). The token `constructor` passes the
length test of the default mode (11 characters, at least 3) and the message is
no media placeholder, yet the callback does not add it to the word-frequency
table: `wordMap[w]` is the inherited function, no entry is made,
`wordMap[w].breakdown` is undefined and the statement throws, so the pass over
the message and the whole computation end in a TypeError.  The length test
itself is as stated: with exact length 4, `chat` passes and `chats` does not,
and with mode 0 `chats` passes. -/
theorem countWord_inherited_token_throws :
    isValidLen 0 "constructor".toList = true ∧
    (mkMsg "A".toList 0 ["constructor".toList] []).isMedia = false ∧
    countWord 0 (mkMsg "A".toList 0 ["constructor".toList] [])
      (ParticipantStat.init "A".toList, []) "constructor".toList = none ∧
    processMessage refDateFns 0 (Acc.init ["A".toList])
      (mkMsg "A".toList 0 ["constructor".toList] []) = none ∧
    useAdvancedStats refDateFns (some [mkMsg "A".toList 0 ["constructor".toList] []])
      "all".toList ["A".toList] 0 = .typeError ∧
    isValidLen 4 "chat".toList = true ∧ isValidLen 4 "chats".toList = false ∧
    isValidLen 0 "chats".toList = true := by
  refine ⟨?_, ?_, ?_, ?_, ?_, ?_, ?_, ?_⟩ <;> decide

/-! ## The keys of the tables -/

theorem Props.keys_set {α : Type} (o : Props α) (k : Str) (v : α) :
    (o.set k v).map Prod.fst =
      if k ∈ o.map Prod.fst then o.map Prod.fst else o.map Prod.fst ++ [k] := by
  induction o with
  | nil => simp [Props.set]
  | cons kv rest ih =>
    obtain ⟨k1, v1⟩ := kv
    by_cases hk : k1 = k
    · subst hk
      have hmem : k1 ∈ List.map Prod.fst ((k1, v1) :: rest) := by
        rw [List.map_cons]
        exact List.mem_cons_self _ _
      rw [if_pos hmem]
      simp only [Props.set, if_true, List.map_cons]
    · have hk' : ¬ k = k1 := fun e => hk e.symm
      simp only [Props.set, if_neg hk, List.map_cons, ih, List.mem_cons, hk', false_or]
      split
      · rfl
      · rfl

theorem Props.mem_keys_of_get {α : Type} (o : Props α) (k : Str) (v : α)
    (h : o.get k = some v) : k ∈ o.map Prod.fst :=
  List.mem_map.mpr ⟨(k, v), Props.mem_of_get o k v h, rfl⟩

theorem Props.get_of_mem {α : Type} (o : Props α) (k : Str) (v : α)
    (hnd : (o.map Prod.fst).Nodup) (h : (k, v) ∈ o) : o.get k = some v := by
  induction o with
  | nil => cases h
  | cons kv rest ih =>
    obtain ⟨k1, v1⟩ := kv
    simp only [List.map_cons, List.nodup_cons] at hnd
    rcases List.mem_cons.mp h with h | h
    · cases h
      simp [Props.get]
    · have hne : k1 ≠ k := by
        intro e
        subst e
        exact hnd.1 (List.mem_map.mpr ⟨(k1, v), h, rfl⟩)
      simp [Props.get, hne, ih hnd.2 h]

theorem Props.keys_set_nodup {α : Type} (o : Props α) (k : Str) (v : α)
    (hnd : (o.map Prod.fst).Nodup) : ((o.set k v).map Prod.fst).Nodup := by
  rw [Props.keys_set]
  split
  · exact hnd
  · next hk =>
    exact List.nodup_append.mpr ⟨hnd, List.nodup_singleton k, by
      intro a ha hb
      simp only [List.mem_singleton] at hb
      subst hb
      exact hk ha⟩

theorem JSObj.keys_set_of_get {α : Type} (o : JSObj α) (k : Str) (v w : α)
    (h : o.get k = some w) : (o.set k v).props.map Prod.fst = o.props.map Prod.fst := by
  unfold JSObj.set
  unfold JSObj.get at h
  by_cases hk : k = protoKey
  · simp [hk]
  · rw [if_neg hk] at h
    simp only [if_neg hk]
    rw [Props.keys_set, if_pos (Props.mem_keys_of_get _ _ _ h)]

theorem Props.keys_incr (o : Props Nat) (k : Str) :
    (o.incr k).map Prod.fst = o.map Prod.fst := by
  unfold Props.incr
  split
  · rfl
  · cases h : o.get k with
    | none => rfl
    | some n =>
      simp only
      rw [Props.keys_set, if_pos (Props.mem_keys_of_get _ _ _ h)]

theorem flowStep_keys (starters starters1 : Props Nat)
    (replyTimes replyTimes1 : JSObj (List (Option Int))) (p p1 : ParticipantStat)
    (lastMsg msg : Msg)
    (h : flowStep starters replyTimes p lastMsg msg = some (starters1, replyTimes1, p1)) :
    starters1.map Prod.fst = starters.map Prod.fst ∧
    replyTimes1.props.map Prod.fst = replyTimes.props.map Prod.fst ∧
    p1.name = p.name := by
  rcases flowStep_some _ _ _ _ _ _ _ _ h with
    ⟨-, rfl, rfl, rfl⟩ | ⟨-, -, rfl, rfl, times, hget, rfl⟩ | ⟨-, -, -, rfl, rfl, rfl⟩ |
    ⟨-, -, -, rfl, rfl, rfl⟩
  · exact ⟨Props.keys_incr _ _, rfl, rfl⟩
  · exact ⟨rfl, JSObj.keys_set_of_get _ _ _ _ hget, rfl⟩
  · exact ⟨rfl, rfl, rfl⟩
  · exact ⟨rfl, rfl, rfl⟩

theorem countWord_name (targetWordLength : Nat) (msg : Msg)
    (st st1 : ParticipantStat × Props FreqEntry) (w : Str)
    (h : countWord targetWordLength msg st w = some st1) : st1.1.name = st.1.name := by
  unfold countWord at h
  split at h
  · cases hb : bumpEntry st.2 w msg.sender with
    | none => rw [hb] at h; cases h
    | some wordMap =>
      rw [hb] at h
      simp only [Option.some.injEq] at h
      rw [← h]
  · simp only [Option.some.injEq] at h
    rw [h]

theorem countWords_name (targetWordLength : Nat) (msg : Msg) (ws : List Str) :
    ∀ (st st1 : ParticipantStat × Props FreqEntry),
    countWords targetWordLength msg st ws = some st1 → st1.1.name = st.1.name := by
  induction ws with
  | nil =>
    intro st st1 h
    simp only [countWords, Option.some.injEq] at h
    rw [h]
  | cons w ws ih =>
    intro st st1 h
    simp only [countWords] at h
    cases hw : countWord targetWordLength msg st w with
    | none => rw [hw] at h; cases h
    | some st2 =>
      rw [hw] at h
      exact (ih st2 st1 h).trans (countWord_name _ _ _ _ _ hw)

theorem basicCounts_name (p : ParticipantStat) (msg : Msg) : (basicCounts p msg).name = p.name := by
  unfold basicCounts
  rfl

theorem sleepCounts_name (p : ParticipantStat) (hour : Nat) :
    (sleepCounts p hour).name = p.name := by
  unfold sleepCounts
  rfl

theorem processMessage_keys (fns : DateFns) (targetWordLength : Nat) (acc0 acc acc1 : Acc)
    (msg : Msg) (hinv : KeysInv acc0 acc)
    (h : processMessage fns targetWordLength acc msg = some acc1) : KeysInv acc0 acc1 := by
  obtain ⟨hps, hrt, hst, hname⟩ := hinv
  rcases processMessage_some fns targetWordLength acc acc1 msg h with
    ⟨-, rfl⟩ | ⟨p0, t, p3, wordMap, emojiMap, hget, -, hwords, -, hrest⟩
  · exact ⟨hps, hrt, hst, hname⟩
  · have hp3 : p3.name = p0.name := by
      have h1 := countWords_name _ _ _ _ _ hwords
      simp only [sleepCounts_name, basicCounts_name] at h1
      exact h1
    have hset : ∀ p4 : ParticipantStat, p4.name = p0.name →
        (acc.participantStats.set msg.sender p4).props.map Prod.fst =
            acc0.participantStats.props.map Prod.fst ∧
        ∀ kv ∈ (acc.participantStats.set msg.sender p4).props, kv.2.name = kv.1 := by
      intro p4 hp4
      refine ⟨(JSObj.keys_set_of_get _ _ _ _ hget).trans hps, ?_⟩
      intro kv hkv
      unfold JSObj.set at hkv
      unfold JSObj.get at hget
      split at hkv
      · exact hname kv hkv
      · next hne =>
        rw [if_neg hne] at hget
        rcases Props.mem_set _ _ _ _ hkv with h1 | h1
        · exact hname kv h1
        · subst h1
          have h2 := hname _ (Props.mem_of_get _ _ _ hget)
          exact hp4.trans h2
    rcases hrest with ⟨-, rfl⟩ | ⟨lastMsg, starters, replyTimes, p4, -, hflow, rfl⟩
    · exact ⟨(hset p3 hp3).1, hrt, hst, (hset p3 hp3).2⟩
    · have hf := flowStep_keys _ _ _ _ _ _ _ _ hflow
      have hp4 : p4.name = p0.name := hf.2.2.trans hp3
      exact ⟨(hset p4 hp4).1, hf.2.1.trans hrt, hf.1.trans hst, (hset p4 hp4).2⟩

theorem mainLoop_keys (fns : DateFns) (targetWordLength : Nat) (acc0 : Acc) (msgs : List Msg) :
    ∀ (acc acc1 : Acc), mainLoop fns targetWordLength acc msgs = some acc1 →
    KeysInv acc0 acc → KeysInv acc0 acc1 := by
  induction msgs with
  | nil =>
    intro acc acc1 h hinv
    simp only [mainLoop, Option.some.injEq] at h
    subst h
    exact hinv
  | cons msg rest ih =>
    intro acc acc1 h hinv
    simp only [mainLoop] at h
    cases hstep : processMessage fns targetWordLength acc msg with
    | none => rw [hstep] at h; cases h
    | some acc2 =>
      rw [hstep] at h
      exact ih acc2 acc1 h (processMessage_keys fns targetWordLength acc0 acc acc2 msg hinv hstep)

theorem foldl_set_props {α : Type} (f : Str → α) (ps : List Str) : ∀ (o : JSObj α),
    (o.props.map Prod.fst).Nodup → (∀ kv ∈ o.props, kv.1 ≠ protoKey) →
    ((ps.foldl (fun o p => o.set p (f p)) o).props.map Prod.fst).Nodup ∧
    (∀ kv ∈ (ps.foldl (fun o p => o.set p (f p)) o).props,
      kv ∈ o.props ∨ kv.2 = f kv.1) ∧
    (ps.Nodup → (∀ p ∈ ps, p ∉ o.props.map Prod.fst) →
      (ps.foldl (fun o p => o.set p (f p)) o).props.map Prod.fst =
        o.props.map Prod.fst ++ ps.filter (fun p => decide (p ≠ protoKey))) := by
  induction ps with
  | nil =>
    intro o hnd _
    exact ⟨hnd, fun kv hkv => Or.inl hkv, fun _ _ => by simp⟩
  | cons p ps ih =>
    intro o hnd hproto
    simp only [List.foldl_cons]
    by_cases hp : p = protoKey
    · have hset : o.set p (f p) = { o with proto := some (f p) } := by
        unfold JSObj.set
        rw [if_pos hp]
      rw [hset]
      obtain ⟨h1, h2, h3⟩ := ih { o with proto := some (f p) } hnd hproto
      refine ⟨h1, h2, ?_⟩
      intro hps hfresh
      rw [h3 (List.nodup_cons.mp hps).2 (fun q hq => hfresh q (List.mem_cons_of_mem _ hq))]
      simp [hp]
    · have hset : o.set p (f p) = { o with props := o.props.set p (f p) } := by
        unfold JSObj.set
        rw [if_neg hp]
      rw [hset]
      have hnd1 : (({ o with props := o.props.set p (f p) } : JSObj α).props.map Prod.fst).Nodup :=
        Props.keys_set_nodup _ _ _ hnd
      have hproto1 : ∀ kv ∈ ({ o with props := o.props.set p (f p) } : JSObj α).props,
          kv.1 ≠ protoKey := by
        intro kv hkv
        rcases Props.mem_set _ _ _ _ hkv with h | h
        · exact hproto kv h
        · rw [h]; exact hp
      obtain ⟨h1, h2, h3⟩ := ih _ hnd1 hproto1
      refine ⟨h1, ?_, ?_⟩
      · intro kv hkv
        rcases h2 kv hkv with h | h
        · rcases Props.mem_set _ _ _ _ h with h | h
          · exact Or.inl h
          · right; rw [h]
        · exact Or.inr h
      · intro hps hfresh
        have hpfresh : p ∉ o.props.map Prod.fst := hfresh p (List.mem_cons_self _ _)
        have hkeys : (o.props.set p (f p)).map Prod.fst = o.props.map Prod.fst ++ [p] := by
          rw [Props.keys_set, if_neg hpfresh]
        rw [h3 (List.nodup_cons.mp hps).2 (by
          intro q hq
          show q ∉ (o.props.set p (f p)).map Prod.fst
          rw [hkeys]
          intro hmem
          rcases List.mem_append.mp hmem with hm | hm
          · exact hfresh q (List.mem_cons_of_mem _ hq) hm
          · simp only [List.mem_singleton] at hm
            subst hm
            exact (List.nodup_cons.mp hps).1 hq)]
        show (o.props.set p (f p)).map Prod.fst ++ _ = _
        rw [hkeys]
        simp [hp]

/-! ## The average reply time -/

theorem all_some_eq_map (times : List (Option Int)) (h : ∀ x ∈ times, ∃ v, x = some v) :
    ∃ samples : List Int, times = samples.map some := by
  induction times with
  | nil => exact ⟨[], rfl⟩
  | cons x xs ih =>
    obtain ⟨v, rfl⟩ := h x (List.mem_cons_self _ _)
    obtain ⟨samples, rfl⟩ := ih (fun y hy => h y (List.mem_cons_of_mem _ hy))
    exact ⟨v :: samples, rfl⟩

theorem sumTimes_map_some (samples : List Int) :
    sumTimes (samples.map some) = some samples.sum := by
  unfold sumTimes
  suffices hgen : ∀ (l : List Int) (a : Int),
      (l.map some).foldl (fun a b =>
        match a, b with
        | some x, some y => some (x + y)
        | _, _ => none) (some a) = some (a + l.sum) by
    simpa using hgen samples 0
  intro l
  induction l with
  | nil => intro a; simp
  | cons x xs ih =>
    intro a
    simp only [List.map_cons, List.foldl_cons, List.sum_cons]
    rw [ih (a + x)]
    rw [add_assoc]

theorem round_half_up (s : Int) (n : Nat) (hn : 0 < n) :
    (2 * s + n) / (2 * (n : Int)) = ⌊(s : ℚ) / n + 1 / 2⌋ := by
  have hq : (s : ℚ) / n + 1 / 2 = ((2 * s + n : Int) : ℚ) / ((2 * n : Nat) : ℚ) := by
    have hn0 : (n : ℚ) ≠ 0 := by exact_mod_cast hn.ne'
    push_cast
    field_simp
    ring
  rw [hq, Rat.floor_intCast_div_natCast]
  push_cast
  rfl

theorem avgMinutes_map_some (samples : List Int) :
    avgMinutes (samples.map some) =
      some (if samples = [] then 0 else ⌊(samples.sum : ℚ) / samples.length + 1 / 2⌋) := by
  unfold avgMinutes
  cases samples with
  | nil => simp
  | cons x xs =>
    have hne : ¬ ((x :: xs).map some).isEmpty = true := by simp
    rw [if_neg hne, sumTimes_map_some]
    simp only [List.length_map, reduceCtorEq, if_false]
    rw [round_half_up _ _ (by simp)]

theorem filterMap_index_snd {α : Type} (o : Props α) :
    (o.filterMap (fun kv => (arrayIndex kv.1).map (fun n => (n, kv)))).map (fun x => x.2) =
      o.filter (fun kv => (arrayIndex kv.1).isSome) := by
  induction o with
  | nil => rfl
  | cons kv rest ih =>
    cases h : arrayIndex kv.1 with
    | none => simp [List.filterMap_cons, List.filter_cons, h, ih]
    | some n => simp [List.filterMap_cons, List.filter_cons, h, ih]

theorem Props.entries_perm {α : Type} (o : Props α) : o.entries.Perm o := by
  unfold Props.entries
  have h1 : (((o.filterMap (fun kv => (arrayIndex kv.1).map (fun n => (n, kv)))).insertionSort
      (fun a b => a.1 ≤ b.1)).map (fun x => x.2)).Perm
      (o.filter (fun kv => (arrayIndex kv.1).isSome)) := by
    rw [← filterMap_index_snd]
    exact (List.perm_insertionSort _ _).map _
  have h2 : (o.filter (fun kv => (arrayIndex kv.1).isSome) ++
      o.filter (fun kv => (arrayIndex kv.1).isNone)).Perm o := by
    have h3 := List.filter_append_perm (fun kv : Str × α => (arrayIndex kv.1).isSome) o
    have h4 : (fun kv : Str × α => (arrayIndex kv.1).isNone) =
        (fun kv : Str × α => !(arrayIndex kv.1).isSome) := by
      funext kv
      cases arrayIndex kv.1 <;> rfl
    rw [h4]
    exact h3
  exact (h1.append_right _).trans h2

theorem init_replyTimes_nodup (selectedParticipants : List Str) :
    ((Acc.init selectedParticipants).replyTimes.props.map Prod.fst).Nodup := by
  simp only [Acc.init]
  exact (foldl_set_props (fun _ => ([] : List (Option Int))) selectedParticipants ⟨[], none⟩
    (by simp) (by simp)).1

/-- C11 (counterexample). X and Y write in turn at minutes 0, 1, 2 and 4, both
selected: the reply samples of Y are 1 and 2, of mean three halves, and the
`avgMinutes` reported for Y is 2. -/
theorem replyStats_avg_not_the_mean :
    (useAdvancedStats refDateFns (some replyExample) "all".toList
        ["X".toList, "Y".toList] 0).toOption.map (fun r => r.replyStats) =
      some [{ name := "Y".toList, avgMinutes := some 2 },
            { name := "X".toList, avgMinutes := some 1 }] ∧
    (mainLoop refDateFns 0 (Acc.init ["X".toList, "Y".toList])
        (filteredMessages refDateFns (some replyExample) "all".toList
          ["X".toList, "Y".toList])).map (fun acc => acc.replyTimes.props) =
      some [("X".toList, [some 1]), ("Y".toList, [some 1, some 2])] ∧
    ((2 : Int) : ℚ) ≠ (((1 : Int) + 2 : Int) : ℚ) / 2 := by
  refine ⟨by decide, by decide, by norm_num⟩

/-- C11, as amended. Whenever `useAdvancedStats` yields a result object, the
pass has ended with some tables `acc`; every selected sender other than
`__proto__` has an item in `replyStats`; and for every item of `replyStats`
the reply samples of that sender in `acc.replyTimes` are numbers, and
`avgMinutes` is their arithmetic mean rounded to the nearest integer, halves
upward (the floor of the mean plus one half), and 0 when there is no sample. -/
theorem replyStats_avg_is_rounded_mean (fns : DateFns) (rawMessages : Option (List Msg))
    (timeFilter : Str) (selectedParticipants : List Str) (targetWordLength : Nat)
    (r : StatsResult)
    (h : useAdvancedStats fns rawMessages timeFilter selectedParticipants targetWordLength =
      .result r) :
    ∃ acc, mainLoop fns targetWordLength (Acc.init selectedParticipants)
        (filteredMessages fns rawMessages timeFilter selectedParticipants) = some acc ∧
      (∀ s ∈ selectedParticipants, s ≠ protoKey → ∃ g ∈ r.replyStats, g.name = s) ∧
      (∀ g ∈ r.replyStats, ∃ samples : List Int,
        acc.replyTimes.props.get g.name = some (samples.map some) ∧
        g.avgMinutes =
          some (if samples = [] then 0
            else ⌊(samples.sum : ℚ) / samples.length + 1 / 2⌋)) := by
  unfold useAdvancedStats computeStats at h
  split at h
  · cases h
  · split at h
    · cases h
    · next acc hloop =>
      simp only [Stats.result.injEq] at h
      subst h
      refine ⟨acc, hloop, ?_, ?_⟩
      · intro s hs hproto
        have hsome := (mainLoop_tables fns targetWordLength _ _ _ hloop s).2.1
          (init_tables selectedParticipants s hs).2.1
        unfold JSObj.get at hsome
        rw [if_neg hproto] at hsome
        obtain ⟨v, hv⟩ := Option.isSome_iff_exists.mp hsome
        have hmem : (s, v) ∈ acc.replyTimes.props.entries :=
          (Props.entries_perm _).mem_iff.mpr (Props.mem_of_get _ _ _ hv)
        refine ⟨{ name := s, avgMinutes := avgMinutes v }, ?_, rfl⟩
        show _ ∈ ghostStats acc.replyTimes
        unfold ghostStats
        exact (mem_sortDesc _ _ _).mpr (List.mem_map.mpr ⟨(s, v), hmem, rfl⟩)
      · intro g hg
        have hg1 : g ∈ ghostStats acc.replyTimes := hg
        unfold ghostStats at hg1
        obtain ⟨kv, hkv, rfl⟩ := List.mem_map.mp ((mem_sortDesc _ _ _).mp hg1)
        have hkv1 : kv ∈ acc.replyTimes.props := Props.mem_entries _ _ hkv
        have hinv := mainLoop_replyTimes fns targetWordLength selectedParticipants _ _ _ hloop
          (init_replyTimes selectedParticipants) (by simp [Acc.init])
        obtain ⟨samples, hsamples⟩ := all_some_eq_map kv.2 (hinv kv hkv1).2
        have hkeys := mainLoop_keys fns targetWordLength (Acc.init selectedParticipants) _ _ _
          hloop ⟨rfl, rfl, rfl, by
            intro kv hkv
            have h2 := (foldl_set_props (fun p => ParticipantStat.init p) selectedParticipants
              ⟨[], none⟩ (by simp) (by simp)).2.1 kv (by simpa [Acc.init] using hkv)
            rcases h2 with h2 | h2
            · simp at h2
            · rw [h2]; rfl⟩
        have hnd : (acc.replyTimes.props.map Prod.fst).Nodup := by
          rw [hkeys.2.1]
          exact init_replyTimes_nodup selectedParticipants
        refine ⟨samples, ?_, ?_⟩
        · rw [← hsamples]
          exact Props.get_of_mem _ _ _ hnd hkv1
        · show avgMinutes kv.2 = _
          rw [hsamples]
          exact avgMinutes_map_some samples

theorem replyStats_avg_is_rounded_mean_witness :
    useAdvancedStats refDateFns (some replyExample) "all".toList ["X".toList, "Y".toList] 0 =
      .result replyExampleResult ∧
    ∃ acc, mainLoop refDateFns 0 (Acc.init ["X".toList, "Y".toList])
        (filteredMessages refDateFns (some replyExample) "all".toList
          ["X".toList, "Y".toList]) = some acc ∧
      (∀ s ∈ ["X".toList, "Y".toList], s ≠ protoKey →
        ∃ g ∈ replyExampleResult.replyStats, g.name = s) ∧
      (∀ g ∈ replyExampleResult.replyStats, ∃ samples : List Int,
        acc.replyTimes.props.get g.name = some (samples.map some) ∧
        g.avgMinutes =
          some (if samples = [] then 0
            else ⌊(samples.sum : ℚ) / samples.length + 1 / 2⌋)) :=
  ⟨by decide,
   replyStats_avg_is_rounded_mean refDateFns (some replyExample) "all".toList
     ["X".toList, "Y".toList] 0 replyExampleResult (by decide)⟩

/-! ## The maximum-based awards -/

theorem sortDesc_head_firstMax {α : Type} (key : α → Nat) : ∀ l : List α,
    (l = [] ∧ (sortDesc (fun x => some (key x : Int)) l).head? = none) ∨
    ∃ w, (sortDesc (fun x => some (key x : Int)) l).head? = some w ∧ IsFirstMax key l w := by
  intro l
  induction l with
  | nil => exact Or.inl ⟨rfl, rfl⟩
  | cons a l ih =>
    right
    have hcons : sortDesc (fun x => some (key x : Int)) (a :: l) =
        (sortDesc (fun x => some (key x : Int)) l).orderedInsert
          (descLE (fun x => some (key x : Int))) a := rfl
    rw [hcons]
    rcases ih with ⟨hl, -⟩ | ⟨w, hw, l1, l2, hl, h1, h2⟩
    · subst hl
      exact ⟨a, rfl, [], [], rfl, by simp, by simp⟩
    · cases hs : sortDesc (fun x => some (key x : Int)) l with
      | nil => rw [hs] at hw; cases hw
      | cons b rest =>
        rw [hs] at hw
        simp only [List.head?_cons, Option.some.injEq] at hw
        subst hw
        by_cases hle : key b ≤ key a
        · have hd : descLE (fun x => some (key x : Int)) a b := by
            show ((key b : Int)) ≤ (key a : Int)
            exact_mod_cast hle
          simp only [List.orderedInsert, if_pos hd, List.head?_cons]
          refine ⟨a, rfl, [], l, rfl, by simp, ?_⟩
          intro p hp
          rw [hl] at hp
          rcases List.mem_append.mp hp with hp | hp
          · exact le_trans (le_of_lt (h1 p hp)) hle
          · rcases List.mem_cons.mp hp with hp | hp
            · rw [hp]; exact hle
            · exact le_trans (h2 p hp) hle
        · have hd : ¬ descLE (fun x => some (key x : Int)) a b := by
            intro hd
            have hd1 : ((key b : Int)) ≤ (key a : Int) := hd
            exact hle (by exact_mod_cast hd1)
          simp only [List.orderedInsert, if_neg hd, List.head?_cons]
          refine ⟨b, rfl, a :: l1, l2, by rw [hl]; rfl, ?_, h2⟩
          intro p hp
          rcases List.mem_cons.mp hp with hp | hp
          · rw [hp]; exact Nat.lt_of_not_le hle
          · exact h1 p hp

theorem maxWinner_firstMax (stats : List ParticipantStat) (f : ParticipantStat → Nat)
    (hne : ∀ p ∈ stats, p.name ≠ []) :
    (stats = [] ∧ maxWinner stats f = "N/A".toList) ∨
    ∃ w, IsFirstMax f stats w ∧ maxWinner stats f = w.name := by
  unfold maxWinner
  rcases sortDesc_head_firstMax f stats with ⟨h1, h2⟩ | ⟨w, h1, h2⟩
  · rw [h2]
    exact Or.inl ⟨h1, rfl⟩
  · rw [h1]
    refine Or.inr ⟨w, h2, ?_⟩
    obtain ⟨l1, l2, hl, -, -⟩ := h2
    have hw : w.name ≠ [] := hne w (by rw [hl]; simp)
    simp only [Option.map_some', orNA]
    rw [if_neg]
    simpa using hw

theorem filterMap_index_keys {α : Type} (o : Props α) :
    (o.map Prod.fst).filterMap (fun k => (arrayIndex k).map (fun n => (n, k))) =
      (o.filterMap (fun kv => (arrayIndex kv.1).map (fun n => (n, kv)))).map
        (fun x => (x.1, x.2.1)) := by
  induction o with
  | nil => rfl
  | cons kv rest ih =>
    cases h : arrayIndex kv.1 with
    | none => simp [List.filterMap_cons, h, ih]
    | some n => simp [List.filterMap_cons, h, ih]

theorem Props.entries_keys {α : Type} (o : Props α) :
    o.entries.map Prod.fst = objectKeyOrder (o.map Prod.fst) := by
  unfold Props.entries objectKeyOrder
  rw [List.map_append, filterMap_index_keys]
  congr 1
  · rw [← List.map_insertionSort (fun a b : Nat × Str × α => a.1 ≤ b.1)
      (fun a b : Nat × Str => a.1 ≤ b.1) (fun x : Nat × Str × α => (x.1, x.2.1)) _
      (fun a _ b _ => Iff.rfl)]
    simp [List.map_map, Function.comp_def]
  · rw [List.filter_map]
    rfl

theorem objectKeyOrder_of_no_index (keys : List Str) (h : ∀ k ∈ keys, arrayIndex k = none) :
    objectKeyOrder keys = keys := by
  unfold objectKeyOrder
  have h1 : keys.filterMap (fun k => (arrayIndex k).map (fun n => (n, k))) = [] := by
    apply List.filterMap_eq_nil_iff.mpr
    intro k hk
    simp [h k hk]
  have h2 : keys.filter (fun k => (arrayIndex k).isNone) = keys := by
    apply List.filter_eq_self.mpr
    intro k hk
    simp [h k hk]
  rw [h1, h2]
  rfl

theorem objectKeyOrder_perm (keys : List Str) : (objectKeyOrder keys).Perm keys := by
  have h1 : (keys.map (fun k => (k, ()))).map Prod.fst = keys := by
    simp [List.map_map, Function.comp_def]
  have h2 := Props.entries_keys (keys.map (fun k => (k, ())))
  have h3 := (Props.entries_perm (keys.map (fun k => (k, ())))).map Prod.fst
  rw [h2, h1] at h3
  exact h3

theorem winner_firstMax {α : Type} (l : List α) (key : α → Nat) (name : α → Str)
    (hne : ∀ p ∈ l, name p ≠ []) :
    (l = [] ∧ orNA ((sortDesc (fun x => some (key x : Int)) l).head?.map name) = "N/A".toList) ∨
    ∃ w, IsFirstMax key l w ∧
      orNA ((sortDesc (fun x => some (key x : Int)) l).head?.map name) = name w := by
  rcases sortDesc_head_firstMax key l with ⟨h1, h2⟩ | ⟨w, h1, h2⟩
  · rw [h2]
    exact Or.inl ⟨h1, rfl⟩
  · rw [h1]
    refine Or.inr ⟨w, h2, ?_⟩
    obtain ⟨l1, l2, hl, -, -⟩ := h2
    have hw : name w ≠ [] := hne w (by rw [hl]; simp)
    simp only [Option.map_some', orNA]
    rw [if_neg]
    simpa using hw

theorem Props.keys_setNum_fresh (o : Props Nat) (k : Str) (n : Nat)
    (hk : k ∉ o.map Prod.fst) :
    (o.setNum k n).map Prod.fst = o.map Prod.fst ++ (if k = protoKey then [] else [k]) := by
  unfold Props.setNum
  by_cases hp : k = protoKey
  · simp [hp]
  · rw [if_neg hp, if_neg hp, Props.keys_set, if_neg hk]

theorem foldl_setNum_keys (ps : List Str) : ∀ o : Props Nat, ps.Nodup →
    (∀ p ∈ ps, p ∉ o.map Prod.fst) →
    (ps.foldl (fun o p => o.setNum p 0) o).map Prod.fst =
      o.map Prod.fst ++ ps.filter (fun p => decide (p ≠ protoKey)) := by
  induction ps with
  | nil => intro o _ _; simp
  | cons p ps ih =>
    intro o hnd hfresh
    simp only [List.foldl_cons]
    have hp : p ∉ o.map Prod.fst := hfresh p (List.mem_cons_self _ _)
    have hkeys := Props.keys_setNum_fresh o p 0 hp
    rw [ih (o.setNum p 0) (List.nodup_cons.mp hnd).2 (by
      intro q hq
      rw [hkeys]
      intro hmem
      rcases List.mem_append.mp hmem with hm | hm
      · exact hfresh q (List.mem_cons_of_mem _ hq) hm
      · split at hm
        · cases hm
        · simp only [List.mem_singleton] at hm
          subst hm
          exact (List.nodup_cons.mp hnd).1 hq), hkeys]
    by_cases hproto : p = protoKey
    · simp [hproto]
    · simp [hproto]

theorem init_keys (selectedParticipants : List Str) (hnd : selectedParticipants.Nodup) :
    (Acc.init selectedParticipants).participantStats.props.map Prod.fst =
      selectedParticipants.filter (fun p => decide (p ≠ protoKey)) ∧
    (Acc.init selectedParticipants).starters.map Prod.fst =
      selectedParticipants.filter (fun p => decide (p ≠ protoKey)) ∧
    (∀ kv ∈ (Acc.init selectedParticipants).participantStats.props, kv.2.name = kv.1) := by
  simp only [Acc.init]
  have h := foldl_set_props (fun p => ParticipantStat.init p) selectedParticipants
    ⟨[], none⟩ (by simp) (by simp)
  refine ⟨?_, ?_, ?_⟩
  · simpa using h.2.2 hnd (by simp)
  · simpa using foldl_setNum_keys selectedParticipants [] hnd (by simp)
  · intro kv hkv
    rcases h.2.1 kv hkv with h2 | h2
    · simp at h2
    · rw [h2]; rfl

/-- C12 (counterexample). The selected names are B and 1, in that order; B
writes the word `hello` and 1 writes the word `world`, so both have the words
counter 1.  `Object.values(participantStats)` lists the record of 1 first,
because 1 is an array-index key, and the Yapper award goes to 1, not to B,
which comes first in `selectedParticipants`. -/
theorem award_tie_goes_to_index_name :
    (useAdvancedStats refDateFns
        (some [mkMsg "B".toList 0 ["hello".toList] [], mkMsg "1".toList 1 ["world".toList] []])
        "all".toList ["B".toList, "1".toList] 0).toOption.map
      (fun r => (r.participantStats.map (fun p => (p.name, p.words)),
        (r.awards.drop 1).head?)) =
      some ([("1".toList, 1), ("B".toList, 1)],
        some { title := "📢 The Yapper".toList, winner := "1".toList }) := by
  decide

/-- C12, as amended. Let the selected names be distinct and non-empty and let
`useAdvancedStats` yield a result object.  The records of
`participantStats` are those of the selected names other than `__proto__`, in
the key order of the object: array-index names first, ascending, then the
other names in the order of `selectedParticipants` (which is the whole order
when no name is an array index); the keys of `starters` are listed in the same
order.  For each of the eight awards over a counter of `participantStats` the
winner is the name of the first record, in that order, whose counter is the
greatest; the Instigator is the first key of `starters`, in that order, whose
count is the greatest. -/
theorem award_winner_is_first_max (fns : DateFns) (rawMessages : Option (List Msg))
    (timeFilter : Str) (selectedParticipants : List Str) (targetWordLength : Nat)
    (r : StatsResult)
    (h : useAdvancedStats fns rawMessages timeFilter selectedParticipants targetWordLength =
      .result r)
    (hnd : selectedParticipants.Nodup) (hne : [] ∉ selectedParticipants) :
    r.participantStats.map (fun p => p.name) =
      objectKeyOrder (selectedParticipants.filter (fun p => decide (p ≠ protoKey))) ∧
    r.starters.entries.map Prod.fst =
      objectKeyOrder (selectedParticipants.filter (fun p => decide (p ≠ protoKey))) ∧
    (objectKeyOrder (selectedParticipants.filter (fun p => decide (p ≠ protoKey)))).Perm
      (selectedParticipants.filter (fun p => decide (p ≠ protoKey))) ∧
    ((∀ s ∈ selectedParticipants, arrayIndex s = none) →
      objectKeyOrder (selectedParticipants.filter (fun p => decide (p ≠ protoKey))) =
        selectedParticipants.filter (fun p => decide (p ≠ protoKey))) ∧
    (∀ tf ∈ awardCounters, ∃ a ∈ r.awards, a.title = tf.1 ∧
      ((r.participantStats = [] ∧ a.winner = "N/A".toList) ∨
        ∃ w, IsFirstMax tf.2 r.participantStats w ∧ a.winner = w.name)) ∧
    (∃ a ∈ r.awards, a.title = "🧨 Instigator".toList ∧
      ((r.starters.entries = [] ∧ a.winner = "N/A".toList) ∨
        ∃ w, IsFirstMax (fun kv => kv.2) r.starters.entries w ∧ a.winner = w.1)) := by
  unfold useAdvancedStats computeStats at h
  split at h
  · cases h
  · split at h
    · cases h
    · next acc hloop =>
      simp only [Stats.result.injEq] at h
      subst h
      obtain ⟨hi1, hi2, hi3⟩ := init_keys selectedParticipants hnd
      obtain ⟨hk1, -, hk3, hk4⟩ := mainLoop_keys fns targetWordLength
        (Acc.init selectedParticipants) _ _ _ hloop ⟨rfl, rfl, rfl, hi3⟩
      have hnames : (acc.participantStats.props.entries.map (fun kv => kv.2)).map
          (fun p => p.name) =
          objectKeyOrder (selectedParticipants.filter (fun p => decide (p ≠ protoKey))) := by
        rw [← hi1, ← hk1, ← Props.entries_keys, List.map_map]
        apply List.map_congr_left
        intro kv hkv
        exact hk4 kv (Props.mem_entries _ _ hkv)
      have hstarters : acc.starters.entries.map Prod.fst =
          objectKeyOrder (selectedParticipants.filter (fun p => decide (p ≠ protoKey))) := by
        rw [← hi2, ← hk3, ← Props.entries_keys]
      have hperm := objectKeyOrder_perm
        (selectedParticipants.filter (fun p => decide (p ≠ protoKey)))
      have hsel : ∀ n ∈ objectKeyOrder
          (selectedParticipants.filter (fun p => decide (p ≠ protoKey))), n ≠ [] := by
        intro n hn e
        have h1 := List.mem_of_mem_filter (hperm.mem_iff.mp hn)
        exact hne (e ▸ h1)
      have hne1 : ∀ p ∈ acc.participantStats.props.entries.map (fun kv => kv.2),
          p.name ≠ [] := by
        intro p hp
        apply hsel
        rw [← hnames]
        exact List.mem_map.mpr ⟨p, hp, rfl⟩
      have hne2 : ∀ kv ∈ acc.starters.entries, kv.1 ≠ [] := by
        intro kv hkv
        apply hsel
        rw [← hstarters]
        exact List.mem_map.mpr ⟨kv, hkv, rfl⟩
      refine ⟨hnames, hstarters, hperm, ?_, ?_, ?_⟩
      · intro hidx
        exact objectKeyOrder_of_no_index _
          (fun k hk => hidx k (List.mem_of_mem_filter hk))
      · intro tf htf
        simp only [awardCounters, List.mem_cons, List.mem_singleton, List.not_mem_nil,
          or_false] at htf
        rcases htf with rfl | rfl | rfl | rfl | rfl | rfl | rfl | rfl
        all_goals
          refine ⟨{ title := _, winner := maxWinner _ _ }, ?_, rfl, maxWinner_firstMax _ _ hne1⟩
          simp [awards]
      · refine ⟨{ title := "🧨 Instigator".toList,
                  winner := orNA ((sortDesc (fun kv => some (kv.2 : Int))
                    acc.starters.entries).head?.map (fun kv => kv.1)) }, ?_, rfl,
          winner_firstMax acc.starters.entries (fun kv => kv.2) (fun kv => kv.1) hne2⟩
        show _ ∈ awards _ _ _
        unfold awards
        exact List.mem_cons_of_mem _ (List.mem_cons_of_mem _ (List.mem_cons_of_mem _
          (List.mem_cons_self _ _)))

theorem award_winner_is_first_max_witness :
    useAdvancedStats refDateFns (some replyExample) "all".toList ["X".toList, "Y".toList] 0 =
      .result replyExampleResult ∧
    ["X".toList, "Y".toList].Nodup ∧ [] ∉ ["X".toList, "Y".toList] ∧
    replyExampleResult.participantStats.map (fun p => p.name) =
      objectKeyOrder (["X".toList, "Y".toList].filter (fun p => decide (p ≠ protoKey))) ∧
    (∀ tf ∈ awardCounters, ∃ a ∈ replyExampleResult.awards, a.title = tf.1 ∧
      ((replyExampleResult.participantStats = [] ∧ a.winner = "N/A".toList) ∨
        ∃ w, IsFirstMax tf.2 replyExampleResult.participantStats w ∧ a.winner = w.name)) :=
  ⟨by decide, by decide, by decide,
   (award_winner_is_first_max refDateFns (some replyExample) "all".toList
     ["X".toList, "Y".toList] 0 replyExampleResult (by decide) (by decide) (by decide)).1,
   (award_winner_is_first_max refDateFns (some replyExample) "all".toList
     ["X".toList, "Y".toList] 0 replyExampleResult (by decide) (by decide) (by decide)).2.2.2.2.1⟩

/-! ## The top lists -/

theorem orderedInsert_filter {α : Type} (key : α → Nat) (t : Nat) (a : α) : ∀ s : List α,
    (s.orderedInsert (descLE (fun x => some (key x : Int))) a).filter (fun x => key x == t) =
      (a :: s).filter (fun x => key x == t) := by
  intro s
  induction s with
  | nil => rfl
  | cons b s ih =>
    by_cases hd : descLE (fun x => some (key x : Int)) a b
    · simp only [List.orderedInsert, if_pos hd]
    · simp only [List.orderedInsert, if_neg hd]
      have hlt : key a < key b := by
        by_contra hc
        apply hd
        show ((key b : Int)) ≤ (key a : Int)
        exact_mod_cast Nat.le_of_not_lt hc
      rw [List.filter_cons, ih]
      by_cases ha : key a = t
      · have hb : ¬ key b = t := by omega
        simp [List.filter_cons, ha, hb]
      · simp [List.filter_cons, ha]

theorem sortDesc_filter {α : Type} (key : α → Nat) (t : Nat) : ∀ l : List α,
    (sortDesc (fun x => some (key x : Int)) l).filter (fun x => key x == t) =
      l.filter (fun x => key x == t) := by
  intro l
  induction l with
  | nil => rfl
  | cons a l ih =>
    have hcons : sortDesc (fun x => some (key x : Int)) (a :: l) =
        (sortDesc (fun x => some (key x : Int)) l).orderedInsert
          (descLE (fun x => some (key x : Int))) a := rfl
    rw [hcons, orderedInsert_filter, List.filter_cons, List.filter_cons, ih]

theorem sortDesc_sorted {α : Type} (key : α → Nat) (l : List α) :
    (sortDesc (fun x => some (key x : Int)) l).Pairwise (fun a b => key b ≤ key a) := by
  haveI : IsTotal α (descLE (fun x => some (key x : Int))) :=
    ⟨fun a b => by
      show ((key b : Int)) ≤ (key a : Int) ∨ ((key a : Int)) ≤ (key b : Int)
      exact le_total _ _⟩
  haveI : IsTrans α (descLE (fun x => some (key x : Int))) :=
    ⟨fun a b c hab hbc => by
      have h1 : ((key b : Int)) ≤ (key a : Int) := hab
      have h2 : ((key c : Int)) ≤ (key b : Int) := hbc
      show ((key c : Int)) ≤ (key a : Int)
      exact le_trans h2 h1⟩
  have h := List.sorted_insertionSort (descLE (fun x => some (key x : Int))) l
  refine List.Pairwise.imp ?_ h
  intro a b hab
  have h1 : ((key b : Int)) ≤ (key a : Int) := hab
  exact_mod_cast h1

theorem topList_eq (map : Props FreqEntry) :
    topList map =
      ((sortDesc (fun kv : Str × FreqEntry => some (kv.2.total : Int)) map.entries).take 12).map
        TopItem.ofEntry := rfl

theorem topList_isTopList (map : Props FreqEntry) : IsTopList map (topList map) := by
  rw [topList_eq]
  have hsorted := sortDesc_sorted (fun kv : Str × FreqEntry => kv.2.total) map.entries
  have hperm : (sortDesc (fun kv : Str × FreqEntry => some (kv.2.total : Int))
      map.entries).Perm map.entries := List.perm_insertionSort _ _
  have hsplit := List.take_append_drop 12
    (sortDesc (fun kv : Str × FreqEntry => some (kv.2.total : Int)) map.entries)
  refine ⟨?_, ?_, ?_, ?_⟩
  · rw [List.length_map, List.length_take, hperm.length_eq, (Props.entries_perm map).length_eq]
  · rw [List.pairwise_map]
    exact List.Pairwise.sublist (List.take_sublist _ _) hsorted
  · refine ⟨((sortDesc (fun kv : Str × FreqEntry => some (kv.2.total : Int))
        map.entries).drop 12).map TopItem.ofEntry, ?_, ?_⟩
    · rw [← List.map_append, hsplit]
      exact hperm.map _
    · rw [← hsplit] at hsorted
      have h2 := (List.pairwise_append.mp hsorted).2.2
      intro i hi j hj
      obtain ⟨a, ha, rfl⟩ := List.mem_map.mp hi
      obtain ⟨b, hb, rfl⟩ := List.mem_map.mp hj
      exact h2 a ha b hb
  · intro t
    rw [List.filter_map, List.filter_map]
    apply List.IsPrefix.map
    have h1 := sortDesc_filter (fun kv : Str × FreqEntry => kv.2.total) t map.entries
    have h2 : (((sortDesc (fun kv : Str × FreqEntry => some (kv.2.total : Int))
        map.entries).take 12).filter (fun kv => kv.2.total == t)) <+:
        ((sortDesc (fun kv : Str × FreqEntry => some (kv.2.total : Int))
          map.entries).filter (fun kv => kv.2.total == t)) :=
      List.IsPrefix.filter _ (List.take_prefix _ _)
    rw [h1] at h2
    exact h2

theorem Props.entries_of_no_index {α : Type} (o : Props α)
    (h : ∀ kv ∈ o, arrayIndex kv.1 = none) : o.entries = o := by
  unfold Props.entries
  have h1 : o.filterMap (fun kv => (arrayIndex kv.1).map (fun n => (n, kv))) = [] := by
    apply List.filterMap_eq_nil_iff.mpr
    intro kv hkv
    simp [h kv hkv]
  have h2 : o.filter (fun kv => (arrayIndex kv.1).isNone) = o := by
    apply List.filter_eq_self.mpr
    intro kv hkv
    simp [h kv hkv]
  rw [h1, h2]
  rfl

theorem bumpEntry_nodup (map map1 : Props FreqEntry) (key sender : Str)
    (hnd : (map.map Prod.fst).Nodup) (h : bumpEntry map key sender = some map1) :
    (map1.map Prod.fst).Nodup := by
  unfold bumpEntry at h
  cases hg : map.get key with
  | none =>
    rw [hg] at h
    simp only at h
    split at h
    · cases h
    · simp only [Option.some.injEq] at h
      subst h
      exact Props.keys_set_nodup _ _ _ hnd
  | some e =>
    rw [hg] at h
    simp only [Option.some.injEq] at h
    subst h
    exact Props.keys_set_nodup _ _ _ hnd

theorem countWords_nodup (targetWordLength : Nat) (msg : Msg) (ws : List Str) :
    ∀ (st st1 : ParticipantStat × Props FreqEntry), (st.2.map Prod.fst).Nodup →
      countWords targetWordLength msg st ws = some st1 → (st1.2.map Prod.fst).Nodup := by
  induction ws with
  | nil =>
    intro st st1 hst h
    simp only [countWords, Option.some.injEq] at h
    subst h
    exact hst
  | cons w ws ih =>
    intro st st1 hst h
    simp only [countWords] at h
    cases hw : countWord targetWordLength msg st w with
    | none => rw [hw] at h; cases h
    | some st2 =>
      rw [hw] at h
      refine ih st2 st1 ?_ h
      unfold countWord at hw
      split at hw
      · cases hb : bumpEntry st.2 w msg.sender with
        | none => rw [hb] at hw; cases hw
        | some wm =>
          rw [hb] at hw
          simp only [Option.some.injEq] at hw
          subst hw
          exact bumpEntry_nodup _ _ _ _ hst hb
      · simp only [Option.some.injEq] at hw
        subst hw
        exact hst

theorem countEmojis_nodup (sender : Str) (es : List Str) :
    ∀ (map map1 : Props FreqEntry), (map.map Prod.fst).Nodup →
      countEmojis sender map es = some map1 → (map1.map Prod.fst).Nodup := by
  induction es with
  | nil =>
    intro map map1 hmap h
    simp only [countEmojis, Option.some.injEq] at h
    subst h
    exact hmap
  | cons e es ih =>
    intro map map1 hmap h
    simp only [countEmojis] at h
    cases hb : bumpEntry map e sender with
    | none => rw [hb] at h; cases h
    | some map2 =>
      rw [hb] at h
      exact ih map2 map1 (bumpEntry_nodup _ _ _ _ hmap hb) h

theorem processMessage_nodup (fns : DateFns) (targetWordLength : Nat) (acc acc1 : Acc) (msg : Msg)
    (hw : (acc.wordMap.map Prod.fst).Nodup) (he : (acc.emojiMap.map Prod.fst).Nodup)
    (h : processMessage fns targetWordLength acc msg = some acc1) :
    (acc1.wordMap.map Prod.fst).Nodup ∧ (acc1.emojiMap.map Prod.fst).Nodup := by
  rcases processMessage_some fns targetWordLength acc acc1 msg h with
    ⟨-, rfl⟩ | ⟨p0, t, p3, wordMap, emojiMap, -, -, hcw, hce, hrest⟩
  · exact ⟨hw, he⟩
  · have hw1 := countWords_nodup targetWordLength msg _ _ _ hw hcw
    have he1 := countEmojis_nodup msg.sender _ _ _ he hce
    rcases hrest with ⟨-, rfl⟩ | ⟨lastMsg, starters, replyTimes, p4, -, -, rfl⟩
    · exact ⟨hw1, he1⟩
    · exact ⟨hw1, he1⟩

theorem mainLoop_nodup (fns : DateFns) (targetWordLength : Nat) (msgs : List Msg) :
    ∀ (acc acc1 : Acc), (acc.wordMap.map Prod.fst).Nodup → (acc.emojiMap.map Prod.fst).Nodup →
      mainLoop fns targetWordLength acc msgs = some acc1 →
      (acc1.wordMap.map Prod.fst).Nodup ∧ (acc1.emojiMap.map Prod.fst).Nodup := by
  induction msgs with
  | nil =>
    intro acc acc1 hw he h
    simp only [mainLoop, Option.some.injEq] at h
    subst h
    exact ⟨hw, he⟩
  | cons msg rest ih =>
    intro acc acc1 hw he h
    simp only [mainLoop] at h
    cases hstep : processMessage fns targetWordLength acc msg with
    | none => rw [hstep] at h; cases h
    | some acc2 =>
      rw [hstep] at h
      have h1 := processMessage_nodup fns targetWordLength acc acc2 msg hw he hstep
      exact ih acc2 acc1 h1.1 h1.2 h

/-- C13 (counterexample). The one-line chat `1/1/2024, 10:00 - A: hello 2024`
has the words `hello` and `2024`, in that order, each once.  `Object.entries`
lists the key `2024` first, because it is an array index, and the stable sort
keeps it there: `topWords` names `2024` before `hello`, which was met first. -/
theorem topWords_tie_lists_number_first :
    (parseChat refHost 0 "1/1/2024, 10:00 - A: hello 2024".toList).messages.map
        (fun m => m.words) = [["hello".toList, "2024".toList]] ∧
    (useAdvancedStats refDateFns
        (some (parseChat refHost 0 "1/1/2024, 10:00 - A: hello 2024".toList).messages)
        "all".toList ["A".toList] 0).toOption.map
      (fun r => r.topWords.map (fun i => (i.key, i.total))) =
      some [("2024".toList, 1), ("hello".toList, 1)] := by
  refine ⟨?_, ?_⟩ <;> decide

/-- C13, as amended. Whenever `useAdvancedStats` yields a result object, the
pass has ended with a word table and an emoji table of distinct keys, and
`topWords` and `topEmojis` are their top lists: twelve items, or as many as the
table has entries; totals in non-increasing order; no entry left out has a
greater total than an item kept; and items of equal total stand in the order
in which `Object.entries` lists the table, which puts the array-index keys
first, in ascending order, and the other keys after them in the order of
their creation.  For a table without array-index keys that is the order of
creation. -/
theorem topLists_follow_entries_order (fns : DateFns) (rawMessages : Option (List Msg))
    (timeFilter : Str) (selectedParticipants : List Str) (targetWordLength : Nat)
    (r : StatsResult)
    (h : useAdvancedStats fns rawMessages timeFilter selectedParticipants targetWordLength =
      .result r) :
    ∃ acc, mainLoop fns targetWordLength (Acc.init selectedParticipants)
        (filteredMessages fns rawMessages timeFilter selectedParticipants) = some acc ∧
      (acc.wordMap.map Prod.fst).Nodup ∧ (acc.emojiMap.map Prod.fst).Nodup ∧
      IsTopList acc.wordMap r.topWords ∧ IsTopList acc.emojiMap r.topEmojis ∧
      acc.wordMap.entries.map Prod.fst = objectKeyOrder (acc.wordMap.map Prod.fst) ∧
      acc.emojiMap.entries.map Prod.fst = objectKeyOrder (acc.emojiMap.map Prod.fst) ∧
      ((∀ kv ∈ acc.wordMap, arrayIndex kv.1 = none) → acc.wordMap.entries = acc.wordMap) ∧
      ((∀ kv ∈ acc.emojiMap, arrayIndex kv.1 = none) → acc.emojiMap.entries = acc.emojiMap) := by
  unfold useAdvancedStats computeStats at h
  split at h
  · cases h
  · split at h
    · cases h
    · next acc hloop =>
      simp only [Stats.result.injEq] at h
      subst h
      have hnd := mainLoop_nodup fns targetWordLength _ _ _ (by simp [Acc.init])
        (by simp [Acc.init]) hloop
      exact ⟨acc, hloop, hnd.1, hnd.2, topList_isTopList _, topList_isTopList _,
        Props.entries_keys _, Props.entries_keys _, Props.entries_of_no_index _,
        Props.entries_of_no_index _⟩

theorem topLists_follow_entries_order_witness :
    useAdvancedStats refDateFns (some wordsExample) "all".toList ["A".toList] 0 =
      .result wordsExampleResult ∧
    ∃ acc, mainLoop refDateFns 0 (Acc.init ["A".toList])
        (filteredMessages refDateFns (some wordsExample) "all".toList ["A".toList]) = some acc ∧
      IsTopList acc.wordMap wordsExampleResult.topWords ∧
      IsTopList acc.emojiMap wordsExampleResult.topEmojis := by
  obtain ⟨acc, h1, -, -, h2, h3, -⟩ :=
    topLists_follow_entries_order refDateFns (some wordsExample) "all".toList ["A".toList] 0
      wordsExampleResult (by decide)
  exact ⟨by decide, acc, h1, h2, h3⟩

/-! ## The timeline and the streaks -/

/-- C14 (the code at the failing input). In a zone five hours west of
Greenwich, without daylight saving, A writes one message on 2024-01-05 at noon
local time (17:00 UTC).  The timeline table has the key `2024-01-05` with the
count 1 for A.  `new Date('2024-01-05')` is midnight UTC, which is 19:00 of
January 4 on the local clock, so `eachDayOfInterval` lists the local day
January 4 alone: `finalTimeline` has one entry, dated `2024-01-04`, with the
count 0 for A, and no entry for the active day.  In UTC the same message
gives the entry of January 5 with the count 1, and messages on January 1
(two of A) and January 3 (one of B) give the three days with the zero-filled
gap day. -/
theorem finalTimeline_misses_active_day_west_of_utc :
    (timelineTables (Zone.fixed (-18000000)) ([], [])
        [msgAt "A".toList 2024 1 5 17]).map (fun t => t.1) =
      some [("2024-01-05".toList,
        [("date".toList, .text "2024-01-05".toList), ("A".toList, .num 1)])] ∧
    timelineOf (Zone.fixed (-18000000)) ["A".toList] [msgAt "A".toList 2024 1 5 17] =
      some [[("date".toList, .text "2024-01-04".toList), ("A".toList, .num 0)]] ∧
    timelineOf Zone.utc ["A".toList] [msgAt "A".toList 2024 1 5 17] =
      some [[("date".toList, .text "2024-01-05".toList), ("A".toList, .num 1)]] ∧
    timelineOf Zone.utc ["A".toList, "B".toList]
        [msgAt "A".toList 2024 1 1 10, msgAt "A".toList 2024 1 1 11,
         msgAt "B".toList 2024 1 3 9] =
      some [[("date".toList, .text "2024-01-01".toList), ("A".toList, .num 2),
              ("B".toList, .num 0)],
            [("date".toList, .text "2024-01-02".toList), ("A".toList, .num 0),
              ("B".toList, .num 0)],
            [("date".toList, .text "2024-01-03".toList), ("B".toList, .num 1),
              ("A".toList, .num 0)]] := by
  refine ⟨?_, ?_, ?_, ?_⟩ <;> decide

theorem differenceInDays_fixed (off a b : Int) :
    differenceInDays (Zone.fixed off) (some (a * msPerDay)) (some (b * msPerDay)) =
      some (a - b) := by
  simp only [differenceInDays, Zone.fixed, Zone.wall, msPerDay, compareInt]
  have h1 : (a * 86400000 + off) / 86400000 - (b * 86400000 + off) / 86400000 = a - b := by
    omega
  rw [h1]
  rcases lt_trichotomy a b with h | h | h
  · have hlt : a * 86400000 + off < b * 86400000 + off := by omega
    have habs : ((a - b).natAbs : Int) = b - a := by omega
    simp only [if_pos hlt, habs]
    have hm : a * 86400000 + off - -1 * (b - a) * 86400000 - off + off =
        b * 86400000 + off := by ring
    rw [hm]
    simp
  · subst h
    simp
  · have hlt : ¬ a * 86400000 + off < b * 86400000 + off := by omega
    have hgt : a * 86400000 + off > b * 86400000 + off := by omega
    have habs : ((a - b).natAbs : Int) = a - b := by omega
    simp only [if_neg hlt, if_pos hgt, habs]
    have hm : a * 86400000 + off - 1 * (a - b) * 86400000 - off + off =
        b * 86400000 + off := by ring
    rw [hm]
    simp

theorem streakLoop_current (z : Zone) (now : Int) (dates : List Str) : ∀ st : StreakState,
    st.currentStreak = 0 →
    (streakLoop z now st dates).currentStreak = 0 ∨
      (streakLoop z now st dates).currentStreak = (streakLoop z now st dates).tempStreak := by
  induction dates with
  | nil => intro st h; exact Or.inl h
  | cons d rest ih =>
    intro st h
    simp only [streakLoop]
    cases rest with
    | nil =>
      simp only [streakLoop, List.isEmpty_nil, streakStep, if_true]
      split <;> split <;> (try split) <;> simp [h]
    | cons d2 rest2 =>
      apply ih
      simp only [List.isEmpty_cons, streakStep, Bool.false_eq_true, if_false]
      split <;> exact h

theorem streaks_current_le_longest (z : Zone) (now : Int) (heatmapData : Props Nat) :
    (streaks z now heatmapData).2 ≤ (streaks z now heatmapData).1 := by
  simp only [streaks]
  rcases streakLoop_current z now (sortKeys (heatmapData.entries.map Prod.fst))
    { longestStreak := 0, currentStreak := 0, tempStreak := 0, lastDate := none } rfl with h | h
  · rw [h]; exact Nat.zero_le _
  · rw [h]; exact Nat.le_max_right _ _

/-- C15 (the code at the failing input). On a machine in the zone
America/New_York, A writes on 2024-11-03 and on 2024-11-04 at noon local time.
The heat map has the two keys `2024-11-03` and `2024-11-04`, two consecutive
calendar dates.  The clocks go back on November 3, so between the two
midnights UTC that `new Date` makes of the keys the local wall clock advances
23 hours only, `differenceInDays` is 0 instead of 1, and the streak is cut:
`longest` is 1, not 2.  In UTC the active days January 1, 2, 3 and 5 give 3
and a single active day gives 1, and in every zone without daylight saving
`differenceInDays` of the midnights UTC of two days is the number of days
between them. -/
theorem longest_streak_cut_by_clock_change :
    (timelineTables Zone.newYork2024 ([], [])
        [msgAt "A".toList 2024 11 3 17, msgAt "A".toList 2024 11 4 17]).map (fun t => t.2) =
      some [("2024-11-03".toList, 1), ("2024-11-04".toList, 1)] ∧
    differenceInDays Zone.newYork2024 (newDate "2024-11-04".toList)
      (newDate "2024-11-03".toList) = some 0 ∧
    streaksOf Zone.newYork2024 (daysFromCivil 2024 12 1 * msPerDay)
      [msgAt "A".toList 2024 11 3 17, msgAt "A".toList 2024 11 4 17] = some (1, 0) ∧
    streaksOf Zone.utc (daysFromCivil 2024 1 7 * msPerDay + 12 * 3600000)
      [msgAt "A".toList 2024 1 1 12, msgAt "A".toList 2024 1 2 12,
       msgAt "A".toList 2024 1 3 12, msgAt "A".toList 2024 1 5 12] = some (3, 0) ∧
    streaksOf Zone.utc (daysFromCivil 2024 1 7 * msPerDay + 12 * 3600000)
      [msgAt "A".toList 2024 1 1 12] = some (1, 0) ∧
    (∀ off a b : Int,
      differenceInDays (Zone.fixed off) (some (a * msPerDay)) (some (b * msPerDay)) =
        some (a - b)) := by
  refine ⟨?_, ?_, ?_, ?_, ?_, differenceInDays_fixed⟩ <;> decide

/-- C16 (the code at the failing inputs). A writes on 2024-01-05 and
2024-01-06 around noon local time.  Five and a half hours east of Greenwich, at
03:00 local time on January 8, the last active day is neither today nor
yesterday, yet `current` is 2: the midnight UTC of January 6 is 05:30 local,
less than two full days before.  Five hours west of Greenwich, at 20:00 local
time on January 7, the last active day is yesterday, yet `current` is 0: the
midnight UTC of January 6 is 19:00 of January 5 local, two full days before.
In UTC the active days January 1, 2, 3 and 5 with the clock at noon of
January 7 give 0, and `current` never exceeds `longest`. -/
theorem current_streak_wrong_off_utc :
    formatDate (Zone.fixed 19800000) (daysFromCivil 2024 1 7 * msPerDay + 77400000) =
      "2024-01-08".toList ∧
    streaksOf (Zone.fixed 19800000) (daysFromCivil 2024 1 7 * msPerDay + 77400000)
      [msgAt "A".toList 2024 1 5 7, msgAt "A".toList 2024 1 6 7] = some (2, 2) ∧
    formatDate (Zone.fixed (-18000000)) (daysFromCivil 2024 1 8 * msPerDay + 3600000) =
      "2024-01-07".toList ∧
    streaksOf (Zone.fixed (-18000000)) (daysFromCivil 2024 1 8 * msPerDay + 3600000)
      [msgAt "A".toList 2024 1 5 17, msgAt "A".toList 2024 1 6 17] = some (2, 0) ∧
    streaksOf Zone.utc (daysFromCivil 2024 1 7 * msPerDay + 12 * 3600000)
      [msgAt "A".toList 2024 1 1 12, msgAt "A".toList 2024 1 2 12,
       msgAt "A".toList 2024 1 3 12, msgAt "A".toList 2024 1 5 12] = some (3, 0) ∧
    (∀ (z : Zone) (now : Int) (heatmapData : Props Nat),
      (streaks z now heatmapData).2 ≤ (streaks z now heatmapData).1) := by
  refine ⟨?_, ?_, ?_, ?_, ?_, streaks_current_le_longest⟩ <;> decide

/-! ## The milestone -/

/-- C22. For every filtered sequence of `n` messages, `milestone.next` is the
smallest multiple of 5000 that is at least `n`: it is divisible by 5000,
`n ≤ next < n + 5000`, every multiple of 5000 that is at least `n` is at least
`next`, and `milestone.current` is `n`. -/
theorem milestone_next_is_least_multiple (filtered : List Msg) :
    5000 ∣ (milestone filtered).next ∧
    filtered.length ≤ (milestone filtered).next ∧
    (milestone filtered).next < filtered.length + 5000 ∧
    (∀ m : Nat, 5000 ∣ m → filtered.length ≤ m → (milestone filtered).next ≤ m) ∧
    (milestone filtered).current = filtered.length := by
  refine ⟨Nat.dvd_mul_left _ _, ?_, ?_, ?_, rfl⟩
  · simp only [milestone, nextMilestone]
    omega
  · simp only [milestone, nextMilestone]
    omega
  · intro m hm hle
    obtain ⟨k, rfl⟩ := hm
    simp only [milestone, nextMilestone]
    omega

/-! ## The heat map array -/

theorem heatLevel_mono (a b : Nat) (h : a ≤ b) : heatLevel a ≤ heatLevel b := by
  unfold heatLevel
  split_ifs <;> omega

/-- C23. Every cell of the heat map array is made by `heatCell`, and the level
of a cell is the bucket of its count: 0 for the count 0, 1 for 1 to 20, 2 for
21 to 50, 3 for 51 to 100, 4 above 100; so the level is at most 4, and a
greater count never has a smaller level. -/
theorem heatCell_level_is_bucket (z : Zone) (now : Int) (heatmapData : Props Nat) (date : Int) :
    heatmapArray z now heatmapData =
      (eachDayOfInterval z (some (subDays z now 365)) (some now)).map
        (fun range => range.map (heatCell z heatmapData)) ∧
    (heatCell z heatmapData date).level = heatLevel (heatCell z heatmapData date).count ∧
    (∀ count : Nat,
      (count = 0 → heatLevel count = 0) ∧
      (1 ≤ count ∧ count ≤ 20 → heatLevel count = 1) ∧
      (21 ≤ count ∧ count ≤ 50 → heatLevel count = 2) ∧
      (51 ≤ count ∧ count ≤ 100 → heatLevel count = 3) ∧
      (100 < count → heatLevel count = 4) ∧
      heatLevel count ≤ 4) ∧
    (∀ a b : Nat, a ≤ b → heatLevel a ≤ heatLevel b) := by
  refine ⟨rfl, rfl, ?_, heatLevel_mono⟩
  intro count
  unfold heatLevel
  refine ⟨?_, ?_, ?_, ?_, ?_, ?_⟩ <;> intros <;> split_ifs <;> omega

theorem formatDate_eq (z : Zone) (t : Int) : formatDate z t = dateOfDay (dayNumber z t) := by
  have h : Zone.utc.wall (dayNumber z t * msPerDay) / msPerDay = z.wall t / msPerDay := by
    simp only [Zone.utc, Zone.fixed, Zone.wall, dayNumber, msPerDay]
    omega
  simp only [dateOfDay, formatDate, h]

theorem eachDayLoop_fixed (off e : Int) : ∀ (fuel : Nat) (d : Int),
    eachDayLoop (Zone.fixed off) e fuel (d * msPerDay - off) =
      localMidnights off d (min fuel ((e + off) / msPerDay - d + 1).toNat) := by
  intro fuel
  induction fuel with
  | zero => intro d; simp [eachDayLoop, localMidnights]
  | succ fuel ih =>
    intro d
    simp only [eachDayLoop]
    have hnext : startOfDay (Zone.fixed off)
        ((Zone.fixed off).toUTC ((Zone.fixed off).wall (d * msPerDay - off) + msPerDay)) =
        (d + 1) * msPerDay - off := by
      simp only [startOfDay, Zone.fixed, Zone.wall, msPerDay]
      omega
    rw [hnext, ih (d + 1)]
    by_cases hle : d * msPerDay - off ≤ e
    · rw [if_pos hle]
      have hd : d ≤ (e + off) / msPerDay := by
        simp only [msPerDay] at hle ⊢
        omega
      have hk : min (fuel + 1) ((e + off) / msPerDay - d + 1).toNat =
          min fuel ((e + off) / msPerDay - (d + 1) + 1).toNat + 1 := by
        omega
      rw [hk]
      simp only [localMidnights, List.range_succ_eq_map, List.map_cons, List.map_map]
      congr 1
      · simp
      · apply List.map_congr_left
        intro i _
        simp only [Function.comp, Nat.succ_eq_add_one]
        push_cast
        ring
    · rw [if_neg hle]
      have hd : ¬ d ≤ (e + off) / msPerDay := by
        simp only [msPerDay] at hle ⊢
        omega
      have hk : min (fuel + 1) ((e + off) / msPerDay - d + 1).toNat = 0 := by omega
      rw [hk]
      rfl

theorem eachDayOfInterval_year_fixed (off now : Int) :
    eachDayOfInterval (Zone.fixed off) (some (subDays (Zone.fixed off) now 365)) (some now) =
      some (localMidnights off (dayNumber (Zone.fixed off) now - 365) 366) := by
  have hs : subDays (Zone.fixed off) now 365 = now - 365 * msPerDay := by
    simp only [subDays, Zone.fixed, Zone.wall]
    ring
  have hstart : startOfDay (Zone.fixed off) (now - 365 * msPerDay) =
      (dayNumber (Zone.fixed off) now - 365) * msPerDay - off := by
    simp only [startOfDay, dayNumber, Zone.fixed, Zone.wall, msPerDay]
    omega
  have hle : now - 365 * msPerDay ≤ now := by
    simp only [msPerDay]
    omega
  have hfuel : ((now - (now - 365 * msPerDay)) / 82800000).toNat + 2 = 382 := by
    simp only [msPerDay]
    omega
  simp only [eachDayOfInterval, hs, if_pos hle, hfuel, hstart]
  rw [eachDayLoop_fixed]
  have hk : min 382 ((now + off) / msPerDay - (dayNumber (Zone.fixed off) now - 365) + 1).toNat =
      366 := by
    simp only [dayNumber, Zone.fixed, Zone.wall]
    omega
  rw [hk]

theorem formatDate_localMidnight (off d : Int) :
    formatDate (Zone.fixed off) (d * msPerDay - off) = dateOfDay d := by
  rw [formatDate_eq]
  congr 1
  simp only [dayNumber, Zone.fixed, Zone.wall, msPerDay]
  omega

theorem timelineStep_heat (z : Zone) (tables tables1 : Props DataPoint × Props Nat) (msg : Msg)
    (h : timelineStep z tables msg = some tables1) (k : Str) :
    (tables1.2.get k).getD 0 =
      (tables.2.get k).getD 0 + (if dateKeyOf z msg = some k then 1 else 0) := by
  unfold timelineStep at h
  cases ht : msg.timestamp with
  | none => rw [ht] at h; cases h
  | some t =>
    rw [ht] at h
    simp only [Option.some.injEq] at h
    subst h
    simp only [dateKeyOf, ht, Option.map_some', Option.some.injEq]
    by_cases hk : formatDate z t = k
    · subst hk
      simp [Props.get_set_eq]
    · have hk' : k ≠ formatDate z t := fun e => hk e.symm
      simp [Props.get_set_ne _ _ _ _ hk', hk]

theorem timelineTables_heat (z : Zone) (msgs : List Msg) :
    ∀ (tables tables1 : Props DataPoint × Props Nat),
    timelineTables z tables msgs = some tables1 → ∀ k : Str,
    (tables1.2.get k).getD 0 =
      (tables.2.get k).getD 0 + (msgs.filter (fun m => decide (dateKeyOf z m = some k))).length := by
  induction msgs with
  | nil =>
    intro tables tables1 h k
    simp only [timelineTables, Option.some.injEq] at h
    subst h
    simp
  | cons msg rest ih =>
    intro tables tables1 h k
    simp only [timelineTables] at h
    cases hs : timelineStep z tables msg with
    | none => rw [hs] at h; cases h
    | some t1 =>
      rw [hs] at h
      rw [ih t1 tables1 h k, timelineStep_heat z tables t1 msg hs k, List.filter_cons]
      by_cases hk : dateKeyOf z msg = some k
      · simp only [hk, decide_True, if_true, List.length_cons]
        omega
      · simp only [hk, decide_False, if_false, Bool.false_eq_true]
        omega

theorem timelineTables_some (z : Zone) (msgs : List Msg)
    (hvalid : ∀ m ∈ msgs, ∃ t, m.timestamp = some t) :
    ∀ tables : Props DataPoint × Props Nat, ∃ tables1, timelineTables z tables msgs = some tables1 := by
  induction msgs with
  | nil => intro tables; exact ⟨tables, rfl⟩
  | cons msg rest ih =>
    intro tables
    obtain ⟨t, ht⟩ := hvalid msg (List.mem_cons_self _ _)
    simp only [timelineTables, timelineStep, ht]
    exact ih (fun m hm => hvalid m (List.mem_cons_of_mem _ hm)) _

theorem heatmapOf_fixed (off now : Int) (filtered : List Msg)
    (hvalid : ∀ m ∈ filtered, ∃ t, m.timestamp = some t) :
    ∃ cells, heatmapOf (Zone.fixed off) now filtered = some cells ∧
      cells.length = 366 ∧
      cells.map (fun c => c.date) =
        (List.range 366).map
          (fun (i : Nat) => dateOfDay (dayNumber (Zone.fixed off) now - 365 + (i : Int))) ∧
      (∀ c ∈ cells,
        c.count =
          (filtered.filter (fun m => decide (dateKeyOf (Zone.fixed off) m = some c.date))).length ∧
        c.level = heatLevel c.count) := by
  obtain ⟨tables, htables⟩ := timelineTables_some (Zone.fixed off) filtered hvalid ([], [])
  have hheat := timelineTables_heat (Zone.fixed off) filtered _ _ htables
  refine ⟨(localMidnights off (dayNumber (Zone.fixed off) now - 365) 366).map
    (heatCell (Zone.fixed off) tables.2), ?_, ?_, ?_, ?_⟩
  · simp only [heatmapOf, htables, heatmapArray, eachDayOfInterval_year_fixed, Option.map_some']
  · simp [localMidnights]
  · simp only [localMidnights, List.map_map]
    apply List.map_congr_left
    intro i _
    simp only [Function.comp, heatCell]
    exact formatDate_localMidnight off _
  · intro c hc
    obtain ⟨date, -, rfl⟩ := List.mem_map.mp hc
    refine ⟨?_, rfl⟩
    simp only [heatCell]
    rw [hheat]
    simp [Props.get]

/-- C24 (the code at the failing input). In UTC, with the clock at noon of
2024-06-15 and one message of that day, the heat map array has 366 cells, not
the 365 of `Last 365 Days`: the first is dated 2023-06-16, 365 days before
today, and the last is dated today. -/
theorem heatmap_array_has_366_cells :
    ∃ cells, heatmapOf Zone.utc (daysFromCivil 2024 6 15 * msPerDay + 43200000)
        [msgAt "A".toList 2024 6 15 10] = some cells ∧
      cells.length = 366 ∧
      (cells.map (fun c => c.date)).head? = some "2023-06-16".toList ∧
      (cells.map (fun c => c.date)).getLast? = some "2024-06-15".toList := by
  obtain ⟨cells, h1, h2, h3, -⟩ := heatmapOf_fixed 0
    (daysFromCivil 2024 6 15 * msPerDay + 43200000) [msgAt "A".toList 2024 6 15 10]
    (by intro m hm; simp only [List.mem_singleton] at hm; subst hm; exact ⟨_, rfl⟩)
  refine ⟨cells, h1, h2, ?_, ?_⟩
  · rw [h3]
    decide
  · rw [h3]
    have h366 : List.range 366 = List.range 365 ++ [365] := List.range_succ 365
    rw [h366, List.map_append, List.map_singleton, List.getLast?_append]
    decide

/-- The heat map in a zone without daylight saving, for every clock and
every filtered sequence of messages with valid dates, whatever selector
produced it: the heat map array has 366 cells, one for each calendar day
from the day 365 days before today to today, in ascending order (the cell of
index `i` is dated `i` days after the first, and the last is dated today);
the count of a cell is the number of filtered messages of its date, so 0 for
a day without a message, and its level is the bucket of the count, 0 for the
count 0. -/
theorem heatmap_covers_today_and_365_days_before (off now : Int) (filtered : List Msg)
    (hvalid : ∀ m ∈ filtered, ∃ t, m.timestamp = some t) :
    ∃ cells, heatmapOf (Zone.fixed off) now filtered = some cells ∧
      cells.length = 366 ∧
      cells.map (fun c => c.date) =
        (List.range 366).map
          (fun (i : Nat) => dateOfDay (dayNumber (Zone.fixed off) now - 365 + (i : Int))) ∧
      formatDate (Zone.fixed off) now = dateOfDay (dayNumber (Zone.fixed off) now - 365 + 365) ∧
      (∀ c ∈ cells,
        c.count =
          (filtered.filter (fun m => decide (dateKeyOf (Zone.fixed off) m = some c.date))).length ∧
        c.level = heatLevel c.count ∧ (c.count = 0 → c.level = 0)) := by
  obtain ⟨cells, h1, h2, h3, h4⟩ := heatmapOf_fixed off now filtered hvalid
  refine ⟨cells, h1, h2, h3, ?_, ?_⟩
  · rw [formatDate_eq]
    congr 1
    omega
  · intro c hc
    refine ⟨(h4 c hc).1, (h4 c hc).2, ?_⟩
    intro h0
    rw [(h4 c hc).2, h0]
    rfl

theorem heatmap_covers_today_and_365_days_before_witness :
    (∀ m ∈ [msgAt "A".toList 2024 6 15 10, msgAt "B".toList 2024 6 14 10],
      ∃ t, m.timestamp = some t) ∧
    ∃ cells, heatmapOf (Zone.fixed 19800000) (daysFromCivil 2024 6 15 * msPerDay + 43200000)
        [msgAt "A".toList 2024 6 15 10, msgAt "B".toList 2024 6 14 10] = some cells ∧
      cells.length = 366 := by
  have hv : ∀ m ∈ [msgAt "A".toList 2024 6 15 10, msgAt "B".toList 2024 6 14 10],
      ∃ t, m.timestamp = some t := by
    intro m hm
    simp only [List.mem_cons, List.mem_singleton, List.not_mem_nil, or_false] at hm
    rcases hm with rfl | rfl <;> exact ⟨_, rfl⟩
  obtain ⟨cells, h1, h2, -⟩ := heatmap_covers_today_and_365_days_before 19800000
    (daysFromCivil 2024 6 15 * msPerDay + 43200000)
    [msgAt "A".toList 2024 6 15 10, msgAt "B".toList 2024 6 14 10] hv
  exact ⟨hv, cells, h1, h2⟩

/-! ## Totality of the pass -/

theorem bumpEntry_total (map : Props FreqEntry) (key sender : Str)
    (hkey : key ∉ objectPrototypeKeys) : ∃ map1, bumpEntry map key sender = some map1 := by
  unfold bumpEntry
  cases map.get key with
  | some e => exact ⟨_, rfl⟩
  | none =>
    simp only [if_neg hkey]
    exact ⟨_, rfl⟩

theorem countWords_total (targetWordLength : Nat) (msg : Msg) (ws : List Str)
    (hws : ∀ w ∈ ws, w ∉ objectPrototypeKeys) :
    ∀ st : ParticipantStat × Props FreqEntry,
      ∃ st1, countWords targetWordLength msg st ws = some st1 := by
  induction ws with
  | nil => intro st; exact ⟨st, rfl⟩
  | cons w ws ih =>
    intro st
    obtain ⟨st1, h1, -⟩ := countWord_own targetWordLength msg st w
      (Or.inl (hws w (List.mem_cons_self _ _)))
    simp only [countWords, h1]
    exact ih (fun x hx => hws x (List.mem_cons_of_mem _ hx)) st1

theorem countEmojis_total (sender : Str) (es : List Str)
    (hes : ∀ e ∈ es, e ∉ objectPrototypeKeys) :
    ∀ map : Props FreqEntry, ∃ map1, countEmojis sender map es = some map1 := by
  induction es with
  | nil => intro map; exact ⟨map, rfl⟩
  | cons e es ih =>
    intro map
    obtain ⟨map1, h1⟩ := bumpEntry_total map e sender (hes e (List.mem_cons_self _ _))
    simp only [countEmojis, h1]
    exact ih (fun x hx => hes x (List.mem_cons_of_mem _ hx)) map1

theorem flowStep_total (starters : Props Nat) (replyTimes : JSObj (List (Option Int)))
    (p : ParticipantStat) (lastMsg msg : Msg) (h : (replyTimes.get msg.sender).isSome) :
    ∃ res, flowStep starters replyTimes p lastMsg msg = some res := by
  obtain ⟨times, htimes⟩ := Option.isSome_iff_exists.mp h
  unfold flowStep
  simp only [htimes]
  split
  · exact ⟨_, rfl⟩
  · split
    · exact ⟨_, rfl⟩
    · split <;> exact ⟨_, rfl⟩

theorem processMessage_total (fns : DateFns) (targetWordLength : Nat) (acc : Acc) (msg : Msg)
    (hts : ∃ t, msg.timestamp = some t)
    (hws : ∀ w ∈ msg.words, w ∉ objectPrototypeKeys)
    (hes : ∀ e ∈ msg.emojis, e ∉ objectPrototypeKeys)
    (hrt : (acc.replyTimes.get msg.sender).isSome) :
    ∃ acc1, processMessage fns targetWordLength acc msg = some acc1 := by
  unfold processMessage
  cases hget : acc.participantStats.get msg.sender with
  | none => exact ⟨acc, rfl⟩
  | some p0 =>
    obtain ⟨t, ht⟩ := hts
    obtain ⟨st1, hcw⟩ := countWords_total targetWordLength msg msg.words hws
      (sleepCounts (basicCounts p0 msg) (fns.getHours t), acc.wordMap)
    obtain ⟨emojiMap, hce⟩ := countEmojis_total msg.sender msg.emojis hes acc.emojiMap
    obtain ⟨p3, wordMap⟩ := st1
    simp only [ht, hcw, hce]
    cases hl : acc.lastMsg with
    | none => exact ⟨_, rfl⟩
    | some lastMsg =>
      obtain ⟨res, hres⟩ := flowStep_total acc.starters acc.replyTimes p3 lastMsg msg hrt
      obtain ⟨s, r, p4⟩ := res
      simp only [hres]
      exact ⟨_, rfl⟩

theorem mainLoop_total (fns : DateFns) (targetWordLength : Nat)
    (selectedParticipants : List Str) (msgs : List Msg)
    (hmsgs : ∀ m ∈ msgs, (∃ t, m.timestamp = some t) ∧ m.sender ∈ selectedParticipants ∧
      (∀ w ∈ m.words, w ∉ objectPrototypeKeys) ∧ (∀ e ∈ m.emojis, e ∉ objectPrototypeKeys)) :
    ∀ acc : Acc, (∀ s ∈ selectedParticipants, (acc.replyTimes.get s).isSome) →
      ∃ acc1, mainLoop fns targetWordLength acc msgs = some acc1 := by
  induction msgs with
  | nil => intro acc _; exact ⟨acc, rfl⟩
  | cons msg rest ih =>
    intro acc hacc
    obtain ⟨hts, hsel, hws, hes⟩ := hmsgs msg (List.mem_cons_self _ _)
    obtain ⟨acc1, h1⟩ := processMessage_total fns targetWordLength acc msg hts hws hes
      (hacc msg.sender hsel)
    simp only [mainLoop, h1]
    apply ih (fun m hm => hmsgs m (List.mem_cons_of_mem _ hm)) acc1
    intro s hs
    exact (processMessage_tables fns targetWordLength acc acc1 msg h1 s).2.1 (hacc s hs)

/-- Totality for tokens that are no property names of `Object.prototype`:
for messages with valid dates and selected senders whose words and emoji are
no such names, the second `useMemo` yields `null` or a result object. -/
theorem computeStats_total (fns : DateFns) (selectedParticipants : List Str)
    (targetWordLength : Nat) (filtered : List Msg)
    (hmsgs : ∀ m ∈ filtered, (∃ t, m.timestamp = some t) ∧ m.sender ∈ selectedParticipants ∧
      (∀ w ∈ m.words, w ∉ objectPrototypeKeys) ∧ (∀ e ∈ m.emojis, e ∉ objectPrototypeKeys)) :
    computeStats fns filtered selectedParticipants targetWordLength ≠ .typeError := by
  obtain ⟨acc, hacc⟩ := mainLoop_total fns targetWordLength selectedParticipants filtered hmsgs
    (Acc.init selectedParticipants) (fun s hs => (init_tables selectedParticipants s hs).2.1)
  unfold computeStats
  split
  · simp
  · simp [hacc]

/-- C21 (the code at the failing input). The chat line
`12/25/2023, 9:15 PM - Bob: Use the constructor pattern` parses to one message
of Bob with a valid date and the words `use`, `the`, `constructor`, `pattern`.
With Bob selected, computing the stats under the default vocabulary mode
throws a TypeError, and so it does under the exact length 11; under the exact
length 7 the word `constructor` is not counted and there is a result.  A
sender named `constructor` does not make the pass throw. -/
theorem stats_throw_on_constructor_token :
    (parseChat refHost 0
        "12/25/2023, 9:15 PM - Bob: Use the constructor pattern".toList).messages.map
      (fun m => (m.timestamp, m.sender, m.words)) =
      [(some 1703538900000, "Bob".toList,
        ["use".toList, "the".toList, "constructor".toList, "pattern".toList])] ∧
    useAdvancedStats refDateFns
        (some (parseChat refHost 0
          "12/25/2023, 9:15 PM - Bob: Use the constructor pattern".toList).messages)
        "all".toList ["Bob".toList] 0 = .typeError ∧
    useAdvancedStats refDateFns
        (some (parseChat refHost 0
          "12/25/2023, 9:15 PM - Bob: Use the constructor pattern".toList).messages)
        "all".toList ["Bob".toList] 11 = .typeError ∧
    (useAdvancedStats refDateFns
        (some (parseChat refHost 0
          "12/25/2023, 9:15 PM - Bob: Use the constructor pattern".toList).messages)
        "all".toList ["Bob".toList] 7).toOption.map (fun r => r.totalMessages) = some 1 ∧
    (useAdvancedStats refDateFns
        (some (parseChat refHost 0
          "12/25/2023, 9:15 PM - constructor: Use the pattern".toList).messages)
        "all".toList ["constructor".toList] 0).toOption.map (fun r => r.totalMessages) =
      some 1 := by
  refine ⟨?_, ?_, ?_, ?_, ?_⟩ <;> decide

/-! ## Conversation starters and whole minutes -/

theorem mainLoop_append (fns : DateFns) (targetWordLength : Nat) (l1 l2 : List Msg) :
    ∀ (acc acc1 : Acc), mainLoop fns targetWordLength acc (l1 ++ l2) = some acc1 →
    ∃ mid, mainLoop fns targetWordLength acc l1 = some mid ∧
      mainLoop fns targetWordLength mid l2 = some acc1 := by
  induction l1 with
  | nil => intro acc acc1 h; exact ⟨acc, rfl, h⟩
  | cons m l1 ih =>
    intro acc acc1 h
    simp only [List.cons_append, mainLoop] at h
    cases hstep : processMessage fns targetWordLength acc m with
    | none => rw [hstep] at h; cases h
    | some acc2 =>
      rw [hstep] at h
      obtain ⟨mid, h1, h2⟩ := ih acc2 acc1 h
      exact ⟨mid, by simp only [mainLoop, hstep]; exact h1, h2⟩

theorem tdiv_minutes_gt_240 (x : Int) : 240 < Int.tdiv x 60000 ↔ 14460000 ≤ x := by
  rcases le_or_lt 0 x with h | h
  · rw [Int.tdiv_eq_ediv h (by norm_num)]
    omega
  · have h1 : Int.tdiv x 60000 ≤ 0 := by
      have h2 := Int.neg_tdiv (-x) 60000
      rw [neg_neg] at h2
      rw [h2, Int.tdiv_eq_ediv (by omega) (by norm_num)]
      omega
    omega

/-- C30 (counterexample). Y writes 240 minutes and 30 seconds after X, both
selected.  The gap exceeds 240 minutes, but `differenceInMinutes` gives the
whole minutes, 240, and `240 > 240` is false: no conversation starter is
counted for Y or for X, and the message counts as a reply of Y after 240
minutes. -/
theorem gap_of_240_minutes_30_seconds_is_no_starter :
    (useAdvancedStats refDateFns
        (some [msgAfter "X".toList 0, msgAfter "Y".toList 14430000])
        "all".toList ["X".toList, "Y".toList] 0).toOption.map
      (fun r => (r.starters, r.replyStats)) =
      some ([("X".toList, 0), ("Y".toList, 0)],
        [{ name := "Y".toList, avgMinutes := some 240 },
         { name := "X".toList, avgMinutes := some 0 }]) ∧
    (240 : Int) * 60000 < 14430000 := by
  refine ⟨?_, ?_⟩ <;> decide

/-- C30, as amended. Let `msg` follow `prev` in the filtered sequence, let the
pass over that sequence complete, and let the sender of `msg` not be
`__proto__`.  With `acc` the tables when the loop reaches `msg` and `acc1` the
tables after it: the message adds 1 to the starter count of its sender when
its time value is at least 241 minutes (14 460 000 ms) above that of `prev`,
that is when the whole minutes between the two exceed 240, and leaves the
count as it was otherwise; the counts of the other senders do not change. -/
theorem starter_counted_from_241_minutes (fns : DateFns) (rawMessages : Option (List Msg))
    (timeFilter : Str) (selectedParticipants : List Str) (targetWordLength : Nat)
    (pre post : List Msg) (prev msg : Msg)
    (hsplit : filteredMessages fns rawMessages timeFilter selectedParticipants =
      pre ++ prev :: msg :: post)
    (hloop : (mainLoop fns targetWordLength (Acc.init selectedParticipants)
      (filteredMessages fns rawMessages timeFilter selectedParticipants)).isSome = true)
    (hne : msg.sender ≠ protoKey) :
    ∃ (acc acc1 : Acc) (t t0 : Int) (n : Nat),
      mainLoop fns targetWordLength (Acc.init selectedParticipants) (pre ++ [prev]) = some acc ∧
      processMessage fns targetWordLength acc msg = some acc1 ∧
      msg.timestamp = some t ∧ prev.timestamp = some t0 ∧
      acc.starters.get msg.sender = some n ∧
      (14460000 ≤ t - t0 → acc1.starters.get msg.sender = some (n + 1)) ∧
      (t - t0 < 14460000 → acc1.starters.get msg.sender = some n) ∧
      (∀ k, k ≠ msg.sender → acc1.starters.get k = acc.starters.get k) := by
  obtain ⟨accEnd, hEnd⟩ := Option.isSome_iff_exists.mp hloop
  have hlist : pre ++ prev :: msg :: post = (pre ++ [prev]) ++ ([msg] ++ post) := by simp
  rw [hsplit, hlist] at hEnd
  obtain ⟨acc, hacc, hrest⟩ := mainLoop_append _ _ _ _ _ _ hEnd
  obtain ⟨acc1, hstep1, -⟩ := mainLoop_append _ _ _ _ _ _ hrest
  have hstep : processMessage fns targetWordLength acc msg = some acc1 := by
    simp only [mainLoop] at hstep1
    cases hp : processMessage fns targetWordLength acc msg with
    | none => rw [hp] at hstep1; cases hstep1
    | some a =>
      rw [hp] at hstep1
      simp only [Option.some.injEq] at hstep1
      rw [hstep1]
  obtain ⟨t, t0, n, times, p, ht, ht0, -, hn, -, -, h1, h2, h3, h4, h5⟩ :=
    flow_classification fns rawMessages timeFilter selectedParticipants targetWordLength
      pre post prev msg acc acc1 hsplit hacc hstep hne
  refine ⟨acc, acc1, t, t0, n, hacc, hstep, ht, ht0, hn, ?_, ?_, ?_⟩
  · intro hge
    exact (h1 ((tdiv_minutes_gt_240 _).mpr hge)).1
  · intro hlt
    have hle : Int.tdiv (t - t0) 60000 ≤ 240 := by
      by_contra hc
      have := (tdiv_minutes_gt_240 (t - t0)).mp (by omega)
      omega
    by_cases hs : msg.sender = prev.sender
    · by_cases h5m : Int.tdiv (t - t0) 60000 < 5
      · exact (h3 hle hs h5m).1
      · exact (h4 hle hs (by omega)).1
    · exact (h2 hle hs).1
  · intro k hk
    exact (h5 k hk).1

theorem starter_counted_from_241_minutes_witness :
    ∃ (acc acc1 : Acc) (t t0 : Int) (n : Nat),
      mainLoop refDateFns 0 (Acc.init ["X".toList, "Y".toList])
        ([] ++ [msgAfter "X".toList 0]) = some acc ∧
      processMessage refDateFns 0 acc (msgAfter "Y".toList 14460000) = some acc1 ∧
      (msgAfter "Y".toList 14460000).timestamp = some t ∧
      (msgAfter "X".toList 0).timestamp = some t0 ∧
      acc.starters.get (msgAfter "Y".toList 14460000).sender = some n ∧
      (14460000 ≤ t - t0 →
        acc1.starters.get (msgAfter "Y".toList 14460000).sender = some (n + 1)) ∧
      (t - t0 < 14460000 →
        acc1.starters.get (msgAfter "Y".toList 14460000).sender = some n) ∧
      (∀ k, k ≠ (msgAfter "Y".toList 14460000).sender →
        acc1.starters.get k = acc.starters.get k) :=
  starter_counted_from_241_minutes refDateFns
    (some [msgAfter "X".toList 0, msgAfter "Y".toList 14460000]) "all".toList
    ["X".toList, "Y".toList] 0 [] [] (msgAfter "X".toList 0) (msgAfter "Y".toList 14460000)
    (by decide) (by decide) (by decide)

/-! ## A single sender -/

theorem same_sender_loop (fns : DateFns) (targetWordLength : Nat) (s : Str) (hne : s ≠ protoKey)
    (msgs : List Msg) : ∀ (acc acc1 : Acc) (n d : Nat),
    mainLoop fns targetWordLength acc msgs = some acc1 →
    (∀ m ∈ msgs, m.sender = s) →
    (∀ l, acc.lastMsg = some l → l.sender = s) →
    acc.starters.get s = some n →
    (acc.participantStats.get s).map (fun p => p.doubleTexts) = some d →
    acc1.replyTimes = acc.replyTimes ∧
    acc1.starters.get s = some (n + longGaps (gapsFrom acc.lastMsg msgs)) ∧
    (acc1.participantStats.get s).map (fun p => p.doubleTexts) =
      some (d + shortGaps (gapsFrom acc.lastMsg msgs)) := by
  induction msgs with
  | nil =>
    intro acc acc1 n d h _ _ hn hd
    simp only [mainLoop, Option.some.injEq] at h
    subst h
    cases hl : acc.lastMsg <;>
      simp [gapsFrom, gapMinutes, gapsAfter, longGaps, shortGaps, hn, hd]
  | cons msg rest ih =>
    intro acc acc1 n d h hs hlast hn hd
    have hmsg : msg.sender = s := hs msg (List.mem_cons_self _ _)
    have hrest : ∀ m ∈ rest, m.sender = s := fun m hm => hs m (List.mem_cons_of_mem _ hm)
    simp only [mainLoop] at h
    cases hstep : processMessage fns targetWordLength acc msg with
    | none => rw [hstep] at h; cases h
    | some acc2 =>
      rw [hstep] at h
      rcases processMessage_some fns targetWordLength acc acc2 msg hstep with
        ⟨hnone, -⟩ | ⟨p0, t, p3, wordMap, emojiMap, hget, -, hwords, -, hcases⟩
      · rw [hmsg] at hnone
        rw [hnone] at hd
        cases hd
      · rw [hmsg] at hget
        have hp0 : p0.doubleTexts = d := by
          rw [hget] at hd
          simpa using hd
        have hp3 : p3.doubleTexts = d := by
          have h1 := countWords_doubleTexts _ _ _ _ _ hwords
          simp only [sleepCounts, basicCounts] at h1
          exact h1.trans hp0
        rcases hcases with ⟨hl, rfl⟩ | ⟨lastMsg, starters, replyTimes, p4, hl, hflow, rfl⟩
        · have hih := ih _ acc1 n d h hrest
            (by intro l hl'; simp only [Option.some.injEq] at hl'; rw [← hl']; exact hmsg)
            hn (by rw [hmsg]; simp [JSObj.get_after_set_eq, hp3])
          simp only [hl, gapsFrom, gapMinutes] at hih ⊢
          exact hih
        · have hlsender : lastMsg.sender = s := hlast lastMsg hl
          rcases flowStep_some _ _ _ _ _ _ _ _ hflow with
            ⟨hgt, rfl, rfl, rfl⟩ | ⟨-, hdiff, -, -, -⟩ | ⟨hgt, -, hlt, rfl, rfl, rfl⟩ |
            ⟨hgt, -, hlt, rfl, rfl, rfl⟩
          · have hih := ih _ acc1 (n + 1) d h hrest
              (by intro l hl'; simp only [Option.some.injEq] at hl'; rw [← hl']; exact hmsg)
              (by rw [hmsg]; exact Props.get_incr_eq _ _ _ hne hn)
              (by rw [hmsg]; simp [JSObj.get_after_set_eq, hp3])
            simp only [hl, gapsFrom, gapsAfter, longGaps, shortGaps, List.filter_cons, hgt,
              if_true, List.length_cons, Bool.not_true, Bool.false_and, Bool.false_eq_true,
              if_false] at hih ⊢
            refine ⟨hih.1, ?_, hih.2.2⟩
            rw [hih.2.1]
            congr 1
            omega
          · exact absurd (hmsg.trans hlsender.symm) hdiff
          · have hih := ih _ acc1 n (d + 1) h hrest
              (by intro l hl'; simp only [Option.some.injEq] at hl'; rw [← hl']; exact hmsg)
              hn (by rw [hmsg]; simp [JSObj.get_after_set_eq, hp3])
            simp only [hl, gapsFrom, gapsAfter, longGaps, shortGaps, List.filter_cons, hgt, hlt,
              if_true, List.length_cons, Bool.not_false, Bool.true_and, Bool.false_eq_true,
              if_false] at hih ⊢
            refine ⟨hih.1, hih.2.1, ?_⟩
            rw [hih.2.2]
            congr 1
            omega
          · have hih := ih _ acc1 n d h hrest
              (by intro l hl'; simp only [Option.some.injEq] at hl'; rw [← hl']; exact hmsg)
              hn (by rw [hmsg]; simp [JSObj.get_after_set_eq, hp3])
            simp only [hl, gapsFrom, gapsAfter, longGaps, shortGaps, List.filter_cons, hgt, hlt,
              if_true, List.length_cons, Bool.not_false, Bool.true_and, Bool.false_eq_true,
              if_false] at hih ⊢
            exact hih

theorem foldl_setNum_zero (ps : List Str) : ∀ o : Props Nat, (∀ kv ∈ o, kv.2 = 0) →
    ∀ kv ∈ ps.foldl (fun o p => o.setNum p 0) o, kv.2 = 0 := by
  induction ps with
  | nil => intro o ho; exact ho
  | cons p ps ih =>
    intro o ho
    simp only [List.foldl_cons]
    apply ih
    intro kv hkv
    unfold Props.setNum at hkv
    split at hkv
    · exact ho kv hkv
    · rcases Props.mem_set _ _ _ _ hkv with h | h
      · exact ho kv h
      · rw [h]

theorem init_values (selectedParticipants : List Str) :
    (∀ kv ∈ (Acc.init selectedParticipants).starters, kv.2 = 0) ∧
    (∀ kv ∈ (Acc.init selectedParticipants).replyTimes.props, kv.2 = []) ∧
    (∀ kv ∈ (Acc.init selectedParticipants).participantStats.props,
      kv.2 = ParticipantStat.init kv.1) := by
  simp only [Acc.init]
  refine ⟨foldl_setNum_zero selectedParticipants [] (by simp), ?_, ?_⟩
  · intro kv hkv
    rcases (foldl_set_props (fun _ => ([] : List (Option Int))) selectedParticipants
      ⟨[], none⟩ (by simp) (by simp)).2.1 kv hkv with h | h
    · simp at h
    · exact h
  · intro kv hkv
    rcases (foldl_set_props (fun p => ParticipantStat.init p) selectedParticipants
      ⟨[], none⟩ (by simp) (by simp)).2.1 kv hkv with h | h
    · simp at h
    · exact h

theorem gapsAfter_length (rest : List Msg) : ∀ prev : Msg, (gapsAfter prev rest).length = rest.length := by
  induction rest with
  | nil => intro _; rfl
  | cons m rest ih => intro prev; simp [gapsAfter, ih m]

theorem gaps_partition (gaps : List (Option Int)) :
    longGaps gaps + shortGaps gaps + middleGaps gaps = gaps.length := by
  induction gaps with
  | nil => rfl
  | cons g gaps ih =>
    simp only [longGaps, shortGaps, middleGaps, List.filter_cons, List.length_cons] at ih ⊢
    cases hgt : jsGT g 240 <;> cases hlt : jsLT g 5 <;> simp <;> omega

/-- C29 (counterexample). A is the only selected sender and writes at minute
0 and at minute 10.  The second message is no conversation starter (the gap is
not above 240 minutes) and no double-text (the gap is not below 5 minutes):
the starter count and the `doubleTexts` of A are both 0, while the number of
messages less one is 1. -/
theorem middle_gap_is_neither_starter_nor_double_text :
    (useAdvancedStats refDateFns
        (some [mkMsg "A".toList 0 [] [], mkMsg "A".toList 10 [] []])
        "all".toList ["A".toList] 0).toOption.map
      (fun r => (r.totalMessages, r.starters)) = some (2, [("A".toList, 0)]) ∧
    (useAdvancedStats refDateFns
        (some [mkMsg "A".toList 0 [] [], mkMsg "A".toList 10 [] []])
        "all".toList ["A".toList] 0).toOption.map
      (fun r => r.participantStats.map (fun p => (p.name, p.doubleTexts))) =
      some [("A".toList, 0)] ∧
    (useAdvancedStats refDateFns
        (some [mkMsg "A".toList 0 [] [], mkMsg "A".toList 10 [] []])
        "all".toList ["A".toList] 0).toOption.map (fun r => r.replyStats) =
      some [{ name := "A".toList, avgMinutes := some 0 }] := by
  refine ⟨?_, ?_, ?_⟩ <;> decide

/-- C29, as amended. Let every message of the filtered sequence have the same
sender `s`, not `__proto__`, and let `useAdvancedStats` yield a result object.
No reply sample is produced: every list of `replyTimes` is empty at the end of
the pass and every `avgMinutes` is 0.  Of the gaps between consecutive
messages, in whole minutes, those above 240 are counted as conversation
starters of `s`, those below 5 as double-texts of `s`, and those from 5 to 240
are counted as neither: `starters[s]` and the `doubleTexts` of `s` are the
first two numbers, and the three numbers add up to the number of messages
less one. -/
theorem single_sender_flow (fns : DateFns) (rawMessages : Option (List Msg)) (timeFilter : Str)
    (selectedParticipants : List Str) (targetWordLength : Nat) (r : StatsResult) (s : Str)
    (h : useAdvancedStats fns rawMessages timeFilter selectedParticipants targetWordLength =
      .result r)
    (hs : ∀ m ∈ filteredMessages fns rawMessages timeFilter selectedParticipants, m.sender = s)
    (hne : s ≠ protoKey) :
    (∀ g ∈ r.replyStats, g.avgMinutes = some 0) ∧
    (∃ acc, mainLoop fns targetWordLength (Acc.init selectedParticipants)
        (filteredMessages fns rawMessages timeFilter selectedParticipants) = some acc ∧
      ∀ kv ∈ acc.replyTimes.props, kv.2 = []) ∧
    r.starters.get s = some (longGaps (gapMinutes
      (filteredMessages fns rawMessages timeFilter selectedParticipants))) ∧
    (∃ p ∈ r.participantStats, p.name = s ∧ p.doubleTexts = shortGaps (gapMinutes
      (filteredMessages fns rawMessages timeFilter selectedParticipants))) ∧
    longGaps (gapMinutes (filteredMessages fns rawMessages timeFilter selectedParticipants)) +
      shortGaps (gapMinutes (filteredMessages fns rawMessages timeFilter selectedParticipants)) +
      middleGaps (gapMinutes (filteredMessages fns rawMessages timeFilter selectedParticipants)) =
      (filteredMessages fns rawMessages timeFilter selectedParticipants).length - 1 := by
  unfold useAdvancedStats computeStats at h
  split at h
  · cases h
  · next hnonempty =>
    split at h
    · cases h
    · next acc hloop =>
      simp only [Stats.result.injEq] at h
      subst h
      obtain ⟨hv1, hv2, hv3⟩ := init_values selectedParticipants
      -- the sender is selected
      have hsel : s ∈ selectedParticipants := by
        cases hf : filteredMessages fns rawMessages timeFilter selectedParticipants with
        | nil => rw [hf] at hnonempty; simp at hnonempty
        | cons m ms =>
          have hm : m ∈ filteredMessages fns rawMessages timeFilter selectedParticipants := by
            rw [hf]; exact List.mem_cons_self _ _
          rw [← hs m hm]
          exact (mem_filteredMessages _ _ _ _ _ hm).1
      obtain ⟨hi1, hi2, hi3⟩ := init_tables selectedParticipants s hsel
      obtain ⟨n0, hn0⟩ := Option.isSome_iff_exists.mp (hi3 hne)
      have hn00 : n0 = 0 := hv1 _ (Props.mem_of_get _ _ _ hn0)
      subst hn00
      obtain ⟨p0, hp0⟩ := Option.isSome_iff_exists.mp hi1
      have hp0' : (Acc.init selectedParticipants).participantStats.props.get s = some p0 := by
        unfold JSObj.get at hp0
        rw [if_neg hne] at hp0
        exact hp0
      have hp00 : p0 = ParticipantStat.init s := hv3 _ (Props.mem_of_get _ _ _ hp0')
      have hloop1 := same_sender_loop fns targetWordLength s hne _ _ acc 0 0 hloop hs
        (by intro l hl; simp [Acc.init] at hl) hn0 (by rw [hp0, hp00]; rfl)
      obtain ⟨hrt, hst, hdt⟩ := hloop1
      have hlast0 : (Acc.init selectedParticipants).lastMsg = none := rfl
      simp only [hlast0, gapsFrom, Nat.zero_add] at hst hdt
      have hempty : ∀ kv ∈ acc.replyTimes.props, kv.2 = [] := by
        rw [hrt]
        exact hv2
      refine ⟨?_, ⟨acc, hloop, hempty⟩, hst, ?_, ?_⟩
      · intro g hg
        have hg1 : g ∈ ghostStats acc.replyTimes := hg
        unfold ghostStats at hg1
        obtain ⟨kv, hkv, rfl⟩ := List.mem_map.mp ((mem_sortDesc _ _ _).mp hg1)
        show avgMinutes kv.2 = some 0
        rw [hempty kv (Props.mem_entries _ _ hkv)]
        rfl
      · cases hget : acc.participantStats.get s with
        | none => rw [hget] at hdt; cases hdt
        | some p =>
          rw [hget] at hdt
          simp only [Option.map_some', Option.some.injEq] at hdt
          have hget' : acc.participantStats.props.get s = some p := by
            unfold JSObj.get at hget
            rw [if_neg hne] at hget
            exact hget
          have hmem := Props.mem_of_get _ _ _ hget'
          have hkeys := mainLoop_keys fns targetWordLength (Acc.init selectedParticipants) _ _ _
            hloop ⟨rfl, rfl, rfl, fun kv hkv => by rw [hv3 kv hkv]; rfl⟩
          refine ⟨p, ?_, hkeys.2.2.2 _ hmem, hdt⟩
          exact List.mem_map.mpr ⟨(s, p), (Props.entries_perm _).mem_iff.mpr hmem, rfl⟩
      · rw [gaps_partition]
        cases hf : filteredMessages fns rawMessages timeFilter selectedParticipants with
        | nil => rfl
        | cons m ms => simp [gapMinutes, gapsAfter_length]

theorem single_sender_flow_witness :
    useAdvancedStats refDateFns (some soloExample) "all".toList ["A".toList] 0 =
      .result soloExampleResult ∧
    (∀ m ∈ filteredMessages refDateFns (some soloExample) "all".toList ["A".toList],
      m.sender = "A".toList) ∧
    "A".toList ≠ protoKey ∧
    (∀ g ∈ soloExampleResult.replyStats, g.avgMinutes = some 0) ∧
    soloExampleResult.starters.get "A".toList = some (longGaps (gapMinutes
      (filteredMessages refDateFns (some soloExample) "all".toList ["A".toList]))) :=
  ⟨by decide, by decide, by decide,
   (single_sender_flow refDateFns (some soloExample) "all".toList ["A".toList] 0
      soloExampleResult "A".toList (by decide) (by decide) (by decide)).1,
   (single_sender_flow refDateFns (some soloExample) "all".toList ["A".toList] 0
      soloExampleResult "A".toList (by decide) (by decide) (by decide)).2.2.1⟩

/-! ## The participants -/

theorem foldl_setAdd (l : List Str) : ∀ acc : List Str,
    l.foldl setAdd acc = acc ++ (firstSeen l).filter (fun x => decide (x ∉ acc)) := by
  induction l with
  | nil => intro acc; simp [firstSeen]
  | cons x xs ih =>
    intro acc
    simp only [List.foldl_cons, firstSeen]
    rw [ih]
    unfold setAdd
    by_cases hx : x ∈ acc
    · rw [if_pos hx]
      have hx' : decide (x ∉ acc) = false := by simpa using hx
      rw [List.filter_cons, hx', List.filter_filter]
      simp only [Bool.false_eq_true, if_false]
      congr 1
      apply List.filter_congr
      intro y _
      by_cases hy : y ∈ acc
      · simp [hy]
      · have hyx : y ≠ x := fun e => hy (e ▸ hx)
        simp [hy, hyx]
    · rw [if_neg hx]
      have hx' : decide (x ∉ acc) = true := by simpa using hx
      rw [List.filter_cons, hx', List.filter_filter]
      simp only [if_true, List.append_assoc, List.singleton_append]
      congr 2
      apply List.filter_congr
      intro y _
      by_cases hy : y ∈ acc
      · simp [hy]
      · by_cases hyx : y = x
        · simp [hyx]
        · simp [hy, hyx]

theorem firstSeen_mem (l : List Str) (s : Str) : s ∈ firstSeen l ↔ s ∈ l := by
  induction l with
  | nil => simp [firstSeen]
  | cons x xs ih =>
    simp only [firstSeen, List.mem_cons, List.mem_filter, ih]
    by_cases hs : s = x
    · simp [hs]
    · simp [hs]

theorem firstSeen_nodup (l : List Str) : (firstSeen l).Nodup := by
  induction l with
  | nil => exact List.nodup_nil
  | cons x xs ih =>
    simp only [firstSeen]
    refine List.nodup_cons.mpr ⟨?_, ih.filter _⟩
    simp [List.mem_filter]

theorem parseLine_participants (host : Host) (st : ParserState) (line : Str) :
    (parseLine host st line).participants =
      match headerSender line with
      | some s => setAdd st.participants s
      | none => st.participants := by
  unfold parseLine headerSender
  simp only
  by_cases hempty : (trim (removeMarks line)).isEmpty = true
  · have hnil : trim (removeMarks line) = [] := List.isEmpty_iff.mp hempty
    have hm : matchHeader [] = none := by decide
    rw [if_pos hempty, hnil, hm]
  · rw [if_neg hempty]
    cases hm : matchHeader (trim (removeMarks line)) with
    | none =>
      simp only
      cases hcur : st.currentMsg <;> rfl
    | some h =>
      simp only
      by_cases hsys : isSystemSender (trim h.senderRaw) = true
      · rw [if_pos hsys, if_pos hsys]
        cases hcur : st.currentMsg <;> rfl
      · rw [if_neg hsys, if_neg hsys]

theorem foldl_parseLine_participants (host : Host) (lines : List Str) : ∀ st : ParserState,
    (lines.foldl (parseLine host) st).participants =
      (lines.filterMap headerSender).foldl setAdd st.participants := by
  induction lines with
  | nil => intro st; rfl
  | cons l ls ih =>
    intro st
    simp only [List.foldl_cons, ih, parseLine_participants, List.filterMap_cons]
    cases headerSender l <;> rfl

/-- The sender names held by a parser state: those of the complete slots and
that of the message in progress. -/
theorem parseLine_senders (host : Host) (st : ParserState) (line : Str)
    (h : ∀ s, s ∈ st.participants ↔
      (∃ m ∈ st.messages, m.sender = s) ∨ ∃ m, st.currentMsg = some m ∧ m.sender = s) :
    ∀ s, s ∈ (parseLine host st line).participants ↔
      (∃ m ∈ (parseLine host st line).messages, m.sender = s) ∨
        ∃ m, (parseLine host st line).currentMsg = some m ∧ m.sender = s := by
  unfold parseLine
  simp only
  by_cases hempty : (trim (removeMarks line)).isEmpty = true
  · rw [if_pos hempty]
    exact h
  · rw [if_neg hempty]
    cases hm : matchHeader (trim (removeMarks line)) with
    | none =>
      simp only
      cases hcur : st.currentMsg with
      | none => simpa [hcur] using h
      | some m =>
        intro s
        have hs := h s
        rw [hcur] at hs
        simpa [appendLine] using hs
    | some hd =>
      simp only
      by_cases hsys : isSystemSender (trim hd.senderRaw) = true
      · rw [if_pos hsys]
        cases hcur : st.currentMsg with
        | none => simpa [hcur] using h
        | some m =>
          intro s
          have hs := h s
          rw [hcur] at hs
          simpa using hs
      · rw [if_neg hsys]
        intro s
        have hs := h s
        cases hcur : st.currentMsg with
        | none =>
          rw [hcur] at hs
          simp only [setAdd, ParserState.aliases, hcur, List.append_nil, newMessage,
            Option.some.injEq, exists_eq_left']
          by_cases hmem : trim hd.senderRaw ∈ st.participants
          · rw [if_pos hmem, hs]
            simp only [reduceCtorEq, false_and, exists_false, or_false]
            constructor
            · intro hl; exact Or.inl hl
            · rintro (hl | hl)
              · exact hl
              · have := hs.mp (hl ▸ hmem)
                simpa using this
          · rw [if_neg hmem]
            simp only [List.mem_append, List.mem_singleton, hs, reduceCtorEq, false_and,
              exists_false, or_false]
            constructor
            · rintro (hl | hl)
              · exact Or.inl hl
              · exact Or.inr hl.symm
            · rintro (hl | hl)
              · exact Or.inl hl
              · exact Or.inr hl.symm
        | some m =>
          rw [hcur] at hs
          simp only [Option.some.injEq, exists_eq_left'] at hs
          simp only [setAdd, ParserState.aliases, newMessage, Option.some.injEq,
            exists_eq_left', List.mem_append, List.mem_replicate]
          by_cases hmem : trim hd.senderRaw ∈ st.participants
          · rw [if_pos hmem, hs]
            constructor
            · rintro (⟨x, hx, hxs⟩ | hl)
              · exact Or.inl ⟨x, Or.inl hx, hxs⟩
              · exact Or.inl ⟨m, Or.inr ⟨by omega, rfl⟩, hl⟩
            · rintro (⟨x, hx | ⟨-, rfl⟩, hxs⟩ | hl)
              · exact Or.inl ⟨x, hx, hxs⟩
              · exact Or.inr hxs
              · exact (h s).mp (hl ▸ hmem) |>.elim (fun h1 => Or.inl h1)
                  (fun h2 => by
                    obtain ⟨y, hy, hys⟩ := h2
                    rw [hcur] at hy
                    simp only [Option.some.injEq] at hy
                    subst hy
                    exact Or.inr hys)
          · rw [if_neg hmem]
            simp only [List.mem_append, List.mem_singleton, hs]
            constructor
            · rintro ((⟨x, hx, hxs⟩ | hl) | hl)
              · exact Or.inl ⟨x, Or.inl hx, hxs⟩
              · exact Or.inl ⟨m, Or.inr ⟨by omega, rfl⟩, hl⟩
              · exact Or.inr hl.symm
            · rintro (⟨x, hx | ⟨-, rfl⟩, hxs⟩ | hl)
              · exact Or.inl (Or.inl ⟨x, hx, hxs⟩)
              · exact Or.inl (Or.inr hxs)
              · exact Or.inr hl.symm

theorem foldl_parseLine_senders (host : Host) (lines : List Str) : ∀ st : ParserState,
    (∀ s, s ∈ st.participants ↔
      (∃ m ∈ st.messages, m.sender = s) ∨ ∃ m, st.currentMsg = some m ∧ m.sender = s) →
    ∀ s, s ∈ (lines.foldl (parseLine host) st).participants ↔
      (∃ m ∈ (lines.foldl (parseLine host) st).messages, m.sender = s) ∨
        ∃ m, (lines.foldl (parseLine host) st).currentMsg = some m ∧ m.sender = s := by
  induction lines with
  | nil => intro st h; exact h
  | cons l ls ih =>
    intro st h
    simp only [List.foldl_cons]
    exact ih _ (parseLine_senders host st l h)

theorem flush_senders (st : ParserState) (s : Str) :
    (∃ m ∈ st.flush, m.sender = s) ↔
      (∃ m ∈ st.messages, m.sender = s) ∨ ∃ m, st.currentMsg = some m ∧ m.sender = s := by
  unfold ParserState.flush
  cases hcur : st.currentMsg with
  | none => simp
  | some m0 =>
    simp only [List.mem_append, List.mem_replicate, Option.some.injEq, exists_eq_left']
    constructor
    · rintro ⟨m, hm | ⟨-, rfl⟩, hs⟩
      · exact Or.inl ⟨m, hm, hs⟩
      · exact Or.inr hs
    · rintro (⟨m, hm, hs⟩ | hs)
      · exact ⟨m, Or.inl hm, hs⟩
      · exact ⟨m0, Or.inr ⟨by omega, rfl⟩, hs⟩

/-- C25. For every host, every initial `lastIndex` and every text, the
participants returned by `parseChat` are the senders of the non-system header
lines in order of first appearance, each once: the list is `firstSeen` of the
header senders, it has no repetition, a name is in it exactly when it is the
sender of a non-system header line, and exactly when it is the sender of a
returned message. -/
theorem parseChat_participants_first_seen (host : Host) (lastIndex : Nat) (fileContent : Str) :
    (parseChat host lastIndex fileContent).participants = firstSeen (headerSenders fileContent) ∧
    (parseChat host lastIndex fileContent).participants.Nodup ∧
    (∀ s, s ∈ (parseChat host lastIndex fileContent).participants ↔
      s ∈ headerSenders fileContent) ∧
    (∀ s, s ∈ (parseChat host lastIndex fileContent).participants ↔
      ∃ m ∈ (parseChat host lastIndex fileContent).messages, m.sender = s) := by
  have hp : (parseChat host lastIndex fileContent).participants =
      firstSeen (headerSenders fileContent) := by
    simp only [parseChat, parseLines, foldl_parseLine_participants, foldl_setAdd,
      ParserState.init, headerSenders, List.nil_append]
    apply List.filter_eq_self.mpr
    intro a _
    simp
  refine ⟨hp, ?_, ?_, ?_⟩
  · rw [hp]
    exact firstSeen_nodup _
  · intro s
    rw [hp]
    exact firstSeen_mem _ s
  · intro s
    have h := foldl_parseLine_senders host (splitLines fileContent) (ParserState.init lastIndex)
      (by intro s; simp [ParserState.init]) s
    simp only [parseChat, parseLines, mem_sortByTimestamp]
    rw [flush_senders]
    exact h

/-! ## The order of the returned messages -/

theorem sortByTimestamp_perm (l : List Msg) : (sortByTimestamp l).Perm l :=
  List.perm_insertionSort tsLE l

theorem sortByTimestamp_sorted (l : List Msg) (hvalid : ∀ m ∈ l, ∃ t, m.timestamp = some t) :
    (sortByTimestamp l).Pairwise (fun a b =>
      ∀ x y, a.timestamp = some x → b.timestamp = some y → x ≤ y) := by
  let r' : Msg → Msg → Prop := fun a b => a.timestamp.getD 0 ≤ b.timestamp.getD 0
  haveI : DecidableRel r' := fun a b =>
    inferInstanceAs (Decidable (a.timestamp.getD 0 ≤ b.timestamp.getD 0))
  haveI : IsTotal Msg r' := ⟨fun a b => le_total _ _⟩
  haveI : IsTrans Msg r' := ⟨fun a b c hab hbc => le_trans hab hbc⟩
  have hcongr : sortByTimestamp l = l.insertionSort r' := by
    apply insertionSort_congr
    intro a ha b hb
    obtain ⟨va, hva⟩ := hvalid a ha
    obtain ⟨vb, hvb⟩ := hvalid b hb
    show tsLE a b ↔ a.timestamp.getD 0 ≤ b.timestamp.getD 0
    unfold tsLE
    rw [hva, hvb]
    rfl
  rw [hcongr]
  have hs := List.sorted_insertionSort r' l
  refine List.Pairwise.imp ?_ hs
  intro a b hab x y hx hy
  have h1 : a.timestamp.getD 0 ≤ b.timestamp.getD 0 := hab
  rw [hx, hy] at h1
  exact h1

/-- The messages `parseChat` returns are a permutation of the array built from
the lines, and they are in non-decreasing timestamp order when every
timestamp is a number. -/
theorem parseChat_sorted_of_valid (host : Host) (lastIndex : Nat) (fileContent : Str) :
    (parseChat host lastIndex fileContent).messages.Perm
      (parseLines host lastIndex fileContent).flush ∧
    ((∀ m ∈ (parseLines host lastIndex fileContent).flush, ∃ t, m.timestamp = some t) →
      (parseChat host lastIndex fileContent).messages.Pairwise (fun a b =>
        ∀ x y, a.timestamp = some x → b.timestamp = some y → x ≤ y)) :=
  ⟨sortByTimestamp_perm _, fun h => sortByTimestamp_sorted _ h⟩

/-- C26 (the code at the failing input). The text has three header lines of
A, dated `1/1/2024, 10:05`, `99/99/2024, 10:00` and `1/1/2024, 10:03`.  The
second date is unparsable and its message keeps the timestamp `NaN`; every
comparison with it yields `NaN`, which asks for no swap, and the two valid
messages are never put in order: the returned sequence is 10:05, `NaN`, 10:03,
not in non-decreasing timestamp order.  It is a permutation of the array built
from the lines.  With the second line dated `1/1/2024, 10:00` the returned
sequence is in order, 10:00, 10:03, 10:05. -/
theorem parseChat_unsorted_around_invalid_date :
    (parseChat refHost 0
        "1/1/2024, 10:05 - A: x\n99/99/2024, 10:00 - A: y\n1/1/2024, 10:03 - A: z".toList
      ).messages.map (fun m => (m.timestamp, m.content)) =
      [(some 1704103500000, "x".toList), (none, "y".toList),
       (some 1704103380000, "z".toList)] ∧
    (1704103380000 : Int) < 1704103500000 ∧
    (parseChat refHost 0
        "1/1/2024, 10:05 - A: x\n99/99/2024, 10:00 - A: y\n1/1/2024, 10:03 - A: z".toList
      ).messages.Perm
      (parseLines refHost 0
        "1/1/2024, 10:05 - A: x\n99/99/2024, 10:00 - A: y\n1/1/2024, 10:03 - A: z".toList
      ).flush ∧
    (parseChat refHost 0
        "1/1/2024, 10:05 - A: x\n1/1/2024, 10:00 - A: y\n1/1/2024, 10:03 - A: z".toList
      ).messages.map (fun m => (m.timestamp, m.content)) =
      [(some 1704103200000, "y".toList), (some 1704103380000, "z".toList),
       (some 1704103500000, "x".toList)] := by
  refine ⟨by decide, by decide, sortByTimestamp_perm _, by decide⟩

/-! ## Blocks of lines -/

theorem parseLine_header (host : Host) (st : ParserState) (line : Str) (h : HeaderMatch)
    (hm : matchHeader (cleanLine line) = some h)
    (hsys : isSystemSender (trim h.senderRaw) = false) :
    parseLine host st line =
      { messages := st.messages ++
          (match st.currentMsg with
            | some m => List.replicate (st.pushed + 1) m
            | none => [])
        currentMsg := some (newMessage host st.lastIndex h.dateStr h.timeStr
          (trim h.senderRaw) (trim h.contentRaw))
        pushed := 0
        participants := setAdd st.participants (trim h.senderRaw)
        lastIndex := 0 } := by
  unfold cleanLine at hm
  have hne : ¬ (trim (removeMarks line)).isEmpty = true := by
    intro hempty
    have hnil : trim (removeMarks line) = [] := List.isEmpty_iff.mp hempty
    rw [hnil] at hm
    have h0 : matchHeader [] = none := by decide
    rw [h0] at hm
    cases hm
  unfold parseLine
  simp only [if_neg hne, hm, hsys, Bool.false_eq_true, if_false]
  cases hcur : st.currentMsg with
  | none => simp [ParserState.aliases, hcur]
  | some m => simp [ParserState.aliases, hcur]

theorem parseLine_continuation (host : Host) (st : ParserState) (line : Str) (m : Msg)
    (hm : matchHeader (cleanLine line) = none) (hne : cleanLine line ≠ [])
    (hcur : st.currentMsg = some m) :
    parseLine host st line =
      { st with
        currentMsg := some (appendLine m (cleanLine line) (extractWords host 0 (cleanLine line)).1)
        lastIndex := (extractWords host 0 (cleanLine line)).2 } := by
  unfold cleanLine at hm hne
  have hne' : ¬ (trim (removeMarks line)).isEmpty = true := by
    intro hempty
    exact hne (List.isEmpty_iff.mp hempty)
  unfold parseLine
  simp only [if_neg hne', hm, hcur]
  rfl

theorem foldl_parseLine_continuation (host : Host) (ls : List Str)
    (hls : ∀ l ∈ ls, matchHeader (cleanLine l) = none ∧ cleanLine l ≠ []) :
    ∀ (st : ParserState) (m : Msg), st.currentMsg = some m →
    (ls.foldl (parseLine host) st).currentMsg =
        some ((ls.map cleanLine).foldl
          (fun m cl => appendLine m cl (extractWords host 0 cl).1) m) ∧
      (ls.foldl (parseLine host) st).messages = st.messages ∧
      (ls.foldl (parseLine host) st).pushed = st.pushed := by
  induction ls with
  | nil => intro st m hcur; exact ⟨hcur, rfl, rfl⟩
  | cons l ls ih =>
    intro st m hcur
    obtain ⟨h1, h2⟩ := hls l (List.mem_cons_self _ _)
    simp only [List.foldl_cons, List.map_cons]
    rw [parseLine_continuation host st l m h1 h2 hcur]
    exact ih (fun x hx => hls x (List.mem_cons_of_mem _ hx)) _ _ rfl

theorem blockMessage_fields (host : Host) (lastIndex : Nat) (h : HeaderMatch) (cls : List Str) :
    (blockMessage host lastIndex h cls).sender = trim h.senderRaw ∧
    (blockMessage host lastIndex h cls).timestamp = parseDate host h.dateStr h.timeStr ∧
    (blockMessage host lastIndex h cls).content = joinLines (trim h.contentRaw) cls ∧
    (blockMessage host lastIndex h cls).emojis =
      matchEmojis (trim h.contentRaw) ++ (cls.map matchEmojis).flatten ∧
    (blockMessage host lastIndex h cls).words =
      (extractWords host lastIndex (trim h.contentRaw)).1 ++
        (cls.map (fun cl => (extractWords host 0 cl).1)).flatten ∧
    (blockMessage host lastIndex h cls).linkCount =
      countLinks (trim h.contentRaw) + (cls.map countLinks).sum := by
  unfold blockMessage joinLines
  suffices hgen : ∀ (cls : List Str) (m : Msg),
      (cls.foldl (fun m cl => appendLine m cl (extractWords host 0 cl).1) m).sender = m.sender ∧
      (cls.foldl (fun m cl => appendLine m cl (extractWords host 0 cl).1) m).timestamp =
        m.timestamp ∧
      (cls.foldl (fun m cl => appendLine m cl (extractWords host 0 cl).1) m).content =
        cls.foldl (fun acc l => acc ++ '\n' :: l) m.content ∧
      (cls.foldl (fun m cl => appendLine m cl (extractWords host 0 cl).1) m).emojis =
        m.emojis ++ (cls.map matchEmojis).flatten ∧
      (cls.foldl (fun m cl => appendLine m cl (extractWords host 0 cl).1) m).words =
        m.words ++ (cls.map (fun cl => (extractWords host 0 cl).1)).flatten ∧
      (cls.foldl (fun m cl => appendLine m cl (extractWords host 0 cl).1) m).linkCount =
        m.linkCount + (cls.map countLinks).sum from by
    have h1 := hgen cls (newMessage host lastIndex h.dateStr h.timeStr (trim h.senderRaw)
      (trim h.contentRaw))
    simpa [newMessage] using h1
  intro cls
  induction cls with
  | nil => intro m; simp
  | cons cl cls ih =>
    intro m
    obtain ⟨h1, h2, h3, h4, h5, h6⟩ := ih (appendLine m cl (extractWords host 0 cl).1)
    simp only [List.foldl_cons, List.map_cons, List.flatten_cons, List.sum_cons]
    refine ⟨h1, h2, h3, ?_, ?_, ?_⟩
    · rw [h4]; simp [appendLine]
    · rw [h5]; simp [appendLine]
    · rw [h6]; simp only [appendLine]; omega

theorem parseLine_messages_mem (host : Host) (st : ParserState) (line : Str) (m : Msg)
    (h : m ∈ st.messages) : m ∈ (parseLine host st line).messages := by
  unfold parseLine
  simp only
  split
  · exact h
  · split
    · split
      · split <;> exact h
      · exact List.mem_append_left _ (by split <;> exact h)
    · split <;> exact h

theorem foldl_parseLine_messages_mem (host : Host) (lines : List Str) (m : Msg) :
    ∀ st : ParserState, m ∈ st.messages → m ∈ (lines.foldl (parseLine host) st).messages := by
  induction lines with
  | nil => intro st h; exact h
  | cons l ls ih =>
    intro st h
    simp only [List.foldl_cons]
    exact ih _ (parseLine_messages_mem host st l m h)

theorem mem_flush_of_mem_messages (st : ParserState) (m : Msg) (h : m ∈ st.messages) :
    m ∈ st.flush := by
  unfold ParserState.flush
  cases st.currentMsg with
  | none => exact h
  | some m0 => exact List.mem_append_left _ h

/-- Multi-line reconstruction when the block is followed by the end of the text or by
a non-system header line.  Let the lines of the text be `pre`, then a
non-system header line `H` with match `h`, then continuation lines `ls`
(non-blank, no headers), then `rest`, which is empty or begins with a
non-system header line.  Then a returned message has the sender of `H`, the
content made of the first-line body and the cleaned lines joined by line
breaks, the emoji of the lines in order, the words of the lines in order (the
first line read at the `lastIndex` the lines before it have left, each
continuation line at 0) and the sum of the URL counts. -/
theorem block_message_returned (host : Host) (lastIndex : Nat) (fileContent : Str)
    (pre ls rest : List Str) (H : Str) (h : HeaderMatch)
    (hsplit : splitLines fileContent = pre ++ H :: ls ++ rest)
    (hm : matchHeader (cleanLine H) = some h)
    (hsys : isSystemSender (trim h.senderRaw) = false)
    (hls : ∀ l ∈ ls, matchHeader (cleanLine l) = none ∧ cleanLine l ≠ [])
    (hrest : rest = [] ∨ ∃ H2 rest2, rest = H2 :: rest2 ∧ headerKind H2 = some false) :
    ∃ m ∈ (parseChat host lastIndex fileContent).messages,
      m = blockMessage host (pre.foldl (parseLine host) (ParserState.init lastIndex)).lastIndex h
        (ls.map cleanLine) ∧
      m.sender = trim h.senderRaw ∧
      m.content = joinLines (trim h.contentRaw) (ls.map cleanLine) ∧
      m.emojis = matchEmojis (trim h.contentRaw) ++ ((ls.map cleanLine).map matchEmojis).flatten ∧
      m.words =
        (extractWords host (pre.foldl (parseLine host) (ParserState.init lastIndex)).lastIndex
          (trim h.contentRaw)).1 ++
          ((ls.map cleanLine).map (fun cl => (extractWords host 0 cl).1)).flatten ∧
      m.linkCount =
        countLinks (trim h.contentRaw) + ((ls.map cleanLine).map countLinks).sum := by
  obtain ⟨f1, -, f3, f4, f5, f6⟩ := blockMessage_fields host
    (pre.foldl (parseLine host) (ParserState.init lastIndex)).lastIndex h (ls.map cleanLine)
  refine ⟨_, ?_, rfl, f1, f3, f4, f5, f6⟩
  simp only [parseChat, parseLines, mem_sortByTimestamp, hsplit, List.foldl_append,
    List.foldl_cons]
  have hS2 := parseLine_header host (pre.foldl (parseLine host) (ParserState.init lastIndex))
    H h hm hsys
  obtain ⟨hc, -, hp⟩ := foldl_parseLine_continuation host ls hls
    (parseLine host (pre.foldl (parseLine host) (ParserState.init lastIndex)) H)
    (newMessage host (pre.foldl (parseLine host) (ParserState.init lastIndex)).lastIndex
      h.dateStr h.timeStr (trim h.senderRaw) (trim h.contentRaw))
    (by rw [hS2])
  have hp0 : (ls.foldl (parseLine host)
      (parseLine host (pre.foldl (parseLine host) (ParserState.init lastIndex)) H)).pushed = 0 := by
    rw [hp, hS2]
  rcases hrest with rfl | ⟨H2, rest2, rfl, hk⟩
  · simp only [List.foldl_nil]
    unfold ParserState.flush
    rw [hc]
    exact List.mem_append_right _ (by
      simp only [List.mem_replicate]
      exact ⟨by omega, rfl⟩)
  · simp only [List.foldl_cons]
    apply mem_flush_of_mem_messages
    apply foldl_parseLine_messages_mem
    unfold headerKind at hk
    cases hm2 : matchHeader (trim (removeMarks H2)) with
    | none => rw [hm2] at hk; cases hk
    | some h2 =>
      rw [hm2] at hk
      simp only [Option.map_some', Option.some.injEq] at hk
      rw [parseLine_header host _ H2 h2 hm2 hk, hc, hp0]
      exact List.mem_append_right _ (by
        simp only [List.mem_replicate]
        exact ⟨by omega, rfl⟩)

/-- C27 (the code at the failing inputs). First text: the header line of A
with the body `hi` is followed by one continuation line, `there`, then by a
system header line and one more line, `later`.  The system header does not
close the message: the returned message of A has the content `hi`, `there`,
`later` joined by line breaks, not `hi` and `there`, and it is returned twice.
Second text: the message of A ends with the continuation line `ok 😀`, which
leaves `lastIndex` at 2, and the header line of B has the body `😀x y`: the
words of B begin with the token `😀x`, which the word extraction of that line
alone drops. -/
theorem block_extended_after_system_header :
    (parseChat refHost 0
        "1/1/2024, 10:00 - A: hi\nthere\n1/1/2024, 10:02 - Alice left: gone\nlater".toList
      ).messages.map (fun m => (m.sender, m.content, m.words)) =
      [("A".toList, "hi\nthere\nlater".toList, ["hi".toList, "there".toList, "later".toList]),
       ("A".toList, "hi\nthere\nlater".toList, ["hi".toList, "there".toList, "later".toList])] ∧
    joinLines "hi".toList ["there".toList] = "hi\nthere".toList ∧
    headerKind "1/1/2024, 10:02 - Alice left: gone".toList = some true ∧
    (parseChat refHost 0
        "1/1/2024, 10:00 - A: hi\nok 😀\n1/1/2024, 10:01 - B: 😀x y\nz".toList
      ).messages.map (fun m => (m.sender, m.content, m.words)) =
      [("A".toList, "hi\nok 😀".toList, ["hi".toList, "ok".toList]),
       ("B".toList, "😀x y\nz".toList, ["😀x".toList, "y".toList, "z".toList])] ∧
    (extractWords refHost 0 "😀x y".toList).1 = ["y".toList] := by
  refine ⟨?_, ?_, ?_, ?_, ?_⟩ <;> decide

/-! ## The emoji table -/

theorem Props.sum_set {α : Type} (f : α → Nat) (o : Props α) (k : Str) (v : α) :
    ((o.set k v).map (fun kv => f kv.2)).sum + ((o.get k).map f).getD 0 =
      (o.map (fun kv => f kv.2)).sum + f v := by
  induction o with
  | nil => simp [Props.set, Props.get]
  | cons kv rest ih =>
    obtain ⟨k1, v1⟩ := kv
    by_cases hk : k1 = k
    · simp only [Props.set, Props.get, if_pos hk, List.map_cons, List.sum_cons, Option.map_some',
        Option.getD_some]
      omega
    · simp only [Props.set, Props.get, if_neg hk, List.map_cons, List.sum_cons]
      omega

theorem bumpEntry_totals (map map1 : Props FreqEntry) (key sender : Str)
    (h : bumpEntry map key sender = some map1) :
    (∀ e, totalOf map1 e = totalOf map e + (if e = key then 1 else 0)) ∧
    totalSum map1 = totalSum map + 1 := by
  unfold bumpEntry at h
  cases hg : map.get key with
  | none =>
    rw [hg] at h
    simp only at h
    split at h
    · cases h
    · simp only [Option.some.injEq] at h
      subst h
      constructor
      · intro e
        unfold totalOf
        by_cases he : e = key
        · subst he
          simp [Props.get_set_eq, hg]
        · simp [Props.get_set_ne _ _ _ _ he, he]
      · have hs := Props.sum_set (fun x : FreqEntry => x.total) map key
          { total := 1, breakdown := bumpTally [] sender }
        rw [hg] at hs
        simpa [totalSum] using hs
  | some x =>
    rw [hg] at h
    simp only [Option.some.injEq] at h
    subst h
    constructor
    · intro e
      unfold totalOf
      by_cases he : e = key
      · subst he
        simp [Props.get_set_eq, hg]
      · simp [Props.get_set_ne _ _ _ _ he, he]
    · have hs := Props.sum_set (fun x : FreqEntry => x.total) map key
        { total := x.total + 1, breakdown := bumpTally x.breakdown sender }
      rw [hg] at hs
      simp only [Option.map_some', Option.getD_some] at hs
      simp only [totalSum]
      omega

theorem countEmojis_totals (sender : Str) (es : List Str) : ∀ (map map1 : Props FreqEntry),
    countEmojis sender map es = some map1 →
    (∀ e, totalOf map1 e = totalOf map e + es.count e) ∧
    totalSum map1 = totalSum map + es.length := by
  induction es with
  | nil =>
    intro map map1 h
    simp only [countEmojis, Option.some.injEq] at h
    subst h
    simp
  | cons x es ih =>
    intro map map1 h
    simp only [countEmojis] at h
    cases hb : bumpEntry map x sender with
    | none => rw [hb] at h; cases h
    | some map2 =>
      rw [hb] at h
      obtain ⟨h1, h2⟩ := bumpEntry_totals map map2 x sender hb
      obtain ⟨h3, h4⟩ := ih map2 map1 h
      constructor
      · intro e
        rw [h3, h1, List.count_cons]
        by_cases he : e = x
        · subst he; simp; omega
        · have he' : ¬ x = e := fun c => he c.symm
          simp [he, he']
      · rw [h4, h2, List.length_cons]
        omega

theorem countWords_emojis (targetWordLength : Nat) (msg : Msg) (ws : List Str) :
    ∀ (st st1 : ParticipantStat × Props FreqEntry),
      countWords targetWordLength msg st ws = some st1 → st1.1.emojis = st.1.emojis := by
  induction ws with
  | nil =>
    intro st st1 h
    simp only [countWords, Option.some.injEq] at h
    rw [h]
  | cons w ws ih =>
    intro st st1 h
    simp only [countWords] at h
    cases hw : countWord targetWordLength msg st w with
    | none => rw [hw] at h; cases h
    | some st2 =>
      rw [hw] at h
      have h2 := ih st2 st1 h
      rw [h2]
      unfold countWord at hw
      split at hw
      · cases hb : bumpEntry st.2 w msg.sender with
        | none => rw [hb] at hw; cases hw
        | some wm =>
          rw [hb] at hw
          simp only [Option.some.injEq] at hw
          rw [← hw]
      · simp only [Option.some.injEq] at hw
        rw [hw]

theorem processMessage_emojis (fns : DateFns) (targetWordLength : Nat) (acc acc1 : Acc) (msg : Msg)
    (h : processMessage fns targetWordLength acc msg = some acc1)
    (hrec : (acc.participantStats.get msg.sender).isSome) :
    (∀ e, totalOf acc1.emojiMap e = totalOf acc.emojiMap e + msg.emojis.count e) ∧
    totalSum acc1.emojiMap = totalSum acc.emojiMap + msg.emojis.length ∧
    (msg.sender ≠ protoKey →
      (acc1.participantStats.props.map (fun kv => kv.2.emojis)).sum =
        (acc.participantStats.props.map (fun kv => kv.2.emojis)).sum + msg.emojis.length) := by
  rcases processMessage_some fns targetWordLength acc acc1 msg h with
    ⟨hnone, -⟩ | ⟨p0, t, p3, wordMap, emojiMap, hget, -, hwords, hemojis, hcases⟩
  · rw [hnone] at hrec
    cases hrec
  · obtain ⟨he1, he2⟩ := countEmojis_totals _ _ _ _ hemojis
    have hp3 : p3.emojis = p0.emojis + msg.emojis.length := by
      have h1 := countWords_emojis _ _ _ _ _ hwords
      simp only [sleepCounts, basicCounts] at h1
      exact h1
    have hset : ∀ p4 : ParticipantStat, p4.emojis = p3.emojis → msg.sender ≠ protoKey →
        ((acc.participantStats.set msg.sender p4).props.map (fun kv => kv.2.emojis)).sum =
          (acc.participantStats.props.map (fun kv => kv.2.emojis)).sum + msg.emojis.length := by
      intro p4 hp4 hne
      have hget' : acc.participantStats.props.get msg.sender = some p0 := by
        unfold JSObj.get at hget
        rw [if_neg hne] at hget
        exact hget
      have hs := Props.sum_set (fun p : ParticipantStat => p.emojis) acc.participantStats.props
        msg.sender p4
      rw [hget'] at hs
      simp only [Option.map_some', Option.getD_some] at hs
      unfold JSObj.set
      rw [if_neg hne]
      simp only
      omega
    rcases hcases with ⟨-, rfl⟩ | ⟨lastMsg, starters, replyTimes, p4, -, hflow, rfl⟩
    · exact ⟨he1, he2, hset p3 rfl⟩
    · have hp4 : p4.emojis = p3.emojis := by
        rcases flowStep_some _ _ _ _ _ _ _ _ hflow with
          ⟨-, -, -, rfl⟩ | ⟨-, -, -, rfl, -⟩ | ⟨-, -, -, -, -, rfl⟩ | ⟨-, -, -, -, -, rfl⟩ <;> rfl
      exact ⟨he1, he2, hset p4 hp4⟩

theorem mainLoop_emojis (fns : DateFns) (targetWordLength : Nat) (msgs : List Msg) :
    ∀ (acc acc1 : Acc), mainLoop fns targetWordLength acc msgs = some acc1 →
    (∀ m ∈ msgs, (acc.participantStats.get m.sender).isSome) →
    (∀ e, totalOf acc1.emojiMap e = totalOf acc.emojiMap e + emojiOccurrences e msgs) ∧
    totalSum acc1.emojiMap = totalSum acc.emojiMap + (msgs.map (fun m => m.emojis.length)).sum ∧
    ((∀ m ∈ msgs, m.sender ≠ protoKey) →
      (acc1.participantStats.props.map (fun kv => kv.2.emojis)).sum =
        (acc.participantStats.props.map (fun kv => kv.2.emojis)).sum +
          (msgs.map (fun m => m.emojis.length)).sum) := by
  induction msgs with
  | nil =>
    intro acc acc1 h _
    simp only [mainLoop, Option.some.injEq] at h
    subst h
    simp [emojiOccurrences]
  | cons msg rest ih =>
    intro acc acc1 h hrec
    simp only [mainLoop] at h
    cases hstep : processMessage fns targetWordLength acc msg with
    | none => rw [hstep] at h; cases h
    | some acc2 =>
      rw [hstep] at h
      obtain ⟨h1, h2, h3⟩ := processMessage_emojis fns targetWordLength acc acc2 msg hstep
        (hrec msg (List.mem_cons_self _ _))
      obtain ⟨h4, h5, h6⟩ := ih acc2 acc1 h (fun m hm =>
        (processMessage_tables fns targetWordLength acc acc2 msg hstep m.sender).1
          (hrec m (List.mem_cons_of_mem _ hm)))
      refine ⟨?_, ?_, ?_⟩
      · intro e
        rw [h4, h1]
        simp only [emojiOccurrences, List.map_cons, List.sum_cons]
        omega
      · rw [h5, h2]
        simp only [List.map_cons, List.sum_cons]
        omega
      · intro hne
        rw [h6 (fun m hm => hne m (List.mem_cons_of_mem _ hm)),
          h3 (hne msg (List.mem_cons_self _ _))]
        simp only [List.map_cons, List.sum_cons]
        omega

/-- Emoji counting for the tables at the end of the pass.  Whenever
`useAdvancedStats` yields a result object, the total of every glyph in the
emoji table is the number of its occurrences in the emoji sequences of the
filtered messages, whatever the vocabulary mode and the media flags; the sum
of the totals is the number of emoji of the filtered messages; and when
`__proto__` is not selected that sum is the sum of the `emojis` counters of
the records in `participantStats`. -/
theorem emoji_totals_count_occurrences (fns : DateFns) (rawMessages : Option (List Msg))
    (timeFilter : Str) (selectedParticipants : List Str) (targetWordLength : Nat)
    (r : StatsResult)
    (h : useAdvancedStats fns rawMessages timeFilter selectedParticipants targetWordLength =
      .result r) :
    ∃ acc, mainLoop fns targetWordLength (Acc.init selectedParticipants)
        (filteredMessages fns rawMessages timeFilter selectedParticipants) = some acc ∧
      r.topEmojis = topList acc.emojiMap ∧
      (∀ e, totalOf acc.emojiMap e =
        emojiOccurrences e (filteredMessages fns rawMessages timeFilter selectedParticipants)) ∧
      totalSum acc.emojiMap =
        ((filteredMessages fns rawMessages timeFilter selectedParticipants).map
          (fun m => m.emojis.length)).sum ∧
      (protoKey ∉ selectedParticipants →
        (r.participantStats.map (fun p => p.emojis)).sum = totalSum acc.emojiMap) := by
  unfold useAdvancedStats computeStats at h
  split at h
  · cases h
  · split at h
    · cases h
    · next acc hloop =>
      simp only [Stats.result.injEq] at h
      subst h
      have hrec : ∀ m ∈ filteredMessages fns rawMessages timeFilter selectedParticipants,
          ((Acc.init selectedParticipants).participantStats.get m.sender).isSome := by
        intro m hm
        exact (init_tables selectedParticipants m.sender
          (mem_filteredMessages _ _ _ _ _ hm).1).1
      obtain ⟨h1, h2, h3⟩ := mainLoop_emojis fns targetWordLength _ _ acc hloop hrec
      have hz : ∀ e, totalOf (Acc.init selectedParticipants).emojiMap e = 0 := by
        intro e; rfl
      have hz2 : totalSum (Acc.init selectedParticipants).emojiMap = 0 := rfl
      refine ⟨acc, hloop, rfl, ?_, ?_, ?_⟩
      · intro e
        rw [h1, hz, Nat.zero_add]
      · rw [h2, hz2, Nat.zero_add]
      · intro hproto
        have hne : ∀ m ∈ filteredMessages fns rawMessages timeFilter selectedParticipants,
            m.sender ≠ protoKey := by
          intro m hm e
          exact hproto (e ▸ (mem_filteredMessages _ _ _ _ _ hm).1)
        have h4 := h3 hne
        have hinit : ((Acc.init selectedParticipants).participantStats.props.map
            (fun kv => kv.2.emojis)).sum = 0 := by
          apply List.sum_eq_zero
          intro x hx
          obtain ⟨kv, hkv, rfl⟩ := List.mem_map.mp hx
          rw [(init_values selectedParticipants).2.2 kv hkv]
          rfl
        rw [hinit, Nat.zero_add] at h4
        rw [h2, hz2, Nat.zero_add, ← h4]
        show ((acc.participantStats.props.entries.map (fun kv => kv.2)).map
          (fun p => p.emojis)).sum = _
        rw [List.map_map]
        exact ((Props.entries_perm acc.participantStats.props).map _).sum_eq

/-- C28 (the code at the failing input). The selected senders are `__proto__`
and `B`; the sender `__proto__` writes one message with one emoji and B one
message without emoji.  The emoji table counts the glyph once, but the record
of `__proto__` is the prototype of `participantStats`, not one of its values:
the result lists the record of B alone, whose `emojis` counter is 0, so the
sum of the emoji totals is 1 and the sum of the participants' counters is 0.
With the senders A and B, one of them sending a media placeholder, under the
exact length 7, the totals are 3 and 1 and the counters 3 and 1. -/
theorem emoji_total_without_counter_for_proto_sender :
    (useAdvancedStats refDateFns
        (some [mkMsg "__proto__".toList 0 [] ["😀".toList], mkMsg "B".toList 1 [] []])
        "all".toList ["__proto__".toList, "B".toList] 0).toOption.map
      (fun r => (r.topEmojis.map (fun i => (i.key, i.total)),
        r.participantStats.map (fun p => (p.name, p.emojis)))) =
      some ([("😀".toList, 1)], [("B".toList, 0)]) ∧
    (useAdvancedStats refDateFns
        (some [mkMsg "A".toList 0 [] ["😀".toList, "🎉".toList, "😀".toList],
          { mkMsg "B".toList 1 [] ["😀".toList] with isMedia := true }])
        "all".toList ["A".toList, "B".toList] 7).toOption.map
      (fun r => (r.topEmojis.map (fun i => (i.key, i.total)),
        r.participantStats.map (fun p => (p.name, p.emojis)))) =
      some ([("😀".toList, 3), ("🎉".toList, 1)], [("A".toList, 3), ("B".toList, 1)]) := by
  refine ⟨?_, ?_⟩ <;> decide

/-! ## The word filter and the emoji pattern -/

theorem utf16Width_pos (c : Char) : 0 < utf16Width c := by
  unfold utf16Width
  split <;> omega

theorem jsLength_pos_iff (w : Str) : jsLength w > 0 ↔ w ≠ [] := by
  cases w with
  | nil => simp [jsLength]
  | cons c cs =>
    have := utf16Width_pos c
    simp [jsLength]
    omega

theorem emojiSearch_no_emoji (lastIndex : Nat) : ∀ (off : Nat) (w : Str),
    hasEmoji w = false → emojiSearch lastIndex off w = none := by
  intro off w
  induction w generalizing off with
  | nil => intro _; rfl
  | cons c cs ih =>
    intro h
    simp only [hasEmoji, List.any_cons, Bool.or_eq_false_iff] at h
    simp only [emojiSearch, h.1, Bool.and_false, Bool.false_eq_true, if_false]
    exact ih _ h.2

theorem emojiSearch_zero : ∀ (off : Nat) (w : Str),
    hasEmoji w = true → ∃ e, emojiSearch 0 off w = some e := by
  intro off w
  induction w generalizing off with
  | nil => intro h; simp [hasEmoji] at h
  | cons c cs ih =>
    intro h
    simp only [emojiSearch]
    by_cases hc : isEmoji c = true
    · have hpos := utf16Width_pos c
      have hlt : decide (0 < off + utf16Width c) = true := by
        simp only [decide_eq_true_eq]
        omega
      simp only [hlt, hc, Bool.and_self, if_true]
      exact ⟨_, rfl⟩
    · have hc' : isEmoji c = false := by simpa using hc
      simp only [hc', Bool.and_false, Bool.false_eq_true, if_false]
      apply ih
      simp only [hasEmoji, List.any_cons, hc', Bool.false_or] at h
      exact h

theorem emojiTest_no_emoji (lastIndex : Nat) (w : Str) (h : hasEmoji w = false) :
    emojiTest lastIndex w = (false, 0) := by
  unfold emojiTest
  rw [emojiSearch_no_emoji lastIndex 0 w h]

theorem emojiTest_zero (w : Str) (h : hasEmoji w = true) : (emojiTest 0 w).1 = true := by
  unfold emojiTest
  obtain ⟨e, he⟩ := emojiSearch_zero 0 w h
  rw [he]

theorem filterWords_sublist : ∀ (ws : List Str) (lastIndex : Nat),
    (filterWords lastIndex ws).1.Sublist ws := by
  intro ws
  induction ws with
  | nil => intro _; exact List.Sublist.refl _
  | cons w ws ih =>
    intro lastIndex
    simp only [filterWords]
    split
    · split
      · exact (ih _).cons _
      · exact (ih _).cons₂ _
    · exact (ih _).cons _

theorem filterWords_keeps : ∀ (ws : List Str) (lastIndex : Nat) (w : Str),
    w ∈ ws → w ≠ [] → hasEmoji w = false → w ∈ (filterWords lastIndex ws).1 := by
  intro ws
  induction ws with
  | nil => intro _ w h; cases h
  | cons x xs ih =>
    intro lastIndex w hw hne hno
    simp only [filterWords]
    rcases List.mem_cons.mp hw with rfl | hw
    · rw [if_pos ((jsLength_pos_iff w).mpr hne), emojiTest_no_emoji lastIndex w hno]
      simp
    · split
      · split
        · exact ih _ w hw hne hno
        · exact List.mem_cons_of_mem _ (ih _ w hw hne hno)
      · exact ih _ w hw hne hno

theorem filterWords_drops_first (w : Str) (ws : List Str) (hne : w ≠ [])
    (h : hasEmoji w = true) :
    filterWords 0 (w :: ws) = filterWords (emojiTest 0 w).2 ws := by
  simp only [filterWords]
  rw [if_pos ((jsLength_pos_iff w).mpr hne), if_pos (emojiTest_zero w h)]

/-- C31 (counterexample). The body `lol😂` has the single token `lol😂`,
which holds characters outside the emoji pattern; `EMOJI_REGEX.test` finds
the emoji in it and the token is discarded: the message has no word.  In the
body `Hi😀 ok` the token `hi😀` is discarded and `ok` is kept. -/
theorem token_with_letters_and_emoji_discarded :
    (parseChat refHost 0 "1/1/2024, 10:00 - A: lol😂".toList).messages.map
      (fun m => (m.content, m.words, m.wordCount)) = [("lol😂".toList, [], 0)] ∧
    lineTokens refHost "lol😂".toList = ["lol😂".toList] ∧
    (parseChat refHost 0 "1/1/2024, 10:00 - A: Hi😀 ok".toList).messages.map
      (fun m => (m.content, m.words, m.wordCount)) = [("Hi😀 ok".toList, ["ok".toList], 1)] := by
  refine ⟨?_, ?_, ?_⟩ <;> decide

/-- C31, as amended. The words of a line are a subsequence of its tokens
(lower-case, URLs and punctuation removed, split on white space).  Every
non-empty token without a code point of the emoji pattern is kept, whatever
the state of the pattern.  A token that holds such a code point is discarded
when the test starts at index 0, also when it holds other characters: for a
line read at `lastIndex` 0 whose first token is non-empty and holds an emoji,
the words are those of the remaining tokens. -/
theorem words_keep_tokens_without_emoji (host : Host) (lastIndex : Nat) (line : Str) :
    (extractWords host lastIndex line).1.Sublist (lineTokens host line) ∧
    (∀ w ∈ lineTokens host line, w ≠ [] → hasEmoji w = false →
      w ∈ (extractWords host lastIndex line).1) ∧
    (∀ w ws, lineTokens host line = w :: ws → w ≠ [] → hasEmoji w = true →
      (extractWords host 0 line).1 = (filterWords (emojiTest 0 w).2 ws).1) ∧
    (∀ w, hasEmoji w = true → (emojiTest 0 w).1 = true) ∧
    (∀ li w, hasEmoji w = false → emojiTest li w = (false, 0)) := by
  refine ⟨filterWords_sublist _ _, ?_, ?_, emojiTest_zero, emojiTest_no_emoji⟩
  · intro w hw hne hno
    exact filterWords_keeps _ _ w hw hne hno
  · intro w ws htok hne hem
    unfold extractWords
    unfold lineTokens at htok
    rw [htok, filterWords_drops_first w ws hne hem]

theorem words_keep_tokens_without_emoji_witness :
    "ok".toList ∈ lineTokens refHost "Hi😀 ok".toList ∧
    "ok".toList ∈ (extractWords refHost 0 "Hi😀 ok".toList).1 ∧
    (extractWords refHost 0 "Hi😀 ok".toList).1 =
      (filterWords (emojiTest 0 "hi😀".toList).2 ["ok".toList]).1 :=
  ⟨by decide,
   (words_keep_tokens_without_emoji refHost 0 "Hi😀 ok".toList).2.1 "ok".toList
     (by decide) (by decide) (by decide),
   (words_keep_tokens_without_emoji refHost 0 "Hi😀 ok".toList).2.2.1 "hi😀".toList
     ["ok".toList] (by decide) (by decide) (by decide)⟩

/-! ## The state of the emoji pattern between two calls -/

/-- C37 (the code at the failing input). The text is the header line
`1/1/24, 10:00 - A: 😀x` followed by the continuation line `😀`.  Parsed
when the module has just been loaded it gives one message without words, and
the last `test`, on the token `😀`, leaves `lastIndex` at 2.  Parsed again
in the same process, the first `test`, on the token `😀x`, starts at index 2,
finds nothing and the token is kept: the message has the word `😀x` and
`wordCount` 1.  The other fields agree. -/
theorem second_parse_of_the_same_text_differs :
    (parseChat refHost 0 "1/1/24, 10:00 - A: 😀x\n😀".toList).messages.map
      (fun m => (m.content, m.words, m.wordCount)) = [("😀x\n😀".toList, [], 0)] ∧
    (parseChat refHost 0 "1/1/24, 10:00 - A: 😀x\n😀".toList).lastIndex = 2 ∧
    (parseChat refHost
        (parseChat refHost 0 "1/1/24, 10:00 - A: 😀x\n😀".toList).lastIndex
        "1/1/24, 10:00 - A: 😀x\n😀".toList).messages.map
      (fun m => (m.content, m.words, m.wordCount)) =
      [("😀x\n😀".toList, ["😀x".toList], 1)] ∧
    (parseChat refHost 2 "1/1/24, 10:00 - A: 😀x\n😀".toList).messages.map
      (fun m => (m.sender, m.emojis, m.charCount, m.linkCount)) =
    (parseChat refHost 0 "1/1/24, 10:00 - A: 😀x\n😀".toList).messages.map
      (fun m => (m.sender, m.emojis, m.charCount, m.linkCount)) := by
  refine ⟨?_, ?_, ?_, ?_⟩ <;> decide

/-! ## Messages with an invalid date and the filter -/

theorem filter_valid_filter (start : Int) (selectedParticipants : List Str) (raw : List Msg) :
    (raw.filter (fun m => m.timestamp.isSome)).filter (fun msg =>
        dateGE msg.timestamp start && selectedParticipants.contains msg.sender) =
      raw.filter (fun msg =>
        dateGE msg.timestamp start && selectedParticipants.contains msg.sender) := by
  rw [List.filter_filter]
  apply List.filter_congr
  intro m _
  cases ht : m.timestamp with
  | none => simp [dateGE]
  | some t => simp

/-- C36. A message with an invalid date fails the test `msg.date >= startDate`
for every start boundary, so under every selector, `all` included, each
message of the filtered sequence has a valid date, in both hooks; the
filtered sequence, and with it the result of `useAdvancedStats` and of
`useChatAnalytics`, `totalMessages` included, is the same as for the raw
sequence without the messages of invalid date. -/
theorem invalid_date_excluded_by_filter (fns : DateFns) (getDay : Int → Nat) (raw : List Msg)
    (timeFilter : Str) (selectedParticipants : List Str) (targetWordLength : Nat) :
    (∀ start : Int, dateGE none start = false) ∧
    (filteredMessages fns (some raw) timeFilter selectedParticipants).all
      (fun m => m.timestamp.isSome) = true ∧
    (basicFiltered fns (some raw) timeFilter selectedParticipants).all
      (fun m => m.timestamp.isSome) = true ∧
    filteredMessages fns (some raw) timeFilter selectedParticipants =
      filteredMessages fns (some (raw.filter (fun m => m.timestamp.isSome))) timeFilter
        selectedParticipants ∧
    useAdvancedStats fns (some raw) timeFilter selectedParticipants targetWordLength =
      useAdvancedStats fns (some (raw.filter (fun m => m.timestamp.isSome))) timeFilter
        selectedParticipants targetWordLength ∧
    useChatAnalytics fns getDay (some raw) timeFilter selectedParticipants =
      useChatAnalytics fns getDay (some (raw.filter (fun m => m.timestamp.isSome))) timeFilter
        selectedParticipants := by
  have hf : filteredMessages fns (some raw) timeFilter selectedParticipants =
      filteredMessages fns (some (raw.filter (fun m => m.timestamp.isSome))) timeFilter
        selectedParticipants := by
    simp only [filteredMessages, filter_valid_filter]
  have hb : basicFiltered fns (some raw) timeFilter selectedParticipants =
      basicFiltered fns (some (raw.filter (fun m => m.timestamp.isSome))) timeFilter
        selectedParticipants := by
    simp only [basicFiltered, filter_valid_filter]
  refine ⟨fun _ => rfl, ?_, ?_, hf, ?_, ?_⟩
  · rw [List.all_eq_true]
    intro m hm
    obtain ⟨-, t, ht⟩ := mem_filteredMessages _ _ _ _ _ hm
    rw [ht]
    rfl
  · rw [List.all_eq_true]
    intro m hm
    simp only [basicFiltered, List.mem_filter, Bool.and_eq_true] at hm
    cases ht : m.timestamp with
    | none => rw [ht] at hm; simp [dateGE] at hm
    | some t => rfl
  · simp only [useAdvancedStats, hf]
  · simp only [useChatAnalytics, hb]

/-! ## The record of the sender along the pass -/

theorem countWord_frame (targetWordLength : Nat) (msg : Msg)
    (st st1 : ParticipantStat × Props FreqEntry) (w : Str)
    (h : countWord targetWordLength msg st w = some st1) :
    st1.1.messages = st.1.messages ∧ st1.1.media = st.1.media ∧
    st1.1.nightOwlScore = st.1.nightOwlScore ∧ st1.1.earlyBirdScore = st.1.earlyBirdScore ∧
    st1.1.laughCount = st.1.laughCount +
      (if (isValidLen targetWordLength w && !msg.isMedia) = true ∧ w ∈ laughWords then 1 else 0) ∧
    st1.1.sorryCount = st.1.sorryCount +
      (if (isValidLen targetWordLength w && !msg.isMedia) = true ∧ w ∈ sorryWords then 1 else 0) ∧
    st1.1.pos = st.1.pos +
      (if (isValidLen targetWordLength w && !msg.isMedia) = true ∧ w ∈ posWords then 1 else 0) ∧
    st1.1.neg = st.1.neg +
      (if (isValidLen targetWordLength w && !msg.isMedia) = true ∧ w ∈ negWords then 1 else 0) ∧
    st1.1.words = st.1.words +
      (if (isValidLen targetWordLength w && !msg.isMedia) = true then 1 else 0) := by
  unfold countWord at h
  by_cases hc : (isValidLen targetWordLength w && !msg.isMedia) = true
  · rw [if_pos hc] at h
    cases hb : bumpEntry st.2 w msg.sender with
    | none => rw [hb] at h; cases h
    | some wordMap =>
      rw [hb] at h
      simp only [Option.some.injEq] at h
      subst h
      simp only [hc, true_and, if_true]
  · rw [if_neg hc] at h
    simp only [Option.some.injEq] at h
    subst h
    simp [hc]

theorem countWords_frame (targetWordLength : Nat) (msg : Msg) (ws : List Str) :
    ∀ (st st1 : ParticipantStat × Props FreqEntry),
      countWords targetWordLength msg st ws = some st1 →
      st1.1.messages = st.1.messages ∧ st1.1.media = st.1.media ∧
      st1.1.nightOwlScore = st.1.nightOwlScore ∧ st1.1.earlyBirdScore = st.1.earlyBirdScore := by
  induction ws with
  | nil =>
    intro st st1 h
    simp only [countWords, Option.some.injEq] at h
    subst h
    exact ⟨rfl, rfl, rfl, rfl⟩
  | cons w ws ih =>
    intro st st1 h
    simp only [countWords] at h
    cases hw : countWord targetWordLength msg st w with
    | none => rw [hw] at h; cases h
    | some st2 =>
      rw [hw] at h
      obtain ⟨a1, a2, a3, a4⟩ := ih st2 st1 h
      obtain ⟨b1, b2, b3, b4, -⟩ := countWord_frame _ _ _ _ _ hw
      exact ⟨a1.trans b1, a2.trans b2, a3.trans b3, a4.trans b4⟩

/-- What the pass over one message does to the record of its sender. -/
theorem processMessage_record (fns : DateFns) (targetWordLength : Nat) (acc acc1 : Acc)
    (msg : Msg) (p0 : ParticipantStat) (t : Int)
    (h : processMessage fns targetWordLength acc msg = some acc1)
    (hget : acc.participantStats.get msg.sender = some p0) (ht : msg.timestamp = some t) :
    ∃ (p4 : ParticipantStat) (pw : ParticipantStat × Props FreqEntry),
      acc1.participantStats = acc.participantStats.set msg.sender p4 ∧
      countWords targetWordLength msg
        (sleepCounts (basicCounts p0 msg) (fns.getHours t), acc.wordMap) msg.words = some pw ∧
      p4.name = p0.name ∧
      p4.messages = p0.messages + 1 ∧
      p4.media = p0.media + (if msg.isMedia then 1 else 0) ∧
      p4.nightOwlScore = p0.nightOwlScore + (if fns.getHours t < 5 then 1 else 0) ∧
      p4.earlyBirdScore =
        p0.earlyBirdScore + (if 5 ≤ fns.getHours t ∧ fns.getHours t < 9 then 1 else 0) ∧
      p4.laughCount = pw.1.laughCount ∧ p4.sorryCount = pw.1.sorryCount ∧
      p4.pos = pw.1.pos ∧ p4.neg = pw.1.neg ∧ p4.words = pw.1.words := by
  rcases processMessage_some fns targetWordLength acc acc1 msg h with
    ⟨hnone, -⟩ | ⟨p0', t', p3, wordMap, emojiMap, hget', ht', hwords, -, hcases⟩
  · rw [hnone] at hget; cases hget
  · rw [hget] at hget'
    simp only [Option.some.injEq] at hget'
    subst hget'
    rw [ht] at ht'
    simp only [Option.some.injEq] at ht'
    subst ht'
    obtain ⟨f1, f2, f3, f4⟩ := countWords_frame _ _ _ _ _ hwords
    have hname := countWords_name _ _ _ _ _ hwords
    simp only [sleepCounts, basicCounts] at f1 f2 f3 f4 hname
    rcases hcases with ⟨-, rfl⟩ | ⟨lastMsg, starters, replyTimes, p4, -, hflow, rfl⟩
    · exact ⟨p3, (p3, wordMap), rfl, hwords, hname, f1, f2, f3, f4, rfl, rfl, rfl, rfl, rfl⟩
    · refine ⟨p4, (p3, wordMap), rfl, hwords, ?_⟩
      rcases flowStep_some _ _ _ _ _ _ _ _ hflow with
        ⟨-, -, -, rfl⟩ | ⟨-, -, -, rfl, -⟩ | ⟨-, -, -, -, -, rfl⟩ | ⟨-, -, -, -, -, rfl⟩
      · exact ⟨hname, f1, f2, f3, f4, rfl, rfl, rfl, rfl, rfl⟩
      · exact ⟨hname, f1, f2, f3, f4, rfl, rfl, rfl, rfl, rfl⟩
      · exact ⟨hname, f1, f2, f3, f4, rfl, rfl, rfl, rfl, rfl⟩
      · exact ⟨hname, f1, f2, f3, f4, rfl, rfl, rfl, rfl, rfl⟩

/-- An invariant of the records of `participantStats` that the pass over one
message keeps, given that it keeps it on the record of the sender. -/
theorem mainLoop_records (fns : DateFns) (targetWordLength : Nat) (P : ParticipantStat → Prop)
    (hstep : ∀ (acc : Acc) (msg : Msg) (p0 p4 : ParticipantStat) (t : Int)
      (pw : ParticipantStat × Props FreqEntry), P p0 → msg.timestamp = some t →
      countWords targetWordLength msg
        (sleepCounts (basicCounts p0 msg) (fns.getHours t), acc.wordMap) msg.words = some pw →
      p4.messages = p0.messages + 1 →
      p4.nightOwlScore = p0.nightOwlScore + (if fns.getHours t < 5 then 1 else 0) →
      p4.earlyBirdScore =
        p0.earlyBirdScore + (if 5 ≤ fns.getHours t ∧ fns.getHours t < 9 then 1 else 0) →
      p4.laughCount = pw.1.laughCount → P p4)
    (msgs : List Msg) : ∀ (acc acc1 : Acc),
    mainLoop fns targetWordLength acc msgs = some acc1 →
    (∀ kv ∈ acc.participantStats.props, P kv.2) →
    ∀ kv ∈ acc1.participantStats.props, P kv.2 := by
  induction msgs with
  | nil =>
    intro acc acc1 h hP
    simp only [mainLoop, Option.some.injEq] at h
    subst h
    exact hP
  | cons msg rest ih =>
    intro acc acc1 h hP
    simp only [mainLoop] at h
    cases hs : processMessage fns targetWordLength acc msg with
    | none => rw [hs] at h; cases h
    | some acc2 =>
      rw [hs] at h
      apply ih acc2 acc1 h
      rcases processMessage_some fns targetWordLength acc acc2 msg hs with
        ⟨-, rfl⟩ | ⟨p0, t, p3, wordMap, emojiMap, hget, ht, -, -, -⟩
      · exact hP
      · obtain ⟨p4, pw, hset, hcw, -, hm, -, hn, he, hl, -⟩ :=
          processMessage_record fns targetWordLength acc acc2 msg p0 t hs hget ht
        rw [hset]
        intro kv hkv
        unfold JSObj.set at hkv
        split at hkv
        · exact hP kv hkv
        · next hne =>
          rcases Props.mem_set _ _ _ _ hkv with h1 | h1
          · exact hP kv h1
          · subst h1
            have hget' : acc.participantStats.props.get msg.sender = some p0 := by
              unfold JSObj.get at hget
              rw [if_neg hne] at hget
              exact hget
            exact hstep acc msg p0 p4 t pw (hP _ (Props.mem_of_get _ _ _ hget')) ht hcw
              hm hn he hl

theorem laughWords_length : ∀ w ∈ laughWords, jsLength w ≠ 5 := by decide

theorem isValidLen_pos (n : Nat) (w : Str) (hn : 0 < n) :
    isValidLen n w = true ↔ jsLength w = n := by
  unfold isValidLen
  have : n ≠ 0 := by omega
  simp [this]

theorem countWords_laugh_five (msg : Msg) (ws : List Str) :
    ∀ (st st1 : ParticipantStat × Props FreqEntry),
      countWords 5 msg st ws = some st1 → st1.1.laughCount = st.1.laughCount := by
  induction ws with
  | nil =>
    intro st st1 h
    simp only [countWords, Option.some.injEq] at h
    subst h
    rfl
  | cons w ws ih =>
    intro st st1 h
    simp only [countWords] at h
    cases hw : countWord 5 msg st w with
    | none => rw [hw] at h; cases h
    | some st2 =>
      rw [hw] at h
      rw [ih st2 st1 h]
      obtain ⟨-, -, -, -, hl, -⟩ := countWord_frame _ _ _ _ _ hw
      rw [hl, if_neg, Nat.add_zero]
      rintro ⟨hv, hmem⟩
      simp only [Bool.and_eq_true] at hv
      exact laughWords_length w hmem ((isValidLen_pos 5 w (by decide)).mp hv.1)

theorem hits_cons (valid : Str → Bool) (keywords : List Str) (isMedia : Bool) (w : Str)
    (ws : List Str) :
    (if (valid w && !isMedia) = true ∧ w ∈ keywords then 1 else 0) +
      (if isMedia = false then
        (ws.filter (fun w => valid w && decide (w ∈ keywords))).length else 0) =
    (if isMedia = false then
      ((w :: ws).filter (fun w => valid w && decide (w ∈ keywords))).length else 0) := by
  cases isMedia
  · by_cases hv : valid w = true
    · by_cases hk : w ∈ keywords
      · simp [List.filter_cons, hv, hk]
        omega
      · simp [List.filter_cons, hv, hk]
    · simp [List.filter_cons, hv]
  · simp

theorem countWords_keywords (targetWordLength : Nat) (msg : Msg) (ws : List Str) :
    ∀ (st st1 : ParticipantStat × Props FreqEntry),
      countWords targetWordLength msg st ws = some st1 →
      st1.1.laughCount = st.1.laughCount + (if msg.isMedia = false then
        (ws.filter (fun w => isValidLen targetWordLength w && decide (w ∈ laughWords))).length
        else 0) ∧
      st1.1.sorryCount = st.1.sorryCount + (if msg.isMedia = false then
        (ws.filter (fun w => isValidLen targetWordLength w && decide (w ∈ sorryWords))).length
        else 0) ∧
      st1.1.pos = st.1.pos + (if msg.isMedia = false then
        (ws.filter (fun w => isValidLen targetWordLength w && decide (w ∈ posWords))).length
        else 0) ∧
      st1.1.neg = st.1.neg + (if msg.isMedia = false then
        (ws.filter (fun w => isValidLen targetWordLength w && decide (w ∈ negWords))).length
        else 0) := by
  induction ws with
  | nil =>
    intro st st1 h
    simp only [countWords, Option.some.injEq] at h
    subst h
    simp
  | cons w ws ih =>
    intro st st1 h
    simp only [countWords] at h
    cases hw : countWord targetWordLength msg st w with
    | none => rw [hw] at h; cases h
    | some st2 =>
      rw [hw] at h
      obtain ⟨a1, a2, a3, a4⟩ := ih st2 st1 h
      obtain ⟨-, -, -, -, b1, b2, b3, b4, -⟩ := countWord_frame _ _ _ _ _ hw
      refine ⟨?_, ?_, ?_, ?_⟩
      · rw [a1, b1, ← hits_cons (isValidLen targetWordLength) laughWords msg.isMedia w ws]
        omega
      · rw [a2, b2, ← hits_cons (isValidLen targetWordLength) sorryWords msg.isMedia w ws]
        omega
      · rw [a3, b3, ← hits_cons (isValidLen targetWordLength) posWords msg.isMedia w ws]
        omega
      · rw [a4, b4, ← hits_cons (isValidLen targetWordLength) negWords msg.isMedia w ws]
        omega

theorem keywordHits_cons (valid : Str → Bool) (keywords : List Str) (sender : Str) (m : Msg)
    (msgs : List Msg) :
    keywordHits valid keywords sender (m :: msgs) =
      (if m.sender = sender ∧ m.isMedia = false then
        (m.words.filter (fun w => valid w && decide (w ∈ keywords))).length else 0) +
      keywordHits valid keywords sender msgs := by
  simp [keywordHits]

/-- The keyword counters of the record of `s` after the pass over one message. -/
theorem processMessage_keywords (fns : DateFns) (targetWordLength : Nat) (acc acc1 : Acc)
    (msg : Msg) (h : processMessage fns targetWordLength acc msg = some acc1)
    (hrec : (acc.participantStats.get msg.sender).isSome) (s : Str) (p : ParticipantStat)
    (hs : acc.participantStats.get s = some p) :
    ∃ p1, acc1.participantStats.get s = some p1 ∧
      p1.laughCount = p.laughCount +
        keywordHits (isValidLen targetWordLength) laughWords s [msg] ∧
      p1.sorryCount = p.sorryCount +
        keywordHits (isValidLen targetWordLength) sorryWords s [msg] ∧
      p1.pos = p.pos + keywordHits (isValidLen targetWordLength) posWords s [msg] ∧
      p1.neg = p.neg + keywordHits (isValidLen targetWordLength) negWords s [msg] := by
  rcases processMessage_some fns targetWordLength acc acc1 msg h with
    ⟨hnone, -⟩ | ⟨p0, t, p3, wordMap, emojiMap, hget, ht, -, -, -⟩
  · rw [hnone] at hrec
    cases hrec
  · obtain ⟨p4, pw, hset, hcw, -, -, -, -, -, hl, hso, hpo, hne, -⟩ :=
      processMessage_record fns targetWordLength acc acc1 msg p0 t h hget ht
    obtain ⟨c1, c2, c3, c4⟩ := countWords_keywords _ _ _ _ _ hcw
    simp only [sleepCounts, basicCounts] at c1 c2 c3 c4
    by_cases hsend : s = msg.sender
    · subst hsend
      rw [hget] at hs
      simp only [Option.some.injEq] at hs
      subst hs
      refine ⟨p4, by rw [hset]; exact JSObj.get_after_set_eq _ _ _, ?_, ?_, ?_, ?_⟩
      · rw [hl, c1]; simp [keywordHits]
      · rw [hso, c2]; simp [keywordHits]
      · rw [hpo, c3]; simp [keywordHits]
      · rw [hne, c4]; simp [keywordHits]
    · have hsend' : ¬ msg.sender = s := fun e => hsend e.symm
      refine ⟨p, by rw [hset, JSObj.get_after_set_ne _ _ _ _ hsend]; exact hs, ?_, ?_, ?_, ?_⟩ <;>
        simp [keywordHits, hsend']

theorem mainLoop_keywords (fns : DateFns) (targetWordLength : Nat) (msgs : List Msg) :
    ∀ (acc acc1 : Acc), mainLoop fns targetWordLength acc msgs = some acc1 →
    (∀ m ∈ msgs, (acc.participantStats.get m.sender).isSome) →
    ∀ (s : Str) (p : ParticipantStat), acc.participantStats.get s = some p →
    ∃ p1, acc1.participantStats.get s = some p1 ∧
      p1.laughCount = p.laughCount +
        keywordHits (isValidLen targetWordLength) laughWords s msgs ∧
      p1.sorryCount = p.sorryCount +
        keywordHits (isValidLen targetWordLength) sorryWords s msgs ∧
      p1.pos = p.pos + keywordHits (isValidLen targetWordLength) posWords s msgs ∧
      p1.neg = p.neg + keywordHits (isValidLen targetWordLength) negWords s msgs := by
  induction msgs with
  | nil =>
    intro acc acc1 h _ s p hs
    simp only [mainLoop, Option.some.injEq] at h
    subst h
    exact ⟨p, hs, by simp [keywordHits], by simp [keywordHits], by simp [keywordHits],
      by simp [keywordHits]⟩
  | cons msg rest ih =>
    intro acc acc1 h hrec s p hs
    simp only [mainLoop] at h
    cases hstep : processMessage fns targetWordLength acc msg with
    | none => rw [hstep] at h; cases h
    | some acc2 =>
      rw [hstep] at h
      obtain ⟨p1, hp1, a1, a2, a3, a4⟩ := processMessage_keywords fns targetWordLength acc acc2
        msg hstep (hrec msg (List.mem_cons_self _ _)) s p hs
      obtain ⟨p2, hp2, b1, b2, b3, b4⟩ := ih acc2 acc1 h (fun m hm =>
        (processMessage_tables fns targetWordLength acc acc2 msg hstep m.sender).1
          (hrec m (List.mem_cons_of_mem _ hm))) s p1 hp1
      refine ⟨p2, hp2, ?_, ?_, ?_, ?_⟩
      · rw [b1, a1, keywordHits_cons]; simp [keywordHits]; omega
      · rw [b2, a2, keywordHits_cons]; simp [keywordHits]; omega
      · rw [b3, a3, keywordHits_cons]; simp [keywordHits]; omega
      · rw [b4, a4, keywordHits_cons]; simp [keywordHits]; omega

theorem mainLoop_get_none (fns : DateFns) (targetWordLength : Nat) (msgs : List Msg) :
    ∀ (acc acc1 : Acc), mainLoop fns targetWordLength acc msgs = some acc1 → ∀ s : Str,
    acc.participantStats.get s = none → acc1.participantStats.get s = none := by
  induction msgs with
  | nil =>
    intro acc acc1 h s hs
    simp only [mainLoop, Option.some.injEq] at h
    subst h
    exact hs
  | cons msg rest ih =>
    intro acc acc1 h s hs
    simp only [mainLoop] at h
    cases hstep : processMessage fns targetWordLength acc msg with
    | none => rw [hstep] at h; cases h
    | some acc2 =>
      rw [hstep] at h
      apply ih acc2 acc1 h s
      rcases processMessage_some fns targetWordLength acc acc2 msg hstep with
        ⟨-, rfl⟩ | ⟨p0, t, p3, wordMap, emojiMap, hget, ht, -, -, -⟩
      · exact hs
      · obtain ⟨p4, pw, hset, -⟩ :=
          processMessage_record fns targetWordLength acc acc2 msg p0 t hstep hget ht
        have hne : s ≠ msg.sender := by
          intro e
          rw [e, hget] at hs
          cases hs
        rw [hset, JSObj.get_after_set_ne _ _ _ _ hne]
        exact hs

theorem isValidLen_exact (n : Nat) (hn : 0 < n) :
    isValidLen n = fun w => jsLength w == n := by
  funext w
  unfold isValidLen
  rw [if_pos hn]

theorem get_init_record (selectedParticipants : List Str) (s : Str) (p : ParticipantStat)
    (h : (Acc.init selectedParticipants).participantStats.get s = some p) :
    p.laughCount = 0 ∧ p.sorryCount = 0 ∧ p.pos = 0 ∧ p.neg = 0 ∧ p.messages = 0 ∧
    p.media = 0 ∧ p.nightOwlScore = 0 ∧ p.earlyBirdScore = 0 := by
  suffices hgen : ∀ (ps : List Str) (o : JSObj ParticipantStat),
      (∀ q, o.get s = some q → q = ParticipantStat.init s) →
      ∀ q, (ps.foldl (fun o p => o.set p (ParticipantStat.init p)) o).get s = some q →
        q = ParticipantStat.init s by
    have := hgen selectedParticipants ⟨[], none⟩ (by intro q hq; simp [JSObj.get, Props.get] at hq)
      p h
    subst this
    exact ⟨rfl, rfl, rfl, rfl, rfl, rfl, rfl, rfl⟩
  intro ps
  induction ps with
  | nil => intro o ho q hq; exact ho q hq
  | cons x xs ih =>
    intro o ho q hq
    simp only [List.foldl_cons] at hq
    apply ih (o.set x (ParticipantStat.init x)) _ q hq
    intro q1 hq1
    by_cases hx : s = x
    · subst hx
      rw [JSObj.get_after_set_eq] at hq1
      cases hq1
      rfl
    · rw [JSObj.get_after_set_ne _ _ _ _ hx] at hq1
      exact ho q1 hq1

/-- C35. With `targetWordLength` 5, the value the application starts with,
whenever `useAdvancedStats` yields a result object every record of
`participantStats` has `laughCount` 0: no laugh keyword has 5 code units.  In
general, for every exact length `n > 0` and every sender with a record at the
end of the pass, the counters `laughCount`, `sorryCount`, `pos` and `neg` of
the record are the numbers of tokens of length `n` from the laugh, apology,
positive and negative keywords in the non-media messages of that sender. -/
theorem laughCount_zero_at_length_five (fns : DateFns) (rawMessages : Option (List Msg))
    (timeFilter : Str) (selectedParticipants : List Str) (r : StatsResult)
    (h : useAdvancedStats fns rawMessages timeFilter selectedParticipants 5 = .result r) :
    (∀ p ∈ r.participantStats, p.laughCount = 0) ∧
    (∀ w ∈ laughWords, jsLength w ≠ 5) ∧
    (∀ (n : Nat) (r1 : StatsResult), 0 < n →
      useAdvancedStats fns rawMessages timeFilter selectedParticipants n = .result r1 →
      ∃ acc, mainLoop fns n (Acc.init selectedParticipants)
          (filteredMessages fns rawMessages timeFilter selectedParticipants) = some acc ∧
        r1.participantStats = acc.participantStats.props.entries.map (fun kv => kv.2) ∧
        ∀ (s : Str) (p : ParticipantStat), acc.participantStats.get s = some p →
          p.laughCount = exactHits n laughWords s
            (filteredMessages fns rawMessages timeFilter selectedParticipants) ∧
          p.sorryCount = exactHits n sorryWords s
            (filteredMessages fns rawMessages timeFilter selectedParticipants) ∧
          p.pos = exactHits n posWords s
            (filteredMessages fns rawMessages timeFilter selectedParticipants) ∧
          p.neg = exactHits n negWords s
            (filteredMessages fns rawMessages timeFilter selectedParticipants)) := by
  refine ⟨?_, laughWords_length, ?_⟩
  · unfold useAdvancedStats computeStats at h
    split at h
    · cases h
    · split at h
      · cases h
      · next acc hloop =>
        simp only [Stats.result.injEq] at h
        subst h
        intro p hp
        obtain ⟨kv, hkv, rfl⟩ := List.mem_map.mp hp
        have hkv1 := Props.mem_entries _ _ hkv
        refine mainLoop_records fns 5 (fun q => q.laughCount = 0) ?_ _ _ acc hloop ?_ kv hkv1
        · intro acc msg p0 p4 t pw hp0 _ hcw _ _ _ hl
          rw [hl, countWords_laugh_five _ _ _ _ hcw]
          exact hp0
        · intro kv1 hkv1
          rw [(init_values selectedParticipants).2.2 kv1 hkv1]
          rfl
  · intro n r1 hn h1
    unfold useAdvancedStats computeStats at h1
    split at h1
    · cases h1
    · split at h1
      · cases h1
      · next acc hloop =>
        simp only [Stats.result.injEq] at h1
        subst h1
        refine ⟨acc, hloop, rfl, ?_⟩
        intro s p hs
        have hrec : ∀ m ∈ filteredMessages fns rawMessages timeFilter selectedParticipants,
            ((Acc.init selectedParticipants).participantStats.get m.sender).isSome := by
          intro m hm
          exact (init_tables selectedParticipants m.sender
            (mem_filteredMessages _ _ _ _ _ hm).1).1
        cases hget0 : (Acc.init selectedParticipants).participantStats.get s with
        | none =>
          rw [mainLoop_get_none fns n _ _ acc hloop s hget0] at hs
          cases hs
        | some p0 =>
          obtain ⟨p1, hp1, a1, a2, a3, a4⟩ :=
            mainLoop_keywords fns n _ _ acc hloop hrec s p0 hget0
          rw [hs] at hp1
          simp only [Option.some.injEq] at hp1
          subst hp1
          obtain ⟨z1, z2, z3, z4, -⟩ := get_init_record selectedParticipants s p0 hget0
          rw [isValidLen_exact n hn] at a1 a2 a3 a4
          unfold exactHits
          exact ⟨by omega, by omega, by omega, by omega⟩

theorem laughCount_zero_at_length_five_witness :
    useAdvancedStats refDateFns (some laughExample) "all".toList ["A".toList, "B".toList] 5 =
      .result laughExampleResult ∧
    (∀ p ∈ laughExampleResult.participantStats, p.laughCount = 0) :=
  ⟨by decide,
   (laughCount_zero_at_length_five refDateFns (some laughExample) "all".toList
      ["A".toList, "B".toList] laughExampleResult (by decide)).1⟩

/-! ## Reply samples lie between 0 and 240 -/

theorem tdiv_minutes_range (t t0 : Int) (hle : t0 ≤ t)
    (h : ¬ Int.tdiv (t - t0) 60000 > 240) :
    0 ≤ Int.tdiv (t - t0) 60000 ∧ Int.tdiv (t - t0) 60000 ≤ 240 := by
  rw [Int.tdiv_eq_ediv (by omega) (by norm_num)] at h ⊢
  omega

theorem JSObj.all_set {α : Type} (P : α → Prop) (o : JSObj α) (k : Str) (v : α)
    (ho : (∀ kv ∈ o.props, P kv.2) ∧ (∀ x, o.proto = some x → P x)) (hv : P v) :
    (∀ kv ∈ (o.set k v).props, P kv.2) ∧ (∀ x, (o.set k v).proto = some x → P x) := by
  unfold JSObj.set
  split
  · refine ⟨ho.1, ?_⟩
    intro x hx
    simp only [Option.some.injEq] at hx
    subst hx
    exact hv
  · refine ⟨?_, ho.2⟩
    intro kv hkv
    rcases Props.mem_set _ _ _ _ hkv with h1 | h1
    · exact ho.1 kv h1
    · subst h1
      exact hv

theorem JSObj.all_get {α : Type} (P : α → Prop) (o : JSObj α) (k : Str) (v : α)
    (ho : (∀ kv ∈ o.props, P kv.2) ∧ (∀ x, o.proto = some x → P x)) (hk : o.get k = some v) :
    P v := by
  unfold JSObj.get at hk
  split at hk
  · exact ho.2 v hk
  · exact ho.1 (k, v) (Props.mem_of_get _ _ _ hk)

theorem JSObj.all_foldl_set {α : Type} (P : α → Prop) (f : Str → α) (hf : ∀ p, P (f p))
    (ps : List Str) : ∀ o : JSObj α,
    ((∀ kv ∈ o.props, P kv.2) ∧ (∀ x, o.proto = some x → P x)) →
    (∀ kv ∈ (ps.foldl (fun o p => o.set p (f p)) o).props, P kv.2) ∧
    (∀ x, (ps.foldl (fun o p => o.set p (f p)) o).proto = some x → P x) := by
  induction ps with
  | nil => intro o ho; exact ho
  | cons p ps ih =>
    intro o ho
    simp only [List.foldl_cons]
    exact ih _ (JSObj.all_set P o p (f p) ho (hf p))

theorem processMessage_samples (fns : DateFns) (targetWordLength : Nat) (acc acc1 : Acc)
    (msg : Msg) (h : processMessage fns targetWordLength acc msg = some acc1)
    (hrt : (∀ kv ∈ acc.replyTimes.props,
        ∀ x ∈ kv.2, ∃ v : Int, x = some v ∧ 0 ≤ v ∧ v ≤ 240) ∧
      (∀ times, acc.replyTimes.proto = some times →
        ∀ x ∈ times, ∃ v : Int, x = some v ∧ 0 ≤ v ∧ v ≤ 240))
    (hlast : ∀ l, acc.lastMsg = some l →
      ∃ t0, l.timestamp = some t0 ∧ ∀ t, msg.timestamp = some t → t0 ≤ t) :
    ((∀ kv ∈ acc1.replyTimes.props,
        ∀ x ∈ kv.2, ∃ v : Int, x = some v ∧ 0 ≤ v ∧ v ≤ 240) ∧
      (∀ times, acc1.replyTimes.proto = some times →
        ∀ x ∈ times, ∃ v : Int, x = some v ∧ 0 ≤ v ∧ v ≤ 240)) ∧
    (acc1.lastMsg = acc.lastMsg ∨ acc1.lastMsg = some msg) := by
  rcases processMessage_some fns targetWordLength acc acc1 msg h with
    ⟨-, rfl⟩ | ⟨p0, t, p3, wordMap, emojiMap, -, ht, -, -, hrest⟩
  · exact ⟨hrt, Or.inl rfl⟩
  · rcases hrest with ⟨-, rfl⟩ | ⟨lastMsg, starters, replyTimes, p4, hl, hflow, rfl⟩
    · exact ⟨hrt, Or.inr rfl⟩
    · refine ⟨?_, Or.inr rfl⟩
      obtain ⟨t0, ht0, hle⟩ := hlast lastMsg hl
      rw [flowStep_valid _ _ _ _ _ t t0 ht ht0] at hflow
      split at hflow
      · cases hflow; exact hrt
      · next hgt =>
        split at hflow
        · split at hflow
          · next times hget =>
            cases hflow
            apply JSObj.all_set
              (fun times : List (Option Int) =>
                ∀ x ∈ times, ∃ v : Int, x = some v ∧ 0 ≤ v ∧ v ≤ 240) _ _ _ hrt
            intro x hx
            rcases List.mem_append.mp hx with hx | hx
            · exact JSObj.all_get
                (fun times : List (Option Int) =>
                  ∀ x ∈ times, ∃ v : Int, x = some v ∧ 0 ≤ v ∧ v ≤ 240) _ _ _ hrt hget x hx
            · simp only [List.mem_singleton] at hx
              exact ⟨_, hx, tdiv_minutes_range t t0 (hle t ht) hgt⟩
          · cases hflow
        · split at hflow
          · cases hflow; exact hrt
          · cases hflow; exact hrt

theorem mainLoop_samples (fns : DateFns) (targetWordLength : Nat) (msgs : List Msg) :
    ∀ (acc acc1 : Acc), mainLoop fns targetWordLength acc msgs = some acc1 →
    ((∀ kv ∈ acc.replyTimes.props,
        ∀ x ∈ kv.2, ∃ v : Int, x = some v ∧ 0 ≤ v ∧ v ≤ 240) ∧
      (∀ times, acc.replyTimes.proto = some times →
        ∀ x ∈ times, ∃ v : Int, x = some v ∧ 0 ≤ v ∧ v ≤ 240)) →
    (∀ m ∈ msgs, ∃ t, m.timestamp = some t) →
    msgs.Pairwise (fun a b => ∀ x y, a.timestamp = some x → b.timestamp = some y → x ≤ y) →
    (∀ l, acc.lastMsg = some l →
      ∃ t0, l.timestamp = some t0 ∧ ∀ m ∈ msgs, ∀ t, m.timestamp = some t → t0 ≤ t) →
    (∀ kv ∈ acc1.replyTimes.props,
        ∀ x ∈ kv.2, ∃ v : Int, x = some v ∧ 0 ≤ v ∧ v ≤ 240) ∧
      (∀ times, acc1.replyTimes.proto = some times →
        ∀ x ∈ times, ∃ v : Int, x = some v ∧ 0 ≤ v ∧ v ≤ 240) := by
  induction msgs with
  | nil =>
    intro acc acc1 h hrt _ _ _
    simp only [mainLoop, Option.some.injEq] at h
    subst h
    exact hrt
  | cons msg rest ih =>
    intro acc acc1 h hrt hvalid hsorted hlast
    simp only [mainLoop] at h
    cases hstep : processMessage fns targetWordLength acc msg with
    | none => rw [hstep] at h; cases h
    | some acc2 =>
      rw [hstep] at h
      obtain ⟨h1, h2⟩ := processMessage_samples fns targetWordLength acc acc2 msg hstep hrt
        (by
          intro l hl
          obtain ⟨t0, ht0, hle⟩ := hlast l hl
          exact ⟨t0, ht0, fun t ht => hle msg (List.mem_cons_self _ _) t ht⟩)
      have hs := List.pairwise_cons.mp hsorted
      apply ih acc2 acc1 h h1 (fun m hm => hvalid m (List.mem_cons_of_mem _ hm)) hs.2
      intro l hl
      rcases h2 with h2 | h2
      · rw [h2] at hl
        obtain ⟨t0, ht0, hle⟩ := hlast l hl
        exact ⟨t0, ht0, fun m hm t ht => hle m (List.mem_cons_of_mem _ hm) t ht⟩
      · rw [h2] at hl
        simp only [Option.some.injEq] at hl
        subst hl
        obtain ⟨t0, ht0⟩ := hvalid msg (List.mem_cons_self _ _)
        exact ⟨t0, ht0, fun m hm t ht => hs.1 m hm t0 t ht0 ht⟩

theorem sum_range_240 (samples : List Int) (h : ∀ v ∈ samples, 0 ≤ v ∧ v ≤ 240) :
    0 ≤ samples.sum ∧ samples.sum ≤ 240 * samples.length := by
  induction samples with
  | nil => simp
  | cons v vs ih =>
    have h1 := h v (List.mem_cons_self _ _)
    have h2 := ih (fun w hw => h w (List.mem_cons_of_mem _ hw))
    simp only [List.sum_cons, List.length_cons]
    push_cast
    omega

theorem avgMinutes_range (times : List (Option Int))
    (h : ∀ x ∈ times, ∃ v : Int, x = some v ∧ 0 ≤ v ∧ v ≤ 240) :
    ∃ a, avgMinutes times = some a ∧ 0 ≤ a ∧ a ≤ 240 := by
  obtain ⟨samples, rfl⟩ := all_some_eq_map times (fun x hx => by
    obtain ⟨v, hv, -⟩ := h x hx
    exact ⟨v, hv⟩)
  have hr : ∀ v ∈ samples, 0 ≤ v ∧ v ≤ 240 := by
    intro v hv
    obtain ⟨w, hw, hw2⟩ := h (some v) (List.mem_map.mpr ⟨v, hv, rfl⟩)
    simp only [Option.some.injEq] at hw
    subst hw
    exact hw2
  obtain ⟨s1, s2⟩ := sum_range_240 samples hr
  unfold avgMinutes
  cases samples with
  | nil => exact ⟨0, by simp, le_refl _, by norm_num⟩
  | cons x xs =>
    have hne : ¬ ((x :: xs).map some).isEmpty = true := by simp
    rw [if_neg hne, sumTimes_map_some]
    simp only [List.length_map]
    have hn : (0 : Int) < ((x :: xs).length : Int) := by simp
    refine ⟨_, rfl, ?_, ?_⟩
    · apply Int.ediv_nonneg <;> omega
    · have : (2 * (x :: xs).sum + ((x :: xs).length : Int)) / (2 * ((x :: xs).length : Int)) < 241 := by
        apply Int.ediv_lt_of_lt_mul (by omega)
        omega
      omega

theorem filteredMessages_sorted (fns : DateFns) (rawMessages : Option (List Msg))
    (timeFilter : Str) (selectedParticipants : List Str) :
    (filteredMessages fns rawMessages timeFilter selectedParticipants).Pairwise
      (fun a b => ∀ x y, a.timestamp = some x → b.timestamp = some y → x ≤ y) := by
  unfold filteredMessages
  cases rawMessages with
  | none => exact List.Pairwise.nil
  | some messages =>
    apply sortByTimestamp_sorted
    intro m hm
    have hm1 := (List.mem_filter.mp hm).2
    cases ht : m.timestamp with
    | none => simp [dateGE, ht] at hm1
    | some t => exact ⟨t, rfl⟩

/-- C34. Whenever `useAdvancedStats` yields a result object, the filtered
sequence is in non-decreasing timestamp order, every reply sample recorded in
`replyTimes` (for a key of the table and for the sender `__proto__`) is an
integer between 0 and 240 inclusive, and every `avgMinutes` of `replyStats` is
an integer between 0 and 240 inclusive. -/
theorem reply_samples_between_0_and_240 (fns : DateFns) (rawMessages : Option (List Msg))
    (timeFilter : Str) (selectedParticipants : List Str) (targetWordLength : Nat)
    (r : StatsResult)
    (h : useAdvancedStats fns rawMessages timeFilter selectedParticipants targetWordLength =
      .result r) :
    (filteredMessages fns rawMessages timeFilter selectedParticipants).Pairwise
      (fun a b => ∀ x y, a.timestamp = some x → b.timestamp = some y → x ≤ y) ∧
    (∃ acc, mainLoop fns targetWordLength (Acc.init selectedParticipants)
        (filteredMessages fns rawMessages timeFilter selectedParticipants) = some acc ∧
      r.replyStats = ghostStats acc.replyTimes ∧
      (∀ kv ∈ acc.replyTimes.props, ∀ x ∈ kv.2, ∃ v : Int, x = some v ∧ 0 ≤ v ∧ v ≤ 240) ∧
      (∀ times, acc.replyTimes.proto = some times →
        ∀ x ∈ times, ∃ v : Int, x = some v ∧ 0 ≤ v ∧ v ≤ 240)) ∧
    (∀ g ∈ r.replyStats, ∃ a : Int, g.avgMinutes = some a ∧ 0 ≤ a ∧ a ≤ 240) := by
  have hsorted := filteredMessages_sorted fns rawMessages timeFilter selectedParticipants
  refine ⟨hsorted, ?_⟩
  unfold useAdvancedStats computeStats at h
  split at h
  · cases h
  · split at h
    · cases h
    · next acc hloop =>
      simp only [Stats.result.injEq] at h
      subst h
      have hinit : (∀ kv ∈ (Acc.init selectedParticipants).replyTimes.props,
            ∀ x ∈ kv.2, ∃ v : Int, x = some v ∧ 0 ≤ v ∧ v ≤ 240) ∧
          (∀ times, (Acc.init selectedParticipants).replyTimes.proto = some times →
            ∀ x ∈ times, ∃ v : Int, x = some v ∧ 0 ≤ v ∧ v ≤ 240) := by
        simp only [Acc.init]
        exact JSObj.all_foldl_set
          (fun times : List (Option Int) =>
            ∀ x ∈ times, ∃ v : Int, x = some v ∧ 0 ≤ v ∧ v ≤ 240)
          (fun _ => []) (fun _ x hx => by cases hx) selectedParticipants ⟨[], none⟩
          ⟨fun kv hkv => (by cases hkv), fun x hx => (by cases hx)⟩
      have hinv := mainLoop_samples fns targetWordLength _ _ acc hloop hinit
        (fun m hm => (mem_filteredMessages _ _ _ _ _ hm).2) hsorted
        (by intro l hl; simp [Acc.init] at hl)
      refine ⟨⟨acc, hloop, rfl, hinv.1, hinv.2⟩, ?_⟩
      intro g hg
      have hg1 : g ∈ ghostStats acc.replyTimes := hg
      unfold ghostStats at hg1
      obtain ⟨kv, hkv, rfl⟩ := List.mem_map.mp ((mem_sortDesc _ _ _).mp hg1)
      exact avgMinutes_range kv.2 (hinv.1 kv (Props.mem_entries _ _ hkv))

theorem reply_samples_between_0_and_240_witness :
    useAdvancedStats refDateFns (some replyExample) "all".toList ["X".toList, "Y".toList] 0 =
      .result replyExampleResult ∧
    (∀ g ∈ replyExampleResult.replyStats,
      ∃ a : Int, g.avgMinutes = some a ∧ 0 ≤ a ∧ a ≤ 240) :=
  ⟨by decide,
   (reply_samples_between_0_and_240 refDateFns (some replyExample) "all".toList
     ["X".toList, "Y".toList] 0 replyExampleResult (by decide)).2.2⟩

/-! ## Blank lines and directional marks -/

theorem parseLine_congr (host : Host) (st : ParserState) (l1 l2 : Str)
    (h : cleanLine l1 = cleanLine l2) : parseLine host st l1 = parseLine host st l2 := by
  unfold cleanLine at h
  unfold parseLine
  simp only [h]

theorem parseLine_blank (host : Host) (st : ParserState) (l : Str) (h : cleanLine l = []) :
    parseLine host st l = st := by
  unfold cleanLine at h
  unfold parseLine
  simp [h]

theorem foldl_parseLine_filter (host : Host) (ls : List Str) : ∀ st : ParserState,
    ls.foldl (parseLine host) st =
      (ls.filter (fun l => !(cleanLine l).isEmpty)).foldl (parseLine host) st := by
  induction ls with
  | nil => intro st; rfl
  | cons l ls ih =>
    intro st
    by_cases hl : cleanLine l = []
    · simp only [List.foldl_cons, List.filter_cons, hl, List.isEmpty_nil, Bool.not_true,
        Bool.false_eq_true, if_false]
      rw [parseLine_blank host st l hl]
      exact ih st
    · have hne : (!(cleanLine l).isEmpty) = true := by
        cases hc : cleanLine l with
        | nil => exact absurd hc hl
        | cons _ _ => rfl
      simp only [List.foldl_cons, List.filter_cons, hne, if_true]
      exact ih _

theorem foldl_parseLine_congr (host : Host) (ls1 : List Str) : ∀ (ls2 : List Str)
    (st : ParserState), ls1.map cleanLine = ls2.map cleanLine →
    ls1.foldl (parseLine host) st = ls2.foldl (parseLine host) st := by
  induction ls1 with
  | nil =>
    intro ls2 st h
    cases ls2 with
    | nil => rfl
    | cons _ _ => cases h
  | cons l ls ih =>
    intro ls2 st h
    cases ls2 with
    | nil => cases h
    | cons l2 ls2 =>
      simp only [List.map_cons, List.cons.injEq] at h
      simp only [List.foldl_cons]
      rw [parseLine_congr host st l l2 h.1]
      exact ih ls2 _ h.2

/-- The loop over two sequences of lines ends in the same state when the two
sequences have the same non-empty cleaned lines. -/
theorem foldl_parseLine_clean (host : Host) (ls1 ls2 : List Str) (st : ParserState)
    (h : (ls1.map cleanLine).filter (fun l => !l.isEmpty) =
      (ls2.map cleanLine).filter (fun l => !l.isEmpty)) :
    ls1.foldl (parseLine host) st = ls2.foldl (parseLine host) st := by
  rw [foldl_parseLine_filter host ls1, foldl_parseLine_filter host ls2]
  apply foldl_parseLine_congr
  rw [List.filter_map, List.filter_map] at h
  exact h

theorem splitLinesAux_filter (p : Char → Bool) (b : Str) : ∀ (cur1 cur2 : Str),
    cur1.filter p = cur2.filter p →
    (splitLinesAux cur1 b).map (fun l => l.filter p) =
      (splitLinesAux cur2 b).map (fun l => l.filter p) := by
  induction b with
  | nil =>
    intro cur1 cur2 h
    simp only [splitLinesAux, List.map_cons, List.map_nil, List.filter_reverse, h]
  | cons x xs ih =>
    intro cur1 cur2 h
    simp only [splitLinesAux]
    split
    · simp only [List.map_cons, List.filter_reverse, h]
    · apply ih
      simp only [List.filter_cons, h]

theorem splitLinesAux_insert (p : Char → Bool) (c : Char) (hc : p c = false)
    (hnl : c ≠ '\n') (b : Str) (a : Str) : ∀ cur : Str,
    (splitLinesAux cur (a ++ c :: b)).map (fun l => l.filter p) =
      (splitLinesAux cur (a ++ b)).map (fun l => l.filter p) := by
  induction a with
  | nil =>
    intro cur
    simp only [List.nil_append, splitLinesAux, if_neg hnl]
    apply splitLinesAux_filter
    simp [List.filter_cons, hc]
  | cons y ys ih =>
    intro cur
    simp only [List.cons_append, splitLinesAux]
    split
    · simp only [List.map_cons]
      exact congrArg (List.cons _) (ih [])
    · exact ih _

theorem isMark_ne_newline (c : Char) (hc : c.toNat = 0x200E ∨ c.toNat = 0x200F) : c ≠ '\n' := by
  intro e
  subst e
  rcases hc with h | h <;> exact absurd h (by decide)

/-- A directional mark inserted anywhere in the text leaves the cleaned lines
as they were. -/
theorem splitLines_insert_mark (a b : Str) (c : Char)
    (hc : c.toNat = 0x200E ∨ c.toNat = 0x200F) :
    (splitLines (a ++ c :: b)).map cleanLine = (splitLines (a ++ b)).map cleanLine := by
  have h := splitLinesAux_insert
    (fun c => !(c.toNat == 0x200E || c.toNat == 0x200F)) c
    (by rcases hc with h | h <;> simp [h]) (isMark_ne_newline c hc) b a []
  have h2 := congrArg (List.map trim) h
  simp only [List.map_map] at h2
  exact h2

theorem splitLinesAux_append (a b : Str) : ∀ cur : Str,
    splitLinesAux cur (a ++ '\n' :: b) = splitLinesAux cur a ++ splitLinesAux [] b := by
  induction a with
  | nil => intro cur; simp [splitLinesAux]
  | cons y ys ih =>
    intro cur
    simp only [List.cons_append, splitLinesAux]
    split
    · exact congrArg (List.cons _) (ih [])
    · exact ih _

theorem splitLines_append (a b : Str) :
    splitLines (a ++ '\n' :: b) = splitLines a ++ splitLines b :=
  splitLinesAux_append a b []

theorem filter_blank_lines (blank : Str) (h : ∀ l ∈ splitLines blank, cleanLine l = []) :
    ((splitLines blank).map cleanLine).filter (fun l => !l.isEmpty) = [] := by
  rw [List.filter_eq_nil_iff]
  intro l hl
  obtain ⟨x, hx, rfl⟩ := List.mem_map.mp hl
  simp [h x hx]

theorem parseChat_of_lines (host : Host) (lastIndex : Nat) (t1 t2 : Str)
    (h : ((splitLines t1).map cleanLine).filter (fun l => !l.isEmpty) =
      ((splitLines t2).map cleanLine).filter (fun l => !l.isEmpty)) :
    parseChat host lastIndex t1 = parseChat host lastIndex t2 := by
  unfold parseChat parseLines
  rw [foldl_parseLine_clean host _ _ _ h]

theorem trim_eq_nil_iff (s : Str) : trim s = [] ↔ ∀ c ∈ s, isWhiteSpace c = true := by
  unfold trim
  rw [List.reverse_eq_nil_iff, List.dropWhile_eq_nil_iff]
  constructor
  · intro h
    cases hd : s.dropWhile isWhiteSpace with
    | nil => exact List.dropWhile_eq_nil_iff.mp hd
    | cons x xs =>
      exfalso
      have hx : isWhiteSpace x = true := h x (by rw [hd]; simp)
      have hnot := List.head?_dropWhile_not isWhiteSpace s
      rw [hd] at hnot
      simp [hx] at hnot
  · intro h c hc
    rw [List.mem_reverse] at hc
    exact h c ((List.dropWhile_sublist _).mem hc)

theorem splitLinesAux_mem (s : Str) : ∀ (cur l : Str), l ∈ splitLinesAux cur s →
    ∀ c ∈ l, c ∈ cur ∨ c ∈ s := by
  induction s with
  | nil =>
    intro cur l hl c hc
    simp only [splitLinesAux, List.mem_singleton] at hl
    subst hl
    exact Or.inl (List.mem_reverse.mp hc)
  | cons a as ih =>
    intro cur l hl c hc
    unfold splitLinesAux at hl
    split at hl
    · rcases List.mem_cons.mp hl with hl | hl
      · subst hl
        exact Or.inl (List.mem_reverse.mp hc)
      · rcases ih [] l hl c hc with h | h
        · cases h
        · exact Or.inr (List.mem_cons_of_mem _ h)
    · rcases ih (a :: cur) l hl c hc with h | h
      · rcases List.mem_cons.mp h with h | h
        · exact Or.inr (by rw [h]; exact List.mem_cons_self _ _)
        · exact Or.inl h
      · exact Or.inr (List.mem_cons_of_mem _ h)

theorem mem_of_mem_splitLines (s l : Str) (hl : l ∈ splitLines s) (c : Char) (hc : c ∈ l) :
    c ∈ s := by
  rcases splitLinesAux_mem s [] l hl c hc with h | h
  · cases h
  · exact h

/-- A line is empty after cleaning exactly when each of its characters is
white space or one of the marks U+200E and U+200F. -/
theorem cleanLine_eq_nil_iff (l : Str) :
    cleanLine l = [] ↔
      ∀ c ∈ l, isWhiteSpace c = true ∨ c.toNat = 0x200E ∨ c.toNat = 0x200F := by
  unfold cleanLine
  rw [trim_eq_nil_iff]
  unfold removeMarks
  constructor
  · intro h c hc
    by_cases hm : c.toNat = 0x200E ∨ c.toNat = 0x200F
    · exact Or.inr hm
    · left
      apply h c
      rw [List.mem_filter]
      refine ⟨hc, ?_⟩
      simpa using hm
  · intro h c hc
    rw [List.mem_filter] at hc
    rcases h c hc.1 with h1 | h1
    · exact h1
    · exfalso
      have := hc.2
      simp at this
      rcases h1 with h1 | h1
      · exact this.1 h1
      · exact this.2 h1

/-- C32. `parseChat` depends on the text only through the sequence of its
cleaned lines (marks U+200E and U+200F removed, then trimmed) that are not
empty: two texts with the same such sequence give the same messages and
participants.  A line is empty after cleaning exactly when all its characters
are white space or marks.  Hence a mark U+200E or U+200F inserted anywhere in
the text changes nothing, and neither does a run of lines of white space and
marks, inserted between two lines, before the first line or after the last
one.  A text with carriage returns, a mark before the header, a line of
white space only (blank, tab, no-break space, U+FEFF, U+3000, U+2003), a line
of one mark, an indented
continuation line and two empty lines parses as the two-line text without
them: one message of A with the content `hi` and `there`. -/
theorem parseChat_ignores_blank_lines_and_marks (host : Host) (lastIndex : Nat) :
    (∀ t1 t2 : Str,
      ((splitLines t1).map cleanLine).filter (fun l => !l.isEmpty) =
        ((splitLines t2).map cleanLine).filter (fun l => !l.isEmpty) →
      parseChat host lastIndex t1 = parseChat host lastIndex t2) ∧
    (∀ l : Str, cleanLine l = [] ↔
      ∀ c ∈ l, isWhiteSpace c = true ∨ c.toNat = 0x200E ∨ c.toNat = 0x200F) ∧
    (∀ (a b : Str) (c : Char), c.toNat = 0x200E ∨ c.toNat = 0x200F →
      parseChat host lastIndex (a ++ c :: b) = parseChat host lastIndex (a ++ b)) ∧
    (∀ pre blank post : Str,
      (∀ c ∈ blank, isWhiteSpace c = true ∨ c.toNat = 0x200E ∨ c.toNat = 0x200F) →
      parseChat host lastIndex (pre ++ '\n' :: (blank ++ '\n' :: post)) =
        parseChat host lastIndex (pre ++ '\n' :: post) ∧
      parseChat host lastIndex (blank ++ '\n' :: post) = parseChat host lastIndex post ∧
      parseChat host lastIndex (pre ++ '\n' :: blank) = parseChat host lastIndex pre) ∧
    (splitLines "\u200E1/1/24, 10:00 - A: hi \r\n \t\u00A0\uFEFF\u3000\u2003\r\n\u200F\n  there\r\n\n".toList).map
        cleanLine =
      ["1/1/24, 10:00 - A: hi".toList, [], [], "there".toList, [], []] ∧
    parseChat host lastIndex
        "\u200E1/1/24, 10:00 - A: hi \r\n \t\u00A0\uFEFF\u3000\u2003\r\n\u200F\n  there\r\n\n".toList =
      parseChat host lastIndex "1/1/24, 10:00 - A: hi\nthere".toList ∧
    (parseChat host lastIndex
        "\u200E1/1/24, 10:00 - A: hi \r\n \t\u00A0\uFEFF\u3000\u2003\r\n\u200F\n  there\r\n\n".toList).messages.map
      (fun m => (m.sender, m.content, m.charCount)) = [("A".toList, "hi\nthere".toList, 7)] := by
  have hex : parseChat host lastIndex
      "\u200E1/1/24, 10:00 - A: hi \r\n \t\u00A0\uFEFF\u3000\u2003\r\n\u200F\n  there\r\n\n".toList =
      parseChat host lastIndex "1/1/24, 10:00 - A: hi\nthere".toList :=
    parseChat_of_lines host lastIndex _ _ (by decide)
  refine ⟨parseChat_of_lines host lastIndex, cleanLine_eq_nil_iff, ?_, ?_, by decide, hex, ?_⟩
  · intro a b c hc
    apply parseChat_of_lines
    rw [splitLines_insert_mark a b c hc]
  · intro pre blank post hblank
    have hb := filter_blank_lines blank (fun l hl =>
      (cleanLine_eq_nil_iff l).mpr (fun c hc => hblank c (mem_of_mem_splitLines blank l hl c hc)))
    refine ⟨?_, ?_, ?_⟩
    · apply parseChat_of_lines
      simp only [splitLines_append, List.map_append, List.filter_append, hb, List.nil_append]
    · apply parseChat_of_lines
      simp only [splitLines_append, List.map_append, List.filter_append, hb, List.nil_append]
    · apply parseChat_of_lines
      simp only [splitLines_append, List.map_append, List.filter_append, hb, List.append_nil]
  · rw [hex]
    rfl

/-! ## Conservation of the message counts -/

theorem sum_set_getD (l : List Nat) : ∀ (i v : Nat), i < l.length →
    (l.set i v).sum + l.getD i 0 = l.sum + v := by
  induction l with
  | nil => intro i v h; simp at h
  | cons x xs ih =>
    intro i v h
    cases i with
    | zero => simp; omega
    | succ j =>
      have := ih j v (by simpa using h)
      simp only [List.set_cons_succ, List.sum_cons, List.getD_cons_succ]
      omega

theorem getD_set_eq {α : Type} (l : List α) : ∀ (i : Nat) (v d : α), i < l.length →
    (l.set i v).getD i d = v := by
  induction l with
  | nil => intro i v d h; simp at h
  | cons x xs ih =>
    intro i v d h
    cases i with
    | zero => simp
    | succ j => simpa using ih j v d (by simpa using h)

theorem getD_set_ne {α : Type} (l : List α) : ∀ (i j : Nat) (v d : α), j ≠ i →
    (l.set i v).getD j d = l.getD j d := by
  induction l with
  | nil => intro i j v d _; simp
  | cons x xs ih =>
    intro i j v d h
    cases i with
    | zero =>
      cases j with
      | zero => exact absurd rfl h
      | succ k => simp
    | succ i1 =>
      cases j with
      | zero => simp
      | succ k => simpa using ih i1 k v d (by omega)

theorem bumpAt_some (table table1 : List Nat) (i : Nat) (h : bumpAt table i = some table1) :
    i < table.length ∧ table1.length = table.length ∧ table1.sum = table.sum + 1 ∧
    ∀ j, table1.getD j 0 = table.getD j 0 + (if j = i then 1 else 0) := by
  unfold bumpAt at h
  split at h
  · next hi =>
    simp only [Option.some.injEq] at h
    subst h
    refine ⟨hi, by simp, ?_, ?_⟩
    · have := sum_set_getD table i (table.getD i 0 + 1) hi
      omega
    · intro j
      by_cases hj : j = i
      · subst hj
        rw [getD_set_eq _ _ _ _ hi, if_pos rfl]
      · rw [getD_set_ne _ _ _ _ _ hj, if_neg hj, Nat.add_zero]
  · cases h

theorem bumpAt_total (table : List Nat) (i : Nat) (h : i < table.length) :
    ∃ table1, bumpAt table i = some table1 := by
  unfold bumpAt
  rw [if_pos h]
  exact ⟨_, rfl⟩

theorem sum_map_set {α : Type} (f : α → Nat) (l : List α) (i : Nat) (v d : α)
    (hi : i < l.length) :
    ((l.set i v).map f).sum + f (l.getD i d) = (l.map f).sum + f v := by
  have h := sum_set_getD (l.map f) i (f v) (by simpa using hi)
  rw [List.map_set]
  have h2 : (l.map f).getD i 0 = f (l.getD i d) := by
    simp [List.getD_eq_getElem?_getD, List.getElem?_map, List.getElem?_eq_getElem hi]
  rw [h2] at h
  exact h

theorem bumpCell_some (matrix matrix1 : List (List Nat)) (day hour : Nat)
    (h : bumpCell matrix day hour = some matrix1) :
    day < matrix.length ∧ hour < (matrix.getD day []).length ∧
    matrix1.length = matrix.length ∧
    (∀ d, (matrix1.getD d []).length = (matrix.getD d []).length) ∧
    (matrix1.map List.sum).sum = (matrix.map List.sum).sum + 1 ∧
    (∀ d, (matrix1.getD d []).sum = (matrix.getD d []).sum + (if d = day then 1 else 0)) ∧
    (∀ hr, (matrix1.map (fun row => row.getD hr 0)).sum =
      (matrix.map (fun row => row.getD hr 0)).sum + (if hr = hour then 1 else 0)) := by
  unfold bumpCell at h
  split at h
  · next hd =>
    cases hb : bumpAt (matrix.getD day []) hour with
    | none => rw [hb] at h; cases h
    | some row =>
      rw [hb] at h
      simp only [Option.some.injEq] at h
      subst h
      obtain ⟨b1, b2, b3, b4⟩ := bumpAt_some _ _ _ hb
      refine ⟨hd, b1, by simp, ?_, ?_, ?_, ?_⟩
      · intro d
        by_cases hdd : d = day
        · subst hdd
          rw [getD_set_eq _ _ _ _ hd, b2]
        · rw [getD_set_ne _ _ _ _ _ hdd]
      · have := sum_map_set List.sum matrix day row [] hd
        omega
      · intro d
        by_cases hdd : d = day
        · subst hdd
          rw [getD_set_eq _ _ _ _ hd, b3, if_pos rfl]
        · rw [getD_set_ne _ _ _ _ _ hdd, if_neg hdd, Nat.add_zero]
      · intro hr
        have := sum_map_set (fun row : List Nat => row.getD hr 0) matrix day row [] hd
        have h4 := b4 hr
        simp only at this
        omega
  · cases h

theorem bumpCell_total (matrix : List (List Nat)) (day hour : Nat) (hd : day < matrix.length)
    (hh : hour < (matrix.getD day []).length) :
    ∃ matrix1, bumpCell matrix day hour = some matrix1 := by
  unfold bumpCell
  rw [if_pos hd]
  obtain ⟨row, hrow⟩ := bumpAt_total _ _ hh
  rw [hrow]
  exact ⟨_, rfl⟩

theorem histStep_conserved (getHours getDay : Int → Nat) (hasRecord : Str → Bool)
    (hHours : ∀ t, getHours t < 24) (hDay : ∀ t, getDay t < 7)
    (h : Histograms) (n : Nat) (msg : Msg) (hinv : h.Conserved n)
    (hrec : hasRecord msg.sender = true) (hts : ∃ t, msg.timestamp = some t) :
    ∃ h1, histStep getHours getDay hasRecord h msg = some h1 ∧ h1.Conserved (n + 1) := by
  obtain ⟨t, ht⟩ := hts
  obtain ⟨i1, i2, i3, i4, i5, i6, i7, i8, i9⟩ := hinv
  obtain ⟨hourly, hh⟩ := bumpAt_total h.hourlyData (getHours t) (by rw [i1]; exact hHours t)
  obtain ⟨weekday, hw⟩ := bumpAt_total h.weekdayData (getDay t) (by rw [i2]; exact hDay t)
  obtain ⟨matrix, hm⟩ := bumpCell_total h.peakActivityMatrix (getDay t) (getHours t)
    (by rw [i3]; exact hDay t) (by rw [i4 _ (hDay t)]; exact hHours t)
  refine ⟨{ hourlyData := hourly, weekdayData := weekday, peakActivityMatrix := matrix }, ?_, ?_⟩
  · unfold histStep
    rw [if_pos hrec]
    simp only [ht, hh, hw, hm]
  · obtain ⟨-, a2, a3, a4⟩ := bumpAt_some _ _ _ hh
    obtain ⟨-, b2, b3, b4⟩ := bumpAt_some _ _ _ hw
    obtain ⟨-, -, c3, c4, c5, c6, c7⟩ := bumpCell_some _ _ _ _ hm
    refine ⟨by rw [a2, i1], by rw [b2, i2], by rw [c3, i3], ?_, by rw [a3, i5], by rw [b3, i6],
      by rw [c5, i7], ?_, ?_⟩
    · intro d hd
      show (matrix.getD d []).length = 24
      rw [c4 d, i4 d hd]
    · intro d hd
      show (matrix.getD d []).sum = weekday.getD d 0
      rw [c6 d, b4 d, i8 d hd]
    · intro hr hhr
      show (matrix.map (fun row => row.getD hr 0)).sum = hourly.getD hr 0
      rw [c7 hr, a4 hr, i9 hr hhr]

theorem histLoop_conserved (getHours getDay : Int → Nat) (hasRecord : Str → Bool)
    (hHours : ∀ t, getHours t < 24) (hDay : ∀ t, getDay t < 7) (msgs : List Msg) :
    ∀ (h : Histograms) (n : Nat), h.Conserved n →
    (∀ m ∈ msgs, hasRecord m.sender = true ∧ ∃ t, m.timestamp = some t) →
    ∃ h1, histLoop getHours getDay hasRecord h msgs = some h1 ∧
      h1.Conserved (n + msgs.length) := by
  induction msgs with
  | nil => intro h n hinv _; exact ⟨h, rfl, hinv⟩
  | cons msg rest ih =>
    intro h n hinv hmsgs
    obtain ⟨hr, hts⟩ := hmsgs msg (List.mem_cons_self _ _)
    obtain ⟨h1, hstep, hinv1⟩ :=
      histStep_conserved getHours getDay hasRecord hHours hDay h n msg hinv hr hts
    obtain ⟨h2, hloop, hinv2⟩ := ih h1 (n + 1) hinv1
      (fun m hm => hmsgs m (List.mem_cons_of_mem _ hm))
    refine ⟨h2, ?_, ?_⟩
    · simp only [histLoop, hstep]
      exact hloop
    · have e : n + (msg :: rest).length = n + 1 + rest.length := by
        simp only [List.length_cons]; omega
      rw [e]
      exact hinv2

theorem init_conserved : Histograms.init.Conserved 0 := by
  unfold Histograms.Conserved Histograms.init
  refine ⟨rfl, rfl, rfl, ?_, rfl, rfl, rfl, ?_, ?_⟩ <;> decide

/-- The histograms of `useAdvancedStats` after the loop over the filtered
sequence, for calendar functions that give an hour below 24 and a day of the
week below 7: the loop does not throw, and `hourlyData`, `weekdayData` and the
cells of `peakActivityMatrix` each sum to the number of filtered messages, row
`d` of the matrix sums to `weekdayData[d].count` and column `hr` to
`hourlyData[hr].count`. -/
theorem histograms_conserved (fns : DateFns) (getDay : Int → Nat)
    (hHours : ∀ t, fns.getHours t < 24) (hDay : ∀ t, getDay t < 7)
    (rawMessages : Option (List Msg)) (timeFilter : Str) (selectedParticipants : List Str) :
    ∃ h, histograms fns getDay selectedParticipants
        (filteredMessages fns rawMessages timeFilter selectedParticipants) = some h ∧
      h.Conserved (filteredMessages fns rawMessages timeFilter selectedParticipants).length := by
  have := histLoop_conserved fns.getHours getDay
    (fun sender => ((Acc.init selectedParticipants).participantStats.get sender).isSome)
    hHours hDay (filteredMessages fns rawMessages timeFilter selectedParticipants)
    Histograms.init 0 init_conserved (by
      intro m hm
      obtain ⟨h1, h2⟩ := mem_filteredMessages _ _ _ _ _ hm
      exact ⟨(init_tables selectedParticipants m.sender h1).1, h2⟩)
  simpa [histograms] using this

theorem refDateFns_ranges : (∀ t, refDateFns.getHours t < 24) ∧ (∀ t, refGetDay t < 7) := by
  refine ⟨?_, ?_⟩
  · intro t
    show ((t / 3600000) % 24).toNat < 24
    omega
  · intro t
    show ((t / 86400000 + 4) % 7).toNat < 7
    omega

/-! ### The counters of the records -/

theorem processMessage_messages (fns : DateFns) (targetWordLength : Nat) (acc acc1 : Acc)
    (msg : Msg) (h : processMessage fns targetWordLength acc msg = some acc1)
    (hrec : (acc.participantStats.get msg.sender).isSome) (hne : msg.sender ≠ protoKey) :
    (acc1.participantStats.props.map (fun kv => kv.2.messages)).sum =
      (acc.participantStats.props.map (fun kv => kv.2.messages)).sum + 1 := by
  rcases processMessage_some fns targetWordLength acc acc1 msg h with
    ⟨hnone, -⟩ | ⟨p0, t, p3, wordMap, emojiMap, hget, ht, -, -, -⟩
  · rw [hnone] at hrec
    cases hrec
  · obtain ⟨p4, pw, hset, -, -, hm, -⟩ :=
      processMessage_record fns targetWordLength acc acc1 msg p0 t h hget ht
    have hget1 : acc.participantStats.props.get msg.sender = some p0 := by
      unfold JSObj.get at hget
      rw [if_neg hne] at hget
      exact hget
    have hs := Props.sum_set (fun p : ParticipantStat => p.messages) acc.participantStats.props
      msg.sender p4
    rw [hget1] at hs
    simp only [Option.map_some', Option.getD_some] at hs
    rw [hset]
    unfold JSObj.set
    rw [if_neg hne]
    simp only
    omega

theorem mainLoop_messages (fns : DateFns) (targetWordLength : Nat) (msgs : List Msg) :
    ∀ (acc acc1 : Acc), mainLoop fns targetWordLength acc msgs = some acc1 →
    (∀ m ∈ msgs, (acc.participantStats.get m.sender).isSome ∧ m.sender ≠ protoKey) →
    (acc1.participantStats.props.map (fun kv => kv.2.messages)).sum =
      (acc.participantStats.props.map (fun kv => kv.2.messages)).sum + msgs.length := by
  induction msgs with
  | nil =>
    intro acc acc1 h _
    simp only [mainLoop, Option.some.injEq] at h
    subst h
    rfl
  | cons msg rest ih =>
    intro acc acc1 h hrec
    simp only [mainLoop] at h
    cases hstep : processMessage fns targetWordLength acc msg with
    | none => rw [hstep] at h; cases h
    | some acc2 =>
      rw [hstep] at h
      have h1 := processMessage_messages fns targetWordLength acc acc2 msg hstep
        (hrec msg (List.mem_cons_self _ _)).1 (hrec msg (List.mem_cons_self _ _)).2
      have h2 := ih acc2 acc1 h (fun m hm =>
        ⟨(processMessage_tables fns targetWordLength acc acc2 msg hstep m.sender).1
          (hrec m (List.mem_cons_of_mem _ hm)).1, (hrec m (List.mem_cons_of_mem _ hm)).2⟩)
      rw [h2, h1]
      simp only [List.length_cons]
      omega

/-- The counters of the returned records.  Whenever `useAdvancedStats` yields
a result object, every record of `participantStats` has
`nightOwlScore + earlyBirdScore <= messages`, and when `__proto__` is not
selected the `messages` counters of the records sum to `totalMessages`. -/
theorem records_conserved (fns : DateFns) (rawMessages : Option (List Msg)) (timeFilter : Str)
    (selectedParticipants : List Str) (targetWordLength : Nat) (r : StatsResult)
    (h : useAdvancedStats fns rawMessages timeFilter selectedParticipants targetWordLength =
      .result r) :
    r.totalMessages =
      (filteredMessages fns rawMessages timeFilter selectedParticipants).length ∧
    (∀ p ∈ r.participantStats, p.nightOwlScore + p.earlyBirdScore ≤ p.messages) ∧
    (protoKey ∉ selectedParticipants →
      (r.participantStats.map (fun p => p.messages)).sum = r.totalMessages) := by
  unfold useAdvancedStats computeStats at h
  split at h
  · cases h
  · split at h
    · cases h
    · next acc hloop =>
      simp only [Stats.result.injEq] at h
      subst h
      refine ⟨rfl, ?_, ?_⟩
      · intro p hp
        obtain ⟨kv, hkv, rfl⟩ := List.mem_map.mp hp
        have hkv1 := Props.mem_entries _ _ hkv
        refine mainLoop_records fns targetWordLength
          (fun q => q.nightOwlScore + q.earlyBirdScore ≤ q.messages) ?_ _ _ acc hloop ?_ kv hkv1
        · intro acc msg p0 p4 t pw hp0 _ _ hm hn he _
          simp only at hp0 ⊢
          rw [hm, hn, he]
          split <;> split <;> omega
        · intro kv1 hkv1
          rw [(init_values selectedParticipants).2.2 kv1 hkv1]
          exact Nat.le_refl 0
      · intro hproto
        have hrec : ∀ m ∈ filteredMessages fns rawMessages timeFilter selectedParticipants,
            ((Acc.init selectedParticipants).participantStats.get m.sender).isSome ∧
              m.sender ≠ protoKey := by
          intro m hm
          have hs := (mem_filteredMessages _ _ _ _ _ hm).1
          exact ⟨(init_tables selectedParticipants m.sender hs).1, fun e => hproto (e ▸ hs)⟩
        have h1 := mainLoop_messages fns targetWordLength _ _ acc hloop hrec
        have hinit : ((Acc.init selectedParticipants).participantStats.props.map
            (fun kv => kv.2.messages)).sum = 0 := by
          apply List.sum_eq_zero
          intro x hx
          obtain ⟨kv, hkv, rfl⟩ := List.mem_map.mp hx
          rw [(init_values selectedParticipants).2.2 kv hkv]
          rfl
        rw [hinit, Nat.zero_add] at h1
        show ((acc.participantStats.props.entries.map (fun kv => kv.2)).map
          (fun p => p.messages)).sum = _
        rw [List.map_map, ← h1]
        exact ((Props.entries_perm acc.participantStats.props).map _).sum_eq

/-- C33 (the code at the failing input). The selected senders are `__proto__`
and `B`, each with one message on Monday 2024-01-01 at 12 h UTC.  The loop
counts both messages in the histograms: `hourlyData`, `weekdayData` and the
matrix each sum to `totalMessages`, 2, with the two counts in hour 12, weekday
1 and cell (1, 12).  But the record of `__proto__` is the prototype of
`participantStats`, not one of its values: the result lists the record of B
alone, and the `messages` counters of the participants sum to 1, not 2. -/
theorem messages_sum_misses_proto_sender :
    (useAdvancedStats refDateFns
        (some [mkMsg "__proto__".toList 0 [] [], mkMsg "B".toList 1 [] []])
        "all".toList ["__proto__".toList, "B".toList] 0).toOption.map
      (fun r => (r.totalMessages, r.participantStats.map (fun p => (p.name, p.messages)))) =
      some (2, [("B".toList, 1)]) ∧
    (histograms refDateFns refGetDay ["__proto__".toList, "B".toList]
        (filteredMessages refDateFns
          (some [mkMsg "__proto__".toList 0 [] [], mkMsg "B".toList 1 [] []])
          "all".toList ["__proto__".toList, "B".toList])).map
      (fun h => (h.hourlyData.sum, h.weekdayData.sum, (h.peakActivityMatrix.map List.sum).sum)) =
      some (2, 2, 2) ∧
    (histograms refDateFns refGetDay ["__proto__".toList, "B".toList]
        (filteredMessages refDateFns
          (some [mkMsg "__proto__".toList 0 [] [], mkMsg "B".toList 1 [] []])
          "all".toList ["__proto__".toList, "B".toList])).map
      (fun h => (h.hourlyData.getD 12 0, h.weekdayData.getD 1 0,
        (h.peakActivityMatrix.getD 1 []).getD 12 0)) =
      some (2, 2, 2) := by
  refine ⟨?_, ?_, ?_⟩ <;> decide

/-! ## The two hooks -/

theorem basicFiltered_perm (fns : DateFns) (rawMessages : Option (List Msg)) (timeFilter : Str)
    (selectedParticipants : List Str) :
    (filteredMessages fns rawMessages timeFilter selectedParticipants).Perm
      (basicFiltered fns rawMessages timeFilter selectedParticipants) := by
  cases rawMessages with
  | none => exact List.Perm.refl _
  | some messages => exact sortByTimestamp_perm _

theorem mem_basicFiltered (fns : DateFns) (rawMessages : Option (List Msg)) (timeFilter : Str)
    (selectedParticipants : List Str) (m : Msg)
    (h : m ∈ basicFiltered fns rawMessages timeFilter selectedParticipants) :
    m.sender ∈ selectedParticipants ∧ ∃ t, m.timestamp = some t :=
  mem_filteredMessages fns rawMessages timeFilter selectedParticipants m
    ((basicFiltered_perm fns rawMessages timeFilter selectedParticipants).mem_iff.mpr h)

/-- The two hooks return `null` for the same inputs. -/
theorem useChatAnalytics_null_iff (fns : DateFns) (getDay : Int → Nat)
    (rawMessages : Option (List Msg)) (timeFilter : Str) (selectedParticipants : List Str)
    (targetWordLength : Nat) :
    useChatAnalytics fns getDay rawMessages timeFilter selectedParticipants = .null ↔
      useAdvancedStats fns rawMessages timeFilter selectedParticipants targetWordLength =
        .null := by
  rw [useAdvancedStats_null_iff]
  have hp := basicFiltered_perm fns rawMessages timeFilter selectedParticipants
  unfold useChatAnalytics
  simp only
  cases hb : basicFiltered fns rawMessages timeFilter selectedParticipants with
  | nil =>
    rw [hb] at hp
    simp [List.Perm.eq_nil hp]
  | cons m ms =>
    rw [hb] at hp
    have hne : filteredMessages fns rawMessages timeFilter selectedParticipants ≠ [] := by
      intro e
      rw [e] at hp
      exact absurd hp.symm.eq_nil (by simp)
    simp only [List.isEmpty_cons, Bool.false_eq_true, if_false, hne, iff_false]
    cases basicLoop fns.getHours getDay _ (m :: ms) <;> simp

/-- The count of hour or weekday `j` in a table bumped once per message. -/
theorem bumpAt_hist (f : Int → Nat) (table table1 : List Nat) (t : Int)
    (h : bumpAt table (f t) = some table1) (j : Nat) :
    table1.length = table.length ∧
    table1.getD j 0 = table.getD j 0 + (if f t = j then 1 else 0) := by
  obtain ⟨-, h2, -, h4⟩ := bumpAt_some _ _ _ h
  refine ⟨h2, ?_⟩
  rw [h4 j]
  by_cases e : j = f t
  · simp [e]
  · have e1 : ¬ f t = j := fun x => e x.symm
    simp [e, e1]

theorem basicLoop_hist (getHours getDay : Int → Nat) (msgs : List Msg) :
    ∀ (acc acc1 : BasicAcc), basicLoop getHours getDay acc msgs = some acc1 →
    acc1.hourlyData.length = acc.hourlyData.length ∧
    acc1.weekdayData.length = acc.weekdayData.length ∧
    (∀ j, acc1.hourlyData.getD j 0 = acc.hourlyData.getD j 0 +
      msgs.countP (fun m => m.timestamp.map getHours == some j)) ∧
    (∀ j, acc1.weekdayData.getD j 0 = acc.weekdayData.getD j 0 +
      msgs.countP (fun m => m.timestamp.map getDay == some j)) := by
  induction msgs with
  | nil =>
    intro acc acc1 h
    simp only [basicLoop, Option.some.injEq] at h
    subst h
    simp
  | cons msg rest ih =>
    intro acc acc1 h
    simp only [basicLoop] at h
    cases hstep : basicStep getHours getDay acc msg with
    | none => rw [hstep] at h; cases h
    | some acc2 =>
      rw [hstep] at h
      obtain ⟨i1, i2, i3, i4⟩ := ih acc2 acc1 h
      unfold basicStep at hstep
      cases ht : msg.timestamp with
      | none => rw [ht] at hstep; cases hstep
      | some t =>
        rw [ht] at hstep
        simp only at hstep
        cases hh : bumpAt acc.hourlyData (getHours t) with
        | none => rw [hh] at hstep; cases hstep
        | some hourly =>
          rw [hh] at hstep
          simp only at hstep
          cases hw : bumpAt acc.weekdayData (getDay t) with
          | none => rw [hw] at hstep; cases hstep
          | some weekday =>
            rw [hw] at hstep
            simp only [Option.some.injEq] at hstep
            subst hstep
            simp only at i1 i2 i3 i4
            refine ⟨by rw [i1, (bumpAt_hist getHours _ _ t hh 0).1],
              by rw [i2, (bumpAt_hist getDay _ _ t hw 0).1], ?_, ?_⟩
            · intro j
              rw [i3 j, (bumpAt_hist getHours _ _ t hh j).2, List.countP_cons, ht]
              simp only [Option.map_some', beq_iff_eq, Option.some.injEq]
              omega
            · intro j
              rw [i4 j, (bumpAt_hist getDay _ _ t hw j).2, List.countP_cons, ht]
              simp only [Option.map_some', beq_iff_eq, Option.some.injEq]
              omega

theorem histLoop_hist (getHours getDay : Int → Nat) (hasRecord : Str → Bool)
    (msgs : List Msg) :
    ∀ (h h1 : Histograms), histLoop getHours getDay hasRecord h msgs = some h1 →
    (∀ m ∈ msgs, hasRecord m.sender = true) →
    h1.hourlyData.length = h.hourlyData.length ∧
    h1.weekdayData.length = h.weekdayData.length ∧
    (∀ j, h1.hourlyData.getD j 0 = h.hourlyData.getD j 0 +
      msgs.countP (fun m => m.timestamp.map getHours == some j)) ∧
    (∀ j, h1.weekdayData.getD j 0 = h.weekdayData.getD j 0 +
      msgs.countP (fun m => m.timestamp.map getDay == some j)) := by
  induction msgs with
  | nil =>
    intro h h1 hl _
    simp only [histLoop, Option.some.injEq] at hl
    subst hl
    simp
  | cons msg rest ih =>
    intro h h1 hl hrec
    simp only [histLoop] at hl
    cases hstep : histStep getHours getDay hasRecord h msg with
    | none => rw [hstep] at hl; cases hl
    | some h2 =>
      rw [hstep] at hl
      obtain ⟨i1, i2, i3, i4⟩ := ih h2 h1 hl (fun m hm => hrec m (List.mem_cons_of_mem _ hm))
      unfold histStep at hstep
      rw [if_pos (hrec msg (List.mem_cons_self _ _))] at hstep
      cases ht : msg.timestamp with
      | none => rw [ht] at hstep; cases hstep
      | some t =>
        rw [ht] at hstep
        simp only at hstep
        cases hh : bumpAt h.hourlyData (getHours t) with
        | none => rw [hh] at hstep; cases hstep
        | some hourly =>
          rw [hh] at hstep
          simp only at hstep
          cases hw : bumpAt h.weekdayData (getDay t) with
          | none => rw [hw] at hstep; cases hstep
          | some weekday =>
            rw [hw] at hstep
            simp only at hstep
            cases hm : bumpCell h.peakActivityMatrix (getDay t) (getHours t) with
            | none => rw [hm] at hstep; cases hstep
            | some matrix =>
              rw [hm] at hstep
              simp only [Option.some.injEq] at hstep
              subst hstep
              simp only at i1 i2 i3 i4
              refine ⟨by rw [i1, (bumpAt_hist getHours _ _ t hh 0).1],
                by rw [i2, (bumpAt_hist getDay _ _ t hw 0).1], ?_, ?_⟩
              · intro j
                rw [i3 j, (bumpAt_hist getHours _ _ t hh j).2, List.countP_cons, ht]
                simp only [Option.map_some', beq_iff_eq, Option.some.injEq]
                omega
              · intro j
                rw [i4 j, (bumpAt_hist getDay _ _ t hw j).2, List.countP_cons, ht]
                simp only [Option.map_some', beq_iff_eq, Option.some.injEq]
                omega

theorem list_eq_of_getD (l1 l2 : List Nat) (hlen : l1.length = l2.length)
    (h : ∀ j, l1.getD j 0 = l2.getD j 0) : l1 = l2 := by
  apply List.ext_getElem hlen
  intro n h1 h2
  have := h n
  rw [List.getD_eq_getElem _ _ h1, List.getD_eq_getElem _ _ h2] at this
  exact this

/-- The record of a sender `s` that is no property name of `Object.prototype`
in the table of `useChatAnalytics`: none before the first message of `s`, then
the record with the counts of the messages of `s`. -/
theorem basicBump_record (table : Props BasicStat) (msg : Msg) (s : Str)
    (hs : s ∉ objectPrototypeKeys) (n k : Nat) (hk : n = 0 → k = 0)
    (h : (table.get s).map (fun q => (q.name, q.messages, q.media)) =
      if n = 0 then none else some (s, n, k)) :
    ((basicBump table msg).get s).map (fun q => (q.name, q.messages, q.media)) =
      if n + (if msg.sender = s then 1 else 0) = 0 then none
      else some (s, n + (if msg.sender = s then 1 else 0),
        k + (if msg.sender = s ∧ msg.isMedia = true then 1 else 0)) := by
  unfold basicBump
  by_cases hsend : msg.sender = s
  · subst hsend
    cases hg : table.get msg.sender with
    | none =>
      rw [hg] at h
      have hn : n = 0 := by
        by_contra hn
        rw [if_neg hn] at h
        cases h
      subst hn
      have hk0 := hk rfl
      subst hk0
      simp only [if_neg hs, Props.get_set_eq, Option.map_some']
      cases msg.isMedia <;> simp
    | some p =>
      rw [hg] at h
      have hn : ¬ n = 0 := by
        intro hn
        rw [if_pos hn] at h
        cases h
      rw [if_neg hn] at h
      simp only [Option.map_some', Option.some.injEq, Prod.mk.injEq] at h
      obtain ⟨h1, h2, h3⟩ := h
      simp only [Props.get_set_eq, Option.map_some', h1, h2, h3]
      cases msg.isMedia <;> simp
  · have hsend1 : s ≠ msg.sender := fun e => hsend e.symm
    have hkeep : (basicBump table msg).get s = table.get s := by
      unfold basicBump
      split
      · exact Props.get_set_ne _ _ _ _ hsend1
      · split
        · rfl
        · exact Props.get_set_ne _ _ _ _ hsend1
    unfold basicBump at hkeep
    rw [hkeep, h]
    simp [hsend]

theorem basicLoop_record (getHours getDay : Int → Nat) (s : Str)
    (hs : s ∉ objectPrototypeKeys) (msgs : List Msg) :
    ∀ (acc acc1 : BasicAcc) (n k : Nat), basicLoop getHours getDay acc msgs = some acc1 →
    (n = 0 → k = 0) →
    (acc.participantStats.get s).map (fun q => (q.name, q.messages, q.media)) =
      (if n = 0 then none else some (s, n, k)) →
    (acc1.participantStats.get s).map (fun q => (q.name, q.messages, q.media)) =
      if n + msgs.countP (fun m => decide (m.sender = s)) = 0 then none
      else some (s, n + msgs.countP (fun m => decide (m.sender = s)),
        k + msgs.countP (fun m => decide (m.sender = s) && m.isMedia)) := by
  induction msgs with
  | nil =>
    intro acc acc1 n k h _ hinv
    simp only [basicLoop, Option.some.injEq] at h
    subst h
    simpa using hinv
  | cons msg rest ih =>
    intro acc acc1 n k h hk hinv
    simp only [basicLoop] at h
    cases hstep : basicStep getHours getDay acc msg with
    | none => rw [hstep] at h; cases h
    | some acc2 =>
      rw [hstep] at h
      have hps : acc2.participantStats = basicBump acc.participantStats msg := by
        unfold basicStep at hstep
        split at hstep
        · cases hstep
        · split at hstep
          · cases hstep
          · split at hstep
            · cases hstep
            · cases hstep
              rfl
      have h1 := basicBump_record acc.participantStats msg s hs n k hk hinv
      rw [← hps] at h1
      have h2 := ih acc2 acc1 _ _ h (by
        intro h0
        have hn : n = 0 := by omega
        have hne : ¬ msg.sender = s := by
          intro e
          rw [if_pos e] at h0
          omega
        simp [hk hn, hne]) h1
      rw [h2]
      simp only [List.countP_cons, decide_eq_true_eq, Bool.and_eq_true]
      by_cases hsend : msg.sender = s
      · cases hm : msg.isMedia <;> simp [hsend, hm, Nat.add_assoc, Nat.add_comm]
      · simp [hsend]

theorem basicLoop_total (getHours getDay : Int → Nat)
    (hHours : ∀ t, getHours t < 24) (hDay : ∀ t, getDay t < 7) (msgs : List Msg) :
    ∀ (acc : BasicAcc), acc.hourlyData.length = 24 → acc.weekdayData.length = 7 →
    (∀ m ∈ msgs, ∃ t, m.timestamp = some t) →
    ∃ acc1, basicLoop getHours getDay acc msgs = some acc1 := by
  induction msgs with
  | nil => intro acc _ _ _; exact ⟨acc, rfl⟩
  | cons msg rest ih =>
    intro acc h1 h2 hvalid
    obtain ⟨t, ht⟩ := hvalid msg (List.mem_cons_self _ _)
    obtain ⟨hourly, hh⟩ := bumpAt_total acc.hourlyData (getHours t) (by rw [h1]; exact hHours t)
    obtain ⟨weekday, hw⟩ := bumpAt_total acc.weekdayData (getDay t) (by rw [h2]; exact hDay t)
    have hstep : basicStep getHours getDay acc msg = some
        { participantStats := basicBump acc.participantStats msg
          hourlyData := hourly
          weekdayData := weekday
          totalWords := acc.totalWords + msg.wordCount
          totalMedia := acc.totalMedia + (if msg.isMedia then 1 else 0) } := by
      unfold basicStep
      simp only [ht, hh, hw]
    simp only [basicLoop, hstep]
    apply ih _ _ _ (fun m hm => hvalid m (List.mem_cons_of_mem _ hm))
    · show hourly.length = 24
      rw [(bumpAt_some _ _ _ hh).2.1, h1]
    · show weekday.length = 7
      rw [(bumpAt_some _ _ _ hw).2.1, h2]

/-- The message and media counters of the record of `s` along the pass of
`useAdvancedStats`. -/
theorem mainLoop_counts (fns : DateFns) (targetWordLength : Nat) (msgs : List Msg) :
    ∀ (acc acc1 : Acc), mainLoop fns targetWordLength acc msgs = some acc1 →
    (∀ m ∈ msgs, (acc.participantStats.get m.sender).isSome) →
    ∀ (s : Str) (p : ParticipantStat), acc.participantStats.get s = some p →
    ∃ p1, acc1.participantStats.get s = some p1 ∧
      p1.messages = p.messages + msgs.countP (fun m => decide (m.sender = s)) ∧
      p1.media = p.media + msgs.countP (fun m => decide (m.sender = s) && m.isMedia) := by
  induction msgs with
  | nil =>
    intro acc acc1 h _ s p hs
    simp only [mainLoop, Option.some.injEq] at h
    subst h
    exact ⟨p, hs, by simp, by simp⟩
  | cons msg rest ih =>
    intro acc acc1 h hrec s p hs
    simp only [mainLoop] at h
    cases hstep : processMessage fns targetWordLength acc msg with
    | none => rw [hstep] at h; cases h
    | some acc2 =>
      rw [hstep] at h
      have hrec2 : ∀ m ∈ rest, (acc2.participantStats.get m.sender).isSome := fun m hm =>
        (processMessage_tables fns targetWordLength acc acc2 msg hstep m.sender).1
          (hrec m (List.mem_cons_of_mem _ hm))
      rcases processMessage_some fns targetWordLength acc acc2 msg hstep with
        ⟨hnone, -⟩ | ⟨p0, t, p3, wordMap, emojiMap, hget, ht, -, -, -⟩
      · have := hrec msg (List.mem_cons_self _ _)
        rw [hnone] at this
        cases this
      · obtain ⟨p4, pw, hset, -, -, hm, hmed, -⟩ :=
          processMessage_record fns targetWordLength acc acc2 msg p0 t hstep hget ht
        by_cases hsend : s = msg.sender
        · subst hsend
          rw [hget] at hs
          simp only [Option.some.injEq] at hs
          subst hs
          obtain ⟨p2, hp2, b1, b2⟩ := ih acc2 acc1 h hrec2 msg.sender p4
            (by rw [hset]; exact JSObj.get_after_set_eq _ _ _)
          refine ⟨p2, hp2, ?_, ?_⟩
          · rw [b1, hm, List.countP_cons]
            simp
            omega
          · rw [b2, hmed, List.countP_cons]
            cases msg.isMedia
            · simp
            · simp
              omega
        · have hsend1 : ¬ msg.sender = s := fun e => hsend e.symm
          obtain ⟨p2, hp2, b1, b2⟩ := ih acc2 acc1 h hrec2 s p
            (by rw [hset, JSObj.get_after_set_ne _ _ _ _ hsend]; exact hs)
          refine ⟨p2, hp2, ?_, ?_⟩
          · rw [b1, List.countP_cons]
            simp [hsend1]
          · rw [b2, List.countP_cons]
            simp [hsend1]

/-- With calendar functions that give an hour below 24 and a day of the week
below 7, `useChatAnalytics` does not throw. -/
theorem useChatAnalytics_total (fns : DateFns) (getDay : Int → Nat)
    (hHours : ∀ t, fns.getHours t < 24) (hDay : ∀ t, getDay t < 7)
    (rawMessages : Option (List Msg)) (timeFilter : Str) (selectedParticipants : List Str) :
    useChatAnalytics fns getDay rawMessages timeFilter selectedParticipants ≠ .typeError := by
  unfold useChatAnalytics
  simp only
  split
  · simp
  · obtain ⟨acc, hacc⟩ := basicLoop_total fns.getHours getDay hHours hDay
      (basicFiltered fns rawMessages timeFilter selectedParticipants)
      { participantStats := [], hourlyData := List.replicate 24 0,
        weekdayData := List.replicate 7 0, totalWords := 0, totalMedia := 0 }
      (by simp) (by simp) (fun m hm => (mem_basicFiltered _ _ _ _ _ hm).2)
    rw [hacc]
    simp

/-- Where the two hooks overlap.  When both yield a result object, they report
the same `totalMessages`; the histograms `hourlyData` and `weekdayData` of
`useAdvancedStats` are those of `useChatAnalytics`; and for every sender with a
filtered message whose name is no property name of `Object.prototype`, each
result holds a record of that name, with the same `messages` and the same
`media` count. -/
theorem hooks_agree_off_prototype_names (fns : DateFns) (getDay : Int → Nat)
    (rawMessages : Option (List Msg)) (timeFilter : Str) (selectedParticipants : List Str)
    (targetWordLength : Nat) (r : StatsResult) (b : BasicResult)
    (hr : useAdvancedStats fns rawMessages timeFilter selectedParticipants targetWordLength =
      .result r)
    (hb : useChatAnalytics fns getDay rawMessages timeFilter selectedParticipants = .result b) :
    b.totalMessages = r.totalMessages ∧
    (∀ h, histograms fns getDay selectedParticipants
        (filteredMessages fns rawMessages timeFilter selectedParticipants) = some h →
      h.hourlyData = b.hourlyData ∧ h.weekdayData = b.weekdayData) ∧
    (∀ s, s ∉ objectPrototypeKeys →
      (∃ m ∈ filteredMessages fns rawMessages timeFilter selectedParticipants, m.sender = s) →
      ∃ p ∈ r.participantStats, ∃ q ∈ b.participantStats,
        p.name = s ∧ q.name = s ∧ p.messages = q.messages ∧ p.media = q.media) := by
  have hperm := basicFiltered_perm fns rawMessages timeFilter selectedParticipants
  unfold useAdvancedStats computeStats at hr
  split at hr
  · cases hr
  split at hr
  · cases hr
  next acc hloop =>
  simp only [Stats.result.injEq] at hr
  subst hr
  unfold useChatAnalytics at hb
  simp only at hb
  split at hb
  · cases hb
  split at hb
  · cases hb
  next bacc hbloop =>
  simp only [BasicStats.result.injEq] at hb
  subst hb
  have hrec : ∀ m ∈ filteredMessages fns rawMessages timeFilter selectedParticipants,
      ((Acc.init selectedParticipants).participantStats.get m.sender).isSome := by
    intro m hm
    exact (init_tables selectedParticipants m.sender (mem_filteredMessages _ _ _ _ _ hm).1).1
  refine ⟨hperm.length_eq.symm, ?_, ?_⟩
  · intro h hh
    obtain ⟨a1, a2, a3, a4⟩ := basicLoop_hist fns.getHours getDay _ _ _ hbloop
    obtain ⟨b1, b2, b3, b4⟩ := histLoop_hist fns.getHours getDay _ _ _ _ hh
      (fun m hm => hrec m hm)
    refine ⟨list_eq_of_getD _ _ (by rw [b1, a1]; rfl) ?_,
      list_eq_of_getD _ _ (by rw [b2, a2]; rfl) ?_⟩
    · intro j
      rw [b3 j, a3 j, hperm.countP_eq]
      rfl
    · intro j
      rw [b4 j, a4 j, hperm.countP_eq]
      rfl
  · intro s hs hex
    have hsel : s ∈ selectedParticipants := by
      obtain ⟨m, hm, rfl⟩ := hex
      exact (mem_filteredMessages _ _ _ _ _ hm).1
    have hpos : 0 < (filteredMessages fns rawMessages timeFilter selectedParticipants).countP
        (fun m => decide (m.sender = s)) := by
      obtain ⟨m, hm, hms⟩ := hex
      exact List.countP_pos_iff.mpr ⟨m, hm, by simpa using hms⟩
    have hne : s ≠ protoKey := by
      intro e
      apply hs
      rw [e]
      decide
    -- the record of `useAdvancedStats`
    obtain ⟨p0, hp0⟩ := Option.isSome_iff_exists.mp (init_tables selectedParticipants s hsel).1
    obtain ⟨z1, z2, z3, z4, z5, z6, -⟩ := get_init_record selectedParticipants s p0 hp0
    obtain ⟨p, hp, c1, c2⟩ := mainLoop_counts fns targetWordLength _ _ acc hloop hrec s p0 hp0
    have hpmem : (s, p) ∈ acc.participantStats.props := by
      unfold JSObj.get at hp
      rw [if_neg hne] at hp
      exact Props.mem_of_get _ _ _ hp
    have hkeys := mainLoop_keys fns targetWordLength (Acc.init selectedParticipants) _ _ _
      hloop ⟨rfl, rfl, rfl, by
        intro kv hkv
        rw [(init_values selectedParticipants).2.2 kv hkv]
        rfl⟩
    -- the record of `useChatAnalytics`
    have hq := basicLoop_record fns.getHours getDay s hs _ _ bacc 0 0 hbloop (fun _ => rfl)
      (by simp [Props.get])
    rw [← hperm.countP_eq, ← hperm.countP_eq] at hq
    simp only [Nat.zero_add] at hq
    rw [if_neg (by omega)] at hq
    cases hqg : bacc.participantStats.get s with
    | none => rw [hqg] at hq; cases hq
    | some q =>
      rw [hqg] at hq
      simp only [Option.map_some', Option.some.injEq, Prod.mk.injEq] at hq
      obtain ⟨q1, q2, q3⟩ := hq
      refine ⟨p, ?_, q, ?_, hkeys.2.2.2 _ hpmem, q1, ?_, ?_⟩
      · exact List.mem_map.mpr ⟨(s, p), (Props.entries_perm _).mem_iff.mpr hpmem, rfl⟩
      · apply (mem_sortDesc _ _ _).mpr
        exact List.mem_map.mpr
          ⟨(s, q), (Props.entries_perm _).mem_iff.mpr (Props.mem_of_get _ _ _ hqg), rfl⟩
      · rw [c1, z5, q2, Nat.zero_add]
      · rw [c2, z6, q3, Nat.zero_add]

/-- C38 (the code at the failing inputs). First input: the chat line
`12/25/2023, 9:15 PM - Bob: Use the constructor pattern` parsed by `parseChat`,
Bob selected, selector `all`.  `useChatAnalytics` returns a result object, one
message at hour 21 of a Monday with four words; `useAdvancedStats` throws a
TypeError on the word `constructor`, in the default vocabulary mode and under
the exact length 11.  Second input: one message of a sender named
`constructor` and one of B, both selected.  Both hooks return a result object
with `totalMessages` 2; `useAdvancedStats` holds a record with one message for
each sender, `useChatAnalytics` holds the record of B alone. -/
theorem hooks_disagree_on_prototype_names :
    (useChatAnalytics refDateFns refGetDay
        (some (parseChat refHost 0
          "12/25/2023, 9:15 PM - Bob: Use the constructor pattern".toList).messages)
        "all".toList ["Bob".toList]).toOption.map
      (fun b => (b.totalMessages, b.totalWords, b.hourlyData.getD 21 0,
        b.weekdayData.getD 1 0)) = some (1, 4, 1, 1) ∧
    useAdvancedStats refDateFns
        (some (parseChat refHost 0
          "12/25/2023, 9:15 PM - Bob: Use the constructor pattern".toList).messages)
        "all".toList ["Bob".toList] 0 = .typeError ∧
    useAdvancedStats refDateFns
        (some (parseChat refHost 0
          "12/25/2023, 9:15 PM - Bob: Use the constructor pattern".toList).messages)
        "all".toList ["Bob".toList] 11 = .typeError ∧
    (useChatAnalytics refDateFns refGetDay
        (some [mkMsg "constructor".toList 0 [] [], mkMsg "B".toList 1 [] []])
        "all".toList ["constructor".toList, "B".toList]).toOption.map
      (fun b => (b.totalMessages, b.participantStats.map (fun q => (q.name, q.messages)))) =
      some (2, [("B".toList, 1)]) ∧
    (useAdvancedStats refDateFns
        (some [mkMsg "constructor".toList 0 [] [], mkMsg "B".toList 1 [] []])
        "all".toList ["constructor".toList, "B".toList] 0).toOption.map
      (fun r => (r.totalMessages, r.participantStats.map (fun p => (p.name, p.messages)))) =
      some (2, [("constructor".toList, 1), ("B".toList, 1)]) := by
  refine ⟨?_, ?_, ?_, ?_, ?_⟩ <;> decide

/-! ## What does not depend on the state of the emoji pattern -/

theorem newMessage_withoutWords (host : Host) (li1 li2 : Nat)
    (dateStr timeStr sender content : Str) :
    (newMessage host li1 dateStr timeStr sender content).withoutWords =
      (newMessage host li2 dateStr timeStr sender content).withoutWords := rfl

theorem appendLine_withoutWords (m1 m2 : Msg) (cl : Str) (w : List Str)
    (h : m1.withoutWords = m2.withoutWords) :
    (appendLine m1 cl w).withoutWords = (appendLine m2 cl w).withoutWords := by
  unfold Msg.withoutWords at h
  simp only [Msg.mk.injEq] at h
  obtain ⟨h1, h2, h3, h4, h5, h6, h7, h8, h9, -, -⟩ := h
  simp only [appendLine, Msg.withoutWords, Msg.mk.injEq, h1, h2, h3, h4, h5, h6, h7, h8, h9,
    and_self]

/-- The loop body keeps two states in step that differ only in `lastIndex` and
in the words of their messages. -/
theorem parseLine_withoutWords (host : Host) (st1 st2 : ParserState) (line : Str)
    (hm : st1.messages.map Msg.withoutWords = st2.messages.map Msg.withoutWords)
    (hc : st1.currentMsg.map Msg.withoutWords = st2.currentMsg.map Msg.withoutWords)
    (hp : st1.pushed = st2.pushed) (hs : st1.participants = st2.participants) :
    (parseLine host st1 line).messages.map Msg.withoutWords =
      (parseLine host st2 line).messages.map Msg.withoutWords ∧
    (parseLine host st1 line).currentMsg.map Msg.withoutWords =
      (parseLine host st2 line).currentMsg.map Msg.withoutWords ∧
    (parseLine host st1 line).pushed = (parseLine host st2 line).pushed ∧
    (parseLine host st1 line).participants = (parseLine host st2 line).participants := by
  unfold parseLine
  simp only
  split
  · exact ⟨hm, hc, hp, hs⟩
  · cases hh : matchHeader (trim (removeMarks line)) with
    | some h =>
      simp only
      cases c1 : st1.currentMsg with
      | none =>
        cases c2 : st2.currentMsg with
        | none =>
          split
          · exact ⟨hm, by rw [c1, c2], hp, hs⟩
          · simp only [ParserState.aliases, c1, c2, List.append_nil, Option.map_some']
            exact ⟨hm, by rw [newMessage_withoutWords host st1.lastIndex st2.lastIndex], trivial,
              by rw [hs]⟩
        | some m2 => rw [c1, c2] at hc; cases hc
      | some m1 =>
        cases c2 : st2.currentMsg with
        | none => rw [c1, c2] at hc; cases hc
        | some m2 =>
          rw [c1, c2] at hc
          simp only [Option.map_some', Option.some.injEq] at hc
          split
          · exact ⟨hm, by simp only [c1, c2, Option.map_some', hc], by simp only [hp], hs⟩
          · simp only [ParserState.aliases, c1, c2, List.map_append, List.map_replicate,
              Option.map_some', hm, hc, hp]
            exact ⟨trivial, by rw [newMessage_withoutWords host st1.lastIndex st2.lastIndex],
              trivial, by rw [hs]⟩
    | none =>
      simp only
      cases c1 : st1.currentMsg with
      | none =>
        cases c2 : st2.currentMsg with
        | none => exact ⟨hm, by rw [c1, c2], hp, hs⟩
        | some m2 => rw [c1, c2] at hc; cases hc
      | some m1 =>
        cases c2 : st2.currentMsg with
        | none => rw [c1, c2] at hc; cases hc
        | some m2 =>
          rw [c1, c2] at hc
          simp only [Option.map_some', Option.some.injEq] at hc
          exact ⟨hm, by simp only [Option.map_some', appendLine_withoutWords m1 m2 _ _ hc],
            hp, hs⟩

theorem foldl_parseLine_withoutWords (host : Host) (lines : List Str) :
    ∀ (st1 st2 : ParserState),
    st1.messages.map Msg.withoutWords = st2.messages.map Msg.withoutWords →
    st1.currentMsg.map Msg.withoutWords = st2.currentMsg.map Msg.withoutWords →
    st1.pushed = st2.pushed → st1.participants = st2.participants →
    (lines.foldl (parseLine host) st1).flush.map Msg.withoutWords =
      (lines.foldl (parseLine host) st2).flush.map Msg.withoutWords ∧
    (lines.foldl (parseLine host) st1).participants =
      (lines.foldl (parseLine host) st2).participants := by
  induction lines with
  | nil =>
    intro st1 st2 hm hc hp hs
    refine ⟨?_, hs⟩
    simp only [List.foldl_nil, ParserState.flush]
    cases c1 : st1.currentMsg with
    | none =>
      cases c2 : st2.currentMsg with
      | none => exact hm
      | some m2 => rw [c1, c2] at hc; cases hc
    | some m1 =>
      cases c2 : st2.currentMsg with
      | none => rw [c1, c2] at hc; cases hc
      | some m2 =>
        rw [c1, c2] at hc
        simp only [Option.map_some', Option.some.injEq] at hc
        simp only [List.map_append, List.map_replicate, hm, hc, hp]
  | cons l ls ih =>
    intro st1 st2 hm hc hp hs
    obtain ⟨a1, a2, a3, a4⟩ := parseLine_withoutWords host st1 st2 l hm hc hp hs
    exact ih _ _ a1 a2 a3 a4

theorem sortByTimestamp_withoutWords (l : List Msg) :
    (sortByTimestamp l).map Msg.withoutWords = sortByTimestamp (l.map Msg.withoutWords) := by
  unfold sortByTimestamp
  exact List.map_insertionSort tsLE tsLE Msg.withoutWords l (fun a _ b _ => Iff.rfl)

/-- Apart from `words` and `wordCount`, the result of `parseChat` does not
depend on the `lastIndex` that `EMOJI_REGEX` holds when the call begins: the
messages agree on timestamp, sender, content, flags, `linkCount`, `emojis` and
`charCount`, and the participants are the same. -/
theorem parseChat_withoutWords (host : Host) (li1 li2 : Nat) (fileContent : Str) :
    (parseChat host li1 fileContent).messages.map Msg.withoutWords =
      (parseChat host li2 fileContent).messages.map Msg.withoutWords ∧
    (parseChat host li1 fileContent).participants =
      (parseChat host li2 fileContent).participants := by
  obtain ⟨h1, h2⟩ := foldl_parseLine_withoutWords host (splitLines fileContent)
    (ParserState.init li1) (ParserState.init li2) rfl rfl rfl rfl
  unfold parseChat parseLines
  simp only
  refine ⟨?_, h2⟩
  rw [sortByTimestamp_withoutWords, sortByTimestamp_withoutWords, h1]

/-! ## Soundness of the matcher -/

theorem starRun_sound {α : Type} (p : Char → Bool) (s : Str) (k : Str → Option α) (r : α)
    (h : starRun p s k = some r) :
    ∃ pre s1, s = pre ++ s1 ∧ (∀ c ∈ pre, p c = true) ∧ k s1 = some r := by
  induction s with
  | nil => exact ⟨[], [], rfl, by simp, h⟩
  | cons c cs ih =>
    unfold starRun at h
    split at h
    · next hp =>
      split at h
      · next r1 h1 =>
        cases h
        obtain ⟨pre, s1, hs, hpre, hk⟩ := ih h1
        refine ⟨c :: pre, s1, by rw [hs]; rfl, ?_, hk⟩
        intro x hx
        rcases List.mem_cons.mp hx with hx | hx
        · rw [hx]; exact hp
        · exact hpre x hx
      · exact ⟨[], c :: cs, rfl, by simp, h⟩
    · exact ⟨[], c :: cs, rfl, by simp, h⟩

/-- Whenever the matcher succeeds, the pattern matches a prefix of the text
and the continuation has run on the rest, with the captures of the prefix
appended. -/
theorem Re.run_sound {α : Type} (re : Re) :
    ∀ (s : Str) (caps : List Str) (k : Str → List Str → Option α) (r : α),
    Re.run re s caps k = some r →
    ∃ pre s1 n, s = pre ++ s1 ∧ Re.Derives re pre n ∧ k s1 (caps ++ n) = some r := by
  induction re with
  | cls p =>
    intro s caps k r h
    cases s with
    | nil => simp [Re.run] at h
    | cons c cs =>
      simp only [Re.run] at h
      split at h
      · next hp => exact ⟨[c], cs, [], rfl, Re.Derives.cls p c hp, by simpa using h⟩
      · cases h
  | seq a b iha ihb =>
    intro s caps k r h
    simp only [Re.run] at h
    obtain ⟨pre1, s1, n1, hs1, hd1, h1⟩ := iha s caps _ r h
    obtain ⟨pre2, s2, n2, hs2, hd2, h2⟩ := ihb s1 (caps ++ n1) k r h1
    refine ⟨pre1 ++ pre2, s2, n1 ++ n2, by rw [hs1, hs2, List.append_assoc],
      Re.Derives.seq a b pre1 pre2 n1 n2 hd1 hd2, ?_⟩
    rw [← List.append_assoc]
    exact h2
  | opt a iha =>
    intro s caps k r h
    simp only [Re.run] at h
    split at h
    · next r1 h1 =>
      cases h
      obtain ⟨pre, s1, n, hs, hd, hk⟩ := iha s caps k _ h1
      exact ⟨pre, s1, n, hs, Re.Derives.optSome a pre n hd, hk⟩
    · exact ⟨[], s, [], rfl, Re.Derives.optNone a, by simpa using h⟩
  | star p =>
    intro s caps k r h
    simp only [Re.run] at h
    obtain ⟨pre, s1, hs, hpre, hk⟩ := starRun_sound p s _ r h
    exact ⟨pre, s1, [], hs, Re.Derives.star p pre hpre, by simpa using hk⟩
  | group a iha =>
    intro s caps k r h
    simp only [Re.run] at h
    obtain ⟨pre, s1, n, hs, hd, hk⟩ := iha s caps _ r h
    refine ⟨pre, s1, n ++ [pre], hs, Re.Derives.group a pre n hd, ?_⟩
    have htake : s.take (s.length - s1.length) = pre := by
      rw [hs]
      simp
    rw [htake, List.append_assoc] at hk
    exact hk
  | eoi =>
    intro s caps k r h
    simp only [Re.run] at h
    split at h
    · next he =>
      have hnil : s = [] := List.isEmpty_iff.mp he
      subst hnil
      exact ⟨[], [], [], rfl, Re.Derives.eoi, by simpa using h⟩
    · cases h

theorem Re.Derives.no_caps (re : Re) (s : Str) (n : List Str) (h : Re.Derives re s n) :
    re.groupless = true → n = [] := by
  induction h with
  | cls p c _ => intro _; rfl
  | seq a b s1 s2 n1 n2 _ _ iha ihb =>
    intro hg
    simp only [Re.groupless, Bool.and_eq_true] at hg
    rw [iha hg.1, ihb hg.2]
    rfl
  | optSome a s n _ ih => intro hg; exact ih hg
  | optNone a => intro _; rfl
  | star p s _ => intro _; rfl
  | group a s n _ _ => intro hg; cases hg
  | eoi => intro _; rfl

theorem Re.Derives.not_mem (x : Char) (re : Re) (s : Str) (n : List Str)
    (h : Re.Derives re s n) : re.excludes x = true → x ∉ s := by
  induction h with
  | cls p c hp =>
    intro he hx
    simp only [List.mem_singleton] at hx
    subst hx
    simp [Re.excludes, hp] at he
  | seq a b s1 s2 n1 n2 _ _ iha ihb =>
    intro he hx
    simp only [Re.excludes, Bool.and_eq_true] at he
    rcases List.mem_append.mp hx with hx | hx
    · exact iha he.1 hx
    · exact ihb he.2 hx
  | optSome a s n _ ih => intro he; exact ih he
  | optNone a => intro _ hx; cases hx
  | star p s hs =>
    intro he hx
    simp [Re.excludes, hs x hx] at he
  | group a s n _ ih => intro he; exact ih he
  | eoi => intro _ hx; cases hx

theorem Re.Derives.seq_inv (a b : Re) (s : Str) (n : List Str)
    (h : Re.Derives (.seq a b) s n) :
    ∃ s1 s2 n1 n2, s = s1 ++ s2 ∧ n = n1 ++ n2 ∧ Re.Derives a s1 n1 ∧ Re.Derives b s2 n2 := by
  cases h with
  | seq _ _ s1 s2 n1 n2 h1 h2 => exact ⟨s1, s2, n1, n2, rfl, rfl, h1, h2⟩

theorem Re.Derives.group_inv (a : Re) (s : Str) (n : List Str)
    (h : Re.Derives (.group a) s n) : ∃ n1, n = n1 ++ [s] ∧ Re.Derives a s n1 := by
  cases h with
  | group _ _ n1 h1 => exact ⟨n1, rfl, h1⟩

theorem Re.Derives.cls_inv (p : Char → Bool) (s : Str) (n : List Str)
    (h : Re.Derives (.cls p) s n) : ∃ c, s = [c] ∧ p c = true := by
  cases h with
  | cls _ c hp => exact ⟨c, rfl, hp⟩

theorem Re.Derives.opt_inv (a : Re) (s : Str) (n : List Str)
    (h : Re.Derives (.opt a) s n) : s = [] ∨ Re.Derives a s n := by
  cases h with
  | optSome _ _ _ h1 => exact Or.inr h1
  | optNone _ => exact Or.inl rfl

/-- A pattern without groups in front of the rest of a sequence. -/
theorem Re.Derives.seq_skip (a b : Re) (s : Str) (n : List Str)
    (h : Re.Derives (.seq a b) s n) (ha : a.groupless = true) :
    ∃ s1 s2, s = s1 ++ s2 ∧ Re.Derives a s1 [] ∧ Re.Derives b s2 n := by
  obtain ⟨s1, s2, n1, n2, hs, hn, h1, h2⟩ := Re.Derives.seq_inv a b s n h
  have hn1 := Re.Derives.no_caps a s1 n1 h1 ha
  subst hn1
  rw [hn]
  exact ⟨s1, s2, hs, h1, h2⟩

/-- A group without inner groups in front of the rest of a sequence: its
capture is the first one. -/
theorem Re.Derives.seq_group (a b : Re) (s : Str) (n : List Str)
    (h : Re.Derives (.seq (.group a) b) s n) (ha : a.groupless = true) :
    ∃ s1 s2 n2, s = s1 ++ s2 ∧ n = s1 :: n2 ∧ Re.Derives a s1 [] ∧ Re.Derives b s2 n2 := by
  obtain ⟨s1, s2, n1, n2, hs, hn, h1, h2⟩ := Re.Derives.seq_inv _ b s n h
  obtain ⟨n0, hn0, h0⟩ := Re.Derives.group_inv a s1 n1 h1
  have hz := Re.Derives.no_caps a s1 n0 h0 ha
  subst hz
  rw [hn, hn0]
  exact ⟨s1, s2, n2, hs, rfl, h0, h2⟩

theorem Re.Derives.digits12_inv (s : Str) (n : List Str) (h : Re.Derives Re.digits12 s n) :
    (∃ a, isDigit a = true ∧ s = [a]) ∨
    (∃ a b, isDigit a = true ∧ isDigit b = true ∧ s = [a, b]) := by
  unfold Re.digits12 Re.digit at h
  obtain ⟨s1, s2, n1, n2, hs, -, h1, h2⟩ := Re.Derives.seq_inv _ _ s n h
  obtain ⟨a, rfl, ha⟩ := Re.Derives.cls_inv _ _ _ h1
  rcases Re.Derives.opt_inv _ _ _ h2 with rfl | h3
  · exact Or.inl ⟨a, ha, hs⟩
  · obtain ⟨b, rfl, hb⟩ := Re.Derives.cls_inv _ _ _ h3
    exact Or.inr ⟨a, b, ha, hb, hs⟩

theorem Re.Derives.digits24_inv (s : Str) (n : List Str) (h : Re.Derives Re.digits24 s n) :
    (∃ a b, isDigit a = true ∧ isDigit b = true ∧ s = [a, b]) ∨
    (∃ a b c, isDigit a = true ∧ isDigit b = true ∧ isDigit c = true ∧ s = [a, b, c]) ∨
    (∃ a b c d, isDigit a = true ∧ isDigit b = true ∧ isDigit c = true ∧ isDigit d = true ∧
      s = [a, b, c, d]) := by
  unfold Re.digits24 Re.digit at h
  obtain ⟨s1, s2, n1, n2, hs, -, h1, h2⟩ := Re.Derives.seq_inv _ _ s n h
  obtain ⟨a, rfl, ha⟩ := Re.Derives.cls_inv _ _ _ h1
  obtain ⟨s3, s4, n3, n4, hs2, -, h3, h4⟩ := Re.Derives.seq_inv _ _ s2 n2 h2
  obtain ⟨b, rfl, hb⟩ := Re.Derives.cls_inv _ _ _ h3
  subst hs2
  rcases Re.Derives.opt_inv _ _ _ h4 with rfl | h5
  · exact Or.inl ⟨a, b, ha, hb, hs⟩
  · obtain ⟨s5, s6, n5, n6, hs5, -, h6, h7⟩ := Re.Derives.seq_inv _ _ s4 n4 h5
    obtain ⟨c, rfl, hc⟩ := Re.Derives.cls_inv _ _ _ h6
    subst hs5
    rcases Re.Derives.opt_inv _ _ _ h7 with rfl | h8
    · exact Or.inr (Or.inl ⟨a, b, c, ha, hb, hc, hs⟩)
    · obtain ⟨d, rfl, hd⟩ := Re.Derives.cls_inv _ _ _ h8
      exact Or.inr (Or.inr ⟨a, b, c, d, ha, hb, hc, hd, hs⟩)

/-- The date capture of a header line is two groups of one or two digits and
a group of two to four digits, separated by a slash or a dash each; the time
capture holds no dash. -/
theorem matchHeader_date_shape (cl : Str) (h : HeaderMatch) (hm : matchHeader cl = some h) :
    (∃ (g1 g2 g3 : Str) (sep1 sep2 : Char),
      h.dateStr = g1 ++ sep1 :: (g2 ++ sep2 :: g3) ∧
      (sep1 = '/' ∨ sep1 = '-') ∧ (sep2 = '/' ∨ sep2 = '-') ∧
      Re.Derives Re.digits12 g1 [] ∧ Re.Derives Re.digits12 g2 [] ∧
      Re.Derives Re.digits24 g3 []) ∧
    '-' ∉ h.timeStr := by
  unfold matchHeader at hm
  split at hm
  · next d t s c hrun =>
    cases hm
    obtain ⟨pre, s1, n, -, hd, hk⟩ := Re.run_sound headerRegex cl [] _ _ hrun
    simp only [List.nil_append, Option.some.injEq] at hk
    subst hk
    unfold headerRegex at hd
    simp only [Re.cat] at hd
    obtain ⟨a1, a2, -, -, hd1⟩ := Re.Derives.seq_skip _ _ _ _ hd rfl
    obtain ⟨dd, a3, n2, -, hn, hdate, hd2⟩ := Re.Derives.seq_group _ _ _ _ hd1 rfl
    simp only [List.cons.injEq] at hn
    obtain ⟨rfl, rfl⟩ := hn
    obtain ⟨a4, a5, -, -, hd3⟩ := Re.Derives.seq_skip _ _ _ _ hd2 rfl
    obtain ⟨a6, a7, -, -, hd4⟩ := Re.Derives.seq_skip _ _ _ _ hd3 rfl
    obtain ⟨tt, a8, n3, -, hn3, htime, -⟩ := Re.Derives.seq_group _ _ _ _ hd4 rfl
    simp only [List.cons.injEq] at hn3
    obtain ⟨rfl, -⟩ := hn3
    refine ⟨?_, Re.Derives.not_mem '-' _ _ _ htime (by decide)⟩
    obtain ⟨g1, r1, m1, m2, hs1, hm1, hg1, hr1⟩ := Re.Derives.seq_inv _ _ _ _ hdate
    obtain ⟨p1, r2, m3, m4, hs2, hm2, hp1, hr2⟩ := Re.Derives.seq_inv _ _ _ _ hr1
    obtain ⟨g2, r3, m5, m6, hs3, hm3, hg2, hr3⟩ := Re.Derives.seq_inv _ _ _ _ hr2
    obtain ⟨p2, g3, m7, m8, hs4, hm4, hp2, hg3⟩ := Re.Derives.seq_inv _ _ _ _ hr3
    obtain ⟨sep1, rfl, hsep1⟩ := Re.Derives.cls_inv _ _ _ hp1
    obtain ⟨sep2, rfl, hsep2⟩ := Re.Derives.cls_inv _ _ _ hp2
    have e1 := Re.Derives.no_caps _ _ _ hg1 rfl
    have e2 := Re.Derives.no_caps _ _ _ hg2 rfl
    have e3 := Re.Derives.no_caps _ _ _ hg3 rfl
    subst e1 e2 e3
    refine ⟨g1, g2, g3, sep1, sep2, ?_, ?_, ?_, hg1, hg2, hg3⟩
    · rw [hs1, hs2, hs3, hs4]
      rfl
    · simpa using hsep1
    · simpa using hsep2
  · cases hm

theorem map_dash_of_not_mem (l : Str) (h : '-' ∉ l) :
    l.map (fun c => if c = '-' then '/' else c) = l := by
  induction l with
  | nil => rfl
  | cons x xs ih =>
    have hx : x ≠ '-' := fun e => h (by rw [e]; exact List.mem_cons_self _ _)
    simp only [List.map_cons, if_neg hx]
    rw [ih (fun hm => h (List.mem_cons_of_mem _ hm))]

theorem sep_to_slash (c : Char) (h : c = '/' ∨ c = '-') : (if c = '-' then '/' else c) = '/' := by
  rcases h with rfl | rfl <;> decide

/-- The normalized text of a header date: the separators are slashes. -/
theorem normDate_shape (g1 g2 g3 timeStr : Str) (sep1 sep2 : Char)
    (h1 : sep1 = '/' ∨ sep1 = '-') (h2 : sep2 = '/' ∨ sep2 = '-')
    (hg1 : Re.Derives Re.digits12 g1 []) (hg2 : Re.Derives Re.digits12 g2 [])
    (hg3 : Re.Derives Re.digits24 g3 []) (ht : '-' ∉ timeStr) :
    normDate (g1 ++ sep1 :: (g2 ++ sep2 :: g3)) timeStr =
      g1 ++ '/' :: (g2 ++ '/' :: (g3 ++ ' ' :: timeStr)) := by
  have e1 := map_dash_of_not_mem g1 (Re.Derives.not_mem '-' _ _ _ hg1 (by decide))
  have e2 := map_dash_of_not_mem g2 (Re.Derives.not_mem '-' _ _ _ hg2 (by decide))
  have e3 := map_dash_of_not_mem g3 (Re.Derives.not_mem '-' _ _ _ hg3 (by decide))
  have e4 := map_dash_of_not_mem timeStr ht
  unfold normDate
  simp only [List.map_append, List.map_cons, List.append_assoc, List.cons_append, e1, e2, e3, e4,
    sep_to_slash sep1 h1, sep_to_slash sep2 h2]
  rfl

theorem take_prefix_len (pre rest : Str) :
    (pre ++ rest).take ((pre ++ rest).length - rest.length) = pre := by
  simp

/-- The date pattern on a normalized header date: the three groups are those
of the date, and the rest is the blank and the time. -/
theorem matchDateParts_shape (g1 g2 g3 timeStr : Str)
    (hg1 : Re.Derives Re.digits12 g1 []) (hg2 : Re.Derives Re.digits12 g2 [])
    (hg3 : Re.Derives Re.digits24 g3 []) :
    matchDateParts (g1 ++ '/' :: (g2 ++ '/' :: (g3 ++ ' ' :: timeStr))) =
      some (g1, g2, g3, ' ' :: timeStr) := by
  have hs : isDigit '/' = false := by decide
  have hb : isDigit ' ' = false := by decide
  have t1 : ∀ (a : Char) (rest : Str),
      (a :: rest).take ((a :: rest).length - rest.length) = [a] :=
    fun a rest => take_prefix_len [a] rest
  have t2 : ∀ (a b : Char) (rest : Str),
      (a :: b :: rest).take ((a :: b :: rest).length - rest.length) = [a, b] :=
    fun a b rest => take_prefix_len [a, b] rest
  have t3 : ∀ (a b c : Char) (rest : Str),
      (a :: b :: c :: rest).take ((a :: b :: c :: rest).length - rest.length) = [a, b, c] :=
    fun a b c rest => take_prefix_len [a, b, c] rest
  have t4 : ∀ (a b c d : Char) (rest : Str),
      (a :: b :: c :: d :: rest).take ((a :: b :: c :: d :: rest).length - rest.length) =
        [a, b, c, d] :=
    fun a b c d rest => take_prefix_len [a, b, c, d] rest
  rcases Re.Derives.digits12_inv g1 [] hg1 with ⟨a, ha, rfl⟩ | ⟨a, a', ha, ha', rfl⟩ <;>
  rcases Re.Derives.digits12_inv g2 [] hg2 with ⟨b, hb1, rfl⟩ | ⟨b, b', hb1, hb', rfl⟩ <;>
  rcases Re.Derives.digits24_inv g3 [] hg3 with
    ⟨c, d, hc, hd, rfl⟩ | ⟨c, d, e, hc, hd, he, rfl⟩ | ⟨c, d, e, f, hc, hd, he, hf, rfl⟩ <;>
  simp only [matchDateParts, datePartsRegex, Re.cat, Re.run, Re.digits12, Re.digits24, Re.digit,
    Re.chr, List.cons_append, List.nil_append, List.singleton_append, hs, hb, beq_self_eq_true,
    if_true, Bool.false_eq_true, if_false, List.append_eq, t1, t2, t3, t4, *]

theorem Re.Derives.digits12_shape (s : Str) (n : List Str) (h : Re.Derives Re.digits12 s n) :
    (∀ c ∈ s, isDigit c = true) ∧ 1 ≤ s.length ∧ s.length ≤ 2 := by
  rcases Re.Derives.digits12_inv s n h with ⟨a, ha, rfl⟩ | ⟨a, b, ha, hb, rfl⟩
  · exact ⟨by simpa using ha, by simp, by simp⟩
  · exact ⟨by simpa using And.intro ha hb, by simp, by simp⟩

theorem Re.Derives.digits24_shape (s : Str) (n : List Str) (h : Re.Derives Re.digits24 s n) :
    (∀ c ∈ s, isDigit c = true) ∧ 2 ≤ s.length ∧ s.length ≤ 4 := by
  rcases Re.Derives.digits24_inv s n h with
    ⟨a, b, ha, hb, rfl⟩ | ⟨a, b, c, ha, hb, hc, rfl⟩ | ⟨a, b, c, d, ha, hb, hc, hd, rfl⟩
  · exact ⟨by simpa using And.intro ha hb, by simp, by simp⟩
  · exact ⟨by simpa using And.intro ha (And.intro hb hc), by simp, by simp⟩
  · exact ⟨by simpa using And.intro ha (And.intro hb (And.intro hc hd)), by simp, by simp⟩

/-- C7. Date disambiguation, for every line that `parseChat` reads as the
header of a message.  The date capture is `g1 sep1 g2 sep2 g3`: two groups of
one or two digits and a group of two to four digits, each separator a slash
or a dash; the text handed to date parsing has the separators replaced by
slashes and the time after a blank.  When `g1` exceeds 12 the engine is given
the text with the first two groups swapped, so that `g1` is the day and `g2`
the month.  When `g1` is at most 12 and the text parses as written, the
engine is given the text as written, so that `g1` is the month; when it does
not parse as written, the swapped text is tried.  For the headers
`25/08/2024, 10:00 AM - Alice: hi` and `25-08-2024, 10:00 AM - Alice: hi` the
engine parses `08/25/2024 10:00 AM` (day 25, month 8); for
`03/04/2024, 10:00 AM - Alice: hi` and `03-04-2024, 10:00 AM - Alice: hi` it
parses `03/04/2024 10:00 AM` (month 3, day 4). -/
theorem parseChat_date_disambiguation (host : Host) (st : ParserState) (line : Str)
    (h : HeaderMatch) (hm : matchHeader (cleanLine line) = some h)
    (hsys : isSystemSender (trim h.senderRaw) = false) :
    (∃ (g1 g2 g3 : Str) (sep1 sep2 : Char),
      h.dateStr = g1 ++ sep1 :: (g2 ++ sep2 :: g3) ∧
      (sep1 = '/' ∨ sep1 = '-') ∧ (sep2 = '/' ∨ sep2 = '-') ∧
      (∀ c ∈ g1 ++ g2 ++ g3, isDigit c = true) ∧
      (1 ≤ g1.length ∧ g1.length ≤ 2) ∧ (1 ≤ g2.length ∧ g2.length ≤ 2) ∧
      (2 ≤ g3.length ∧ g3.length ≤ 4) ∧
      normDate h.dateStr h.timeStr = g1 ++ '/' :: (g2 ++ '/' :: (g3 ++ ' ' :: h.timeStr)) ∧
      (12 < parseInt g1 →
        (parseLine host st line).currentMsg.map (fun m => m.timestamp) =
          some (host.dateParse (g2 ++ '/' :: (g1 ++ '/' :: (g3 ++ ' ' :: h.timeStr))))) ∧
      (parseInt g1 ≤ 12 →
        host.dateParse (g1 ++ '/' :: (g2 ++ '/' :: (g3 ++ ' ' :: h.timeStr))) ≠ none →
        (parseLine host st line).currentMsg.map (fun m => m.timestamp) =
          some (host.dateParse (g1 ++ '/' :: (g2 ++ '/' :: (g3 ++ ' ' :: h.timeStr))))) ∧
      (parseInt g1 ≤ 12 →
        host.dateParse (g1 ++ '/' :: (g2 ++ '/' :: (g3 ++ ' ' :: h.timeStr))) = none →
        (parseLine host st line).currentMsg.map (fun m => m.timestamp) =
          some (host.dateParse (g2 ++ '/' :: (g1 ++ '/' :: (g3 ++ ' ' :: h.timeStr)))))) ∧
    (parseChat host st.lastIndex "25/08/2024, 10:00 AM - Alice: hi".toList).messages.map
        (fun m => m.timestamp) = [host.dateParse "08/25/2024 10:00 AM".toList] ∧
    (parseChat host st.lastIndex "25-08-2024, 10:00 AM - Alice: hi".toList).messages.map
        (fun m => m.timestamp) = [host.dateParse "08/25/2024 10:00 AM".toList] ∧
    (host.dateParse "03/04/2024 10:00 AM".toList ≠ none →
      (parseChat host st.lastIndex "03/04/2024, 10:00 AM - Alice: hi".toList).messages.map
        (fun m => m.timestamp) = [host.dateParse "03/04/2024 10:00 AM".toList] ∧
      (parseChat host st.lastIndex "03-04-2024, 10:00 AM - Alice: hi".toList).messages.map
        (fun m => m.timestamp) = [host.dateParse "03/04/2024 10:00 AM".toList]) := by
  refine ⟨?_, rfl, rfl, ?_⟩
  · obtain ⟨⟨g1, g2, g3, sep1, sep2, hd, h1, h2, hg1, hg2, hg3⟩, ht⟩ :=
      matchHeader_date_shape _ h hm
    have hn := normDate_shape g1 g2 g3 h.timeStr sep1 sep2 h1 h2 hg1 hg2 hg3 ht
    rw [← hd] at hn
    have hp := matchDateParts_shape g1 g2 g3 h.timeStr hg1 hg2 hg3
    obtain ⟨d1, l1, l2⟩ := Re.Derives.digits12_shape g1 [] hg1
    obtain ⟨d2, l3, l4⟩ := Re.Derives.digits12_shape g2 [] hg2
    obtain ⟨d3, l5, l6⟩ := Re.Derives.digits24_shape g3 [] hg3
    have hts : (parseLine host st line).currentMsg.map (fun m => m.timestamp) =
        some (parseDate host h.dateStr h.timeStr) := by
      rw [parseLine_header host st line h hm hsys]
      rfl
    have hswap : swapDayMonth (g1 ++ '/' :: (g2 ++ '/' :: (g3 ++ ' ' :: h.timeStr))) =
        g2 ++ '/' :: (g1 ++ '/' :: (g3 ++ ' ' :: h.timeStr)) := by
      unfold swapDayMonth
      rw [hp]
      simp
    refine ⟨g1, g2, g3, sep1, sep2, hd, h1, h2, ?_, ⟨l1, l2⟩, ⟨l3, l4⟩, ⟨l5, l6⟩, hn, ?_, ?_, ?_⟩
    · intro c hc
      rcases List.mem_append.mp hc with hc | hc
      · rcases List.mem_append.mp hc with hc | hc
        · exact d1 c hc
        · exact d2 c hc
      · exact d3 c hc
    · intro hgt
      rw [hts]
      unfold parseDate
      simp only [hn, hp, if_pos hgt, hswap]
    · intro hle hvalid
      rw [hts]
      unfold parseDate
      simp only [hn, hp, if_neg (Nat.not_lt.mpr hle)]
      cases hq : host.dateParse (g1 ++ '/' :: (g2 ++ '/' :: (g3 ++ ' ' :: h.timeStr))) with
      | none => exact absurd hq hvalid
      | some t => rfl
    · intro hle hinvalid
      rw [hts]
      unfold parseDate
      simp only [hn, hp, if_neg (Nat.not_lt.mpr hle), hinvalid, hswap]
  · intro hvalid
    have e1 : (parseChat host st.lastIndex "03/04/2024, 10:00 AM - Alice: hi".toList).messages.map
        (fun m => m.timestamp) =
        [match host.dateParse "03/04/2024 10:00 AM".toList with
          | some t => some t
          | none => host.dateParse "04/03/2024 10:00 AM".toList] := by
      rfl
    have e2 : (parseChat host st.lastIndex "03-04-2024, 10:00 AM - Alice: hi".toList).messages.map
        (fun m => m.timestamp) =
        [match host.dateParse "03/04/2024 10:00 AM".toList with
          | some t => some t
          | none => host.dateParse "04/03/2024 10:00 AM".toList] := by
      rfl
    rw [e1, e2]
    cases hq : host.dateParse "03/04/2024 10:00 AM".toList with
    | none => exact absurd hq hvalid
    | some t => exact ⟨rfl, rfl⟩

theorem parseChat_date_disambiguation_witness :
    matchHeader (cleanLine "25-08-2024, 10:00 AM - Alice: hi".toList) =
      some ⟨"25-08-2024".toList, "10:00 AM".toList, "Alice".toList, "hi".toList⟩ ∧
    isSystemSender (trim "Alice".toList) = false ∧
    normDate "25-08-2024".toList "10:00 AM".toList = "25/08/2024 10:00 AM".toList ∧
    (parseInt "25".toList = 25 ∧ parseInt "03".toList = 3) ∧
    (parseChat refHost 0 "25-08-2024, 10:00 AM - Alice: hi".toList).messages.map
        (fun m => m.timestamp) = [refHost.dateParse "08/25/2024 10:00 AM".toList] ∧
    refHost.dateParse "08/25/2024 10:00 AM".toList = some 1724580000000 ∧
    refHost.dateParse "03/04/2024 10:00 AM".toList = some 1709546400000 ∧
    (parseChat refHost 0 "03-04-2024, 10:00 AM - Alice: hi".toList).messages.map
        (fun m => m.timestamp) = [refHost.dateParse "03/04/2024 10:00 AM".toList] :=
  ⟨by decide, by decide, by decide, by decide,
   (parseChat_date_disambiguation refHost (ParserState.init 0)
      "25-08-2024, 10:00 AM - Alice: hi".toList
      ⟨"25-08-2024".toList, "10:00 AM".toList, "Alice".toList, "hi".toList⟩
      (by decide) (by decide)).2.2.1,
   by decide, by decide,
   ((parseChat_date_disambiguation refHost (ParserState.init 0)
      "25-08-2024, 10:00 AM - Alice: hi".toList
      ⟨"25-08-2024".toList, "10:00 AM".toList, "Alice".toList, "hi".toList⟩
      (by decide) (by decide)).2.2.2 (by decide)).2⟩

end Chatalytics
